import Mathlib

/-!
# avm: managed heap, function objects and semantic analyzer

A shallow embedding of the core of the `avm` toolchain:

* `src/avm/heap.cpp` (`Heap::AllocNull`, `Heap::Sweep`) over an explicit
  memory of `HeapObject` nodes, addressed by natural numbers;
* `src/avm/function.cpp` (`Func::invoke`, `Func::clone`);
* `src/compiler/semantic.cpp` (the `SemanticAnalyzer` visitor).

Pointers are addresses (`Addr`), the null pointer is `none`.  Dereferencing a
null pointer or a pointer to a deleted node is undefined behaviour in the
source; the embedding reports it as a `Fault`.
-/

namespace avm


/-! ## Memory model -/

/-- An address handed out by `new`. -/
abbrev Addr := Nat

/-- Ways in which the embedded code can fail to produce a result. -/
inductive Fault where
  /-- a member access through a null pointer -/
  | nullDeref
  /-- a member access through a pointer to a deleted node -/
  | dangling
  /-- the loop or recursion was cut off by the step bound -/
  | outOfFuel
  deriving DecidableEq, Repr

/-- The class `Reference` of `reference.h`: `Object **ref`, a pointer to the
`obj` member of a heap node.  The node's address stands for the address of its
`obj` member; `none` is the null reference. -/
structure Reference where
  ref : Option Addr
  deriving DecidableEq, Repr

/-- The constant `Object::FLAG_TEMPORARY` (object.h). -/
def FLAG_TEMPORARY : Int := 0x01
/-- The constant `Object::FLAG_CONST` (object.h). -/
def FLAG_CONST : Int := 0x02
/-- The constant `Object::FLAG_MARKED` (object.h). -/
def FLAG_MARKED : Int := 0x04

/-- The class `Object` of `object.h` with the members of its one concrete
variant under `src/`, `Func` (function.cpp): `addr`, `nargs`, `is_variadic`.
`flags` is the C++ `int` bitmap. -/
structure Object where
  flags : Int := 0
  refcount : Int := 1
  fields : List (String × Reference) := []
  addr : Nat := 0
  nargs : Nat := 0
  is_variadic : Bool := false
  deriving DecidableEq, Repr

/-- The test `obj->flags & Object::FLAG_MARKED` of `Heap::Sweep`. -/
def Object.isMarked (o : Object) : Bool :=
  Int.land o.flags FLAG_MARKED != 0

/-- The update `obj->flags &= ~Object::FLAG_MARKED` of `Heap::Sweep`. -/
def Object.clearMarked (o : Object) : Object :=
  { o with flags := Int.land o.flags (Int.lnot FLAG_MARKED) }

/-- Modelled from the spec: the struct `HeapObject` is declared in
`detail/heap.h`, which is not under `src/`.  The spec's HeapSlot is "a
monotonically assigned id, an owned object pointer (nullable), and
predecessor/successor links"; heap.cpp names the members `id`, `obj`, `before`
and `after`.  The object is owned by the node, so it is stored in it by value;
`none` is the null object pointer.  The counters `id` and `num_objects` are
natural numbers (no width is given for them). -/
structure HeapObject where
  id : Nat
  obj : Option Object
  before : Option Addr
  after : Option Addr
  deriving DecidableEq, Repr

/-- The class `Heap` (declared in `detail/heap.h`, which is not under `src/`):
the members `head` and `num_objects` that heap.cpp uses, and the free store
its nodes live in.  `mem a = none` when no live node is at `a`;
`brk` is the address the next `new HeapObject()` returns. -/
structure Heap where
  mem : Addr → Option HeapObject
  brk : Addr
  head : Option Addr
  num_objects : Nat

/-- The constructor `Heap::Heap()`: `head(nullptr), num_objects(0)`. -/
def Heap.empty : Heap :=
  { mem := fun _ => none, brk := 0, head := none, num_objects := 0 }

/-- Write a node back to the free store. -/
def Heap.write (h : Heap) (a : Addr) (s : HeapObject) : Heap :=
  { h with mem := Function.update h.mem a (some s) }

/-- The statement `delete p` for a node pointer `p`. -/
def Heap.free (h : Heap) (a : Addr) : Heap :=
  { h with mem := Function.update h.mem a none }

/-! ## `Heap::AllocNull` (heap.cpp 21-32) -/

/-- The function `Heap::AllocNull`.  Returns the new heap and the address of the new node
(the source returns `&ptr->obj`).  `new HeapObject()` leaves `after` null. -/
def Heap.AllocNull (h : Heap) : Heap × Addr :=
  let ptr := h.brk
  -- auto *ptr = new HeapObject(); ptr->id = num_objects++; ptr->obj = nullptr;
  let node : HeapObject := { id := h.num_objects, obj := none, before := none, after := none }
  let h1 : Heap := { h with brk := h.brk + 1, num_objects := h.num_objects + 1 }
  -- if (head != nullptr) { head->after = ptr; }
  let h2 : Heap :=
    match h1.head with
    | none => h1
    | some hd =>
      match h1.mem hd with
      | none => h1
      | some s => h1.write hd { s with after := some ptr }
  -- ptr->before = head; head = ptr;
  let h3 : Heap := h2.write ptr { node with before := h.head }
  ({ h3 with head := some ptr }, ptr)

/-- The assignment `*p = obj` through a pointer returned by `AllocNull`
(also any later change of the object a node holds). -/
def Heap.store (h : Heap) (a : Addr) (o : Option Object) : Heap :=
  match h.mem a with
  | none => h
  | some s => h.write a { s with obj := o }

/-! ## `Heap::Sweep` (heap.cpp 34-68) -/

/-- The label `deleteholder` of `Heap::Sweep` (heap.cpp 50-66) for the node
`s` at address `last`.  Returns the heap and the next value of `last`.  Both
branches write through `before` without a null check. -/
def Heap.deleteholder (h : Heap) (last : Addr) (s : HeapObject) :
    Except Fault (Heap × Option Addr) :=
  match s.after with
  | some after =>
    -- HeapObject *before = last->before; before->after = after;
    match s.before with
    | none => .error .nullDeref
    | some before =>
      match h.mem before with
      | none => .error .dangling
      | some b =>
        let h1 := h.write before { b with after := some after }
        -- after->before = before;
        match h1.mem after with
        | none => .error .dangling
        | some a =>
          let h2 := h1.write after { a with before := some before }
          -- delete last; --num_objects; last = before;
          let h3 := h2.free last
          .ok ({ h3 with num_objects := h3.num_objects - 1 }, some before)
  | none =>
    -- HeapObject *before = last->before; before->after = nullptr;
    match s.before with
    | none => .error .nullDeref
    | some before =>
      match h.mem before with
      | none => .error .dangling
      | some b =>
        let h1 := h.write before { b with after := none }
        -- delete last; --num_objects; head = before; last = head;
        let h2 := h1.free last
        .ok ({ h2 with num_objects := h2.num_objects - 1, head := some before }, some before)

/-- The `while (last != nullptr)` loop of `Heap::Sweep`, cut off after `fuel`
iterations. -/
def Heap.sweepLoop : Nat → Heap → Option Addr → Except Fault Heap
  | _, h, none => .ok h
  | 0, _, some _ => .error .outOfFuel
  | fuel + 1, h, some last =>
    match h.mem last with
    | none => .error .dangling
    | some s =>
      match s.obj with
      | some o =>
        if !o.isMarked then
          -- delete last->obj; last->obj = nullptr; goto deleteholder;
          let s1 := { s with obj := none }
          match (h.write last s1).deleteholder last s1 with
          | .error e => .error e
          | .ok (h1, next) => Heap.sweepLoop fuel h1 next
        else
          -- last->obj->flags &= ~FLAG_MARKED; last = last->before; continue;
          Heap.sweepLoop fuel (h.write last { s with obj := some o.clearMarked }) s.before
      | none =>
        match h.deleteholder last s with
        | .error e => .error e
        | .ok (h1, next) => Heap.sweepLoop fuel h1 next

/-- The function `Heap::Sweep`: `HeapObject *last = head;` followed by the loop. -/
def Heap.Sweep (fuel : Nat) (h : Heap) : Except Fault Heap :=
  h.sweepLoop fuel h.head

/-! ## The slot list -/

/-- The object a node holds is non-null and carries `FLAG_MARKED`: the nodes
`Heap::Sweep` leaves in the list. -/
def HeapObject.keep (s : HeapObject) : Bool :=
  match s.obj with
  | some o => o.isMarked
  | none => false

/-- The node at `a` is live and is one `Heap::Sweep` leaves in the list. -/
def Heap.keepAt (h : Heap) (a : Addr) : Bool :=
  match h.mem a with
  | some s => s.keep
  | none => false

/-- The first address of `L`, or `d` when `L` is empty. -/
def hd (L : List Addr) (d : Option Addr) : Option Addr :=
  match L with
  | [] => d
  | x :: _ => some x

/-- The last address of `L`, or `d` when `L` is empty. -/
def lst : List Addr → Option Addr → Option Addr
  | [], d => d
  | x :: xs, _ => lst xs (some x)

/-- The predicate `Chain mem aft L bef`: the addresses of `L` are live nodes linked in this
order, the first with successor `aft`, each with the next address of `L` as
predecessor and as successor the address preceding it in `L`, the last with
predecessor `bef`. -/
def Chain (mem : Addr → Option HeapObject) : Option Addr → List Addr → Option Addr → Prop
  | _, [], _ => True
  | aft, x :: xs, bef =>
    ∃ s, mem x = some s ∧ s.after = aft ∧ s.before = hd xs bef ∧ Chain mem (some x) xs bef

/-- The slot list of the heap is `L`, from `head` (the newest node) back to
the oldest node: a well-formed doubly-linked list.  Each node's predecessor has
that node as successor and conversely, `head` is the one node with no
successor, and the oldest node has no predecessor. -/
structure Heap.IsList (h : Heap) (L : List Addr) : Prop where
  nodup : L.Nodup
  head_eq : h.head = L.head?
  chain : Chain h.mem none L none

/-- Follow the `before` links from `p`, for at most `fuel` nodes (the walk of
`Heap::DumpHeap`). -/
def walk (mem : Addr → Option HeapObject) : Nat → Option Addr → List Addr
  | 0, _ => []
  | _ + 1, none => []
  | fuel + 1, some a =>
    match mem a with
    | none => []
    | some s => a :: walk mem fuel s.before

/-- The addresses of the nodes in the slot list, from `head` backward. -/
def Heap.slots (h : Heap) : List Addr :=
  walk h.mem h.brk h.head

/-- Heaps reached from the empty heap by `AllocNull` calls, stores of objects
into nodes (which include every change of an object's flags and fields) and
completed `Sweep`s. -/
inductive Heap.Reach : Heap → Prop
  | empty : Heap.Reach Heap.empty
  | alloc {h : Heap} : h.Reach → Heap.Reach h.AllocNull.1
  | store {h : Heap} (a : Addr) (o : Option Object) : h.Reach → Heap.Reach (h.store a o)
  | sweep {h h1 : Heap} (fuel : Nat) : h.Reach → h.Sweep fuel = .ok h1 → Heap.Reach h1

/-- The id and the object of the node at `a`. -/
def Heap.payload (h : Heap) (a : Addr) : Option (Nat × Option Object) :=
  (h.mem a).map (fun s => (s.id, s.obj))

/-- What holds of every reached heap: the slot list is a well-formed list
whose length is `num_objects`, and no node lives at or beyond `brk`. -/
structure Heap.Inv (h : Heap) (L : List Addr) : Prop where
  isList : h.IsList L
  count : h.num_objects = L.length
  fresh : ∀ a, h.brk ≤ a → h.mem a = none

/-! ## The mark phase -/

/-- Modelled from the spec: `Object::Mark` and `Object::MarkFields` are
declared in object.h (lines 34 and 46) and defined in object.cpp, which is not
under `src/`.  The spec: "invoke `Mark()` on its object: set the `MARKED` flag,
then recurse into every field's referenced object unless already marked."  A
field whose reference or referenced object is null has no object to recurse
into.  `a` is the node that owns the object. -/
def Heap.Mark : Nat → Heap → Addr → Except Fault Heap
  | 0, _, _ => .error .outOfFuel
  | fuel + 1, h, a =>
    match h.mem a with
    | none => .error .dangling
    | some s =>
      match s.obj with
      | none => .error .nullDeref
      | some o =>
        let h1 := h.write a { s with obj := some { o with flags := Int.lor o.flags FLAG_MARKED } }
        o.fields.foldl (fun acc f =>
          match acc with
          | .error e => .error e
          | .ok hh =>
            match f.2.ref with
            | none => .ok hh
            | some r =>
              match hh.mem r with
              | none => .error .dangling
              | some t =>
                match t.obj with
                | none => .ok hh
                | some o1 => if o1.isMarked then .ok hh else Heap.Mark fuel hh r) (.ok h1)

/-- Modelled from the spec: the mark phase over a root set, "for each root,
invoke `Mark()` on its object"; a root whose reference or object is null has
no object to mark. -/
def Heap.markRoots (fuel : Nat) (h : Heap) (roots : List Reference) : Except Fault Heap :=
  roots.foldl (fun acc r =>
    match acc with
    | .error e => .error e
    | .ok hh =>
      match r.ref with
      | none => .ok hh
      | some a =>
        match hh.mem a with
        | none => .error .dangling
        | some t =>
          match t.obj with
          | none => .ok hh
          | some _ => hh.Mark fuel a) (.ok h)

/-- Modelled from the spec: a collection, whose driver is not under `src/`:
the mark phase over the roots, then the sweep phase, `Heap::Sweep` of
heap.cpp. -/
def Heap.collect (fuel : Nat) (h : Heap) (roots : List Reference) : Except Fault Heap :=
  match h.markRoots fuel roots with
  | .error e => .error e
  | .ok h1 => h1.Sweep fuel

/-- Allocate a node and store an object in it (`*heap.AllocNull() = obj`). -/
def Heap.allocWith (h : Heap) (o : Object) : Heap :=
  h.AllocNull.1.store h.AllocNull.2 (some o)

/-- A marked object with no fields. -/
def markedObj : Object := { flags := FLAG_MARKED }

/-- An unmarked object with no fields. -/
def plainObj : Object := {}

/-- Two objects: the older one (node 0) referenced by nothing, the newer one
(node 1) a root. -/
def heapGarbageOldest : Heap := (Heap.empty.allocWith plainObj).allocWith plainObj

/-- Three objects allocated in the order C, A, B: node 0 holds C, node 1 holds
A whose one field references B, node 2 holds B. -/
def heapCAB : Heap :=
  ((Heap.empty.allocWith plainObj).allocWith { fields := [("b", ⟨some 2⟩)] }).allocWith plainObj

/-- Three objects allocated in the order A, B, C: node 0 holds A whose one
field references B, node 1 holds B, node 2 holds C. -/
def heapABC : Heap :=
  ((Heap.empty.allocWith { fields := [("b", ⟨some 1⟩)] }).allocWith plainObj).allocWith plainObj

/-- One allocation on the empty heap. -/
def heapOne : Heap := Heap.empty.AllocNull.1

/-- Two nodes: the older holds an unmarked object, the newer a marked one. -/
def heapUnmarkedOldest : Heap := (Heap.empty.allocWith plainObj).allocWith markedObj

/-- Two nodes: the older holds a marked object, the newer is still null. -/
def heapMarkedOldest : Heap := (Heap.empty.allocWith markedObj).AllocNull.1

/-- Three nodes holding a marked, an unmarked and a marked object. -/
def heapMiddleGarbage : Heap :=
  ((Heap.empty.allocWith markedObj).allocWith plainObj).allocWith markedObj

/-! ## Function objects (function.cpp) -/

/-- The opcode tag `Opcode_t` (common/types.h). -/
abbrev Opcode_t := Nat

/-- The exceptions of detail/exception.h that function.cpp raises. -/
inductive VMException where
  /-- The exception `InvalidArgsException(expected, received)`. -/
  | InvalidArgsException (expected received : Nat)
  deriving DecidableEq, Repr

/-- The instruction stream `state->stream`: the position of the next read
(`Position()`, `Seek`) and the end of the stream (`Max()`). -/
structure Stream where
  position : Nat
  max : Nat
  deriving DecidableEq, Repr

/-- Modelled from the spec: the class `VMState` is declared in
detail/vm_state.h, which is not under `src/`.  function.cpp uses its members
`vm`, `jump_positions` (a `std::stack`, top first here), `read_level` and
`stream`; the spec calls them the VM, the call stack, the read level and the
instruction stream.  `σ` is the state of the VM object (its operand stack). -/
structure VMState (σ : Type) where
  vm : σ
  jump_positions : List Nat
  read_level : Nat
  stream : Stream

/-- The collaborators `Func::invoke` calls, none of them under `src/`:
`VM::PopStack`, `VM::HandleInstruction`, `VMState::HandleException`, the read
of one opcode from the stream, and the constant `ins_return`. -/
structure VMOps (σ : Type) where
  PopStack : σ → σ
  HandleInstruction : Opcode_t → VMState σ → VMState σ
  HandleException : VMException → VMState σ → VMState σ
  Read : VMState σ → Opcode_t × VMState σ
  ins_return : Opcode_t

/-- A call `Func::invoke` makes on a collaborator or on the call stack, in the
order made. -/
inductive VMCall where
  | PopStack
  | HandleException (e : VMException)
  | PushPosition (pos : Nat)
  | Seek (pos : Nat)
  | HandleInstruction (ins : Opcode_t)
  deriving DecidableEq, Repr

/-- The loop `for (i = 0; i < callargs; i++) state->vm->PopStack();`. -/
def popArgs {σ : Type} (ops : VMOps σ) : Nat → VMState σ → VMState σ
  | 0, state => state
  | n + 1, state => popArgs ops n { state with vm := ops.PopStack state.vm }

/-- The loop `while (Position() < Max())` of `Func::invoke` (function.cpp
26-39), cut off after `fuel` instructions.  `top()` on an empty call stack is
a fault. -/
def invokeLoop {σ : Type} (ops : VMOps σ) :
    Nat → VMState σ → List VMCall → Except Fault (VMState σ × List VMCall)
  | 0, state, calls =>
    if state.stream.position < state.stream.max then .error .outOfFuel else .ok (state, calls)
  | fuel + 1, state, calls =>
    if state.stream.position < state.stream.max then
      -- Opcode_t ins; state->stream->Read(&ins); state->vm->HandleInstruction(ins);
      let (ins, s1) := ops.Read state
      let s2 := ops.HandleInstruction ins s1
      let calls1 := calls ++ [VMCall.HandleInstruction ins]
      if ins = ops.ins_return then
        -- state->stream->Seek(state->jump_positions.top()); state->jump_positions.pop(); break;
        match s2.jump_positions with
        | [] => .error .nullDeref
        | top :: rest =>
          .ok ({ s2 with stream := { s2.stream with position := top }, jump_positions := rest },
            calls1 ++ [VMCall.Seek top])
      else invokeLoop ops fuel s2 calls1
    else .ok (state, calls)

/-- The function `Func::invoke` (function.cpp 13-41) for the function object `f`.  Returns
the state and the calls made, in order. -/
def Func.invoke {σ : Type} (ops : VMOps σ) (fuel : Nat) (f : Object) (state : VMState σ)
    (callargs : Nat) : Except Fault (VMState σ × List VMCall) :=
  if callargs ≠ f.nargs then
    let s1 := popArgs ops callargs state
    .ok (ops.HandleException (.InvalidArgsException f.nargs callargs) s1,
      List.replicate callargs VMCall.PopStack ++
        [VMCall.HandleException (.InvalidArgsException f.nargs callargs)])
  else
    -- state->jump_positions.push(state->stream->Position()); ++state->read_level;
    let s1 := { state with jump_positions := state.stream.position :: state.jump_positions,
                           read_level := state.read_level + 1 }
    -- state->stream->Seek(addr);
    let s2 := { s1 with stream := { s1.stream with position := f.addr } }
    invokeLoop ops fuel s2 [VMCall.PushPosition state.stream.position, VMCall.Seek f.addr]

/-- A VM whose state is its operand stack: `PopStack` drops the top operand,
`HandleException` and `HandleInstruction` leave the state as it is, and every
opcode read is `ins_return`. -/
def listOps : VMOps (List Nat) :=
  { PopStack := List.tail
    HandleInstruction := fun _ s => s
    HandleException := fun _ s => s
    Read := fun s => (0, { s with stream := { s.stream with position := s.stream.position + 1 } })
    ins_return := 0 }

/-- The function object of `func f(a, b)`: declared arity 2, code at 40. -/
def funcTwoArgs : Object := { addr := 40, nargs := 2 }

/-- A state with three operands, one saved position and the stream at 7. -/
def stateThreeOperands : VMState (List Nat) :=
  { vm := [11, 12, 13], jump_positions := [5], read_level := 1,
    stream := { position := 7, max := 100 } }

/-! ### `Func::clone` (function.cpp 51-62) -/

/-- Modelled from the spec: the template `Heap::AllocObject<T>(args...)` is
defined in detail/heap.h, which is not under `src/`.  The spec: "an object is
created by allocating a slot, constructing the concrete variant in place, and
returning a Reference to the slot".  Returns the heap and the address of the
node (the pointer to its `obj` member). -/
def Heap.AllocObject (h : Heap) (o : Object) : Heap × Addr :=
  ((h.AllocNull.1).store h.AllocNull.2 (some o), h.AllocNull.2)

/-- Modelled from the spec: `Object::AddFieldReference(name, ref)` is declared
in object.h (line 30) and defined in object.cpp, which is not under `src/`;
the spec has clone "add the clone under the same name" to the ordered sequence
of fields.  `p` is the node that owns the object. -/
def Heap.AddFieldReference (h : Heap) (p : Addr) (name : String) (ref : Reference) :
    Except Fault Heap :=
  match h.mem p with
  | none => .error .dangling
  | some s =>
    match s.obj with
    | none => .error .nullDeref
    | some o => .ok (h.write p { s with obj := some { o with fields := o.fields ++ [(name, ref)] } })

/-- The body of the loop `for (auto &&member : fields)` of `Func::clone`, for
the new object at node `p`; `clone` is the virtual call
`member.second.Ref()->clone(heap)`.  `member.second.Ref()` reads through the
reference: a null reference and a reference to a deleted node are faults. -/
def cloneMember (clone : Heap → Addr → Except Fault (Heap × Reference)) (p : Addr)
    (acc : Except Fault Heap) (member : String × Reference) : Except Fault Heap :=
  match acc with
  | .error e => .error e
  | .ok hh =>
    match member.2.ref with
    | none => .error .nullDeref
    | some m =>
      match hh.mem m with
      | none => .error .dangling
      | some t =>
        match t.obj with
        -- if (member.second.Ref() != nullptr)
        | none => .ok hh
        | some _ =>
          -- ref.Ref()->AddFieldReference(member.first, member.second.Ref()->clone(heap));
          match clone hh m with
          | .error e => .error e
          | .ok (h2, c) => h2.AddFieldReference p member.1 c

/-- The function `Func::clone(Heap &heap)` for the function object held by node `a`, cut
off at recursion depth `fuel`. -/
def Func.clone : Nat → Heap → Addr → Except Fault (Heap × Reference)
  | 0, _, _ => .error .outOfFuel
  | fuel + 1, h, a =>
    match h.mem a with
    | none => .error .dangling
    | some s =>
      match s.obj with
      | none => .error .nullDeref
      | some o =>
        -- auto ref = Reference(*heap.AllocObject<Func>(addr, nargs, is_variadic));
        let r := h.AllocObject { addr := o.addr, nargs := o.nargs, is_variadic := o.is_variadic }
        -- for (auto &&member : fields) ...
        match o.fields.foldl (cloneMember (Func.clone fuel) r.2) (.ok r.1) with
        | .error e => .error e
        -- return ref;
        | .ok hh => .ok (hh, ⟨some r.2⟩)

/-- The object the node at `a` holds, if the node is live and holds one. -/
def Heap.objAt (h : Heap) (a : Addr) : Option Object :=
  match h.mem a with
  | none => none
  | some s => s.obj

/-- The field references a live node that holds an object. -/
def Heap.fieldHasObject (h : Heap) (f : String × Reference) : Bool :=
  match f.2.ref with
  | none => false
  | some m => (h.objAt m).isSome

/-- The field graph below the object of node `a` is well formed and has depth
at most `n`: every field's reference designates a live node, and the objects
the fields reference satisfy the same at depth `n - 1`.  A field graph is
acyclic when this holds for some `n`. -/
def Heap.AcyclicBelow (h : Heap) : Nat → Addr → Prop
  | 0, _ => False
  | n + 1, a =>
    ∃ o, h.objAt a = some o ∧
      ∀ f ∈ o.fields, ∃ m t, f.2.ref = some m ∧ h.mem m = some t ∧
        (t.obj ≠ none → Heap.AcyclicBelow h n m)

/-- No node lives at or beyond `brk`: the allocator hands out unused
addresses. -/
def Heap.Fresh (h : Heap) : Prop :=
  ∀ a, h.brk ≤ a → h.mem a = none

/-- The object of node `p` in `h1` is a deep copy of the object of node `a` in
`h`, made of nodes with addresses in `[lo, hi)`: the two objects have the same
address, arity and variadic flag, and the fields of the copy are, in order and
under the same names, deep copies of the objects referenced by those fields of
the original whose referenced object is non-null. -/
def Heap.IsClone (h h1 : Heap) (lo hi : Addr) : Nat → Addr → Addr → Prop
  | 0, _, _ => False
  | n + 1, a, p =>
    ∃ o o1, h.objAt a = some o ∧ h1.objAt p = some o1 ∧ lo ≤ p ∧ p < hi ∧
      o1.addr = o.addr ∧ o1.nargs = o.nargs ∧ o1.is_variadic = o.is_variadic ∧
      List.Forall₂ (fun f f1 => f1.1 = f.1 ∧ ∃ m m1, f.2.ref = some m ∧ f1.2.ref = some m1 ∧
        Heap.IsClone h h1 lo hi n m m1) (o.fields.filter h.fieldHasObject) o1.fields

/-- What one call of `Func::clone` at depth `n` achieves from a heap `hh` that
agrees below `h.brk` with the heap `h` the original lives in. -/
def CloneOk (h : Heap) (n : Nat) : Prop :=
  ∀ (hh : Heap) (a : Addr), hh.Fresh → h.brk ≤ hh.brk →
    (∀ b, b < h.brk → hh.payload b = h.payload b) → h.AcyclicBelow n a →
    ∃ h2, Func.clone n hh a = .ok (h2, ⟨some hh.brk⟩) ∧ h2.Fresh ∧ hh.brk < h2.brk ∧
      (∀ b, b < hh.brk → h2.payload b = hh.payload b) ∧
      h.IsClone h2 hh.brk h2.brk n a hh.brk

/-- Node 0 allocated and still null; node 1 holds a function object with one
field `x` referencing node 0. -/
def heapNullField : Heap :=
  Heap.empty.AllocNull.1.allocWith { addr := 7, nargs := 2, fields := [("x", ⟨some 0⟩)] }

/-- Node 0 holds a function object with no fields; node 1 holds a function
object whose fields `x` and `y` both reference node 0. -/
def heapTwoFields : Heap :=
  (Heap.empty.allocWith { addr := 3, nargs := 1 }).allocWith
    { addr := 7, nargs := 2, is_variadic := true, fields := [("x", ⟨some 0⟩), ("y", ⟨some 0⟩)] }

/-! ## The semantic analyzer (semantic.cpp): data model

The AST classes, `CompilerState`, `Symbol` and `LevelInfo` are declared in
headers that are not under `src/`; their members are taken from their uses in
semantic.cpp and from the data model of the spec. -/

/-- Modelled from the spec: `SourceLocation` is declared in a header that is
not under `src/`.  The spec gives it as a triple of line,
column and file path. -/
structure SourceLocation where
  line : Int
  column : Int
  file : String
  deriving DecidableEq, Repr

/-- Modelled from the spec: the enumeration of `AstNode::type` is declared in a
header that is not under `src/`; the tags are the `Ast_type_*` names
semantic.cpp tests and dispatches on. -/
inductive AstType where
  | Ast_type_imports | Ast_type_import | Ast_type_statement | Ast_type_block
  | Ast_type_expression | Ast_type_binop | Ast_type_unop | Ast_type_array_access
  | Ast_type_member_access | Ast_type_module_access | Ast_type_var_declaration
  | Ast_type_alias | Ast_type_use_module | Ast_type_variable | Ast_type_integer
  | Ast_type_float | Ast_type_string | Ast_type_true | Ast_type_false | Ast_type_null
  | Ast_type_self | Ast_type_new | Ast_type_function_definition
  | Ast_type_function_expression | Ast_type_function_call | Ast_type_class_declaration
  | Ast_type_object_expression | Ast_type_enum | Ast_type_print | Ast_type_return
  | Ast_type_if_statement | Ast_type_for_loop | Ast_type_while_loop | Ast_type_try_catch
  | Ast_type_range
  deriving DecidableEq, Repr

/-- An `AstModule*`: the address of the module object and the name stored in
it. -/
structure ModuleRef where
  ptr : Nat
  name : String
  deriving DecidableEq, Repr

/-- Modelled from the spec: the base class `AstNode` is declared in a header
that is not under `src/`.  The members every node has: its address (its
identity as a pointer), `location`, `module` and the attributes `HasAttribute`
tests. -/
structure AstHdr where
  ptr : Nat
  location : SourceLocation
  module : Option ModuleRef := none
  attributes : List String := []
  deriving DecidableEq, Repr

/-- Modelled from the spec: `AstNode::HasAttribute(name)`, defined outside
`src/`; a node "bears" an attribute when it is among its attributes. -/
def AstHdr.HasAttribute (h : AstHdr) (name : String) : Bool :=
  h.attributes.contains name

/-- An `AstNode*` kept outside the tree (in a `Symbol` or in an analysed
node): the address with the members of the node that analysis never changes. -/
structure NodeRef where
  ptr : Nat
  type : AstType
  location : SourceLocation
  attributes : List String
  deriving DecidableEq, Repr

/-- The operators of `AstBinaryOp::op`: the assignment family, and the rest. -/
inductive BinOp where
  | BinOp_assign | BinOp_add_assign | BinOp_subtract_assign | BinOp_multiply_assign
  | BinOp_divide_assign
  | BinOp_other (code : Nat)
  deriving DecidableEq, Repr

/-- The diagnostic kinds `Msg_*`. -/
inductive ErrorType where
  | Msg_module_already_defined | Msg_import_outside_global | Msg_import_not_found
  | Msg_redeclared_identifier | Msg_undeclared_identifier | Msg_identifier_is_module
  | Msg_module_not_imported | Msg_const_identifier | Msg_prohibited_action_attribute
  | Msg_expected_identifier | Msg_unrecognized_alias_type | Msg_unused_identifier
  | Msg_unreachable_code | Msg_empty_function_body | Msg_empty_statement_body
  | Msg_unsupported_feature | Msg_internal_error
  deriving DecidableEq, Repr

/-- The three severities: `InfoMsg`, `WarningMessage`, `ErrorMsg`. -/
inductive Severity where
  | info | warning | error
  deriving DecidableEq, Repr

/-- Modelled from the spec: the entries of `state.errors` are declared in a
header that is not under `src/`.  The spec: "diagnostics have three
severities: info, warning, error"; the kind, the location and the arguments
are what semantic.cpp passes to `ErrorMsg`, `WarningMessage` and `InfoMsg`. -/
structure Diagnostic where
  severity : Severity
  msg : ErrorType
  location : SourceLocation
  args : List String
  deriving DecidableEq, Repr

/-- Modelled from the spec: `AstVariable` is declared in a header that is not
under `src/`; these are the members semantic.cpp 528-571 fills in.
`symbol_ptr` points at an element of a level's `locals`: it is kept as the
level index and the position, and designates a symbol for as long as that
level holds one at that position. -/
structure VarInfo where
  is_alias : Bool := false
  alias_to : Option NodeRef := none
  is_const : Bool := false
  is_literal : Bool := false
  current_value : Option Nat := none
  symbol_ptr : Option (Int × Nat) := none
  owner_level : Int := 0
  field_index : Int := 0
  deriving DecidableEq, Repr

/-- Modelled from the spec: `AstFunctionCall` is declared in a header that is
not under `src/`; these are the members semantic.cpp fills in ("if the callee
symbol is an alias, record the aliased target; record `definition =
symbol.node`"). -/
structure CallInfo where
  is_alias : Bool := false
  alias_to : Option NodeRef := none
  definition : Option NodeRef := none
  deriving DecidableEq, Repr

/-- Modelled from the spec: the AST classes are declared in headers that are
not under `src/`.  One constructor per class that `Accept(AstNode*)`
(semantic.cpp 76-190) dispatches on, and `AstRange`, each with the members
its visitor reads.  A child is a `std::unique_ptr<AstNode>`, which may be null
(`none`).  An `import_` node carries what opening, lexing and parsing the file
at its path yields when the analyzer gets that far: whether the file opens,
the parsed unit, the parser's errors and the unit's children. -/
inductive AstNode where
  | imports (h : AstHdr) (children : List (Option AstNode))
  | import_ (h : AstHdr) (relative_path import_str : String) (is_open : Bool)
      (unit : ModuleRef) (parse_errors : List Diagnostic) (unit_children : List (Option AstNode))
  | statement (h : AstHdr)
  | block (h : AstHdr) (children : List (Option AstNode))
  | expression (h : AstHdr) (child : Option AstNode)
  | binop (h : AstHdr) (op : BinOp) (left right : Option AstNode)
  | unop (h : AstHdr) (child : Option AstNode)
  | array_access (h : AstHdr) (object index : Option AstNode)
  | member_access (h : AstHdr) (left_str : String) (left right : Option AstNode)
  | module_access (h : AstHdr) (module_name : String) (right : Option AstNode)
  | var_declaration (h : AstHdr) (name : String) (is_const : Bool) (assignment : Option AstNode)
  | alias (h : AstHdr) (name : String) (alias_to : Option AstNode)
  | use_module (h : AstHdr) (name : String)
  | variable (h : AstHdr) (name : String) (info : VarInfo)
  | integer (h : AstHdr) (value : Int)
  | float (h : AstHdr)
  | string (h : AstHdr) (value : String)
  | true_ (h : AstHdr)
  | false_ (h : AstHdr)
  | null (h : AstHdr)
  | self (h : AstHdr)
  | new (h : AstHdr)
  | function_definition (h : AstHdr) (name : String) (arguments : List String)
      (block : Option AstNode)
  | function_expression (h : AstHdr) (arguments : List String) (block : Option AstNode)
  | function_call (h : AstHdr) (name : String) (arguments : List (Option AstNode))
      (info : CallInfo)
  | class_declaration (h : AstHdr)
  | object_expression (h : AstHdr) (members : List (String × Option AstNode))
  | enum (h : AstHdr) (name : String) (members : List (String × Option AstNode))
  | print (h : AstHdr) (arguments : List (Option AstNode))
  | return_ (h : AstHdr) (value : Option AstNode)
  | if_statement (h : AstHdr) (conditional block else_statement : Option AstNode)
  | for_loop (h : AstHdr) (initializer conditional afterthought block : Option AstNode)
  | while_loop (h : AstHdr) (conditional block : Option AstNode)
  | try_catch (h : AstHdr) (try_block catch_block exception_object : Option AstNode)
  | range (h : AstHdr)
  deriving Repr

/-- The base members of a node. -/
def AstNode.hdr : AstNode → AstHdr
  | .imports h _ | .import_ h _ _ _ _ _ _ | .statement h | .block h _ | .expression h _
  | .binop h _ _ _ | .unop h _ | .array_access h _ _ | .member_access h _ _ _
  | .module_access h _ _ | .var_declaration h _ _ _ | .alias h _ _ | .use_module h _
  | .variable h _ _ | .integer h _ | .float h | .string h _ | .true_ h | .false_ h | .null h
  | .self h | .new h | .function_definition h _ _ _ | .function_expression h _ _
  | .function_call h _ _ _ | .class_declaration h | .object_expression h _ | .enum h _ _
  | .print h _ | .return_ h _ | .if_statement h _ _ _ | .for_loop h _ _ _ _
  | .while_loop h _ _ | .try_catch h _ _ _ | .range h => h

/-- The member `type` of a node. -/
def AstNode.type : AstNode → AstType
  | .imports .. => .Ast_type_imports
  | .import_ .. => .Ast_type_import
  | .statement .. => .Ast_type_statement
  | .block .. => .Ast_type_block
  | .expression .. => .Ast_type_expression
  | .binop .. => .Ast_type_binop
  | .unop .. => .Ast_type_unop
  | .array_access .. => .Ast_type_array_access
  | .member_access .. => .Ast_type_member_access
  | .module_access .. => .Ast_type_module_access
  | .var_declaration .. => .Ast_type_var_declaration
  | .alias .. => .Ast_type_alias
  | .use_module .. => .Ast_type_use_module
  | .variable .. => .Ast_type_variable
  | .integer .. => .Ast_type_integer
  | .float .. => .Ast_type_float
  | .string .. => .Ast_type_string
  | .true_ .. => .Ast_type_true
  | .false_ .. => .Ast_type_false
  | .null .. => .Ast_type_null
  | .self .. => .Ast_type_self
  | .new .. => .Ast_type_new
  | .function_definition .. => .Ast_type_function_definition
  | .function_expression .. => .Ast_type_function_expression
  | .function_call .. => .Ast_type_function_call
  | .class_declaration .. => .Ast_type_class_declaration
  | .object_expression .. => .Ast_type_object_expression
  | .enum .. => .Ast_type_enum
  | .print .. => .Ast_type_print
  | .return_ .. => .Ast_type_return
  | .if_statement .. => .Ast_type_if_statement
  | .for_loop .. => .Ast_type_for_loop
  | .while_loop .. => .Ast_type_while_loop
  | .try_catch .. => .Ast_type_try_catch
  | .range .. => .Ast_type_range

/-- The value of `node.get()` as a pointer kept outside the tree. -/
def AstNode.ref (n : AstNode) : NodeRef :=
  { ptr := n.hdr.ptr, type := n.type, location := n.hdr.location,
    attributes := n.hdr.attributes }

/-- The value `get()` of a possibly null child. -/
def refOf (n : Option AstNode) : Option NodeRef :=
  n.map AstNode.ref

/-- Modelled from the spec: `AstModule`, "a parsed module unit", is declared
in a header that is not under `src/`; the members are those semantic.cpp
reads. -/
structure AstModule where
  ptr : Nat
  name : String
  location : SourceLocation
  children : List (Option AstNode)

/-- Modelled from the spec: `Symbol` is declared in a header that is not under
`src/`.  The spec: "the record produced by a declaration", with the fields of
its table, which are the members semantic.cpp assigns. -/
structure Symbol where
  original_name : String := ""
  node : Option NodeRef := none
  is_const : Bool := false
  is_literal : Bool := false
  is_alias : Bool := false
  is_native : Bool := false
  current_value : Option Nat := none
  owner_level : Int := 0
  field_index : Int := 0
  nargs : Nat := 0
  deriving DecidableEq, Repr

/-- Modelled from the spec: the scope kinds, "global, function, loop,
condition, default", under the names semantic.cpp passes to `IncreaseBlock`. -/
inductive LevelType where
  | Level_global | Level_function | Level_loop | Level_condition | Level_default
  deriving DecidableEq, Repr

/-- Modelled from the spec: `LevelInfo` is declared in a header that is not
under `src/`.  The spec: "a scope record: a kind tag and an ordered sequence
of `(mangled_name, Symbol)` pairs".  The defaults are those of `LevelInfo()`. -/
structure LevelInfo where
  type : LevelType := .Level_default
  locals : List (String × Symbol) := []
  deriving DecidableEq, Repr

/-- Modelled from the spec: `CompilerState` is declared in a header that is
not under `src/`.  The spec: "current scope level (integer index into a
fixed-capacity array of `LevelInfo`), a block-id counter, the module registry,
a use-count mapping from AST node identity to non-negative integer, and an
error/diagnostic list".  `levels` gives the record at every index (an index
never written holds `LevelInfo()`); `use_counts` is keyed by node address, the
null pointer included, and an absent key counts 0; `next_ptr` is the address
the next `new` of an AST node returns. -/
structure CompilerState where
  level : Int := 0
  levels : Int → LevelInfo := fun _ => {}
  block_id_counter : Nat := 0
  other_modules : List (String × ModuleRef) := []
  use_counts : Option Nat → Nat := fun _ => 0
  errors : List Diagnostic := []
  next_ptr : Nat := 0

/-- Modelled from the spec: the constant `compiler_global_level`; "the
outermost level is the global level (level 0)". -/
def compiler_global_level : Int := 0

/-- The collaborators of the analyzer that are not under `src/`:
`CompilerState::MakeVariableName`, `CompilerState::FindModule` (the module it
finds, if any), `AstNode::Optimize` (constant folding; null when it yields
nothing) and the flag `config::optimize_constant_folding`. -/
structure Collab where
  MakeVariableName : CompilerState → String → Option ModuleRef → String
  FindModule : CompilerState → String → Option ModuleRef → Option ModuleRef
  Optimize : AstNode → Option AstNode
  optimize_constant_folding : Bool

/-- Modelled from the spec: `ModuleDefine`, the argument of `AddModule`, is
declared in a header that is not under `src/`; a name and "one symbol per
native method" with "the declared arity". -/
structure ModuleDefine where
  name : String
  methods : List (String × Nat)

/-! ## The semantic analyzer: state operations -/

/-- A visit: it reads and changes the `CompilerState` behind `state_ptr`, and
either returns or dereferences a null or dangling pointer. -/
abbrev Analyzer := StateT CompilerState (Except Fault)

/-- The member access `p->...` on a node pointer: a fault when it is null. -/
def derefNode (p : Option AstNode) : Analyzer AstNode :=
  match p with
  | none => throw Fault.nullDeref
  | some n => pure n

/-- Modelled from the spec: `ErrorMsg`, `WarningMessage` and `InfoMsg` are
members of `SemanticAnalyzer` declared outside `src/`; "diagnostics accumulate
in `state.errors`". -/
def report (severity : Severity) (msg : ErrorType) (location : SourceLocation)
    (args : List String) : Analyzer Unit :=
  modify (fun st => { st with errors := st.errors ++ [⟨severity, msg, location, args⟩] })

/-- The call `ErrorMsg(msg, location, args...)`. -/
def ErrorMsg (msg : ErrorType) (location : SourceLocation) (args : List String) :
    Analyzer Unit :=
  report .error msg location args

/-- The call `WarningMessage(msg, location, args...)`. -/
def WarningMessage (msg : ErrorType) (location : SourceLocation) (args : List String) :
    Analyzer Unit :=
  report .warning msg location args

/-- The call `InfoMsg(msg, location, args...)`. -/
def InfoMsg (msg : ErrorType) (location : SourceLocation) (args : List String) :
    Analyzer Unit :=
  report .info msg location args

/-- Modelled from the spec: `CompilerState::CurrentLevel()`, the record at
index `level`. -/
def CompilerState.CurrentLevel (st : CompilerState) : LevelInfo :=
  st.levels st.level

/-- The statement `state_ptr->CurrentLevel().locals.push_back({ name, symbol })`. -/
def pushLocal (name : String) (symbol : Symbol) : Analyzer Unit :=
  modify (fun st =>
    let cur := st.levels st.level
    let lv : LevelInfo := { cur with locals := cur.locals ++ [(name, symbol)] }
    { st with levels := Function.update st.levels st.level lv })

/-- The statement `state_ptr->CurrentLevel().locals.size()`, as stored in `field_index`. -/
def CompilerState.localsSize (st : CompilerState) : Int :=
  (st.CurrentLevel.locals.length : Int)

/-- The function `SemanticAnalyzer::IncrementUseCount` (semantic.cpp 930-937). -/
def IncrementUseCount (ptr : Option Nat) : Analyzer Unit :=
  modify (fun st => { st with use_counts := Function.update st.use_counts ptr (st.use_counts ptr + 1) })

/-- The first element of `locals` whose key is `identifier`, with its
position (the inner `for` loop of `FindVariable`). -/
def findLocal (identifier : String) : List (String × Symbol) → Option (Nat × Symbol)
  | [] => none
  | (key, value) :: rest =>
    if key = identifier then some (0, value)
    else (findLocal identifier rest).map (fun r => (r.1 + 1, r.2))

/-- The loop `while (start >= compiler_global_level)` of `FindVariable`, with
`n` iterations left before `start` falls below the global level. -/
def findVariableFrom (st : CompilerState) (identifier : String) (only_this_scope : Bool) :
    Nat → Int → Option ((Int × Nat) × Symbol)
  | 0, _ => none
  | n + 1, start =>
    match findLocal identifier (st.levels start).locals with
    | some r => some ((start, r.1), r.2)
    | none =>
      if only_this_scope then none
      else findVariableFrom st identifier only_this_scope n (start - 1)

/-- The function `SemanticAnalyzer::FindVariable` (semantic.cpp 939-978).  The result is
`result.symbol`, as a pointer (the level index and the position in its locals)
and as the symbol it designates; `none` when `result.found` is false. -/
def FindVariable (st : CompilerState) (identifier : String) (only_this_scope : Bool) :
    Option ((Int × Nat) × Symbol) :=
  findVariableFrom st identifier only_this_scope (st.level - compiler_global_level + 1).toNat
    st.level

/-- The symbol a `Symbol*` designates, if it still designates one. -/
def CompilerState.symbolAt (st : CompilerState) (p : Int × Nat) : Option Symbol :=
  ((st.levels p.1).locals.get? p.2).map Prod.snd

/-- Write through a `Symbol*`: null and dangling pointers are faults. -/
def writeSymbol (p : Option (Int × Nat)) (f : Symbol → Symbol) : Analyzer Unit := do
  match p with
  | none => throw Fault.nullDeref
  | some q =>
    let st ← get
    match (st.levels q.1).locals.get? q.2 with
    | none => throw Fault.dangling
    | some e =>
      let cur := st.levels q.1
      let lv : LevelInfo := { cur with locals := cur.locals.set q.2 (e.1, f e.2) }
      set { st with levels := Function.update st.levels q.1 lv }

/-- The function `SemanticAnalyzer::IncreaseBlock` (semantic.cpp 980-985). -/
def IncreaseBlock (type : LevelType) : Analyzer Unit :=
  modify (fun st =>
    let level : LevelInfo := { type := type }
    { st with level := st.level + 1, levels := Function.update st.levels (st.level + 1) level })

/-- The loop over the locals of a level that `DecreaseBlock` and `Analyze`
share: a warning for every local with a non-null node whose use count is 0. -/
def warnUnused : List (String × Symbol) → Analyzer Unit
  | [] => pure ()
  | (_, symbol) :: rest => do
    let st ← get
    (match symbol.node with
      | none => pure ()
      | some node =>
        -- size_t use_count = state_ptr->use_counts[local.second.node];
        if st.use_counts (some node.ptr) = 0 then
          WarningMessage .Msg_unused_identifier node.location [symbol.original_name]
        else pure ())
    warnUnused rest

/-- The function `SemanticAnalyzer::DecreaseBlock` (semantic.cpp 987-1000). -/
def DecreaseBlock : Analyzer Unit := do
  let st ← get
  warnUnused st.CurrentLevel.locals
  -- state_ptr->levels[state_ptr->level--] = LevelInfo();
  modify (fun st =>
    let cleared : LevelInfo := {}
    { st with levels := Function.update st.levels st.level cleared, level := st.level - 1 })

/-- The search of `Accept(AstReturnStmt*)` (semantic.cpp 850-854) for the
nearest function level, with `n` bounding the iterations: the indices of
`levels` it forms a pointer to, in order, and the final value of `start`. -/
def returnSearch (st : CompilerState) : Nat → Int → List Int → List Int × Int
  | 0, start, seen => (seen, start)
  | n + 1, start, seen =>
    if start ≥ compiler_global_level ∧ (st.levels start).type ≠ .Level_function then
      returnSearch st n (start - 1) (seen ++ [start - 1])
    else (seen, start)

/-- The search of `Accept(AstReturnStmt*)` from the current level: it starts
with a pointer to `levels[level]`. -/
def returnLevels (st : CompilerState) : List Int × Int :=
  returnSearch st (st.level - compiler_global_level + 1).toNat st.level [st.level]

/-- The locals of the level at index `l` are empty. -/
def CompilerState.emptyAt (st : CompilerState) (l : Int) : Prop :=
  (st.levels l).locals = []

/-- Scope balance between the state on entry and the state on return: the
level is the same, and every level above it that held no symbol holds none. -/
def Balanced (st st1 : CompilerState) : Prop :=
  st1.level = st.level ∧ ∀ l, st.level < l → st.emptyAt l → st1.emptyAt l

/-- A visit that returns does so in a state balanced with the one it was
entered in. -/
def Keeps {α : Type} (m : Analyzer α) : Prop :=
  ∀ st a st1, m st = .ok (a, st1) → Balanced st st1

/-- A continuation entered inside a pushed scope that returns with that scope
popped: one level down, the popped level and every empty level above it
empty. -/
def Falls {α : Type} (m : Analyzer α) : Prop :=
  ∀ st a st1, m st = .ok (a, st1) →
    st1.level = st.level - 1 ∧ ∀ l, st.level ≤ l → (l = st.level ∨ st.emptyAt l) → st1.emptyAt l

/-- The operator `new` of an AST node: its address. -/
def newPtr : Analyzer Nat := do
  let st ← get
  set { st with next_ptr := st.next_ptr + 1 }
  pure st.next_ptr

/-- The statement `state_ptr->other_modules[key] = unit`. -/
def registerModule (key : String) (unit : ModuleRef) : Analyzer Unit :=
  modify (fun st =>
    let present : Bool := st.other_modules.any (fun e => e.1 == key)
    let updated : List (String × ModuleRef) :=
      if present then st.other_modules.map (fun e => if e.1 == key then (key, unit) else e)
      else st.other_modules ++ [(key, unit)]
    { st with other_modules := updated })

/-- The classification `switch (right_side->type)` of a right-hand side:
integer, float and string literals. -/
def isLiteralType (t : AstType) : Bool :=
  t = .Ast_type_integer || t = .Ast_type_float || t = .Ast_type_string

/-- The right-hand side whose type classifies a declaration or assignment:
`value`, unwrapped when it is an `AstExpression`, and folded when constant
folding is on and `Optimize` yields a node.  `value` is non-null. -/
def literalSide (env : Collab) (value : AstNode) : Analyzer AstNode := do
  -- if (right_side->type == Ast_type_expression) right_side = expr_ast->child.get();
  let right_side : Option AstNode :=
    match value with
    | .expression _ child => child
    | n => some n
  if env.optimize_constant_folding then
    -- right_side_opt = right_side->Optimize();
    let rs ← derefNode right_side
    match env.Optimize rs with
    | some opt => pure opt
    | none => pure rs
  else derefNode right_side

/-- The walk `while (candidate != nullptr)` of `Accept(AstAlias*)`
(semantic.cpp 470-489): down the right children of member accesses to a
variable.  `none` when the walk ends on a null candidate; otherwise the
variable's `owner_level` and `field_index`, or `none` inside for a terminal
that is neither. -/
def aliasWalk : AstNode → Option (Option (Int × Int))
  | .member_access _ _ _ right =>
    match right with
    | none => none
    | some r => aliasWalk r
  | .variable _ _ info => some (some (info.owner_level, info.field_index))
  | _ => some none

/-- Does the body `children` of a function end in a return?  The scan of
`Accept(AstFunctionDefinition*)` (semantic.cpp 629-639) from index `idx`
backward over trailing no-op statements; pointers are dereferenced unchecked. -/
def scanReturn (children : List (Option AstNode)) : Nat → Analyzer Bool
  | 0 => pure false
  | idx + 1 => do
    -- while (idx > 0 && body->children[idx]->type == Ast_type_statement)
    let cur ← derefNode (children.get? (idx + 1)).join
    if cur.type = .Ast_type_statement then
      let prev ← derefNode (children.get? idx).join
      if prev.type = .Ast_type_return then pure true
      else if prev.type ≠ .Ast_type_statement then pure false
      else scanReturn children idx
    else pure false

/-- The test for a terminating return in `Accept(AstFunctionDefinition*)`
(semantic.cpp 622-641) on a non-empty body. -/
def hasReturnDefinition (children : List (Option AstNode)) : Analyzer Bool := do
  let idx := children.length - 1
  -- if (body->children[idx] && body->children[idx]->type == Ast_type_return)
  match (children.get? idx).join with
  | some last =>
    if last.type = .Ast_type_return then pure true else scanReturn children idx
  | none => scanReturn children idx

/-- The test for a terminating return in `Accept(AstFunctionExpression*)`
(semantic.cpp 705-721) on a non-empty body: the last child is dereferenced
unchecked. -/
def hasReturnExpression (children : List (Option AstNode)) : Analyzer Bool := do
  let index := children.length - 1
  let last ← derefNode (children.get? index).join
  if last.type = .Ast_type_return then pure true else scanReturn children index

/-- The synthetic `return null` appended to a body: `new AstNull(location,
module)` and `new AstReturnStmt(location, module, value)`. -/
def makeReturnNull (location : SourceLocation) (module : Option ModuleRef) :
    Analyzer AstNode := do
  let pv ← newPtr
  let pr ← newPtr
  pure (.return_ { ptr := pr, location := location, module := module }
    (some (.null { ptr := pv, location := location, module := module })))

/-- The location the synthetic return of a non-empty body gets:
`body->children.back() ? body->children.back()->location : body->location`. -/
def lastLocation (children : List (Option AstNode)) (body : AstHdr) : SourceLocation :=
  match children.getLast?.join with
  | some n => n.hdr.location
  | none => body.location

/-- The validation of a function body for a terminating return (semantic.cpp
610-654 and 693-734): the children of the body as they are once the synthetic
return, if needed, has been appended.  `expr` tells the function expression
(whose name is "unnamed" and whose scan dereferences the last child) from the
definition. -/
def ensureReturn (expr : Bool) (name : String) (module : Option ModuleRef) (body : AstHdr)
    (children : List (Option AstNode)) : Analyzer (List (Option AstNode)) := do
  if children.isEmpty then
    InfoMsg .Msg_empty_function_body body.location [name]
    let ret ← makeReturnNull body.location module
    pure (children ++ [some ret])
  else
    let has_return ←
      (if expr then hasReturnExpression children else hasReturnDefinition children)
    if !has_return then
      let ret ← makeReturnNull (lastLocation children body) module
      pure (children ++ [some ret])
    else pure children

/-- The loop `for (const std::string &param : node->arguments)` that declares
the parameters in the function level just pushed; `node` is the `symbol.node`
each gets. -/
def declareParams (env : Collab) (module : Option ModuleRef) (node : Option NodeRef) :
    List String → Analyzer Unit
  | [] => pure ()
  | param :: rest => do
    let st ← get
    let var_name := env.MakeVariableName st param module
    pushLocal var_name { node := node, original_name := param, owner_level := st.level,
                         field_index := st.localsSize }
    declareParams env module node rest

/-- The info diagnostic of the loop and try/catch visitors for a body that is
an empty block: `dynamic_cast<AstBlock*>` and `children.empty()`. -/
def warnEmptyBody (body : Option AstNode) : Analyzer Unit :=
  match body with
  | some (.block h []) => InfoMsg .Msg_empty_statement_body h.location []
  | _ => pure ()

/-! ## The semantic analyzer: the visitors -/

/-- The header of a node whose `module` the caller has just overwritten
(`node->right->module = found_module`), if it has. -/
def AstHdr.withModule (h : AstHdr) (ov : Option ModuleRef) : AstHdr :=
  match ov with
  | none => h
  | some m => { h with module := some m }

/-- The case `BinOp_assign` of `Accept(AstBinaryOp*)` up to the fall-through
(semantic.cpp 295-329), on the visited children: the left child as it is
afterwards. -/
def assignUpdate (env : Collab) (left right : Option AstNode) : Analyzer (Option AstNode) := do
  -- if (left->type == Ast_type_variable)
  let l ← derefNode left
  match l with
  | .variable vh name info =>
    if !info.is_const then
      -- if (right->type == Ast_type_expression) ...; right_side->Optimize()
      let r ← derefNode right
      let right_side ← literalSide env r
      -- casted->symbol_ptr->current_value = right.get();
      writeSymbol info.symbol_ptr (fun s => { s with current_value := some r.hdr.ptr })
      -- casted->current_value = casted->symbol_ptr->current_value;
      -- switch (right_side->type): casted->symbol_ptr->is_literal = ...
      writeSymbol info.symbol_ptr (fun s => { s with is_literal := isLiteralType right_side.type })
      pure (some (.variable vh name { info with current_value := some r.hdr.ptr }))
    else pure left
  | _ => pure left

/-- The cases of the assignment family of `Accept(AstBinaryOp*)` (semantic.cpp
331-355), on the visited children. -/
def assignChecks (left right : Option AstNode) : Analyzer Unit := do
  let l ← derefNode left
  match l with
  | .variable vh name info =>
    (if info.is_const then ErrorMsg .Msg_const_identifier vh.location [name] else pure ())
    -- This usage is prohibited on inlined objects
    (if vh.HasAttribute "inline" then
      ErrorMsg .Msg_prohibited_action_attribute vh.location ["inline"] else pure ())
    let r ← derefNode right
    if r.hdr.HasAttribute "inline" then
      ErrorMsg .Msg_prohibited_action_attribute r.hdr.location ["inline"]
    else pure ()
  | .member_access _ _ _ _ => pure ()
  | .array_access _ _ _ => pure ()
  | _ => ErrorMsg .Msg_expected_identifier l.hdr.location []

/-- The `switch (node->op)` of `Accept(AstBinaryOp*)`, on the visited
children: the left child as it is afterwards. -/
def binopChecks (env : Collab) (op : BinOp) (left right : Option AstNode) :
    Analyzer (Option AstNode) := do
  match op with
  | .BinOp_assign =>
    let left1 ← assignUpdate env left right
    -- FALLTHROUGH
    assignChecks left1 right
    pure left1
  | .BinOp_add_assign | .BinOp_subtract_assign | .BinOp_multiply_assign
  | .BinOp_divide_assign =>
    assignChecks left right
    pure left
  | .BinOp_other _ => pure left

/-- The loop over the members of `Accept(AstEnum*)` (semantic.cpp 804-820). -/
def declareEnumMembers (env : Collab) : List (String × Option AstNode) → Analyzer Unit
  | [] => pure ()
  | (first, second) :: rest => do
    let member ← derefNode second
    let st ← get
    let var_name := env.MakeVariableName st first member.hdr.module
    (if (FindVariable st var_name true).isSome then
      ErrorMsg .Msg_redeclared_identifier member.hdr.location [first]
    else if (env.FindModule st first member.hdr.module).isSome then
      ErrorMsg .Msg_identifier_is_module member.hdr.location [first]
    else
      pushLocal var_name { node := some member.ref, original_name := first, is_alias := true,
                           is_const := true, owner_level := st.level,
                           field_index := st.localsSize })
    declareEnumMembers env rest

/-- The visitor `Accept(AstVariable*)` (semantic.cpp 522-557). -/
def AcceptVariable (env : Collab) (h : AstHdr) (name : String) (info : VarInfo) :
    Analyzer AstNode := do
  let st ← get
  let var_name := env.MakeVariableName st name h.module
  match FindVariable st var_name false with
  | some (ptr, symbol) =>
    -- Copy symbol information
    let info1 : VarInfo :=
      { is_alias := symbol.is_alias
        alias_to := if symbol.is_alias then symbol.node else info.alias_to
        is_const := symbol.is_const
        is_literal := symbol.is_literal
        current_value := symbol.current_value
        symbol_ptr := some ptr
        owner_level := symbol.owner_level
        field_index := symbol.field_index }
    (match symbol.node with
      | none => pure ()
      | some node => do
        (if node.type = .Ast_type_function_definition then
          (if node.attributes.contains "inline" then
            ErrorMsg .Msg_prohibited_action_attribute h.location ["inline"] else pure ())
        else pure ())
        -- do not increment use count for const literals, they will be inlined
        if !(env.optimize_constant_folding && info1.is_const && info1.is_literal &&
            info1.current_value.isSome) then
          IncrementUseCount (some node.ptr)
        else pure ())
    pure (.variable h name info1)
  | none =>
    ErrorMsg .Msg_undeclared_identifier h.location [name]
    pure (.variable h name info)

/-! Each visitor below is `Accept(AstXxx*)` for one class.  It takes the
members of the node and, for each child it visits, the visit of that child
(`Accept(child.get())`), to be run where the source calls it. -/

/-- The visitor `Accept(AstImports*)` (semantic.cpp 192-197). -/
def AcceptImports (h : AstHdr) (visitChildren : Analyzer (List (Option AstNode))) :
    Analyzer AstNode := do
  let cs ← visitChildren
  pure (.imports h cs)

/-- The visitor `Accept(AstImport*)` (semantic.cpp 199-252).  `visitUnit` visits the
children of the parsed unit. -/
def AcceptImport (h : AstHdr) (relative_path import_str : String) (is_open : Bool)
    (unit : ModuleRef) (parse_errors : List Diagnostic) (unit_children : List (Option AstNode))
    (visitUnit : Analyzer (List (Option AstNode))) : Analyzer AstNode := do
  let st0 ← get
  (if st0.level ≠ compiler_global_level then
    ErrorMsg .Msg_import_outside_global h.location [] else pure ())
  -- load relative file
  let path := relative_path ++ import_str
  let st ← get
  -- Check if the module has already been imported
  if st.other_modules.any (fun e => e.1 == path) then
    pure (.import_ h relative_path import_str is_open unit parse_errors unit_children)
  else if !is_open then
    ErrorMsg .Msg_import_not_found h.location [import_str, path]
    pure (.import_ h relative_path import_str is_open unit parse_errors unit_children)
  else if st.other_modules.any (fun e => e.2.name == unit.name) then
    ErrorMsg .Msg_module_already_defined h.location [unit.name]
    pure (.import_ h relative_path import_str is_open unit parse_errors unit_children)
  else
    registerModule path unit
    modify (fun s => { s with errors := s.errors ++ parse_errors })
    let cs ← visitUnit
    pure (.import_ h relative_path import_str is_open unit parse_errors cs)

/-- The visitor `Accept(AstBlock*)` (semantic.cpp 258-279); `visitChildren` is its loop. -/
def AcceptBlockNode (h : AstHdr) (visitChildren : Analyzer (List (Option AstNode))) :
    Analyzer AstNode := do
  let cs ← visitChildren
  pure (.block h cs)

/-- The visitor `Accept(AstExpression*)` (semantic.cpp 281-284). -/
def AcceptExpression (h : AstHdr) (visitChild : Analyzer (Option AstNode)) :
    Analyzer AstNode := do
  let c ← visitChild
  pure (.expression h c)

/-- The visitor `Accept(AstBinaryOp*)` (semantic.cpp 286-357). -/
def AcceptBinaryOp (env : Collab) (h : AstHdr) (op : BinOp)
    (visitLeft visitRight : Analyzer (Option AstNode)) : Analyzer AstNode := do
  let l ← visitLeft
  let r ← visitRight
  let l1 ← binopChecks env op l r
  pure (.binop h op l1 r)

/-- The visitor `Accept(AstUnaryOp*)` (semantic.cpp 359-362). -/
def AcceptUnaryOp (h : AstHdr) (visitChild : Analyzer (Option AstNode)) : Analyzer AstNode := do
  let c ← visitChild
  pure (.unop h c)

/-- The visitor `Accept(AstArrayAccess*)` (semantic.cpp 364-368). -/
def AcceptArrayAccess (h : AstHdr) (visitObject visitIndex : Analyzer (Option AstNode)) :
    Analyzer AstNode := do
  let o ← visitObject
  let i ← visitIndex
  pure (.array_access h o i)

/-- The visitor `Accept(AstMemberAccess*)` (semantic.cpp 370-387).  `visitRight m` is
`Accept(node->right.get())` once `node->right->module` has been set to `m`
(`none`: left as it is); it dereferences `right`. -/
def AcceptMemberAccess (env : Collab) (h : AstHdr) (left_str : String)
    (left right : Option AstNode) (visitLeft : Analyzer (Option AstNode))
    (visitRight : Option ModuleRef → Analyzer AstNode) : Analyzer AstNode := do
  let st ← get
  -- checks for module with name first
  match env.FindModule st left_str h.module with
  | some found_module =>
    -- node->right->module = found_module; Accept(node->right.get());
    let r1 ← visitRight (some found_module)
    pure (.member_access h left_str left (some r1))
  | none =>
    let l ← visitLeft
    let r ← derefNode right
    if r.type = .Ast_type_member_access then
      let r1 ← visitRight none
      pure (.member_access h left_str l (some r1))
    else
      (if r.type ≠ .Ast_type_variable ∧ r.type ≠ .Ast_type_function_call then
        ErrorMsg .Msg_internal_error h.location [] else pure ())
      pure (.member_access h left_str l (some r))

/-- The visitor `Accept(AstModuleAccess*)` (semantic.cpp 389-399). -/
def AcceptModuleAccess (h : AstHdr) (module_name : String) (right : Option AstNode)
    (visitRight : Option ModuleRef → Analyzer AstNode) : Analyzer AstNode := do
  let st ← get
  match st.other_modules.find? (fun e => e.2.name == module_name) with
  | some e =>
    -- node->right->module = mod.second.get(); Accept(node->right.get()); return;
    let r1 ← visitRight (some e.2)
    pure (.module_access h module_name (some r1))
  | none =>
    ErrorMsg .Msg_module_not_imported h.location [module_name]
    pure (.module_access h module_name right)

/-- The visitor `Accept(AstVariableDeclaration*)` (semantic.cpp 401-451). -/
def AcceptVariableDeclaration (env : Collab) (h : AstHdr) (name : String) (is_const : Bool)
    (assignment : Option AstNode) (visitAssignment : Analyzer (Option AstNode)) :
    Analyzer AstNode := do
  let st ← get
  let var_name := env.MakeVariableName st name h.module
  if (FindVariable st var_name true).isSome then
    ErrorMsg .Msg_redeclared_identifier h.location [name]
    pure (.var_declaration h name is_const assignment)
  else if (env.FindModule st name h.module).isSome then
    ErrorMsg .Msg_identifier_is_module h.location [name]
    pure (.var_declaration h name is_const assignment)
  else
    -- symbol.current_value = node->assignment.get(); right_side->type ...
    let value ← derefNode assignment
    let right_side ← literalSide env value
    pushLocal var_name
      { node := some ⟨h.ptr, .Ast_type_var_declaration, h.location, h.attributes⟩
        original_name := name, is_const := is_const, current_value := some value.hdr.ptr
        is_literal := isLiteralType right_side.type, owner_level := st.level
        field_index := st.localsSize }
    let a ← visitAssignment
    pure (.var_declaration h name is_const a)

/-- The visitor `Accept(AstAlias*)` (semantic.cpp 453-493). -/
def AcceptAlias (env : Collab) (h : AstHdr) (name : String) (alias_to : Option AstNode)
    (visitAliasTo : Analyzer (Option AstNode)) : Analyzer AstNode := do
  let st ← get
  let var_name := env.MakeVariableName st name h.module
  if (FindVariable st var_name true).isSome then
    ErrorMsg .Msg_redeclared_identifier h.location [name]
    pure (.alias h name alias_to)
  else if (env.FindModule st name h.module).isSome then
    ErrorMsg .Msg_identifier_is_module h.location [name]
    pure (.alias h name alias_to)
  else
    let a ← visitAliasTo
    let symbol : Symbol :=
      { node := refOf a, original_name := name, is_alias := true, owner_level := -1,
        field_index := -1 }
    -- AstNode *candidate = node->alias_to.get(); while (candidate != nullptr) ...
    let symbol1 ←
      (match a.bind aliasWalk with
        | none => pure symbol
        | some (some (owner_level, field_index)) =>
          -- we can use the variable
          pure { symbol with owner_level := owner_level, field_index := field_index }
        | some none => do
          ErrorMsg .Msg_unrecognized_alias_type h.location [name]
          pure symbol)
    pushLocal var_name symbol1
    pure (.alias h name a)

/-- The visitor `Accept(AstUseModule*)` (semantic.cpp 495-520). -/
def AcceptUseModule (h : AstHdr) (name : String) : Analyzer AstNode := do
  ErrorMsg .Msg_unsupported_feature h.location []
  pure (.use_module h name)

/-- The visitor `Accept(AstFunctionDefinition*)` (semantic.cpp 591-686).  `visitBody` is
`Accept(body)` on the children of the body as parsed; the visit of the
synthetic return of null that may have been appended changes nothing. -/
def AcceptFunctionDefinition (env : Collab) (h : AstHdr) (name : String)
    (arguments : List String) (block : Option AstNode)
    (visitBody : Analyzer (List (Option AstNode))) : Analyzer AstNode := do
  let st ← get
  let var_name := env.MakeVariableName st name h.module
  let node : NodeRef := ⟨h.ptr, .Ast_type_function_definition, h.location, h.attributes⟩
  if (FindVariable st var_name true).isSome then
    ErrorMsg .Msg_redeclared_identifier h.location [name]
    pure (.function_definition h name arguments block)
  else if (env.FindModule st name h.module).isSome then
    ErrorMsg .Msg_identifier_is_module h.location [name]
    pure (.function_definition h name arguments block)
  else
    (if !h.HasAttribute "inline" then
      pushLocal var_name { node := some node, original_name := name, owner_level := st.level,
                           field_index := st.localsSize } else pure ())
    -- AstBlock *body = dynamic_cast<AstBlock*>(node->block.get()); if (body) ...
    match block with
    | some (.block bh children) =>
      let extended ← ensureReturn false name h.module bh children
      IncreaseBlock .Level_function
      -- declare a variable for all parameters
      declareParams env h.module none arguments
      let cs ← visitBody
      DecreaseBlock
      -- Inline functions cannot be recursive, so we will declare
      -- the symbol here to avoid recursive usage.
      let st1 ← get
      (if h.HasAttribute "inline" then
        pushLocal var_name { node := some node, original_name := name, is_const := true,
                             owner_level := st1.level, field_index := st1.localsSize }
      else pure ())
      pure (.function_definition h name arguments
        (some (.block bh (cs ++ extended.drop children.length))))
    | _ => pure (.function_definition h name arguments block)

/-- The visitor `Accept(AstFunctionExpression*)` (semantic.cpp 688-753). -/
def AcceptFunctionExpression (env : Collab) (h : AstHdr) (arguments : List String)
    (block : Option AstNode) (visitBody : Analyzer (List (Option AstNode))) :
    Analyzer AstNode := do
  let node : NodeRef := ⟨h.ptr, .Ast_type_function_expression, h.location, h.attributes⟩
  match block with
  | some (.block bh children) =>
    let extended ← ensureReturn true "unnamed" h.module bh children
    IncreaseBlock .Level_function
    -- declare a variable for all parameters
    declareParams env h.module (some node) arguments
    let cs ← visitBody
    DecreaseBlock
    pure (.function_expression h arguments
      (some (.block bh (cs ++ extended.drop children.length))))
  | _ => pure (.function_expression h arguments block)

/-- The visitor `Accept(AstFunctionCall*)` (semantic.cpp 755-776).  `visitArguments`
visits the arguments last to first. -/
def AcceptFunctionCall (env : Collab) (h : AstHdr) (name : String)
    (arguments : List (Option AstNode)) (info : CallInfo)
    (visitArguments : Analyzer (List (Option AstNode))) : Analyzer AstNode := do
  let st ← get
  let var_name := env.MakeVariableName st name h.module
  match FindVariable st var_name false with
  | some (_, symbol) =>
    let info1 : CallInfo :=
      if symbol.is_alias then { info with is_alias := true, alias_to := symbol.node }
      else info
    -- node->definition = query.symbol->node; IncrementUseCount(query.symbol->node);
    IncrementUseCount (symbol.node.map (fun n => n.ptr))
    -- for (int i = node->arguments.size() - 1; i >= 0; i--)
    let args ← visitArguments
    pure (.function_call h name args { info1 with definition := symbol.node })
  | none =>
    ErrorMsg .Msg_undeclared_identifier h.location [name]
    pure (.function_call h name arguments info)

/-- The visitor `Accept(AstObjectExpression*)` (semantic.cpp 782-787). -/
def AcceptObjectExpression (h : AstHdr)
    (visitMembers : Analyzer (List (String × Option AstNode))) : Analyzer AstNode := do
  let ms ← visitMembers
  pure (.object_expression h ms)

/-- The visitor `Accept(AstEnum*)` (semantic.cpp 789-821). -/
def AcceptEnum (env : Collab) (h : AstHdr) (name : String)
    (members : List (String × Option AstNode)) : Analyzer AstNode := do
  -- currently, the enum identifier is not created, only the members of it
  declareEnumMembers env members
  pure (.enum h name members)

/-- The visitor `Accept(AstPrintStmt*)` (semantic.cpp 838-843). -/
def AcceptPrintStmt (h : AstHdr) (visitArguments : Analyzer (List (Option AstNode))) :
    Analyzer AstNode := do
  let args ← visitArguments
  pure (.print h args)

/-- The visitor `Accept(AstReturnStmt*)` (semantic.cpp 845-855); the search for the
enclosing function level that follows the visit of the value changes nothing
(`returnLevels`). -/
def AcceptReturnStmt (h : AstHdr) (visitValue : Analyzer (Option AstNode)) :
    Analyzer AstNode := do
  -- The resulting value will get pushed onto the stack
  let v ← visitValue
  pure (.return_ h v)

/-- The visitor `Accept(AstIfStmt*)` (semantic.cpp 823-836). -/
def AcceptIfStmt (h : AstHdr) (else_statement : Option AstNode)
    (visitConditional visitBlock visitElse : Analyzer (Option AstNode)) : Analyzer AstNode := do
  let c ← visitConditional
  IncreaseBlock .Level_condition
  let b ← visitBlock
  DecreaseBlock
  -- if (node->else_statement)
  if else_statement.isSome then
    IncreaseBlock .Level_condition
    let e ← visitElse
    DecreaseBlock
    pure (.if_statement h c b e)
  else pure (.if_statement h c b else_statement)

/-- The visitor `Accept(AstForLoop*)` (semantic.cpp 857-882). -/
def AcceptForLoop (h : AstHdr) (block : Option AstNode)
    (visitInitializer visitConditional visitAfterthought visitBlock :
      Analyzer (Option AstNode)) : Analyzer AstNode := do
  warnEmptyBody block
  let i ← visitInitializer
  let c ← visitConditional
  IncreaseBlock .Level_loop
  let b ← visitBlock
  DecreaseBlock
  let a ← visitAfterthought
  pure (.for_loop h i c a b)

/-- The visitor `Accept(AstWhileLoop*)` (semantic.cpp 884-898). -/
def AcceptWhileLoop (h : AstHdr) (block : Option AstNode)
    (visitConditional visitBlock : Analyzer (Option AstNode)) : Analyzer AstNode := do
  let c ← visitConditional
  warnEmptyBody block
  IncreaseBlock .Level_loop
  let b ← visitBlock
  DecreaseBlock
  pure (.while_loop h c b)

/-- The visitor `Accept(AstTryCatch*)` (semantic.cpp 900-924). -/
def AcceptTryCatch (h : AstHdr) (try_block catch_block : Option AstNode)
    (visitTry visitCatch visitException : Analyzer (Option AstNode)) : Analyzer AstNode := do
  warnEmptyBody try_block
  IncreaseBlock .Level_default
  let t ← visitTry
  DecreaseBlock
  warnEmptyBody catch_block
  IncreaseBlock .Level_default
  let e ← visitException
  let c ← visitCatch
  DecreaseBlock
  pure (.try_catch h t c e)

/-- The step of the loop of `Accept(AstBlock*)` (semantic.cpp 264-278) after
`Accept(child.get())`: the flags `in_dead_code` and `warning_shown` for the
next child. -/
def blockStep (in_dead_code warning_shown : Bool) (child : Option AstNode) :
    Analyzer (Bool × Bool) :=
  -- if (child)
  match child with
  | none => pure (in_dead_code, warning_shown)
  | some n =>
    if n.type = .Ast_type_return then pure (true, warning_shown)
    else if in_dead_code && !warning_shown && n.type != .Ast_type_statement then do
      WarningMessage .Msg_unreachable_code n.hdr.location []
      pure (in_dead_code, true)
    else pure (in_dead_code, warning_shown)

mutual
/-- The switch of `Accept(AstNode*)` (semantic.cpp 82-189) on a non-null
node: the visitor of the node's class, given the visits of its children.  The
result is the node as the visit leaves it.  `ov` is the module the caller has
just stored in `node->module`, if it has. -/
def Accept (env : Collab) (ov : Option ModuleRef) : AstNode → Analyzer AstNode
  | .imports h children => AcceptImports (h.withModule ov) (AcceptChildren env children)
  | .import_ h relative_path import_str is_open unit parse_errors unit_children =>
    AcceptImport (h.withModule ov) relative_path import_str is_open unit parse_errors
      unit_children (AcceptChildren env unit_children)
  | .statement h => pure (.statement (h.withModule ov))
  | .block h children => AcceptBlockNode (h.withModule ov) (AcceptBlock env false false children)
  | .expression h child => AcceptExpression (h.withModule ov) (AcceptPtr env child)
  | .binop h op left right =>
    AcceptBinaryOp env (h.withModule ov) op (AcceptPtr env left) (AcceptPtr env right)
  | .unop h child => AcceptUnaryOp (h.withModule ov) (AcceptPtr env child)
  | .array_access h object index =>
    AcceptArrayAccess (h.withModule ov) (AcceptPtr env object) (AcceptPtr env index)
  | .member_access h left_str left right =>
    AcceptMemberAccess env (h.withModule ov) left_str left right (AcceptPtr env left)
      (fun m => AcceptDeref env m right)
  | .module_access h module_name right =>
    AcceptModuleAccess (h.withModule ov) module_name right (fun m => AcceptDeref env m right)
  | .var_declaration h name is_const assignment =>
    AcceptVariableDeclaration env (h.withModule ov) name is_const assignment
      (AcceptPtr env assignment)
  | .alias h name alias_to =>
    AcceptAlias env (h.withModule ov) name alias_to (AcceptPtr env alias_to)
  | .use_module h name => AcceptUseModule (h.withModule ov) name
  | .variable h name info => AcceptVariable env (h.withModule ov) name info
  | .integer h value => pure (.integer (h.withModule ov) value)
  | .float h => pure (.float (h.withModule ov))
  | .string h value => pure (.string (h.withModule ov) value)
  | .true_ h => pure (.true_ (h.withModule ov))
  | .false_ h => pure (.false_ (h.withModule ov))
  | .null h => pure (.null (h.withModule ov))
  | .self h => pure (.self (h.withModule ov))
  | .new h => pure (.new (h.withModule ov))
  | .function_definition h name arguments block =>
    AcceptFunctionDefinition env (h.withModule ov) name arguments block (AcceptBody env block)
  | .function_expression h arguments block =>
    AcceptFunctionExpression env (h.withModule ov) arguments block (AcceptBody env block)
  | .function_call h name arguments info =>
    AcceptFunctionCall env (h.withModule ov) name arguments info (AcceptArgsRev env arguments)
  | .class_declaration h => pure (.class_declaration (h.withModule ov))
  | .object_expression h members =>
    AcceptObjectExpression (h.withModule ov) (AcceptMembers env members)
  | .enum h name members => AcceptEnum env (h.withModule ov) name members
  | .print h arguments => AcceptPrintStmt (h.withModule ov) (AcceptChildren env arguments)
  | .return_ h value => AcceptReturnStmt (h.withModule ov) (AcceptPtr env value)
  | .if_statement h conditional block else_statement =>
    AcceptIfStmt (h.withModule ov) else_statement (AcceptPtr env conditional)
      (AcceptPtr env block) (AcceptPtr env else_statement)
  | .for_loop h initializer conditional afterthought block =>
    AcceptForLoop (h.withModule ov) block (AcceptPtr env initializer)
      (AcceptPtr env conditional) (AcceptPtr env afterthought) (AcceptPtr env block)
  | .while_loop h conditional block =>
    AcceptWhileLoop (h.withModule ov) block (AcceptPtr env conditional) (AcceptPtr env block)
  | .try_catch h try_block catch_block exception_object =>
    AcceptTryCatch (h.withModule ov) try_block catch_block (AcceptPtr env try_block)
      (AcceptPtr env catch_block) (AcceptPtr env exception_object)
  | .range h =>
    -- default: not implemented?
    (ErrorMsg .Msg_internal_error (h.withModule ov).location [] >>= fun _ =>
      pure (.range (h.withModule ov)))
/-- The visitor `Accept(AstNode*)` (semantic.cpp 76-190): nothing for a null pointer, the
switch otherwise. -/
def AcceptPtr (env : Collab) : Option AstNode → Analyzer (Option AstNode)
  | none => pure none
  | some n => Accept env none n >>= fun n1 => pure (some n1)
/-- The visitor `Accept(p.get())` right after `p->module = m` (after nothing, for `m`
null): a null `p` is dereferenced. -/
def AcceptDeref (env : Collab) (m : Option ModuleRef) : Option AstNode → Analyzer AstNode
  | none => throw Fault.nullDeref
  | some n => Accept env m n
/-- The loops `for (auto &&child : children) Accept(child.get());`. -/
def AcceptChildren (env : Collab) : List (Option AstNode) → Analyzer (List (Option AstNode))
  | [] => pure []
  | child :: rest =>
    AcceptPtr env child >>= fun c => AcceptChildren env rest >>= fun cs => pure (c :: cs)
/-- The loop of `Accept(AstFunctionCall*)` over the arguments, last to first. -/
def AcceptArgsRev (env : Collab) : List (Option AstNode) → Analyzer (List (Option AstNode))
  | [] => pure []
  | arg :: rest =>
    AcceptArgsRev env rest >>= fun as => AcceptPtr env arg >>= fun a => pure (a :: as)
/-- The loop of `Accept(AstBlock*)` (semantic.cpp 258-279) from a child on,
with the flags `in_dead_code` and `warning_shown` as they stand. -/
def AcceptBlock (env : Collab) (in_dead_code warning_shown : Bool) :
    List (Option AstNode) → Analyzer (List (Option AstNode))
  | [] => pure []
  | child :: rest =>
    AcceptPtr env child >>= fun c =>
    blockStep in_dead_code warning_shown c >>= fun flags =>
    AcceptBlock env flags.1 flags.2 rest >>= fun cs => pure (c :: cs)
/-- The loop of `Accept(AstObjectExpression*)` over the members. -/
def AcceptMembers (env : Collab) :
    List (String × Option AstNode) → Analyzer (List (String × Option AstNode))
  | [] => pure []
  | member :: rest =>
    AcceptPtr env member.2 >>= fun v =>
    AcceptMembers env rest >>= fun ms => pure ((member.1, v) :: ms)
/-- The visitor `Accept(body)` for the body of a function: the loop of `Accept(AstBlock*)`
over its children when `dynamic_cast<AstBlock*>` succeeds. -/
def AcceptBody (env : Collab) : Option AstNode → Analyzer (List (Option AstNode))
  | some (.block _ children) => AcceptBlock env false false children
  | _ => pure []
end

/-- The visitor `Accept(AstModule*)` (semantic.cpp 69-74). -/
def AcceptModule (env : Collab) (ast : AstModule) : Analyzer AstModule := do
  let cs ← AcceptChildren env ast.children
  pure { ast with children := cs }

/-- The function `SemanticAnalyzer::Analyze` (semantic.cpp 18-36). -/
def Analyze (env : Collab) (ast : AstModule) : Analyzer AstModule := do
  let ast1 ← AcceptModule env ast
  let st ← get
  warnUnused st.CurrentLevel.locals
  modify (fun st => { st with block_id_counter := 0, level := compiler_global_level,
                              levels := fun _ => {} })
  pure ast1

/-- The loop over the methods of `SemanticAnalyzer::AddModule` (semantic.cpp
45-63); `false` when it leaves through the `return` on a redeclaration. -/
def addMethods (env : Collab) (unit : ModuleRef) : List (String × Nat) → Analyzer Bool
  | [] => pure true
  | (name, nargs) :: rest => do
    let st ← get
    let var_name := env.MakeVariableName st name (some unit)
    -- for (auto &&var : locals) if (var.first == meth.name)
    if st.CurrentLevel.locals.any (fun v => v.1 == name) then
      ErrorMsg .Msg_redeclared_identifier ⟨-1, -1, ""⟩ []
      pure false
    else
      pushLocal var_name { original_name := name, nargs := nargs, is_native := true,
                           owner_level := st.level, field_index := st.localsSize }
      addMethods env unit rest

/-- The function `SemanticAnalyzer::AddModule` (semantic.cpp 38-67). -/
def AddModule (env : Collab) (defn : ModuleDefine) : Analyzer Unit := do
  -- first, check that it wasn't already defined
  let ptr ← newPtr
  let unit : ModuleRef := ⟨ptr, defn.name⟩
  let st ← get
  if (env.FindModule st defn.name none).isSome then
    ErrorMsg .Msg_module_already_defined ⟨-1, -1, ""⟩ [defn.name]
  else
    let completed ← addMethods env unit defn.methods
    if completed then
      registerModule defn.name unit

/-! ### Sample programs -/

/-- Collaborators for the samples: names are not mangled, a module is found
when a registered module has that name, nothing is folded. -/
def plainEnv : Collab :=
  { MakeVariableName := fun _ name _ => name
    FindModule := fun st name _ =>
      (st.other_modules.find? (fun e => e.2.name == name)).map Prod.snd
    Optimize := fun _ => none
    optimize_constant_folding := false }

/-- The state at the start of an analysis: the global level, with no symbol
anywhere. -/
def globalState : CompilerState :=
  { levels := fun l => if l = 0 then { type := .Level_global } else {}, next_ptr := 1000 }

/-- A header at line `n` for the node with address `n`. -/
def hdrAt (n : Nat) : AstHdr :=
  { ptr := n, location := ⟨n, 0, "main"⟩ }

/-- The program `func f(a) { if (a) { let x = 1 } else { let y = 2 } while (a) { } }`. -/
def nestedScopes : AstNode :=
  .function_definition (hdrAt 1) "f" ["a"] (some (.block (hdrAt 2) [
    some (.if_statement (hdrAt 3) (some (.variable (hdrAt 4) "a" {}))
      (some (.block (hdrAt 5) [some (.var_declaration (hdrAt 6) "x" false
        (some (.integer (hdrAt 7) 1)))]))
      (some (.block (hdrAt 8) [some (.var_declaration (hdrAt 9) "y" false
        (some (.integer (hdrAt 10) 2)))]))),
    some (.while_loop (hdrAt 11) (some (.variable (hdrAt 12) "a" {}))
      (some (.block (hdrAt 13) [])))]))

/-- The module whose one top-level child is `nestedScopes`. -/
def nestedModule : AstModule :=
  { ptr := 100, name := "main", location := ⟨0, 0, "main"⟩, children := [some nestedScopes] }

/-! ## The semantic analyzer: symbol tables -/

/-- The mangled names of the symbols a level holds, in insertion order. -/
def LevelInfo.names (lv : LevelInfo) : List String :=
  lv.locals.map Prod.fst

/-- A scope stack of two levels: the global level holds `x` and `y`, the
function level above it holds `x` twice and `z`. -/
def scopeStackSample : CompilerState :=
  { level := 1
    levels := fun l =>
      if l = 0 then
        { type := .Level_global
          locals := [("x", { original_name := "x", field_index := 0 }),
                     ("y", { original_name := "y", field_index := 1 })] }
      else if l = 1 then
        { type := .Level_function
          locals := [("z", { original_name := "z", owner_level := 1, field_index := 0 }),
                     ("x", { original_name := "x", owner_level := 1, field_index := 1 }),
                     ("x", { original_name := "x", owner_level := 1, field_index := 2 })] }
      else {} }

/-- The state after `let x = 5` at the global level. -/
def stateWithX : CompilerState :=
  match Accept plainEnv none (.var_declaration (hdrAt 1) "x" false
      (some (.integer (hdrAt 2) 5))) globalState with
  | .ok r => r.2
  | .error _ => globalState

/-- The program `func f(a, a) { return a }`. -/
def repeatedParameter : AstNode :=
  .function_definition (hdrAt 1) "f" ["a", "a"] (some (.block (hdrAt 2) [
    some (.return_ (hdrAt 3) (some (.variable (hdrAt 4) "a" {})))]))

/-- No two symbols of one level have the same mangled name. -/
def NamesUnique (st : CompilerState) : Prop :=
  ∀ l, (st.levels l).names.Nodup

/-- The state in which the body of `repeatedParameter` is visited when the
function is defined at the global level: the symbol of `f` stored, the
function level pushed and the parameters declared in it. -/
def repeatedParameterBodyState : CompilerState :=
  match (pushLocal "f" { node := some (AstNode.ref repeatedParameter), original_name := "f",
                         owner_level := 0, field_index := 0 } >>= fun _ =>
         IncreaseBlock .Level_function >>= fun _ =>
         declareParams plainEnv none none ["a", "a"]) globalState with
  | .ok r => r.2
  | .error _ => globalState

/-- The block `{ return 1; return 2; }`. -/
def blockReturnReturn : AstNode :=
  .block (hdrAt 1) [some (.return_ (hdrAt 2) (some (.integer (hdrAt 3) 1))),
                    some (.return_ (hdrAt 4) (some (.integer (hdrAt 5) 2)))]

/-- The block `{ return 1; let y = 2; }`. -/
def blockReturnLet : AstNode :=
  .block (hdrAt 1) [some (.return_ (hdrAt 2) (some (.integer (hdrAt 3) 1))),
                    some (.var_declaration (hdrAt 4) "y" false (some (.integer (hdrAt 5) 2)))]

/-- The block `{ return 1; return 2; let y = 3; }`. -/
def blockReturnReturnLet : AstNode :=
  .block (hdrAt 1) [some (.return_ (hdrAt 2) (some (.integer (hdrAt 3) 1))),
                    some (.return_ (hdrAt 4) (some (.integer (hdrAt 5) 2))),
                    some (.var_declaration (hdrAt 6) "y" false (some (.integer (hdrAt 7) 3)))]

/-- Every result of `m` satisfies `p`. -/
def Yields {α : Type} (p : α → Prop) (m : Analyzer α) : Prop :=
  ∀ st a st1, m st = .ok (a, st1) → p a

/-- The class of a possibly null child. -/
def typeOf (p : Option AstNode) : Option AstType :=
  p.map AstNode.type

/-- The child is a no-op statement: a non-null node of type
`Ast_type_statement`. -/
def isNoop (p : Option AstNode) : Bool :=
  typeOf p == some .Ast_type_statement

/-- The child is a return statement. -/
def isReturn (p : Option AstNode) : Bool :=
  typeOf p == some .Ast_type_return

/-- The last statement of a body is a return statement. -/
def lastIsReturn (body : List (Option AstNode)) : Bool :=
  match body.getLast? with
  | some p => isReturn p
  | none => false

/-- The last statement of a body, trailing no-op statements skipped, is a
return statement. -/
def endsInReturn (body : List (Option AstNode)) : Bool :=
  match body.reverse.dropWhile isNoop with
  | p :: _ => isReturn p
  | [] => false

/-- The statements of the body of a function definition or function
expression whose body is a block. -/
def bodyOf : AstNode → Option (List (Option AstNode))
  | .function_definition _ _ _ (some (.block _ children)) => some children
  | .function_expression _ _ (some (.block _ children)) => some children
  | _ => none

/-- The program
`func f() { return 1; ; }  func f() { let x = 1 }  g(func () { let z = 1 })`:
a body that ends in a no-op after its return, a redeclared function, and a
function expression passed to an undeclared callee. -/
def bodiesWithoutFinalReturn : AstModule :=
  { ptr := 100, name := "main", location := ⟨0, 0, "main"⟩
    children := [
      some (.function_definition (hdrAt 1) "f" [] (some (.block (hdrAt 2) [
        some (.return_ (hdrAt 3) (some (.integer (hdrAt 4) 1))),
        some (.statement (hdrAt 5))]))),
      some (.function_definition (hdrAt 6) "f" [] (some (.block (hdrAt 7) [
        some (.var_declaration (hdrAt 8) "x" false (some (.integer (hdrAt 9) 1)))]))),
      some (.function_call (hdrAt 10) "g" [
        some (.function_expression (hdrAt 11) [] (some (.block (hdrAt 12) [
          some (.var_declaration (hdrAt 13) "z" false (some (.integer (hdrAt 14) 1)))])))]
        {})] }

/-- The program `func f() { let x = 1 }`. -/
def functionWithoutReturn : AstNode :=
  .function_definition (hdrAt 1) "f" [] (some (.block (hdrAt 2) [
    some (.var_declaration (hdrAt 3) "x" false (some (.integer (hdrAt 4) 1)))]))

/-- The state after `push_back({ name, symbol })` on the locals of the current
level. -/
def CompilerState.pushed (st : CompilerState) (name : String) (symbol : Symbol) :
    CompilerState :=
  { st with
    levels := Function.update st.levels st.level
      ⟨(st.levels st.level).type, (st.levels st.level).locals ++ [(name, symbol)]⟩ }

/-- The state after a write through a `Symbol*` that designates the entry `e`. -/
def CompilerState.written (st : CompilerState) (q : Int × Nat) (e : String × Symbol)
    (f : Symbol → Symbol) : CompilerState :=
  { st with
    levels := Function.update st.levels q.1
      ⟨(st.levels q.1).type, (st.levels q.1).locals.set q.2 (e.1, f e.2)⟩ }

/-- The function changes the members `current_value` and `is_literal` of a
symbol and no other. -/
def ValueOnly (f : Symbol → Symbol) : Prop :=
  ∀ s, f s = { s with current_value := (f s).current_value, is_literal := (f s).is_literal }

/-- A relation between an earlier and a later state that every step of the
analyzer respects: it is reflexive and transitive and holds across each of the
state changes the visitors make. -/
structure Frame (R : CompilerState → CompilerState → Prop) : Prop where
  refl : ∀ st, R st st
  trans : ∀ a b c, R a b → R b c → R a c
  errors : ∀ (st : CompilerState) ds, R st { st with errors := st.errors ++ ds }
  useCount : ∀ (st : CompilerState) p,
    R st { st with use_counts := Function.update st.use_counts p (st.use_counts p + 1) }
  nextPtr : ∀ st : CompilerState, R st { st with next_ptr := st.next_ptr + 1 }
  modules : ∀ (st : CompilerState) ms, R st { st with other_modules := ms }
  pushIndexed : ∀ (st : CompilerState) name symbol,
    symbol.field_index = st.localsSize → R st (st.pushed name symbol)
  pushAlias : ∀ (st : CompilerState) name symbol,
    symbol.is_alias = true → symbol.is_const = false → R st (st.pushed name symbol)
  write : ∀ (st : CompilerState) q e f, (st.levels q.1).locals.get? q.2 = some e →
    ValueOnly f → R st (st.written q e f)
  increase : ∀ (st : CompilerState) type, R st
    { st with
      level := st.level + 1
      levels := Function.update st.levels (st.level + 1) ⟨type, []⟩ }
  decrease : ∀ st : CompilerState, R st
    { st with
      levels := Function.update st.levels st.level ({} : LevelInfo)
      level := st.level - 1 }
  reset : ∀ st : CompilerState, R st
    { st with
      block_id_counter := 0
      level := compiler_global_level
      levels := fun _ => {} }

/-- Run from `st`, the computation `m` returns only in a state related to
`st`. -/
def ObeysAt (R : CompilerState → CompilerState → Prop) {α : Type} (m : Analyzer α)
    (st : CompilerState) : Prop :=
  ∀ a st1, m st = .ok (a, st1) → R st st1

/-- The computation `m` returns only in a state related to the one it was run
from. -/
def Obeys (R : CompilerState → CompilerState → Prop) {α : Type} (m : Analyzer α) : Prop :=
  ∀ st, ObeysAt R m st

/-- The computation `m` leaves the state as it is. -/
def Silent {α : Type} (m : Analyzer α) : Prop :=
  ∀ st a st1, m st = .ok (a, st1) → st1 = st

/-- The symbol is one that `Accept(AstAlias*)` stores: the only symbols with
`is_alias` set and `is_const` clear (an enum member has both set). -/
def Symbol.ofAliasDeclaration (s : Symbol) : Bool :=
  s.is_alias && !s.is_const

/-- Every symbol stored in a level has `field_index` equal to its position in
the locals of that level. -/
def FieldIndexAll (st : CompilerState) : Prop :=
  ∀ l i e, (st.levels l).locals.get? i = some e → e.2.field_index = (i : Int)

/-- Every symbol stored in a level, the symbols of alias declarations apart,
has `field_index` equal to its position in the locals of that level. -/
def FieldIndexOk (st : CompilerState) : Prop :=
  ∀ l i e, (st.levels l).locals.get? i = some e →
    e.2.ofAliasDeclaration = true ∨ e.2.field_index = (i : Int)

/-- The `owner_level` and `field_index` an alias declaration stores for a
target as visited: those of the variable the walk down the target ends in, or
-1 and -1 when it ends in none. -/
def aliasIndex (a : Option AstNode) : Int × Int :=
  match a.bind aliasWalk with
  | some (some p) => p
  | _ => (-1, -1)

/-- The program `let x = 1; alias y = x`. -/
def aliasProgram : AstModule :=
  { ptr := 100, name := "main", location := ⟨0, 0, "main"⟩
    children := [
      some (.var_declaration (hdrAt 1) "x" false (some (.integer (hdrAt 2) 1))),
      some (.alias (hdrAt 3) "y" (some (.variable (hdrAt 4) "x" {})))] }

/-- The later state has the diagnostics of the earlier one, followed by
more. -/
def ErrorsExtend (st st1 : CompilerState) : Prop :=
  ∃ ds, st1.errors = st.errors ++ ds

/-- No use count is lower in the later state. -/
def UseCountsGrow (st st1 : CompilerState) : Prop :=
  ∀ p, st.use_counts p ≤ st1.use_counts p

/-- The state after `IncrementUseCount(ptr)`. -/
def CompilerState.counted (st : CompilerState) (ptr : Option Nat) : CompilerState :=
  { st with use_counts := Function.update st.use_counts ptr (st.use_counts ptr + 1) }

/-- The operator is one of the assignment family: `=`, `+=`, `-=`, `*=`,
`/=`. -/
def BinOp.isAssignment : BinOp → Bool
  | .BinOp_assign | .BinOp_add_assign | .BinOp_subtract_assign | .BinOp_multiply_assign
  | .BinOp_divide_assign => true
  | .BinOp_other _ => false

/-- The state after `const k = 3` at the global level. -/
def stateWithConstK : CompilerState :=
  match Accept plainEnv none (.var_declaration (hdrAt 1) "k" true
      (some (.integer (hdrAt 2) 3))) globalState with
  | .ok r => r.2
  | .error _ => globalState

mutual
/-- The number of variable references and function calls in a tree that carry
the name `name`.  In a program that declares `name` once, at the global level
and before its first use, these are the references and calls that name that
declaration under the scoping rules. -/
def refsIn (name : String) : AstNode → Nat
  | .imports _ children => refsInList name children
  | .import_ _ _ _ _ _ _ unit_children => refsInList name unit_children
  | .statement _ => 0
  | .block _ children => refsInList name children
  | .expression _ child => refsInPtr name child
  | .binop _ _ left right => refsInPtr name left + refsInPtr name right
  | .unop _ child => refsInPtr name child
  | .array_access _ object index => refsInPtr name object + refsInPtr name index
  | .member_access _ _ left right => refsInPtr name left + refsInPtr name right
  | .module_access _ _ right => refsInPtr name right
  | .var_declaration _ _ _ assignment => refsInPtr name assignment
  | .alias _ _ alias_to => refsInPtr name alias_to
  | .use_module _ _ => 0
  | .variable _ n _ => if n = name then 1 else 0
  | .integer _ _ => 0
  | .float _ => 0
  | .string _ _ => 0
  | .true_ _ => 0
  | .false_ _ => 0
  | .null _ => 0
  | .self _ => 0
  | .new _ => 0
  | .function_definition _ _ _ block => refsInPtr name block
  | .function_expression _ _ block => refsInPtr name block
  | .function_call _ n arguments _ => (if n = name then 1 else 0) + refsInList name arguments
  | .class_declaration _ => 0
  | .object_expression _ members => refsInMembers name members
  | .enum _ _ members => refsInMembers name members
  | .print _ arguments => refsInList name arguments
  | .return_ _ value => refsInPtr name value
  | .if_statement _ conditional block else_statement =>
    refsInPtr name conditional + refsInPtr name block + refsInPtr name else_statement
  | .for_loop _ initializer conditional afterthought block =>
    refsInPtr name initializer + refsInPtr name conditional + refsInPtr name afterthought +
      refsInPtr name block
  | .while_loop _ conditional block => refsInPtr name conditional + refsInPtr name block
  | .try_catch _ try_block catch_block exception_object =>
    refsInPtr name try_block + refsInPtr name catch_block + refsInPtr name exception_object
  | .range _ => 0
/-- The references and calls in a possibly null child. -/
def refsInPtr (name : String) : Option AstNode → Nat
  | none => 0
  | some n => refsIn name n
/-- The references and calls in a list of children. -/
def refsInList (name : String) : List (Option AstNode) → Nat
  | [] => 0
  | child :: rest => refsInPtr name child + refsInList name rest
/-- The references and calls in the values of a list of members. -/
def refsInMembers (name : String) : List (String × Option AstNode) → Nat
  | [] => 0
  | member :: rest => refsInPtr name member.2 + refsInMembers name rest
end

/-- The program `let x = 1; g(x)`, in which `g` is not declared. -/
def referenceInUnresolvedCall : AstModule :=
  { ptr := 100, name := "main", location := ⟨0, 0, "main"⟩
    children := [
      some (.var_declaration (hdrAt 1) "x" false (some (.integer (hdrAt 2) 1))),
      some (.function_call (hdrAt 3) "g" [some (.variable (hdrAt 4) "x" {})] {})] }

/-- The use counts after the visit of a variable reference, from the symbol
its name resolves to (`none`: it does not resolve): the count of the symbol's
node raised by one, unless the node is null or the reference is one that
constant folding inlines. -/
def countsAfterReference (env : Collab) (st : CompilerState)
    (found : Option ((Int × Nat) × Symbol)) : Option Nat → Nat :=
  match found with
  | none => st.use_counts
  | some (_, symbol) =>
    match symbol.node with
    | none => st.use_counts
    | some node =>
      if env.optimize_constant_folding && symbol.is_const && symbol.is_literal &&
          symbol.current_value.isSome then st.use_counts
      else (st.counted (some node.ptr)).use_counts

/-! ## The semantic analyzer: leaving a scope -/

/-- The warnings owed for the locals `ls` under the use counts `use_counts`:
one `unused_identifier` warning, in insertion order, for each local whose node
is non-null and whose recorded use count is zero, located at that node and
naming the symbol. -/
def unusedWarnings (use_counts : Option Nat → Nat) (ls : List (String × Symbol)) :
    List Diagnostic :=
  ls.filterMap (fun e =>
    match e.2.node with
    | some node =>
      if use_counts (some node.ptr) = 0 then
        some ⟨.warning, .Msg_unused_identifier, node.location, [e.2.original_name]⟩
      else none
    | none => none)

/-! ## The semantic analyzer: sample programs for assignments, imports and parameters -/

/-- The statement `y = 1`, with `y` as parsed. -/
def assignUndeclared : AstNode :=
  .binop (hdrAt 1) .BinOp_assign (some (.variable (hdrAt 2) "y" {}))
    (some (.integer (hdrAt 3) 1))

/-- The block `{ y = 1; let z = 2 }`. -/
def assignUndeclaredThenLet : AstNode :=
  .block (hdrAt 10) [some assignUndeclared,
    some (.var_declaration (hdrAt 4) "z" false (some (.integer (hdrAt 5) 2)))]

/-- The import of `lib/m`, a file that opens and parses to the module `m`
whose one top-level child is `let w = 1`. -/
def importM : AstNode :=
  .import_ (hdrAt 20) "lib/" "m" true ⟨500, "m"⟩ []
    [some (.var_declaration (hdrAt 21) "w" false (some (.integer (hdrAt 22) 1)))]

/-- The import of `other/m`: another path, whose file also parses to a module
named `m`. -/
def importOtherM : AstNode :=
  .import_ (hdrAt 30) "other/" "m" true ⟨501, "m"⟩ []
    [some (.var_declaration (hdrAt 31) "v" false (some (.integer (hdrAt 32) 1)))]

/-- The import of `lib/missing`, a file that does not open (nothing is parsed;
the members for the parsed unit are not read). -/
def importMissing : AstNode :=
  .import_ (hdrAt 40) "lib/" "missing" false ⟨0, ""⟩ [] []

/-- The state at the start of an analysis once `lib/m` is registered. -/
def stateWithM : CompilerState :=
  { globalState with other_modules := [("lib/m", ⟨500, "m"⟩)] }

/-- The state inside a function body entered from the global level of a fresh
analysis. -/
def functionLevelState : CompilerState :=
  { globalState with
    level := 1
    levels := fun l =>
      if l = 0 then { type := .Level_global }
      else if l = 1 then { type := .Level_function }
      else {} }

/-- The function expression `func (a) { }`. -/
def unusedParameterExpression : AstNode :=
  .function_expression (hdrAt 1) ["a"] (some (.block (hdrAt 2) []))

/-- The function definition `func f(a) { }`. -/
def unusedParameterDefinition : AstNode :=
  .function_definition (hdrAt 1) "f" ["a"] (some (.block (hdrAt 2) []))

/-- The function definition `func g() { return 1; ; }`: a return followed by a
no-op statement. -/
def functionReturnThenNoop : AstNode :=
  .function_definition (hdrAt 1) "g" [] (some (.block (hdrAt 2) [
    some (.return_ (hdrAt 3) (some (.integer (hdrAt 4) 1))),
    some (.statement (hdrAt 5))]))

/-- The function expression `func () { ; }`: a body of one no-op statement. -/
def expressionOfNoop : AstNode :=
  .function_expression (hdrAt 1) [] (some (.block (hdrAt 2) [some (.statement (hdrAt 3))]))

/-- The node is a return statement whose value is a null literal, both at
`location`: what `new AstReturnStmt(location, module, new AstNull(location,
module))` builds. -/
def isReturnNull (location : SourceLocation) : AstNode → Bool
  | .return_ rh (some (.null vh)) => rh.location = location && vh.location = location
  | _ => false

/-! ## The semantic analyzer: what a scope leaves behind -/

/-- The scope pattern of the visitors, `IncreaseBlock(type); ...;
DecreaseBlock();` around the computation `m`. -/
def inScope {α : Type} (type : LevelType) (m : Analyzer α) : Analyzer α := do
  IncreaseBlock type
  let a ← m
  DecreaseBlock
  pure a

/-- Between a state and a later one at the same level: every level below the
current one holds the same names in the same order, and the current level
holds the names it held followed by new ones. -/
def Stable (st st1 : CompilerState) : Prop :=
  st1.level = st.level ∧
    (∀ l, l < st.level → (st1.levels l).names = (st.levels l).names) ∧
    ∃ added, (st1.levels st.level).names = (st.levels st.level).names ++ added

/-- Between a state inside a pushed scope and a later one with that scope
popped: one level down, every level below the new current one holds the same
names, and the new current level holds the names it held followed by new
ones. -/
def Descends (st st1 : CompilerState) : Prop :=
  st1.level = st.level - 1 ∧
    (∀ l, l < st.level - 1 → (st1.levels l).names = (st.levels l).names) ∧
    ∃ added, (st1.levels (st.level - 1)).names = (st.levels (st.level - 1)).names ++ added

/-- A pair of relations the analyzer respects scope by scope: `B` holds across
every state change made at one level and across a scope that is pushed and
popped again, `D` from inside a pushed scope to after its pop. -/
structure Scoped (B D : CompilerState → CompilerState → Prop) : Prop where
  refl : ∀ st, B st st
  trans : ∀ a b c, B a b → B b c → B a c
  into : ∀ a b c, B a b → D b c → D a c
  out : ∀ a b c, D a b → B b c → D a c
  errors : ∀ (st : CompilerState) ds, B st { st with errors := st.errors ++ ds }
  useCount : ∀ (st : CompilerState) p,
    B st { st with use_counts := Function.update st.use_counts p (st.use_counts p + 1) }
  nextPtr : ∀ st : CompilerState, B st { st with next_ptr := st.next_ptr + 1 }
  modules : ∀ (st : CompilerState) ms, B st { st with other_modules := ms }
  push : ∀ (st : CompilerState) name symbol, B st (st.pushed name symbol)
  write : ∀ (st : CompilerState) q e f, (st.levels q.1).locals.get? q.2 = some e →
    ValueOnly f → B st (st.written q e f)
  enter : ∀ (st : CompilerState) type s2,
    D { st with
        level := st.level + 1
        levels := Function.update st.levels (st.level + 1) ⟨type, []⟩ } s2 → B st s2
  leave : ∀ st : CompilerState, D st
    { st with
      levels := Function.update st.levels st.level ({} : LevelInfo)
      level := st.level - 1 }

/-- What the visitors run between `IncreaseBlock` and `DecreaseBlock`: the
visit of a block (the branches of an if statement, the body of a loop, a try
block), the visits of the exception object and of the catch block, and the
parameter loop followed by the visit of the body of a function. -/
inductive ScopeBody (env : Collab) : {α : Type} → Analyzer α → Prop
  | block (p : Option AstNode) : ScopeBody env (AcceptPtr env p)
  | catchBlock (exception_object catch_block : Option AstNode) :
      ScopeBody env (AcceptPtr env exception_object >>= fun e =>
        AcceptPtr env catch_block >>= fun c => pure (e, c))
  | function (module : Option ModuleRef) (node : Option NodeRef) (arguments : List String)
      (block : Option AstNode) :
      ScopeBody env (declareParams env module node arguments >>= fun _ => AcceptBody env block)

/-- The statements `if (c) { let x = 1 } else { x }` and `x`, with `c` declared
before them. -/
def ifThenElseProgram : AstModule :=
  { ptr := 100, name := "main", location := ⟨0, 0, "main"⟩
    children := [
      some (.var_declaration (hdrAt 1) "c" false (some (.integer (hdrAt 2) 1))),
      some (.if_statement (hdrAt 3) (some (.variable (hdrAt 4) "c" {}))
        (some (.block (hdrAt 5) [some (.var_declaration (hdrAt 6) "x" false
          (some (.integer (hdrAt 7) 1)))]))
        (some (.block (hdrAt 8) [some (.variable (hdrAt 9) "x" {})]))),
      some (.variable (hdrAt 10) "x" {})] }

/-! ## Use counts: the references a program holds under the scoping rules

The use counts the analyzer records are compared with a second definition: the
number of variable references and function calls that resolve to a
declaration, counted by a walk over the program that follows the rules of the
specification for scopes, lookup and the declaration forms.  The walk keeps of
a symbol only what those rules speak of, and it keeps no use counts, no
diagnostics and no annotations of the tree. -/

/-- What the scoping rules keep of a symbol: the mangled name it is stored
under, the identity of its declaring node (`none`: the symbol has a null
node), and whether a variable reference to it is inlined when constant folding
is enabled: the symbol is const, literal and has a known current value.  An
assignment updates the value of a symbol that is not const and of no other, so
no assignment changes what is kept. -/
structure Binding where
  name : String
  node : Option Nat
  inlined : Bool
  deriving DecidableEq, Repr

/-- The scope stack and the module registry as the scoping rules see them:
the current level, the bindings of every level in insertion order, and the
registered modules by import path. -/
structure Scopes where
  level : Int := 0
  levels : Int → List Binding := fun _ => []
  modules : List (String × ModuleRef) := []

/-- The binding of a symbol stored under the mangled name `name`. -/
def Symbol.binding (name : String) (s : Symbol) : Binding :=
  { name := name
    node := s.node.map (fun n => n.ptr)
    inlined := s.is_const && s.is_literal && s.current_value.isSome }

/-- The scope stack and the module registry of a state of the analyzer. -/
def CompilerState.scopes (st : CompilerState) : Scopes :=
  { level := st.level
    levels := fun l => (st.levels l).locals.map (fun e => e.2.binding e.1)
    modules := st.other_modules }

/-- The collaborators of the scoping rules: the mangling function ("built
from the original identifier, the owning module's identity, and the current
scope level"), the lookup of a known module name, the flag that enables
constant folding, and the folding of a right-hand side. -/
structure Rules where
  mangle : Scopes → String → Option ModuleRef → String
  findModule : Scopes → String → Option ModuleRef → Option ModuleRef
  folding : Bool
  fold : AstNode → Option AstNode

/-- The collaborators of the analyzer are those of the rules: mangling and
module lookup read of the state no more than the scope stack and the module
registry. -/
structure Follows (env : Collab) (R : Rules) : Prop where
  mangle : ∀ st name m, env.MakeVariableName st name m = R.mangle st.scopes name m
  findModule : ∀ st name m, env.FindModule st name m = R.findModule st.scopes name m
  folding : env.optimize_constant_folding = R.folding
  fold : ∀ n, env.Optimize n = R.fold n

/-- The first binding of a level with the name `name`: "the search is linear
in each level". -/
def findBinding (name : String) : List Binding → Option Binding
  | [] => none
  | b :: rest => if b.name = name then some b else findBinding name rest

/-- The lookup from level `start` with `n` levels left down to the global
level. -/
def Scopes.findFrom (sc : Scopes) (name : String) (only_this_scope : Bool) :
    Nat → Int → Option Binding
  | 0, _ => none
  | n + 1, start =>
    match findBinding name (sc.levels start) with
    | some b => some b
    | none => if only_this_scope then none else sc.findFrom name only_this_scope n (start - 1)

/-- The lookup of a mangled name: it "walks from the current level downward
toward the global level, returning the first matching symbol.  With
`only_this_scope = true`, only the current level is searched". -/
def Scopes.find (sc : Scopes) (name : String) (only_this_scope : Bool) : Option Binding :=
  sc.findFrom name only_this_scope (sc.level - compiler_global_level + 1).toNat sc.level

/-- A declaration: the binding is inserted at the end of the current level. -/
def Scopes.declare (sc : Scopes) (b : Binding) : Scopes :=
  { sc with levels := Function.update sc.levels sc.level (sc.levels sc.level ++ [b]) }

/-- A scope is pushed: a fresh level at `++level`. -/
def Scopes.enter (sc : Scopes) : Scopes :=
  { sc with
    level := sc.level + 1
    levels := Function.update sc.levels (sc.level + 1) [] }

/-- The scope is popped: its level is cleared and `level` decremented. -/
def Scopes.leave (sc : Scopes) : Scopes :=
  { sc with
    levels := Function.update sc.levels sc.level []
    level := sc.level - 1 }

/-- A module unit is inserted in the registry under its import path. -/
def Scopes.register (sc : Scopes) (key : String) (unit : ModuleRef) : Scopes :=
  let present : Bool := sc.modules.any (fun e => e.1 == key)
  let updated : List (String × ModuleRef) :=
    if present then sc.modules.map (fun e => if e.1 == key then (key, unit) else e)
    else sc.modules ++ [(key, unit)]
  { sc with modules := updated }

/-- The right-hand side of a declaration with "a single expression layer"
unwrapped. -/
def unwrapped (value : AstNode) : Option AstNode :=
  match value with
  | .expression _ child => child
  | n => some n

/-- The literal classification of a declaration: "if the right-hand side,
after unwrapping a single expression layer and optionally after
constant-folding (when enabled), is an integer, float, or string literal, the
symbol is marked literal; otherwise not". -/
def Rules.literal (R : Rules) (value : AstNode) : Bool :=
  match unwrapped value with
  | none => false
  | some rs =>
    if R.folding then
      match R.fold rs with
      | some opt => isLiteralType opt.type
      | none => isLiteralType rs.type
    else isLiteralType rs.type

/-- A walk over a part of the program: from the scopes it is entered with, the
scopes it leaves and the number of references to the declaration counted that
it holds. -/
abbrev Walk := Scopes → Scopes × Nat

/-- The walk over a part that declares nothing and holds no reference. -/
def Walk.skip : Walk := fun sc => (sc, 0)

/-- One part after another: the second is walked with the scopes the first
leaves, and the references add up. -/
def Walk.andThen (w1 w2 : Walk) : Walk := fun sc =>
  ((w2 (w1 sc).1).1, (w1 sc).2 + (w2 (w1 sc).1).2)

/-- A part inside a scope of its own: the scope is pushed before the part and
popped after it. -/
def Walk.inScope (w : Walk) : Walk := fun sc =>
  ((w sc.enter).1.leave, (w sc.enter).2)

/-- One when a reference that resolves to a symbol with the node `node` is a
reference to the declaration `d`, zero otherwise. -/
def hit (d node : Option Nat) : Nat :=
  if node = d then 1 else 0

/-- Variable reference: "resolve by mangled name.  Increment the declaring
node's use count unless all of {constant-folding enabled, is_const,
is_literal, current_value non-null} hold".  A name that does not resolve is no
reference to any declaration, and a symbol with a null node has no declaring
node. -/
def walkVariable (R : Rules) (d : Option Nat) (h : AstHdr) (name : String) : Walk := fun sc =>
  match sc.find (R.mangle sc name h.module) false with
  | some b =>
    match b.node with
    | none => (sc, 0)
    | some p => if R.folding && b.inlined then (sc, 0) else (sc, hit d (some p))
  | none => (sc, 0)

/-- Function call: "resolve the callee by mangled name; on success, ...
increment the callee's AST use count; analyze arguments in reverse source
order".  When the callee does not resolve the arguments are not analyzed. -/
def walkFunctionCall (R : Rules) (d : Option Nat) (h : AstHdr) (name : String)
    (walkArguments : Walk) : Walk := fun sc =>
  match sc.find (R.mangle sc name h.module) false with
  | some b => ((walkArguments sc).1, hit d b.node + (walkArguments sc).2)
  | none => (sc, 0)

/-- Import: "if the path is already present, no action; otherwise the file is
read, lexed, parsed, and -- only if no registered module has the same declared
name -- inserted and analyzed".  An import outside the global level is
reported and carried out all the same (semantic.cpp 201-203). -/
def walkImport (path : String) (is_open : Bool) (unit : ModuleRef) (walkUnit : Walk) :
    Walk := fun sc =>
  if sc.modules.any (fun e => e.1 == path) then (sc, 0)
  else if !is_open then (sc, 0)
  else if sc.modules.any (fun e => e.2.name == unit.name) then (sc, 0)
  else walkUnit (sc.register path unit)

/-- Member access `a.b`: "if `a` is a known module name in the current module
scope, treat `b` as a reference inside that module's namespace (set `b.module
= found_module`, then visit `b`).  Otherwise analyze `a`"; of `b` only a
further member access is analyzed, a variable or call there names a member. -/
def walkMemberAccess (R : Rules) (h : AstHdr) (left_str : String) (right : Option AstNode)
    (walkLeft : Walk) (walkRight : Option ModuleRef → Walk) : Walk := fun sc =>
  match R.findModule sc left_str h.module with
  | some found_module => walkRight (some found_module) sc
  | none =>
    walkLeft.andThen
      (if typeOf right = some .Ast_type_member_access then walkRight none else Walk.skip) sc

/-- Module access: the explicit module-qualified form "searches the registry
by declared name"; the right side is analyzed inside the module found. -/
def walkModuleAccess (module_name : String) (walkRight : Option ModuleRef → Walk) :
    Walk := fun sc =>
  match sc.modules.find? (fun e => e.2.name == module_name) with
  | some e => walkRight (some e.2) sc
  | none => (sc, 0)

/-- Variable declaration: "if already present in the current level or
shadowing a module name, an error is emitted.  Otherwise a Symbol is inserted"
-- before the right-hand side is analyzed. -/
def walkVariableDeclaration (R : Rules) (h : AstHdr) (name : String) (is_const : Bool)
    (assignment : Option AstNode) (walkAssignment : Walk) : Walk := fun sc =>
  if (sc.find (R.mangle sc name h.module) true).isSome then (sc, 0)
  else if (R.findModule sc name h.module).isSome then (sc, 0)
  else
    match assignment with
    | none => (sc, 0)
    | some value =>
      walkAssignment (sc.declare
        { name := R.mangle sc name h.module
          node := some h.ptr
          inlined := is_const && R.literal value })

/-- Alias declaration: it "binds a name to a target AST sub-tree"; the target
is analyzed, and the symbol inserted has the target as its node (semantic.cpp
464), so a reference to the alias counts for the node of the target. -/
def walkAlias (R : Rules) (h : AstHdr) (name : String) (alias_to : Option AstNode)
    (walkAliasTo : Walk) : Walk := fun sc =>
  if (sc.find (R.mangle sc name h.module) true).isSome then (sc, 0)
  else if (R.findModule sc name h.module).isSome then (sc, 0)
  else
    let r := walkAliasTo sc
    (r.1.declare
      { name := R.mangle sc name h.module
        node := alias_to.map (fun n => n.hdr.ptr)
        inlined := false },
     r.2)

/-- The parameters of a function: "each named parameter becomes a Symbol" of
the function scope, with the node `node`. -/
def walkParams (R : Rules) (module : Option ModuleRef) (node : Option Nat) :
    List String → Walk
  | [] => Walk.skip
  | param :: rest => fun sc =>
    walkParams R module node rest
      (sc.declare { name := R.mangle sc param module, node := node, inlined := false })

/-- Function definition: "mangle, check for redeclaration.  If the function
does not bear the `inline` attribute, a symbol for it is inserted at the
enclosing level before entering the body. ...  A new function-kind scope is
pushed; each named parameter becomes a Symbol with null AST node; the body is
analyzed; the scope is popped.  If the function is `inline`, the symbol is
registered only after body analysis".  A definition that is rejected, or whose
body is not a block, has no body analyzed. -/
def walkFunctionDefinition (R : Rules) (h : AstHdr) (name : String) (arguments : List String)
    (block : Option AstNode) (walkBody : Walk) : Walk := fun sc =>
  if (sc.find (R.mangle sc name h.module) true).isSome then (sc, 0)
  else if (R.findModule sc name h.module).isSome then (sc, 0)
  else
    let own : Binding :=
      { name := R.mangle sc name h.module, node := some h.ptr, inlined := false }
    let sc1 : Scopes := if !h.HasAttribute "inline" then sc.declare own else sc
    if typeOf block = some .Ast_type_block then
      let r := ((walkParams R h.module none arguments).andThen walkBody).inScope sc1
      (if h.HasAttribute "inline" then r.1.declare own else r.1, r.2)
    else (sc1, 0)

/-- Function expression: the function scope, the parameters and the body of a
function definition, with no symbol for the function.  The symbol of a
parameter has the function expression as its node (semantic.cpp 743), not
the null node of the parameters of a definition. -/
def walkFunctionExpression (R : Rules) (h : AstHdr) (arguments : List String)
    (block : Option AstNode) (walkBody : Walk) : Walk :=
  if typeOf block = some .Ast_type_block then
    ((walkParams R h.module (some h.ptr) arguments).andThen walkBody).inScope
  else Walk.skip

/-- Enum: "each enum member is declared at the current scope as a Symbol ...
pointing to the member's AST node", under the checks of a declaration.  The
values of the members are not analyzed (semantic.cpp 804-820). -/
def walkEnumMembers (R : Rules) : List (String × Option AstNode) → Walk
  | [] => Walk.skip
  | (first, second) :: rest => fun sc =>
    match second with
    | none => (sc, 0)
    | some member =>
      walkEnumMembers R rest
        (if (sc.find (R.mangle sc first member.hdr.module) true).isSome then sc
         else if (R.findModule sc first member.hdr.module).isSome then sc
         else sc.declare
           { name := R.mangle sc first member.hdr.module
             node := some member.hdr.ptr
             inlined := false })

/-- If statement: it "analyzes the condition in the current scope, then the
then-branch and else-branch each inside a fresh condition-kind scope". -/
def walkIfStmt (else_statement : Option AstNode) (walkConditional walkBlock walkElse : Walk) :
    Walk :=
  walkConditional.andThen
    (walkBlock.inScope.andThen (if else_statement.isSome then walkElse.inScope else Walk.skip))

/-- For loop: the "sub-expressions in the enclosing scope and the body inside
a loop-kind scope"; the afterthought is analyzed after the body. -/
def walkForLoop (walkInitializer walkConditional walkAfterthought walkBlock : Walk) : Walk :=
  walkInitializer.andThen (walkConditional.andThen (walkBlock.inScope.andThen walkAfterthought))

/-- While loop: the condition in the enclosing scope, the body inside a
loop-kind scope. -/
def walkWhileLoop (walkConditional walkBlock : Walk) : Walk :=
  walkConditional.andThen walkBlock.inScope

/-- Try/catch: it "analyzes each block in a default-kind scope"; the exception
object is analyzed in the scope of the catch block, before the block. -/
def walkTryCatch (walkTry walkCatch walkException : Walk) : Walk :=
  walkTry.inScope.andThen (walkException.andThen walkCatch).inScope

mutual
/-- The walk over a node: the scopes it leaves and the number of variable
references and function calls in it that resolve to the declaration `d`.  `ov`
is the module the node has just been placed in by a member or module access,
if it has. -/
def walkNode (R : Rules) (d : Option Nat) (ov : Option ModuleRef) : AstNode → Walk
  | .imports _ children => walkChildren R d children
  | .import_ _ relative_path import_str is_open unit _ unit_children =>
    walkImport (relative_path ++ import_str) is_open unit (walkChildren R d unit_children)
  | .statement _ => Walk.skip
  | .block _ children => walkChildren R d children
  | .expression _ child => walkPtr R d child
  | .binop _ _ left right =>
    -- an assignment updates the value of a symbol that is not const: no binding changes
    (walkPtr R d left).andThen (walkPtr R d right)
  | .unop _ child => walkPtr R d child
  | .array_access _ object index => (walkPtr R d object).andThen (walkPtr R d index)
  | .member_access h left_str left right =>
    walkMemberAccess R (h.withModule ov) left_str right (walkPtr R d left)
      (fun m => walkDeref R d m right)
  | .module_access _ module_name right =>
    walkModuleAccess module_name (fun m => walkDeref R d m right)
  | .var_declaration h name is_const assignment =>
    walkVariableDeclaration R (h.withModule ov) name is_const assignment (walkPtr R d assignment)
  | .alias h name alias_to =>
    walkAlias R (h.withModule ov) name alias_to (walkPtr R d alias_to)
  | .use_module _ _ => Walk.skip
  | .variable h name _ => walkVariable R d (h.withModule ov) name
  | .integer _ _ => Walk.skip
  | .float _ => Walk.skip
  | .string _ _ => Walk.skip
  | .true_ _ => Walk.skip
  | .false_ _ => Walk.skip
  | .null _ => Walk.skip
  | .self _ => Walk.skip
  | .new _ => Walk.skip
  | .function_definition h name arguments block =>
    walkFunctionDefinition R (h.withModule ov) name arguments block (walkBody R d block)
  | .function_expression h arguments block =>
    walkFunctionExpression R (h.withModule ov) arguments block (walkBody R d block)
  | .function_call h name arguments _ =>
    walkFunctionCall R d (h.withModule ov) name (walkArgsRev R d arguments)
  | .class_declaration _ => Walk.skip
  | .object_expression _ members => walkMembers R d members
  | .enum _ _ members => walkEnumMembers R members
  | .print _ arguments => walkChildren R d arguments
  | .return_ _ value => walkPtr R d value
  | .if_statement _ conditional block else_statement =>
    walkIfStmt else_statement (walkPtr R d conditional) (walkPtr R d block)
      (walkPtr R d else_statement)
  | .for_loop _ initializer conditional afterthought block =>
    walkForLoop (walkPtr R d initializer) (walkPtr R d conditional) (walkPtr R d afterthought)
      (walkPtr R d block)
  | .while_loop _ conditional block =>
    walkWhileLoop (walkPtr R d conditional) (walkPtr R d block)
  | .try_catch _ try_block catch_block exception_object =>
    walkTryCatch (walkPtr R d try_block) (walkPtr R d catch_block)
      (walkPtr R d exception_object)
  | .range _ => Walk.skip
/-- The walk over a possibly absent child. -/
def walkPtr (R : Rules) (d : Option Nat) : Option AstNode → Walk
  | none => Walk.skip
  | some n => walkNode R d none n
/-- The walk over the right side of a member or module access, placed in the
module `m`. -/
def walkDeref (R : Rules) (d : Option Nat) (m : Option ModuleRef) : Option AstNode → Walk
  | none => Walk.skip
  | some n => walkNode R d m n
/-- The walk over a sequence of children, in source order. -/
def walkChildren (R : Rules) (d : Option Nat) : List (Option AstNode) → Walk
  | [] => Walk.skip
  | child :: rest => (walkPtr R d child).andThen (walkChildren R d rest)
/-- The walk over the arguments of a call, "in reverse source order". -/
def walkArgsRev (R : Rules) (d : Option Nat) : List (Option AstNode) → Walk
  | [] => Walk.skip
  | arg :: rest => (walkArgsRev R d rest).andThen (walkPtr R d arg)
/-- The walk over the values of the members of an object expression. -/
def walkMembers (R : Rules) (d : Option Nat) : List (String × Option AstNode) → Walk
  | [] => Walk.skip
  | member :: rest => (walkPtr R d member.2).andThen (walkMembers R d rest)
/-- The walk over the body of a function: the statements of its block. -/
def walkBody (R : Rules) (d : Option Nat) : Option AstNode → Walk
  | some (.block _ children) => walkChildren R d children
  | _ => Walk.skip
end

/-- The number of variable references and function calls in the top-level
children of a program that resolve, under the scoping rules, to a symbol whose
node is the declaration `d`, the program being analyzed from the scopes `sc`. -/
def references (R : Rules) (d : Option Nat) (children : List (Option AstNode))
    (sc : Scopes) : Nat :=
  (walkChildren R d children sc).2

mutual
/-- The tree is as the parser built it: no variable node carries a pointer to
a symbol yet.  The pointer an assignment writes through is then the one the
visit of its left operand has stored. -/
def unanalysed : AstNode → Bool
  | .imports _ children => unanalysedList children
  | .import_ _ _ _ _ _ _ unit_children => unanalysedList unit_children
  | .statement _ => true
  | .block _ children => unanalysedList children
  | .expression _ child => unanalysedPtr child
  | .binop _ _ left right => unanalysedPtr left && unanalysedPtr right
  | .unop _ child => unanalysedPtr child
  | .array_access _ object index => unanalysedPtr object && unanalysedPtr index
  | .member_access _ _ left right => unanalysedPtr left && unanalysedPtr right
  | .module_access _ _ right => unanalysedPtr right
  | .var_declaration _ _ _ assignment => unanalysedPtr assignment
  | .alias _ _ alias_to => unanalysedPtr alias_to
  | .use_module _ _ => true
  | .variable _ _ info => info.symbol_ptr.isNone
  | .integer _ _ => true
  | .float _ => true
  | .string _ _ => true
  | .true_ _ => true
  | .false_ _ => true
  | .null _ => true
  | .self _ => true
  | .new _ => true
  | .function_definition _ _ _ block => unanalysedPtr block
  | .function_expression _ _ block => unanalysedPtr block
  | .function_call _ _ arguments _ => unanalysedList arguments
  | .class_declaration _ => true
  | .object_expression _ members => unanalysedMembers members
  | .enum _ _ _ => true
  | .print _ arguments => unanalysedList arguments
  | .return_ _ value => unanalysedPtr value
  | .if_statement _ conditional block else_statement =>
    unanalysedPtr conditional && (unanalysedPtr block && unanalysedPtr else_statement)
  | .for_loop _ initializer conditional afterthought block =>
    unanalysedPtr initializer && (unanalysedPtr conditional &&
      (unanalysedPtr afterthought && unanalysedPtr block))
  | .while_loop _ conditional block => unanalysedPtr conditional && unanalysedPtr block
  | .try_catch _ try_block catch_block exception_object =>
    unanalysedPtr try_block && (unanalysedPtr catch_block && unanalysedPtr exception_object)
  | .range _ => true
/-- A possibly absent child is as the parser built it. -/
def unanalysedPtr : Option AstNode → Bool
  | none => true
  | some n => unanalysed n
/-- A sequence of children is as the parser built it. -/
def unanalysedList : List (Option AstNode) → Bool
  | [] => true
  | child :: rest => unanalysedPtr child && unanalysedList rest
/-- The values of a sequence of members are as the parser built them. -/
def unanalysedMembers : List (String × Option AstNode) → Bool
  | [] => true
  | member :: rest => unanalysedPtr member.2 && unanalysedMembers rest
end

/-- Run from `st`, the computation returns only in a state whose scopes are
`r.1` and in which the use count of `d` has grown by `r.2`. -/
def TracksAt (d : Option Nat) {α : Type} (m : Analyzer α) (st : CompilerState)
    (r : Scopes × Nat) : Prop :=
  ∀ a st1, m st = .ok (a, st1) → st1.scopes = r.1 ∧ st1.use_counts d = st.use_counts d + r.2

/-- The computation does to the scopes what the walk `w` does, and raises the
use count of `d` by the number of references `w` counts. -/
def Tracks (d : Option Nat) {α : Type} (m : Analyzer α) (w : Walk) : Prop :=
  ∀ st, TracksAt d m st (w st.scopes)

/-- The computation changes neither the scopes nor a use count. -/
def Quiet {α : Type} (m : Analyzer α) : Prop :=
  ∀ st a st1, m st = .ok (a, st1) → st1.scopes = st.scopes ∧ st1.use_counts = st.use_counts

/-- Between an earlier and a later state at the same level: every symbol of a
level up to the current one is still at its position, const as it was. -/
def ConstKept (st st1 : CompilerState) : Prop :=
  st1.level = st.level ∧
    ∀ l, l ≤ st.level → ∀ i e, (st.levels l).locals.get? i = some e →
      ∃ e1, (st1.levels l).locals.get? i = some e1 ∧ e1.2.is_const = e.2.is_const

/-- Between a state inside a pushed scope and a later one with that scope
popped: every symbol of a level below the popped one is still at its position,
const as it was. -/
def ConstKeptBelow (st st1 : CompilerState) : Prop :=
  st1.level = st.level - 1 ∧
    ∀ l, l ≤ st.level - 1 → ∀ i e, (st.levels l).locals.get? i = some e →
      ∃ e1, (st1.levels l).locals.get? i = some e1 ∧ e1.2.is_const = e.2.is_const

/-- The visit of the left operand of an assignment leaves a variable that is
not const with no symbol pointer, or with a pointer to a symbol of a level up
to the current one that is not const. -/
def LeftResolved (l : Option AstNode) (st1 : CompilerState) : Prop :=
  ∀ vh name info, l = some (.variable vh name info) → info.is_const = false →
    info.symbol_ptr = none ∨
      ∃ q e, info.symbol_ptr = some q ∧ q.1 ≤ st1.level ∧
        (st1.levels q.1).locals.get? q.2 = some e ∧ e.2.is_const = false

/-- Rules for the samples: names are not mangled, a module is found when a
registered module has that name, nothing is folded. -/
def plainRules : Rules :=
  { mangle := fun _ name _ => name
    findModule := fun sc name _ =>
      (sc.modules.find? (fun e => e.2.name == name)).map Prod.snd
    folding := false
    fold := fun _ => none }

/-- Collaborators for the samples with constant folding enabled: names are not
mangled, no name is a module, and folding yields nothing. -/
def foldingEnv : Collab :=
  { MakeVariableName := fun _ name _ => name
    FindModule := fun _ _ _ => none
    Optimize := fun _ => none
    optimize_constant_folding := true }

/-- The rules of `foldingEnv`. -/
def foldingRules : Rules :=
  { mangle := fun _ name _ => name
    findModule := fun _ _ _ => none
    folding := true
    fold := fun _ => none }

/-- The program
`let x = 1; func f(a) { return x + a }; f(x); if (x) { let x = 2; x }; g(x)`,
in which `g` is not declared. -/
def referencesProgram : AstModule :=
  { ptr := 100, name := "main", location := ⟨0, 0, "main"⟩
    children := [
      some (.var_declaration (hdrAt 1) "x" false (some (.integer (hdrAt 2) 1))),
      some (.function_definition (hdrAt 3) "f" ["a"] (some (.block (hdrAt 4) [
        some (.return_ (hdrAt 5) (some (.binop (hdrAt 6) (.BinOp_other 0)
          (some (.variable (hdrAt 7) "x" {})) (some (.variable (hdrAt 8) "a" {})))))]))),
      some (.function_call (hdrAt 9) "f" [some (.variable (hdrAt 10) "x" {})] {}),
      some (.if_statement (hdrAt 11) (some (.variable (hdrAt 12) "x" {}))
        (some (.block (hdrAt 13) [
          some (.var_declaration (hdrAt 14) "x" false (some (.integer (hdrAt 15) 2))),
          some (.variable (hdrAt 16) "x" {})]))
        none),
      some (.function_call (hdrAt 17) "g" [some (.variable (hdrAt 18) "x" {})] {})] }

/-- The program `let x = 1; x`. -/
def letThenUse : AstModule :=
  { ptr := 100, name := "main", location := ⟨0, 0, "main"⟩
    children := [
      some (.var_declaration (hdrAt 1) "x" false (some (.integer (hdrAt 2) 1))),
      some (.variable (hdrAt 3) "x" {})] }

/-- The program `let x = 1; let x = x`, whose second declaration is rejected
as a redeclaration. -/
def referenceInRedeclaration : AstModule :=
  { ptr := 100, name := "main", location := ⟨0, 0, "main"⟩
    children := [
      some (.var_declaration (hdrAt 1) "x" false (some (.integer (hdrAt 2) 1))),
      some (.var_declaration (hdrAt 3) "x" false (some (.variable (hdrAt 4) "x" {})))] }

/-- The program `let x = 1; enum E { A = x }`. -/
def referenceInEnumMember : AstModule :=
  { ptr := 100, name := "main", location := ⟨0, 0, "main"⟩
    children := [
      some (.var_declaration (hdrAt 1) "x" false (some (.integer (hdrAt 2) 1))),
      some (.enum (hdrAt 3) "E" [("A", some (.variable (hdrAt 4) "x" {}))])] }

/-- The program `let x = 1; alias y = x; y`. -/
def aliasThenUse : AstModule :=
  { ptr := 100, name := "main", location := ⟨0, 0, "main"⟩
    children := [
      some (.var_declaration (hdrAt 1) "x" false (some (.integer (hdrAt 2) 1))),
      some (.alias (hdrAt 3) "y" (some (.variable (hdrAt 4) "x" {}))),
      some (.variable (hdrAt 5) "y" {})] }

/-- The program `const k = 3; let x = 1; k; x; x = k`. -/
def constantProgram : AstModule :=
  { ptr := 100, name := "main", location := ⟨0, 0, "main"⟩
    children := [
      some (.var_declaration (hdrAt 1) "k" true (some (.integer (hdrAt 2) 3))),
      some (.var_declaration (hdrAt 3) "x" false (some (.integer (hdrAt 4) 1))),
      some (.variable (hdrAt 5) "k" {}),
      some (.variable (hdrAt 6) "x" {}),
      some (.binop (hdrAt 7) .BinOp_assign (some (.variable (hdrAt 8) "x" {}))
        (some (.variable (hdrAt 9) "k" {})))] }


/-! ## Lemmas on the slot list -/

theorem hd_append (K R : List Addr) (d : Option Addr) : hd (K ++ R) d = hd K (hd R d) := by
  cases K <;> rfl

theorem lst_append_cons (K : List Addr) (x : Addr) (R : List Addr) (d : Option Addr) :
    lst (K ++ x :: R) d = lst R (some x) := by
  induction K generalizing d with
  | nil => rfl
  | cons y K ih => simpa [lst] using ih (some y)

theorem lst_mem (K : List Addr) (d : Option Addr) (a : Addr) (h : lst K d = some a) :
    a ∈ K ∨ d = some a := by
  induction K generalizing d with
  | nil => exact Or.inr h
  | cons y K ih =>
    rcases ih (some y) h with h1 | h1
    · exact Or.inl (List.mem_cons_of_mem _ h1)
    · left; simp only [Option.some.injEq] at h1; simp [h1]

theorem hd_eq_head? (L : List Addr) : hd L none = L.head? := by
  cases L <;> rfl

/-- A chain only depends on the links of its own nodes. -/
theorem chain_links {mem mem1 : Addr → Option HeapObject} (L : List Addr) :
    ∀ (aft bef : Option Addr),
    (∀ y ∈ L, ∀ s, mem y = some s →
      ∃ s1, mem1 y = some s1 ∧ s1.before = s.before ∧ s1.after = s.after) →
    Chain mem aft L bef → Chain mem1 aft L bef := by
  induction L with
  | nil => intro _ _ _ _; trivial
  | cons x xs ih =>
    intro aft bef hl hc
    obtain ⟨s, hs, ha, hb, hr⟩ := hc
    obtain ⟨s1, hs1, hb1, ha1⟩ := hl x (List.mem_cons_self _ _) s hs
    exact ⟨s1, hs1, ha1.trans ha, hb1.trans hb,
      ih _ _ (fun y hy => hl y (List.mem_cons_of_mem _ hy)) hr⟩

theorem chain_congr {mem mem1 : Addr → Option HeapObject} (L : List Addr)
    (aft bef : Option Addr) (hl : ∀ y ∈ L, mem1 y = mem y)
    (hc : Chain mem aft L bef) : Chain mem1 aft L bef :=
  chain_links L aft bef (fun y hy s hs => ⟨s, (hl y hy).trans hs, rfl, rfl⟩) hc

theorem chain_append {mem : Addr → Option HeapObject} (K R : List Addr) :
    ∀ (aft bef : Option Addr),
    Chain mem aft (K ++ R) bef ↔ Chain mem aft K (hd R bef) ∧ Chain mem (lst K aft) R bef := by
  induction K with
  | nil => intro aft bef; simp [Chain, lst]
  | cons x K ih =>
    intro aft bef
    show (∃ s, mem x = some s ∧ s.after = aft ∧ s.before = hd (K ++ R) bef ∧
        Chain mem (some x) (K ++ R) bef) ↔
      (∃ s, mem x = some s ∧ s.after = aft ∧ s.before = hd K (hd R bef) ∧
        Chain mem (some x) K (hd R bef)) ∧ Chain mem (lst K (some x)) R bef
    rw [hd_append, ih]
    constructor
    · rintro ⟨s, h1, h2, h3, h4, h5⟩; exact ⟨⟨s, h1, h2, h3, h4⟩, h5⟩
    · rintro ⟨⟨s, h1, h2, h3, h4⟩, h5⟩; exact ⟨s, h1, h2, h3, h4, h5⟩

/-- Every node of a chain is live. -/
theorem chain_live {mem : Addr → Option HeapObject} (L : List Addr) :
    ∀ (aft bef : Option Addr), Chain mem aft L bef → ∀ y ∈ L, ∃ s, mem y = some s := by
  induction L with
  | nil => intro _ _ _ y hy; cases hy
  | cons x xs ih =>
    intro aft bef hc y hy
    obtain ⟨s, hs, -, -, hr⟩ := hc
    rcases List.mem_cons.1 hy with rfl | hy
    · exact ⟨s, hs⟩
    · exact ih _ _ hr y hy

/-- Redirect the `after` link of the first node of a chain. -/
theorem chain_set_after {mem : Addr → Option HeapObject} (b : Addr) (R : List Addr)
    (aft aft1 bef : Option Addr) (s : HeapObject) (hn : (b :: R).Nodup)
    (hs : mem b = some s) (hc : Chain mem aft (b :: R) bef) :
    Chain (Function.update mem b (some { s with after := aft1 })) aft1 (b :: R) bef := by
  obtain ⟨s0, hs0, -, hb, hr⟩ := hc
  rw [hs] at hs0; cases hs0
  refine ⟨_, Function.update_same _ _ _, rfl, hb, ?_⟩
  refine chain_congr R _ _ (fun y hy => Function.update_noteq ?_ _ _) hr
  rintro rfl; exact (List.nodup_cons.1 hn).1 hy

/-- Redirect the `before` link of the last node of a chain. -/
theorem chain_set_before {mem : Addr → Option HeapObject} (K : List Addr) :
    ∀ (aft bef bef1 : Option Addr) (a : Addr) (s : HeapObject), K.Nodup → K ≠ [] →
    lst K none = some a → mem a = some s → Chain mem aft K bef →
    Chain (Function.update mem a (some { s with before := bef1 })) aft K bef1 := by
  induction K with
  | nil => intro _ _ _ _ _ _ h; exact absurd rfl h
  | cons x K ih =>
    intro aft bef bef1 a s hn _ hl hs hc
    obtain ⟨s0, hs0, ha, hb, hr⟩ := hc
    cases K with
    | nil =>
      simp only [lst, Option.some.injEq] at hl; subst hl
      rw [hs] at hs0; cases hs0
      exact ⟨_, Function.update_same _ _ _, ha, rfl, trivial⟩
    | cons y K =>
      have hl1 : lst (y :: K) none = some a := by simpa [lst] using hl
      have hax : a ≠ x := by
        rintro rfl
        rcases lst_mem (y :: K) none a hl1 with h1 | h1
        · exact (List.nodup_cons.1 hn).1 h1
        · cases h1
      refine ⟨s0, ?_, ha, hb, ih _ _ _ a s (List.nodup_cons.1 hn).2 (by simp) hl1 hs hr⟩
      rw [Function.update_noteq (Ne.symm hax)]; exact hs0


theorem keepAt_of_payload {h h1 : Heap} {a : Addr} (hp : h1.payload a = h.payload a) :
    h1.keepAt a = h.keepAt a := by
  unfold Heap.payload at hp
  unfold Heap.keepAt
  cases h1a : h1.mem a <;> cases ha : h.mem a <;> simp [h1a, ha] at hp ⊢
  simp [HeapObject.keep, hp.2]

theorem isList_split {h : Heap} {K R : List Addr} {x : Addr} (hl : h.IsList (K ++ x :: R)) :
    ∃ s, h.mem x = some s ∧ s.after = lst K none ∧ s.before = hd R none ∧
      Chain h.mem none K (some x) ∧ Chain h.mem (some x) R none := by
  obtain ⟨hK, s, hs, ha, hb, hR⟩ := (chain_append K (x :: R) none none).1 hl.chain
  exact ⟨s, hs, ha, hb, hK, hR⟩

theorem nodup_mid {K R : List Addr} {x : Addr} (hn : (K ++ x :: R).Nodup) :
    x ∉ K ∧ x ∉ R ∧ (K ++ R).Nodup ∧ R.Nodup ∧ K.Nodup ∧ ∀ y ∈ K, y ∉ R := by
  have h1 := List.nodup_append.1 hn
  have h2 := List.nodup_cons.1 h1.2.1
  refine ⟨fun hx => h1.2.2 hx (List.mem_cons_self _ _), h2.1, ?_, h2.2, h1.1, ?_⟩
  · exact List.nodup_append.2 ⟨h1.1, h2.2, fun a ha hb => h1.2.2 ha (List.mem_cons_of_mem _ hb)⟩
  · exact fun y hy hr => h1.2.2 hy (List.mem_cons_of_mem _ hr)

theorem lst_some_of_ne_nil (K : List Addr) (d : Option Addr) (hK : K ≠ []) :
    ∃ a, lst K d = some a ∧ a ∈ K ∧ lst K none = some a := by
  induction K generalizing d with
  | nil => exact absurd rfl hK
  | cons y K ih =>
    cases K with
    | nil => exact ⟨y, rfl, List.mem_cons_self _ _, rfl⟩
    | cons z K =>
      obtain ⟨a, h1, h2, h3⟩ := ih (some y) (by simp)
      refine ⟨a, h1, List.mem_cons_of_mem _ h2, ?_⟩
      simpa [lst] using h1

theorem lst_nil_iff (K : List Addr) (h : lst K none = none) : K = [] := by
  cases K with
  | nil => rfl
  | cons y K =>
    obtain ⟨a, h1, -, -⟩ := lst_some_of_ne_nil (y :: K) none (by simp)
    rw [h] at h1; cases h1

/-- One pass through the label `deleteholder`: when it does not fault, the
node had a predecessor, the node is unlinked and deleted, the list stays well
formed and no other node's id or object changes. -/
theorem deleteholder_spec {h h1 : Heap} {K R : List Addr} {x : Addr} {s : HeapObject}
    {next : Option Addr} (hl : h.IsList (K ++ x :: R)) (hs : h.mem x = some s)
    (hd1 : h.deleteholder x s = .ok (h1, next)) :
    R ≠ [] ∧ next = hd R none ∧ h1.IsList (K ++ R) ∧ h1.num_objects = h.num_objects - 1 ∧
      h1.brk = h.brk ∧ h1.mem x = none ∧ (∀ a, a ≠ x → h1.payload a = h.payload a) ∧
      (∀ a, a ∉ K ++ x :: R → h1.mem a = h.mem a) := by
  obtain ⟨s0, hs0, haft, hbef, hK, hR⟩ := isList_split hl
  rw [hs] at hs0; cases hs0
  obtain ⟨hxK, hxR, hnKR, hnR, hnK, hdisj⟩ := nodup_mid hl.nodup
  cases R with
  | nil =>
    -- no predecessor: both branches fault
    simp only [hd] at hbef
    unfold Heap.deleteholder at hd1
    rw [hbef] at hd1
    cases hsa : s.after <;> simp [hsa] at hd1
  | cons b R =>
    simp only [hd] at hbef
    obtain ⟨sb, hsb, hsba, hsbb, hR1⟩ := hR
    have hbx : b ≠ x := by rintro rfl; exact hxR (List.mem_cons_self _ _)
    have hbK : b ∉ K := fun hb => hdisj b hb (List.mem_cons_self _ _)
    unfold Heap.deleteholder at hd1
    rw [hbef] at hd1
    cases hsa : s.after with
    | none =>
      have hK0 : K = [] := lst_nil_iff K (haft ▸ hsa)
      subst hK0
      simp only [hsa, hsb, Heap.write, Heap.free, Except.ok.injEq, Prod.mk.injEq] at hd1
      obtain ⟨rfl, rfl⟩ := hd1
      refine ⟨by simp, rfl, ⟨hnKR, rfl, ?_⟩, rfl, rfl, by simp [Function.update_same], ?_, ?_⟩
      · have c1 := chain_set_after b R (some x) none none sb hnR hsb ⟨sb, hsb, hsba, hsbb, hR1⟩
        refine chain_congr _ _ _ (fun y hy => ?_) c1
        have : y ≠ x := by rintro rfl; exact hxR hy
        simp [Function.update_noteq this]
      · intro a hax
        simp only [Heap.payload, Function.update_noteq hax]
        by_cases hab : a = b
        · subst hab; simp [hsb]
        · simp [Function.update_noteq hab]
      · intro a ha
        simp only [List.nil_append, List.mem_cons, not_or] at ha
        simp [Function.update_noteq ha.1, Function.update_noteq ha.2.1]
    | some a =>
      have hKne : K ≠ [] := by
        rintro rfl; simp [lst] at haft; rw [haft] at hsa; cases hsa
      obtain ⟨a1, -, haK, hla⟩ := lst_some_of_ne_nil K none hKne
      have haa : a1 = a := by rw [haft, hla] at hsa; exact Option.some.inj hsa
      subst haa
      have hab : a1 ≠ b := by rintro rfl; exact hbK haK
      have hax : a1 ≠ x := by rintro rfl; exact hxK haK
      obtain ⟨sa, hsa1⟩ := chain_live K _ _ hK a1 haK
      simp only [hsa, hsb, Heap.write, Heap.free, Function.update_noteq hab, hsa1,
        Except.ok.injEq, Prod.mk.injEq] at hd1
      obtain ⟨rfl, rfl⟩ := hd1
      refine ⟨by simp, rfl, ⟨hnKR, ?_, ?_⟩, rfl, rfl, by simp [Function.update_same], ?_, ?_⟩
      · show h.head = _
        rw [hl.head_eq]; cases K with
        | nil => exact absurd rfl hKne
        | cons k K => rfl
      · refine (chain_append K (b :: R) none none).2 ⟨?_, ?_⟩
        · show Chain _ none K (some b)
          have c0 : Chain (Function.update h.mem b (some { sb with after := some a1 })) none K
              (some x) :=
            chain_congr _ _ _ (fun y hy => Function.update_noteq (by rintro rfl; exact hbK hy) _ _) hK
          have c1 := chain_set_before K none (some x) (some b) a1 sa hnK hKne hla
            (by rw [Function.update_noteq hab]; exact hsa1) c0
          refine chain_congr _ _ _ (fun y hy => ?_) c1
          have : y ≠ x := by rintro rfl; exact hxK hy
          simp [Function.update_noteq this]
        · rw [hla]
          have c1 := chain_set_after b R (some x) (some a1) none sb hnR hsb
            ⟨sb, hsb, hsba, hsbb, hR1⟩
          refine chain_congr _ _ _ (fun y hy => ?_) c1
          have h1 : y ≠ x := by rintro rfl; exact hxR hy
          have h2 : y ≠ a1 := by rintro rfl; exact hdisj _ haK hy
          simp [Function.update_noteq h1, Function.update_noteq h2]
      · intro c hcx
        simp only [Heap.payload, Function.update_noteq hcx]
        by_cases hca : c = a1
        · subst hca; simp [Function.update_same, hsa1]
        · rw [Function.update_noteq hca]
          by_cases hcb : c = b
          · subst hcb; simp [hsb]
          · simp [Function.update_noteq hcb]
      · intro c hc
        simp only [List.mem_append, List.mem_cons, not_or] at hc
        have hca : c ≠ a1 := by rintro rfl; exact hc.1 haK
        simp [Function.update_noteq hc.2.1, Function.update_noteq hca,
          Function.update_noteq hc.2.2.1]


theorem sweepLoop_none (fuel : Nat) (h : Heap) : h.sweepLoop fuel none = .ok h := by
  cases fuel <;> rfl

theorem payload_write_ne {h : Heap} {x a : Addr} (s : HeapObject) (hne : a ≠ x) :
    (h.write x s).payload a = h.payload a := by
  simp [Heap.payload, Heap.write, Function.update_noteq hne]

theorem isList_write {h : Heap} {L : List Addr} {x : Addr} {s s1 : HeapObject}
    (hl : h.IsList L) (hs : h.mem x = some s) (hb : s1.before = s.before)
    (ha : s1.after = s.after) : (h.write x s1).IsList L := by
  refine ⟨hl.nodup, hl.head_eq, chain_links L _ _ (fun y _ t ht => ?_) hl.chain⟩
  by_cases hyx : y = x
  · subst hyx
    rw [hs] at ht; cases ht
    exact ⟨s1, by simp [Heap.write], hb, ha⟩
  · exact ⟨t, by simpa [Heap.write, Function.update_noteq hyx] using ht, rfl, rfl⟩

theorem filter_keepAt_congr {h h1 : Heap} (R : List Addr)
    (hp : ∀ a ∈ R, h1.payload a = h.payload a) : R.filter h1.keepAt = R.filter h.keepAt :=
  List.filter_congr (fun a ha => keepAt_of_payload (hp a ha))

/-- The loop of `Heap::Sweep` from a cursor inside a well-formed list: `K` are
the nodes between `head` and the cursor, `R` the nodes from the cursor back to
the oldest.  When the loop completes, the nodes of `R` that do not hold a
marked object are unlinked and deleted, the others stay in order with their
mark cleared, and `num_objects` has been lowered once per unlinked node. -/
theorem sweepLoop_spec (R : List Addr) : ∀ (fuel : Nat) (h h1 : Heap) (K : List Addr),
    h.IsList (K ++ R) → R.length ≤ h.num_objects →
    h.sweepLoop fuel (hd R none) = .ok h1 →
    h1.IsList (K ++ R.filter h.keepAt) ∧
    h1.num_objects + R.length = h.num_objects + (R.filter h.keepAt).length ∧
    h1.brk = h.brk ∧
    (∀ a, a ∉ R → h1.payload a = h.payload a) ∧
    (∀ a, a ∉ K ++ R → h1.mem a = h.mem a) ∧
    (∀ a ∈ R, h.keepAt a = false → h1.mem a = none) ∧
    (∀ a ∈ R, h.keepAt a = true → ∃ s o, h.mem a = some s ∧ s.obj = some o ∧
      h1.payload a = some (s.id, some o.clearMarked)) := by
  induction R with
  | nil =>
    intro fuel h h1 K hl _ hrun
    rw [hd, sweepLoop_none] at hrun
    cases hrun
    simpa using hl
  | cons x R ih =>
    intro fuel h h1 K hl hlen hrun
    obtain ⟨s, hs, -, hbef, -, -⟩ := isList_split hl
    obtain ⟨hxK, hxR, -, -, -, -⟩ := nodup_mid hl.nodup
    -- what follows a pass through `deleteholder` from a heap `h0` that differs
    -- from `h` only in the object of `x`
    have del : ∀ (h0 : Heap) (s0 : HeapObject), h0.IsList (K ++ x :: R) → h0.mem x = some s0 →
        h0.num_objects = h.num_objects → h0.brk = h.brk →
        (∀ a, a ≠ x → h0.mem a = h.mem a) → h.keepAt x = false →
        ∀ fuel, (match h0.deleteholder x s0 with
          | .error e => .error e
          | .ok (h2, next) => Heap.sweepLoop fuel h2 next) = Except.ok h1 →
        h1.IsList (K ++ (x :: R).filter h.keepAt) ∧
        h1.num_objects + (x :: R).length = h.num_objects + ((x :: R).filter h.keepAt).length ∧
        h1.brk = h.brk ∧
        (∀ a, a ∉ x :: R → h1.payload a = h.payload a) ∧
        (∀ a, a ∉ K ++ x :: R → h1.mem a = h.mem a) ∧
        (∀ a ∈ x :: R, h.keepAt a = false → h1.mem a = none) ∧
        (∀ a ∈ x :: R, h.keepAt a = true → ∃ s o, h.mem a = some s ∧ s.obj = some o ∧
          h1.payload a = some (s.id, some o.clearMarked)) := by
      intro h0 s0 hl0 hs0 hnum hbrk hsame hkx fuel hrun
      cases hdh : h0.deleteholder x s0 with
      | error e => rw [hdh] at hrun; cases hrun
      | ok r =>
        obtain ⟨h2, next⟩ := r
        rw [hdh] at hrun
        obtain ⟨-, hnext, hl2, hnum2, hbrk2, hx2, hpay2, hmem2⟩ := deleteholder_spec hl0 hs0 hdh
        subst hnext
        have hlen2 : R.length ≤ h2.num_objects := by
          rw [hnum2, hnum]; simp only [List.length_cons] at hlen; omega
        obtain ⟨i1, i2, i3, i4, i5, i6, i7⟩ := ih fuel h2 h1 K hl2 hlen2 hrun
        have hpay : ∀ a, a ≠ x → h2.payload a = h.payload a := by
          intro a ha
          rw [hpay2 a ha]; simp [Heap.payload, hsame a ha]
        have hfil : R.filter h2.keepAt = R.filter h.keepAt :=
          filter_keepAt_congr R (fun a ha => hpay a (by rintro rfl; exact hxR ha))
        have hkeep : ∀ a ∈ R, h2.keepAt a = h.keepAt a := fun a ha =>
          keepAt_of_payload (hpay a (by rintro rfl; exact hxR ha))
        rw [hfil] at i1 i2
        have hfx : (x :: R).filter h.keepAt = R.filter h.keepAt := by
          simp [List.filter_cons, hkx]
        rw [hfx]
        refine ⟨i1, ?_, i3.trans (hbrk2.trans hbrk), ?_, ?_, ?_, ?_⟩
        · simp only [List.length_cons] at hlen ⊢
          rw [hnum2, hnum] at i2; omega
        · intro a ha
          simp only [List.mem_cons, not_or] at ha
          rw [i4 a ha.2, hpay a ha.1]
        · intro a ha
          have ha1 : a ∉ K ++ R := by
            simp only [List.mem_append, List.mem_cons, not_or] at ha ⊢
            exact ⟨ha.1, ha.2.2⟩
          have hax : a ≠ x := by
            simp only [List.mem_append, List.mem_cons, not_or] at ha
            exact ha.2.1
          rw [i5 a ha1, hmem2 a ha, hsame a hax]
        · intro a ha hka
          rcases List.mem_cons.1 ha with rfl | ha
          · have hxKR : a ∉ K ++ R := by
              simp only [List.mem_append, not_or]; exact ⟨hxK, hxR⟩
            rw [i5 a hxKR, hx2]
          · exact i6 a ha (by rw [hkeep a ha, hka])
        · intro a ha hka
          rcases List.mem_cons.1 ha with rfl | ha1
          · rw [hkx] at hka; cases hka
          · obtain ⟨t, o, ht, hto, hp⟩ := i7 a ha1 (by rw [hkeep a ha1, hka])
            have hax : a ≠ x := by rintro rfl; exact hxR ha1
            have ht2 : h2.payload a = some (t.id, t.obj) := by simp [Heap.payload, ht]
            rw [hpay a hax] at ht2
            simp only [Heap.payload] at ht2
            cases hha : h.mem a with
            | none => rw [hha] at ht2; cases ht2
            | some t0 =>
              rw [hha] at ht2
              simp only [Option.map_some', Option.some.injEq, Prod.mk.injEq] at ht2
              exact ⟨t0, o, rfl, by rw [ht2.2, hto], by rw [hp, ht2.1]⟩
    cases fuel with
    | zero => cases hrun
    | succ fuel =>
      simp only [hd, Heap.sweepLoop, hs] at hrun
      cases hso : s.obj with
      | none =>
        rw [hso] at hrun
        have hkx : h.keepAt x = false := by simp [Heap.keepAt, hs, HeapObject.keep, hso]
        exact del h s hl hs rfl rfl (fun _ _ => rfl) hkx fuel hrun
      | some o =>
        rw [hso] at hrun
        by_cases hm : o.isMarked = true
        · simp only [hm, Bool.not_true, Bool.false_eq_true, ↓reduceIte] at hrun
          have hkx : h.keepAt x = true := by simp [Heap.keepAt, hs, HeapObject.keep, hso, hm]
          have hl1 : (h.write x { s with obj := some o.clearMarked }).IsList ((K ++ [x]) ++ R) := by
            rw [List.append_assoc]; exact isList_write hl hs rfl rfl
          have hrun1 : (h.write x { s with obj := some o.clearMarked }).sweepLoop fuel
              (hd R none) = .ok h1 := by rw [← hbef]; exact hrun
          have hlen1 : R.length ≤ (h.write x { s with obj := some o.clearMarked }).num_objects := by
            simp only [List.length_cons] at hlen; show R.length ≤ h.num_objects; omega
          obtain ⟨i1, i2, i3, i4, i5, i6, i7⟩ := ih fuel _ h1 (K ++ [x]) hl1 hlen1 hrun1
          have hpay : ∀ a, a ≠ x →
              (h.write x { s with obj := some o.clearMarked }).payload a = h.payload a :=
            fun a ha => payload_write_ne _ ha
          have hfil := filter_keepAt_congr (h := h) R
            (fun a ha => hpay a (by rintro rfl; exact hxR ha))
          have hkeep : ∀ a ∈ R,
              (h.write x { s with obj := some o.clearMarked }).keepAt a = h.keepAt a :=
            fun a ha => keepAt_of_payload (hpay a (by rintro rfl; exact hxR ha))
          rw [hfil] at i1 i2
          have hfx : (x :: R).filter h.keepAt = x :: R.filter h.keepAt := by
            simp [List.filter_cons, hkx]
          rw [hfx]
          refine ⟨by simpa [List.append_assoc] using i1, ?_, i3, ?_, ?_, ?_, ?_⟩
          · simp only [List.length_cons] at hlen ⊢
            have : (h.write x { s with obj := some o.clearMarked }).num_objects = h.num_objects := rfl
            rw [this] at i2; omega
          · intro a ha
            simp only [List.mem_cons, not_or] at ha
            rw [i4 a ha.2, hpay a ha.1]
          · intro a ha
            have ha1 : a ∉ (K ++ [x]) ++ R := by simpa [List.append_assoc] using ha
            have hax : a ≠ x := by
              simp only [List.mem_append, List.mem_cons, not_or] at ha
              exact ha.2.1
            rw [i5 a ha1]; simp [Heap.write, Function.update_noteq hax]
          · intro a ha hka
            rcases List.mem_cons.1 ha with rfl | ha
            · rw [hkx] at hka; cases hka
            · exact i6 a ha (by rw [hkeep a ha, hka])
          · intro a ha hka
            rcases List.mem_cons.1 ha with rfl | ha1
            · refine ⟨s, o, hs, hso, ?_⟩
              rw [i4 a hxR]; simp [Heap.payload, Heap.write]
            · obtain ⟨t, o1, ht, hto, hp⟩ := i7 a ha1 (by rw [hkeep a ha1, hka])
              have hax : a ≠ x := by rintro rfl; exact hxR ha1
              refine ⟨t, o1, ?_, hto, hp⟩
              simpa [Heap.write, Function.update_noteq hax] using ht
        · have hm1 : o.isMarked = false := by simpa using hm
          simp only [hm1, Bool.not_false, ↓reduceIte] at hrun
          have hkx : h.keepAt x = false := by simp [Heap.keepAt, hs, HeapObject.keep, hso, hm1]
          refine del (h.write x { s with obj := none }) { s with obj := none }
            (isList_write hl hs rfl rfl) (by simp [Heap.write]) rfl rfl
            (fun a ha => by simp [Heap.write, Function.update_noteq ha]) hkx fuel hrun


/-! ### `AllocNull`, stores and the walk of the list -/

theorem isList_live {h : Heap} {L : List Addr} (hl : h.IsList L) :
    ∀ y ∈ L, ∃ s, h.mem y = some s :=
  chain_live L _ _ hl.chain

/-- The effect of `Heap::AllocNull` on the free store, node by node. -/
theorem allocNull_mem (h : Heap) (hfresh : h.mem h.brk = none) :
    h.AllocNull.2 = h.brk ∧
    h.AllocNull.1.mem h.brk =
      some { id := h.num_objects, obj := none, before := h.head, after := none } ∧
    h.AllocNull.1.head = some h.brk ∧
    h.AllocNull.1.num_objects = h.num_objects + 1 ∧
    h.AllocNull.1.brk = h.brk + 1 ∧
    (∀ a s, h.head = some a → h.mem a = some s →
      h.AllocNull.1.mem a = some { s with after := some h.brk }) ∧
    (∀ a, a ≠ h.brk → h.head ≠ some a → h.AllocNull.1.mem a = h.mem a) := by
  cases hhd : h.head with
  | none =>
    refine ⟨rfl, ?_, ?_, ?_, ?_, ?_, ?_⟩
    · simp [Heap.AllocNull, Heap.write, hhd]
    · simp [Heap.AllocNull, Heap.write, hhd]
    · simp [Heap.AllocNull, Heap.write, hhd]
    · simp [Heap.AllocNull, Heap.write, hhd]
    · intro a s hh; cases hh
    · intro a hab _
      simp [Heap.AllocNull, Heap.write, hhd, Function.update_noteq hab]
  | some y =>
    cases hy : h.mem y with
    | none =>
      refine ⟨rfl, ?_, ?_, ?_, ?_, ?_, ?_⟩
      · simp [Heap.AllocNull, Heap.write, hhd, hy]
      · simp [Heap.AllocNull, Heap.write, hhd, hy]
      · simp [Heap.AllocNull, Heap.write, hhd, hy]
      · simp [Heap.AllocNull, Heap.write, hhd, hy]
      · intro a s hh hs
        cases hh; rw [hy] at hs; cases hs
      · intro a hab _
        simp [Heap.AllocNull, Heap.write, hhd, hy, Function.update_noteq hab]
    | some t =>
      have hyb : y ≠ h.brk := by rintro rfl; rw [hfresh] at hy; cases hy
      refine ⟨rfl, ?_, ?_, ?_, ?_, ?_, ?_⟩
      · simp [Heap.AllocNull, Heap.write, hhd, hy]
      · simp [Heap.AllocNull, Heap.write, hhd, hy]
      · simp [Heap.AllocNull, Heap.write, hhd, hy]
      · simp [Heap.AllocNull, Heap.write, hhd, hy]
      · intro a s hh hs
        cases hh; rw [hy] at hs; cases hs
        simp [Heap.AllocNull, Heap.write, hhd, hy, Function.update_noteq hyb]
      · intro a hab hh
        have hay : a ≠ y := by rintro rfl; exact hh rfl
        simp [Heap.AllocNull, Heap.write, hhd, hy, Function.update_noteq hab,
          Function.update_noteq hay]

theorem allocNull_isList {h : Heap} {L : List Addr} (hl : h.IsList L)
    (hfresh : h.mem h.brk = none) : h.AllocNull.1.IsList (h.brk :: L) := by
  obtain ⟨-, hnew, hhead, -, -, hold, hother⟩ := allocNull_mem h hfresh
  have hbL : h.brk ∉ L := by
    intro hb
    obtain ⟨s, hs⟩ := isList_live hl _ hb
    rw [hfresh] at hs; cases hs
  refine ⟨List.nodup_cons.2 ⟨hbL, hl.nodup⟩, hhead, ?_⟩
  refine ⟨_, hnew, rfl, ?_, ?_⟩
  · show h.head = hd L none
    rw [hl.head_eq, hd_eq_head?]
  · cases L with
    | nil => trivial
    | cons y L =>
      obtain ⟨s, hs, hsa, hsb, hr⟩ := hl.chain
      have hhy : h.head = some y := hl.head_eq
      have c1 := chain_set_after y L none (some h.brk) none s hl.nodup hs ⟨s, hs, hsa, hsb, hr⟩
      refine chain_links _ _ _ (fun z hz t ht => ⟨t, ?_, rfl, rfl⟩) c1
      by_cases hzy : z = y
      · subst hzy
        rw [Function.update_same] at ht
        rw [hold z s hhy hs]; exact ht
      · rw [Function.update_noteq hzy] at ht
        have hzb : z ≠ h.brk := by rintro rfl; exact hbL hz
        rw [hother z hzb (by rw [hhy]; intro e; exact hzy (Option.some.inj e).symm)]
        exact ht

theorem store_isList {h : Heap} {L : List Addr} (a : Addr) (o : Option Object)
    (hl : h.IsList L) : (h.store a o).IsList L := by
  unfold Heap.store
  cases ha : h.mem a with
  | none => exact hl
  | some s => exact isList_write hl ha rfl rfl

theorem walk_chain (mem : Addr → Option HeapObject) (L : List Addr) :
    ∀ (fuel : Nat) (aft : Option Addr), Chain mem aft L none → L.length ≤ fuel →
    walk mem fuel (hd L none) = L := by
  induction L with
  | nil => intro fuel aft _ _; cases fuel <;> rfl
  | cons x L ih =>
    intro fuel aft hc hlen
    obtain ⟨s, hs, -, hb, hr⟩ := hc
    cases fuel with
    | zero => simp at hlen
    | succ fuel =>
      show walk mem (fuel + 1) (some x) = x :: L
      simp only [walk, hs, hb]
      rw [ih fuel (some x) hr (by simpa using hlen)]

theorem length_le_of_lt (L : List Nat) (n : Nat) (hn : L.Nodup) (hlt : ∀ x ∈ L, x < n) :
    L.length ≤ n := by
  have h1 : L.toFinset ⊆ Finset.range n := by
    intro x hx
    exact Finset.mem_range.2 (hlt x (List.mem_toFinset.1 hx))
  have h2 := Finset.card_le_card h1
  rwa [List.toFinset_card_of_nodup hn, Finset.card_range] at h2

theorem inv_slots {h : Heap} {L : List Addr} (hi : h.Inv L) : h.slots = L := by
  have hlen : L.length ≤ h.brk := by
    refine length_le_of_lt L h.brk hi.isList.nodup (fun x hx => ?_)
    by_contra hge
    obtain ⟨s, hs⟩ := isList_live hi.isList x hx
    rw [hi.fresh x (Nat.le_of_not_lt hge)] at hs; cases hs
  unfold Heap.slots
  rw [hi.isList.head_eq, ← hd_eq_head?]
  exact walk_chain _ L _ none hi.isList.chain hlen

theorem inv_empty : Heap.empty.Inv [] :=
  ⟨⟨List.nodup_nil, rfl, trivial⟩, rfl, fun _ _ => rfl⟩

theorem inv_alloc {h : Heap} {L : List Addr} (hi : h.Inv L) : h.AllocNull.1.Inv (h.brk :: L) := by
  have hf := hi.fresh h.brk (Nat.le_refl _)
  obtain ⟨-, -, -, hnum, hbrk, -, hother⟩ := allocNull_mem h hf
  refine ⟨allocNull_isList hi.isList hf, by rw [hnum, hi.count]; rfl, fun a ha => ?_⟩
  rw [hbrk] at ha
  have hlt : h.brk < a := Nat.lt_of_succ_le ha
  have h1 : a ≠ h.brk := Nat.ne_of_gt hlt
  have h2 : h.head ≠ some a := by
    intro hh
    cases L with
    | nil => rw [hi.isList.head_eq] at hh; cases hh
    | cons y L =>
      have : some y = some a := by rw [← hh]; exact hi.isList.head_eq.symm
      cases this
      obtain ⟨s, hs⟩ := isList_live hi.isList a (List.mem_cons_self _ _)
      rw [hi.fresh a (Nat.le_of_lt hlt)] at hs; cases hs
  rw [hother a h1 h2]; exact hi.fresh a (Nat.le_of_lt hlt)

theorem store_brk (h : Heap) (a : Addr) (o : Option Object) : (h.store a o).brk = h.brk := by
  unfold Heap.store; cases h.mem a <;> rfl

theorem store_num_objects (h : Heap) (a : Addr) (o : Option Object) :
    (h.store a o).num_objects = h.num_objects := by
  unfold Heap.store; cases h.mem a <;> rfl

theorem inv_store {h : Heap} {L : List Addr} (a : Addr) (o : Option Object) (hi : h.Inv L) :
    (h.store a o).Inv L := by
  refine ⟨store_isList a o hi.isList, ?_, ?_⟩
  · rw [store_num_objects]; exact hi.count
  · intro b hb
    rw [store_brk] at hb
    unfold Heap.store
    cases ha : h.mem a with
    | none => exact hi.fresh b hb
    | some s =>
      have hba : b ≠ a := by
        rintro rfl; rw [hi.fresh b hb] at ha; cases ha
      simpa [Heap.write, Function.update_noteq hba] using hi.fresh b hb

theorem inv_sweep {h h1 : Heap} {L : List Addr} {fuel : Nat} (hi : h.Inv L)
    (hrun : h.Sweep fuel = .ok h1) : h1.Inv (L.filter h.keepAt) := by
  have hrun1 : h.sweepLoop fuel (hd L none) = .ok h1 := by
    rw [hd_eq_head?, ← hi.isList.head_eq]; exact hrun
  obtain ⟨i1, i2, i3, -, i5, i6, -⟩ :=
    sweepLoop_spec L fuel h h1 [] (by simpa using hi.isList) (by rw [hi.count]) hrun1
  refine ⟨by simpa using i1, ?_, fun a ha => ?_⟩
  · have := hi.count; omega
  · rw [i3] at ha
    have haL : a ∉ [] ++ L := by
      intro hm
      obtain ⟨s, hs⟩ := isList_live hi.isList a (by simpa using hm)
      rw [hi.fresh a ha] at hs; cases hs
    rw [i5 a haL]; exact hi.fresh a ha

theorem reach_inv {h : Heap} (hr : h.Reach) : ∃ L, h.Inv L := by
  induction hr with
  | empty => exact ⟨[], inv_empty⟩
  | alloc _ ih => obtain ⟨L, hi⟩ := ih; exact ⟨_, inv_alloc hi⟩
  | store a o _ ih => obtain ⟨L, hi⟩ := ih; exact ⟨L, inv_store a o hi⟩
  | sweep fuel _ hrun ih => obtain ⟨L, hi⟩ := ih; exact ⟨_, inv_sweep hi hrun⟩

/-! ## The heap: claims -/

/-- C1 (the code departs from it): mark from the root set and sweep on a
well-formed heap of two objects, the newer one the only root.  The older
object is unreachable and must be deleted and its node unlinked; `Heap::Sweep`
reaches it, finds its predecessor pointer null and writes through it. -/
theorem collect_faults_on_unreachable_oldest :
    heapGarbageOldest.IsList [1, 0] ∧
      ∀ fuel, heapGarbageOldest.collect (fuel + 2) [⟨some 1⟩] = .error .nullDeref :=
  ⟨⟨by decide, rfl, ⟨_, rfl, rfl, rfl, ⟨_, rfl, rfl, rfl, trivial⟩⟩⟩, fun _ => rfl⟩

/-- C2 (the code departs from it): three objects A, B, C with A referencing B
and C isolated, roots `{A}`.  Allocated in the order C, A, B the collection
faults on a null predecessor when it unlinks C, the oldest node; allocated in
the order A, B, C it leaves A and B in the list and `num_objects = 2`. -/
theorem collect_three_objects_order :
    (∀ fuel, heapCAB.collect (fuel + 3) [⟨some 1⟩] = .error .nullDeref) ∧
      ∃ h1, heapABC.collect 5 [⟨some 0⟩] = .ok h1 ∧ h1.num_objects = 2 ∧ h1.slots = [1, 0] ∧
        h1.mem 2 = none ∧ h1.IsList [1, 0] :=
  ⟨fun _ => rfl, _, rfl, rfl, rfl, rfl,
    ⟨by decide, rfl, ⟨_, rfl, rfl, rfl, ⟨_, rfl, rfl, rfl, trivial⟩⟩⟩⟩

/-- C3 (the code departs from it): after a single allocation, the first
`Sweep` with nothing marked does not complete: the one node is the head and
has no predecessor, and `deleteholder` writes through the null predecessor. -/
theorem sweep_faults_after_one_alloc :
    ∀ fuel, heapOne.Sweep (fuel + 1) = .error .nullDeref :=
  fun _ => rfl

/-- C4 (the code departs from it): a well-formed list of two nodes, the newer
holding a marked object and the older an unmarked one.  `Sweep` has to unlink
the older node, which has a successor and no predecessor; it writes
`before->after` through the null predecessor, so there is no list after it. -/
theorem sweep_faults_on_unmarked_oldest :
    heapUnmarkedOldest.IsList [1, 0] ∧
      ∀ fuel, heapUnmarkedOldest.Sweep (fuel + 2) = .error .nullDeref :=
  ⟨⟨by decide, rfl, ⟨_, rfl, rfl, rfl, ⟨_, rfl, rfl, rfl, trivial⟩⟩⟩, fun _ => rfl⟩

theorem filter_not_mem_filter (L : List Addr) (p : Addr → Bool) :
    L.filter (fun a => decide (a ∉ L.filter p)) = L.filter (fun a => !p a) := by
  refine List.filter_congr (fun a ha => ?_)
  by_cases hp : p a = true
  · simp [List.mem_filter, ha, hp]
  · simp [List.mem_filter, ha, hp]

theorem length_filter_add (L : List Addr) (p : Addr → Bool) :
    (L.filter p).length + (L.filter (fun a => !p a)).length = L.length := by
  induction L with
  | nil => rfl
  | cons x L ih =>
    by_cases hp : p x = true
    · simp [List.filter_cons, hp]; omega
    · simp [List.filter_cons, hp]; omega

/-- C5: in every heap reached from the empty heap by `AllocNull` calls, stores
and completed `Sweep`s, `num_objects` is the number of nodes in the slot list;
a `Sweep` that completes leaves a sublist of the nodes, lowers `num_objects`
by exactly the number of nodes it unlinked, and every node it leaves holds a
non-null object. -/
theorem reach_num_objects_eq_slots (h : Heap) (hr : h.Reach) :
    h.num_objects = h.slots.length ∧
      ∀ (fuel : Nat) (h1 : Heap), h.Sweep fuel = .ok h1 →
        h1.slots.Sublist h.slots ∧
        h1.num_objects + (h.slots.filter (fun a => decide (a ∉ h1.slots))).length
          = h.num_objects ∧
        h1.num_objects = h1.slots.length ∧
        ∀ a ∈ h1.slots, ∃ s o, h1.mem a = some s ∧ s.obj = some o := by
  obtain ⟨L, hi⟩ := reach_inv hr
  have hs := inv_slots hi
  refine ⟨by rw [hs, hi.count], fun fuel h1 hrun => ?_⟩
  have hi1 := inv_sweep hi hrun
  have hs1 := inv_slots hi1
  have hrun1 : h.sweepLoop fuel (hd L none) = .ok h1 := by
    rw [hd_eq_head?, ← hi.isList.head_eq]; exact hrun
  obtain ⟨-, -, -, -, -, -, i7⟩ :=
    sweepLoop_spec L fuel h h1 [] (by simpa using hi.isList) (by rw [hi.count]) hrun1
  rw [hs, hs1]
  refine ⟨List.filter_sublist L, ?_, hi1.count, fun a ha => ?_⟩
  · rw [filter_not_mem_filter L h.keepAt, hi1.count, hi.count]
    exact length_filter_add L h.keepAt
  · obtain ⟨haL, hk⟩ := List.mem_filter.1 ha
    obtain ⟨s, o, -, -, hp⟩ := i7 a haL hk
    unfold Heap.payload at hp
    cases hm : h1.mem a with
    | none => rw [hm] at hp; cases hp
    | some t =>
      rw [hm] at hp
      simp only [Option.map_some', Option.some.injEq, Prod.mk.injEq] at hp
      exact ⟨t, _, rfl, hp.2⟩

theorem reach_allocWith {h : Heap} (o : Object) (hr : h.Reach) : (h.allocWith o).Reach :=
  Heap.Reach.store _ _ (Heap.Reach.alloc hr)

theorem heapMarkedOldest_reach : heapMarkedOldest.Reach :=
  Heap.Reach.alloc (reach_allocWith _ Heap.Reach.empty)

/-- C5 at a heap of two nodes, the older holding a marked object and the newer
still null: the `Sweep` completes, unlinks the newer node and leaves
`num_objects = 1`. -/
theorem reach_num_objects_eq_slots_witness :
    heapMarkedOldest.Reach ∧
      (∃ h1, heapMarkedOldest.Sweep 2 = .ok h1 ∧ h1.slots = [0] ∧ h1.num_objects = 1) ∧
      heapMarkedOldest.num_objects = heapMarkedOldest.slots.length ∧
      ∀ (fuel : Nat) (h1 : Heap), heapMarkedOldest.Sweep fuel = .ok h1 →
        h1.slots.Sublist heapMarkedOldest.slots ∧
        h1.num_objects + (heapMarkedOldest.slots.filter (fun a => decide (a ∉ h1.slots))).length
          = heapMarkedOldest.num_objects ∧
        h1.num_objects = h1.slots.length ∧
        ∀ a ∈ h1.slots, ∃ s o, h1.mem a = some s ∧ s.obj = some o :=
  ⟨heapMarkedOldest_reach, ⟨_, rfl, rfl, rfl⟩,
    reach_num_objects_eq_slots heapMarkedOldest heapMarkedOldest_reach⟩

/-- C6: `AllocNull`, on a heap whose allocator hands out an unused address,
adds exactly one node, at the address it returns; the node's object pointer is
null and its predecessor is the previous head; it is the new head; the
previous head gets it as successor; `num_objects` grows by one; the object,
the id and the predecessor of every other node are unchanged, and so is the
successor of every node but the previous head.  A well-formed list `L` becomes
the well-formed list with the new node in front of `L`. -/
theorem allocNull_spec (h : Heap) (hfresh : h.mem h.brk = none) :
    h.mem h.AllocNull.2 = none ∧
    (∀ a, (h.AllocNull.1.mem a).isSome = (decide (a = h.AllocNull.2) || (h.mem a).isSome)) ∧
    (∃ s, h.AllocNull.1.mem h.AllocNull.2 = some s ∧ s.obj = none ∧ s.before = h.head ∧
      s.after = none ∧ s.id = h.num_objects) ∧
    h.AllocNull.1.head = some h.AllocNull.2 ∧
    (∀ a s, h.head = some a → h.mem a = some s →
      ∃ s1, h.AllocNull.1.mem a = some s1 ∧ s1.after = some h.AllocNull.2) ∧
    h.AllocNull.1.num_objects = h.num_objects + 1 ∧
    (∀ a s, a ≠ h.AllocNull.2 → h.mem a = some s →
      ∃ s1, h.AllocNull.1.mem a = some s1 ∧ s1.obj = s.obj ∧ s1.id = s.id ∧
        s1.before = s.before ∧ (h.head ≠ some a → s1.after = s.after)) ∧
    (∀ L, h.IsList L → h.AllocNull.1.IsList (h.AllocNull.2 :: L)) := by
  obtain ⟨hptr, hnew, hhead, hnum, -, hold, hother⟩ := allocNull_mem h hfresh
  rw [hptr]
  refine ⟨hfresh, fun a => ?_, ⟨_, hnew, rfl, rfl, rfl, rfl⟩, hhead,
    fun a s hh hs => ⟨_, hold a s hh hs, rfl⟩, hnum, fun a s hab hs => ?_,
    fun L hl => allocNull_isList hl hfresh⟩
  · by_cases hab : a = h.brk
    · subst hab; simp [hnew]
    · by_cases hh : h.head = some a
      · cases hm : h.mem a with
        | none =>
          -- the head pointer designates no live node: nothing is written
          have : h.AllocNull.1.mem a = none := by
            simp [Heap.AllocNull, Heap.write, hh, hm, Function.update_noteq hab]
          simp [this, hab]
        | some s => simp [hold a s hh hm, hab]
      · simp [hother a hab hh, hab]
  · by_cases hh : h.head = some a
    · exact ⟨_, hold a s hh hs, rfl, rfl, rfl, fun hne => absurd hh hne⟩
    · exact ⟨s, by rw [hother a hab hh]; exact hs, rfl, rfl, rfl, fun _ => rfl⟩

/-- C6 at the heap holding one node: the second allocation returns address 1,
links it in front of node 0 and makes `num_objects` 2. -/
theorem allocNull_spec_witness :
    heapOne.mem heapOne.brk = none ∧ heapOne.AllocNull.2 = 1 ∧
      heapOne.AllocNull.1.num_objects = 2 ∧ heapOne.AllocNull.1.slots = [1, 0] ∧
      heapOne.AllocNull.1.head = some heapOne.AllocNull.2 :=
  ⟨rfl, rfl, rfl, rfl, (allocNull_spec heapOne rfl).2.2.2.1⟩

theorem id_of_payload {h h1 : Heap} {a : Addr} (hp : h1.payload a = h.payload a) :
    (h1.mem a).map (fun s => s.id) = (h.mem a).map (fun s => s.id) := by
  unfold Heap.payload at hp
  cases h1a : h1.mem a <;> cases ha : h.mem a <;> simp [h1a, ha] at hp ⊢
  exact hp.1

theorem popArgs_fields {σ : Type} (ops : VMOps σ) (n : Nat) (state : VMState σ) :
    (popArgs ops n state).vm = ops.PopStack^[n] state.vm ∧
      (popArgs ops n state).jump_positions = state.jump_positions ∧
      (popArgs ops n state).read_level = state.read_level ∧
      (popArgs ops n state).stream = state.stream := by
  induction n generalizing state with
  | zero => exact ⟨rfl, rfl, rfl, rfl⟩
  | succ n ih =>
    obtain ⟨h1, h2, h3, h4⟩ := ih { state with vm := ops.PopStack state.vm }
    exact ⟨by rw [Function.iterate_succ_apply]; exact h1, h2, h3, h4⟩

/-- C8: a call `invoke(state, k)` on a function object of declared arity
`n ≠ k` returns (whatever the step bound), having called `PopStack` exactly
`k` times and then `HandleException(InvalidArgs(n, k))` exactly once, and
nothing else: no instruction is executed, nothing is pushed on the call stack
and the stream is not moved.  The state the exception is raised on is the
entry state with `k` operands popped: same call stack, read level and stream
position; they stay so in the result for every handler that leaves them. -/
theorem invoke_arity_mismatch {σ : Type} (ops : VMOps σ) (fuel : Nat) (f : Object)
    (state : VMState σ) (k : Nat) (hk : k ≠ f.nargs) :
    ∃ raised : VMState σ,
      Func.invoke ops fuel f state k =
        .ok (ops.HandleException (.InvalidArgsException f.nargs k) raised,
          List.replicate k VMCall.PopStack ++
            [VMCall.HandleException (.InvalidArgsException f.nargs k)]) ∧
      raised.vm = ops.PopStack^[k] state.vm ∧
      raised.jump_positions = state.jump_positions ∧
      raised.read_level = state.read_level ∧
      raised.stream = state.stream ∧
      ((∀ e s, (ops.HandleException e s).jump_positions = s.jump_positions ∧
          (ops.HandleException e s).read_level = s.read_level ∧
          (ops.HandleException e s).stream = s.stream) →
        ∀ r, Func.invoke ops fuel f state k = .ok r →
          r.1.jump_positions = state.jump_positions ∧ r.1.read_level = state.read_level ∧
            r.1.stream.position = state.stream.position) := by
  obtain ⟨h1, h2, h3, h4⟩ := popArgs_fields ops k state
  have hrun : Func.invoke ops fuel f state k =
      .ok (ops.HandleException (.InvalidArgsException f.nargs k) (popArgs ops k state),
        List.replicate k VMCall.PopStack ++
          [VMCall.HandleException (.InvalidArgsException f.nargs k)]) := by
    unfold Func.invoke
    rw [if_pos hk]
  refine ⟨popArgs ops k state, hrun, h1, h2, h3, h4, fun hh r hr => ?_⟩
  rw [hrun] at hr
  cases hr
  obtain ⟨e1, e2, e3⟩ := hh (.InvalidArgsException f.nargs k) (popArgs ops k state)
  exact ⟨e1.trans h2, e2.trans h3, by rw [e3, h4]⟩

/-- C8 at `invoke(state, 1)` on a function of declared arity 2: one operand is
popped, `InvalidArgs(2, 1)` is raised once, and the call stack, the read level
and the stream position are those of the entry state. -/
theorem invoke_arity_mismatch_witness :
    (1 : Nat) ≠ funcTwoArgs.nargs ∧
      ∃ r, Func.invoke listOps 0 funcTwoArgs stateThreeOperands 1 = .ok r ∧
        r.2 = [VMCall.PopStack, VMCall.HandleException (.InvalidArgsException 2 1)] ∧
        r.1.vm = [12, 13] ∧ r.1.jump_positions = [5] ∧ r.1.read_level = 1 ∧
        r.1.stream.position = 7 :=
  ⟨by decide, by
    obtain ⟨raised, hrun, hvm, hjp, hrl, hst, -⟩ :=
      invoke_arity_mismatch listOps 0 funcTwoArgs stateThreeOperands 1 (by decide)
    refine ⟨_, hrun, rfl, ?_, ?_, ?_, ?_⟩
    · show raised.vm = _
      rw [hvm]; rfl
    · show raised.jump_positions = _
      rw [hjp]; rfl
    · show raised.read_level = _
      rw [hrl]; rfl
    · show raised.stream.position = _
      rw [hst]; rfl⟩


/-! ## `Func::clone`: claims -/

theorem objAt_of_payload {h h1 : Heap} {b : Addr} (hp : h1.payload b = h.payload b) :
    h1.objAt b = h.objAt b := by
  unfold Heap.payload at hp
  unfold Heap.objAt
  cases h1b : h1.mem b <;> cases hb : h.mem b <;> simp [h1b, hb] at hp ⊢
  exact hp.2

theorem mem_of_payload {h h1 : Heap} {b : Addr} {t : HeapObject}
    (hp : h1.payload b = h.payload b) (hb : h.mem b = some t) :
    ∃ t1, h1.mem b = some t1 ∧ t1.obj = t.obj := by
  unfold Heap.payload at hp
  cases h1b : h1.mem b with
  | none => simp [h1b, hb] at hp
  | some t1 =>
    simp only [h1b, hb, Option.map_some', Option.some.injEq, Prod.mk.injEq] at hp
    exact ⟨t1, rfl, hp.2⟩

theorem fresh_lt {h : Heap} (hf : h.Fresh) {b : Addr} {t : HeapObject} (hb : h.mem b = some t) :
    b < h.brk := by
  by_contra hge
  rw [hf b (Nat.le_of_not_lt hge)] at hb; cases hb

theorem payload_store_ne (h : Heap) (a b : Addr) (o : Option Object) (hne : b ≠ a) :
    (h.store a o).payload b = h.payload b := by
  unfold Heap.store
  cases ha : h.mem a with
  | none => rfl
  | some s => exact payload_write_ne _ hne

theorem allocObject_spec (h : Heap) (o : Object) (hf : h.Fresh) :
    (h.AllocObject o).2 = h.brk ∧ (h.AllocObject o).1.Fresh ∧
      (h.AllocObject o).1.brk = h.brk + 1 ∧
      (∀ b, b < h.brk → (h.AllocObject o).1.payload b = h.payload b) ∧
      (h.AllocObject o).1.objAt h.brk = some o := by
  have hfb := hf h.brk (Nat.le_refl _)
  obtain ⟨hptr, hnew, -, -, hbrk, hold, hother⟩ := allocNull_mem h hfb
  have hpay : ∀ b, b ≠ h.brk → h.AllocNull.1.payload b = h.payload b := by
    intro b hb
    by_cases hh : h.head = some b
    · cases hm : h.mem b with
      | none =>
        have : h.AllocNull.1.mem b = none := by
          simp [Heap.AllocNull, Heap.write, hh, hm, Function.update_noteq hb]
        simp [Heap.payload, this, hm]
      | some s => simp [Heap.payload, hold b s hh hm, hm]
    · simp [Heap.payload, hother b hb hh]
  refine ⟨hptr, ?_, ?_, ?_, ?_⟩
  · intro b hb
    have hb1 : h.brk + 1 ≤ b := by
      have : (h.AllocObject o).1.brk = h.brk + 1 := by
        show (h.AllocNull.1.store _ _).brk = _
        rw [store_brk, hbrk]
      rw [this] at hb; exact hb
    have hne : b ≠ h.brk := Nat.ne_of_gt (Nat.lt_of_succ_le hb1)
    have h1 : (h.AllocObject o).1.payload b = none := by
      show (h.AllocNull.1.store h.AllocNull.2 (some o)).payload b = none
      rw [hptr, payload_store_ne _ _ _ _ hne, hpay b hne]
      simp [Heap.payload, hf b (Nat.le_of_lt (Nat.lt_of_succ_le hb1))]
    unfold Heap.payload at h1
    cases hm : (h.AllocObject o).1.mem b with
    | none => rfl
    | some t => rw [hm] at h1; cases h1
  · show (h.AllocNull.1.store _ _).brk = _
    rw [store_brk, hbrk]
  · intro b hb
    have hne : b ≠ h.brk := Nat.ne_of_lt hb
    show (h.AllocNull.1.store h.AllocNull.2 (some o)).payload b = _
    rw [hptr, payload_store_ne _ _ _ _ hne, hpay b hne]
  · show (h.AllocNull.1.store h.AllocNull.2 (some o)).objAt h.brk = some o
    rw [hptr]
    simp [Heap.objAt, Heap.store, hnew, Heap.write]

theorem addFieldReference_spec (h : Heap) (p : Addr) (name : String) (c : Reference)
    (o : Object) (hp : h.objAt p = some o) (hf : h.Fresh) :
    ∃ h1, h.AddFieldReference p name c = .ok h1 ∧ h1.Fresh ∧ h1.brk = h.brk ∧
      (∀ b, b ≠ p → h1.payload b = h.payload b) ∧
      h1.objAt p = some { o with fields := o.fields ++ [(name, c)] } := by
  unfold Heap.objAt at hp
  cases hm : h.mem p with
  | none => rw [hm] at hp; cases hp
  | some s =>
    rw [hm] at hp
    simp only at hp
    refine ⟨h.write p { s with obj := some { o with fields := o.fields ++ [(name, c)] } },
      by simp [Heap.AddFieldReference, hm, hp], ?_, rfl, ?_, ?_⟩
    · intro b hb
      have hbp : b ≠ p := by rintro rfl; rw [hf b hb] at hm; cases hm
      simpa [Heap.write, Function.update_noteq hbp] using hf b hb
    · intro b hb; exact payload_write_ne _ hb
    · simp [Heap.objAt, Heap.write]

theorem isClone_mono {h h1 : Heap} {lo hi lo1 hi1 : Addr} (hlo : lo1 ≤ lo) (hhi : hi ≤ hi1)
    (n : Nat) : ∀ a p, h.IsClone h1 lo hi n a p → h.IsClone h1 lo1 hi1 n a p := by
  induction n with
  | zero => intro a p hc; exact hc
  | succ n ih =>
    intro a p hc
    obtain ⟨o, o1, h1a, h2a, h3, h4, h5, h6, h7, h8⟩ := hc
    refine ⟨o, o1, h1a, h2a, Nat.le_trans hlo h3, Nat.lt_of_lt_of_le h4 hhi, h5, h6, h7, ?_⟩
    refine h8.imp (fun f f1 hr => ?_)
    obtain ⟨e1, m, m1, e2, e3, e4⟩ := hr
    exact ⟨e1, m, m1, e2, e3, ih m m1 e4⟩

theorem isClone_frame {h h1 h2 : Heap} {lo hi : Addr}
    (hfr : ∀ b, lo ≤ b → b < hi → h2.objAt b = h1.objAt b)
    (n : Nat) : ∀ a p, h.IsClone h1 lo hi n a p → h.IsClone h2 lo hi n a p := by
  induction n with
  | zero => intro a p hc; exact hc
  | succ n ih =>
    intro a p hc
    obtain ⟨o, o1, h1a, h2a, h3, h4, h5, h6, h7, h8⟩ := hc
    refine ⟨o, o1, h1a, by rw [hfr p h3 h4]; exact h2a, h3, h4, h5, h6, h7, ?_⟩
    refine h8.imp (fun f f1 hr => ?_)
    obtain ⟨e1, m, m1, e2, e3, e4⟩ := hr
    exact ⟨e1, m, m1, e2, e3, ih m m1 e4⟩


theorem filter_append_singleton (D : List (String × Reference)) (q : String × Reference → Bool)
    (f : String × Reference) :
    (D ++ [f]).filter q = if q f then D.filter q ++ [f] else D.filter q := by
  rw [List.filter_append]
  by_cases hq : q f = true
  · simp [hq]
  · simp [hq]

theorem cloneMembers_spec (h : Heap) (hf : h.Fresh) (n : Nat) (ih : CloneOk h n) (p : Addr)
    (hp : h.brk ≤ p) (fs : List (String × Reference)) :
    ∀ (hcur : Heap) (o1 : Object) (D : List (String × Reference)),
    hcur.Fresh → p < hcur.brk → (∀ b, b < h.brk → hcur.payload b = h.payload b) →
    hcur.objAt p = some o1 →
    (∀ f ∈ fs, ∃ m t, f.2.ref = some m ∧ h.mem m = some t ∧
      (t.obj ≠ none → h.AcyclicBelow n m)) →
    List.Forall₂ (fun f f1 => f1.1 = f.1 ∧ ∃ m m1, f.2.ref = some m ∧ f1.2.ref = some m1 ∧
      h.IsClone hcur (p + 1) hcur.brk n m m1) D o1.fields →
    ∃ h2 o2, fs.foldl (cloneMember (Func.clone n) p) (.ok hcur) = .ok h2 ∧ h2.Fresh ∧
      hcur.brk ≤ h2.brk ∧ (∀ b, b < p → h2.payload b = hcur.payload b) ∧
      h2.objAt p = some o2 ∧ o2.addr = o1.addr ∧ o2.nargs = o1.nargs ∧
      o2.is_variadic = o1.is_variadic ∧
      List.Forall₂ (fun f f1 => f1.1 = f.1 ∧ ∃ m m1, f.2.ref = some m ∧ f1.2.ref = some m1 ∧
        h.IsClone h2 (p + 1) h2.brk n m m1) (D ++ fs.filter h.fieldHasObject) o2.fields := by
  induction fs with
  | nil =>
    intro hcur o1 D hfc _ _ hobj _ hD
    exact ⟨hcur, o1, rfl, hfc, Nat.le_refl _, fun _ _ => rfl, hobj, rfl, rfl, rfl, by simpa using hD⟩
  | cons f fs ihf =>
    intro hcur o1 D hfc hpc hag hobj hfs hD
    obtain ⟨m, t, hfm, hmt, hrec⟩ := hfs f (List.mem_cons_self _ _)
    have hfs1 : ∀ g ∈ fs, ∃ m t, g.2.ref = some m ∧ h.mem m = some t ∧
        (t.obj ≠ none → h.AcyclicBelow n m) := fun g hg => hfs g (List.mem_cons_of_mem _ hg)
    have hmlt : m < h.brk := fresh_lt hf hmt
    obtain ⟨t1, ht1, ht1o⟩ := mem_of_payload (hag m hmlt) hmt
    rw [List.foldl_cons]
    cases hto : t.obj with
    | none =>
      -- the referenced object is null: the member is skipped
      have hstep : cloneMember (Func.clone n) p (.ok hcur) f = .ok hcur := by
        simp [cloneMember, hfm, ht1, ht1o, hto]
      have hq : h.fieldHasObject f = false := by
        simp [Heap.fieldHasObject, hfm, Heap.objAt, hmt, hto]
      rw [hstep]
      obtain ⟨h2, o2, r1, r2, r3, r4, r5, r6, r7, r8, r9⟩ := ihf hcur o1 D hfc hpc hag hobj hfs1 hD
      refine ⟨h2, o2, r1, r2, r3, r4, r5, r6, r7, r8, ?_⟩
      simpa [List.filter_cons, hq] using r9
    | some ot =>
      have hacy : h.AcyclicBelow n m := hrec (by rw [hto]; simp)
      obtain ⟨h2, hrun, hf2, hlt2, hpay2, hcl⟩ :=
        ih hcur m hfc (Nat.le_trans hp (Nat.le_of_lt hpc)) hag hacy
      have hobj2 : h2.objAt p = some o1 := by
        rw [objAt_of_payload (hpay2 p hpc)]; exact hobj
      obtain ⟨h3, hadd, hf3, hbrk3, hpay3, hobj3⟩ :=
        addFieldReference_spec h2 p f.1 ⟨some hcur.brk⟩ o1 hobj2 hf2
      have hstep : cloneMember (Func.clone n) p (.ok hcur) f = .ok h3 := by
        simp [cloneMember, hfm, ht1, ht1o, hto, hrun, hadd]
      have hq : h.fieldHasObject f = true := by
        simp [Heap.fieldHasObject, hfm, Heap.objAt, hmt, hto]
      rw [hstep]
      have hpne : ∀ b, p + 1 ≤ b → b ≠ p := fun b hb => Nat.ne_of_gt (Nat.lt_of_succ_le hb)
      have hag3 : ∀ b, b < h.brk → h3.payload b = h.payload b := by
        intro b hb
        have hbp : b < p := Nat.lt_of_lt_of_le hb hp
        rw [hpay3 b (Nat.ne_of_lt hbp), hpay2 b (Nat.lt_trans hbp hpc), hag b hb]
      have hD3 : List.Forall₂ (fun f f1 => f1.1 = f.1 ∧ ∃ m m1, f.2.ref = some m ∧
          f1.2.ref = some m1 ∧ h.IsClone h3 (p + 1) h3.brk n m m1) (D ++ [f])
          ({ o1 with fields := o1.fields ++ [(f.1, ⟨some hcur.brk⟩)] } : Object).fields := by
        refine List.rel_append ?_ ?_
        · refine hD.imp (fun g g1 hr => ?_)
          obtain ⟨e1, x, x1, e2, e3, e4⟩ := hr
          refine ⟨e1, x, x1, e2, e3, ?_⟩
          have c1 : h.IsClone h3 (p + 1) hcur.brk n x x1 :=
            isClone_frame (fun b hb1 hb2 => by
              rw [objAt_of_payload (hpay3 b (hpne b hb1)), objAt_of_payload (hpay2 b hb2)]) n x x1 e4
          exact isClone_mono (Nat.le_refl _) (by rw [hbrk3]; exact Nat.le_of_lt hlt2) n x x1 c1
        · refine List.Forall₂.cons ⟨rfl, m, hcur.brk, hfm, rfl, ?_⟩ List.Forall₂.nil
          have c1 : h.IsClone h3 hcur.brk h2.brk n m hcur.brk :=
            isClone_frame (fun b hb1 _ => by
              rw [objAt_of_payload (hpay3 b (Nat.ne_of_gt (Nat.lt_of_lt_of_le hpc hb1)))]) n _ _ hcl
          exact isClone_mono (Nat.succ_le_of_lt hpc) (by rw [hbrk3]) n _ _ c1
      obtain ⟨h4, o4, r1, r2, r3, r4, r5, r6, r7, r8, r9⟩ :=
        ihf h3 _ (D ++ [f]) hf3 (by rw [hbrk3]; exact Nat.lt_trans hpc hlt2) hag3 hobj3 hfs1 hD3
      refine ⟨h4, o4, r1, r2, ?_, ?_, r5, r6, r7, r8, ?_⟩
      · rw [hbrk3] at r3; exact Nat.le_trans (Nat.le_of_lt hlt2) r3
      · intro b hb
        rw [r4 b hb, hpay3 b (Nat.ne_of_lt hb), hpay2 b (Nat.lt_trans hb hpc)]
      · simpa [List.filter_cons, hq, List.append_assoc] using r9

theorem clone_spec (h : Heap) (hf : h.Fresh) (n : Nat) : CloneOk h n := by
  induction n with
  | zero => intro hh a _ _ _ hacy; exact absurd hacy (by simp [Heap.AcyclicBelow])
  | succ n ih =>
    intro hh a hfh hle hag hacy
    obtain ⟨o, hoa, hfs⟩ := hacy
    have hoa1 := hoa
    unfold Heap.objAt at hoa1
    cases hma : h.mem a with
    | none => rw [hma] at hoa1; cases hoa1
    | some s =>
      rw [hma] at hoa1
      simp only at hoa1
      have halt : a < h.brk := fresh_lt hf hma
      obtain ⟨s1, hs1, hs1o⟩ := mem_of_payload (hag a halt) hma
      obtain ⟨a1, a2, a3, a4, a5⟩ := allocObject_spec hh
        { addr := o.addr, nargs := o.nargs, is_variadic := o.is_variadic } hfh
      have hag1 : ∀ b, b < h.brk →
          (hh.AllocObject { addr := o.addr, nargs := o.nargs, is_variadic := o.is_variadic }).1.payload b
            = h.payload b :=
        fun b hb => by rw [a4 b (Nat.lt_of_lt_of_le hb hle), hag b hb]
      obtain ⟨h2, o2, r1, r2, r3, r4, r5, r6, r7, r8, r9⟩ :=
        cloneMembers_spec h hf n ih hh.brk hle o.fields _ _ [] a2 (by rw [a3]; exact Nat.lt_succ_self _)
          hag1 a5 hfs List.Forall₂.nil
      refine ⟨h2, ?_, r2, ?_, ?_, ?_⟩
      · simp only [Func.clone, hs1, hs1o, hoa1, a1, r1]
      · rw [a3] at r3; exact Nat.lt_of_succ_le r3
      · intro b hb; rw [r4 b hb, a4 b hb]
      · refine ⟨o, o2, hoa, r5, Nat.le_refl _, ?_, r6, r7, r8, ?_⟩
        · rw [a3] at r3; exact Nat.lt_of_succ_le r3
        · simp only [List.nil_append] at r9
          refine r9.imp (fun g g1 hr => ?_)
          obtain ⟨e1, x, x1, e2, e3, e4⟩ := hr
          exact ⟨e1, x, x1, e2, e3, isClone_mono (Nat.le_succ _) (Nat.le_refl _) n x x1 e4⟩

theorem reach_fresh {h : Heap} (hr : h.Reach) : h.Fresh := by
  obtain ⟨L, hi⟩ := reach_inv hr
  exact hi.fresh

theorem forall₂_names {R : String × Reference → String × Reference → Prop}
    (hR : ∀ f f1, R f f1 → f1.1 = f.1) :
    ∀ {l l1 : List (String × Reference)}, List.Forall₂ R l l1 →
      l1.map Prod.fst = l.map Prod.fst := by
  intro l l1 hl
  induction hl with
  | nil => rfl
  | cons hab _ ih => simp [hR _ _ hab, ih]

theorem forall₂_right {R : String × Reference → String × Reference → Prop} :
    ∀ {l l1 : List (String × Reference)}, List.Forall₂ R l l1 →
      ∀ f1 ∈ l1, ∃ f, f ∈ l ∧ R f f1 := by
  intro l l1 hl
  induction hl with
  | nil => intro f1 hf1; cases hf1
  | cons hab _ ih =>
    intro f1 hf1
    rcases List.mem_cons.1 hf1 with rfl | hf1
    · exact ⟨_, List.mem_cons_self _ _, hab⟩
    · obtain ⟨f, hf, hr⟩ := ih f1 hf1
      exact ⟨f, List.mem_cons_of_mem _ hf, hr⟩

/-- C9 (fails as stated): node 1 holds a function object with one field, `x`,
whose reference designates node 0, a node whose object pointer is null.  Its
field graph is acyclic.  `clone` returns a new function object at node 2 with
the same address and arity and with no field at all: the guard
`member.second.Ref() != nullptr` skips the member. -/
theorem clone_skips_null_object_field :
    heapNullField.AcyclicBelow 1 1 ∧
      (heapNullField.objAt 1).map (fun o => o.fields) = some [("x", ⟨some 0⟩)] ∧
      ∃ h1, Func.clone 1 heapNullField 1 = .ok (h1, ⟨some 2⟩) ∧
        (h1.objAt 2).map (fun o => (o.addr, o.nargs, o.fields)) = some (7, 2, []) := by
  refine ⟨⟨_, rfl, fun f hf => ?_⟩, rfl, _, rfl, rfl⟩
  have hfx : f = ("x", ⟨some 0⟩) := by simpa using hf
  subst hfx
  exact ⟨0, _, rfl, rfl, fun hne => absurd rfl hne⟩

/-- C9 (as amended): for a function object whose field graph is well formed
and of depth at most `n` (so acyclic), in a heap whose allocator hands out
unused addresses, `clone` run to depth `n` returns a reference to a node that
did not exist before.  The node holds a function object with the same address,
arity and variadic flag, and with one field for each field of the original
whose referenced object is non-null, under the same names and in the same
order, each referencing a deep copy, made of new nodes only, of the object the
original field references.  No node that existed before changes its object. -/
theorem clone_deep_copy (h : Heap) (n : Nat) (a : Addr) (hf : h.Fresh)
    (hacy : h.AcyclicBelow n a) :
    ∃ h1 p o o1, Func.clone n h a = .ok (h1, ⟨some p⟩) ∧ h.mem p = none ∧
      h.objAt a = some o ∧ h1.objAt p = some o1 ∧
      o1.addr = o.addr ∧ o1.nargs = o.nargs ∧ o1.is_variadic = o.is_variadic ∧
      o1.fields.map Prod.fst = (o.fields.filter h.fieldHasObject).map Prod.fst ∧
      h.IsClone h1 h.brk h1.brk n a p ∧
      (∀ f1 ∈ o1.fields, ∃ m1, f1.2.ref = some m1 ∧ h.mem m1 = none) ∧
      (∀ b, b < h.brk → h1.payload b = h.payload b) := by
  obtain ⟨h1, hrun, -, -, hpay, hcl⟩ :=
    clone_spec h hf n h a hf (Nat.le_refl _) (fun _ _ => rfl) hacy
  cases n with
  | zero => exact absurd hacy (by simp [Heap.AcyclicBelow])
  | succ n =>
    have hcl1 := hcl
    obtain ⟨o, o1, e1, e2, -, -, e5, e6, e7, e8⟩ := hcl1
    refine ⟨h1, h.brk, o, o1, hrun, hf _ (Nat.le_refl _), e1, e2, e5, e6, e7, ?_, hcl, ?_, hpay⟩
    · exact forall₂_names (fun f f1 hr => hr.1) e8
    · intro f1 hf1
      obtain ⟨f, -, hr⟩ := forall₂_right e8 f1 hf1
      obtain ⟨-, m, m1, -, hm1, hc⟩ := hr
      refine ⟨m1, hm1, ?_⟩
      cases n with
      | zero => exact absurd hc (by simp [Heap.IsClone])
      | succ n =>
        obtain ⟨_, _, _, _, hlo, _⟩ := hc
        exact hf m1 hlo

theorem heapTwoFields_reach : heapTwoFields.Reach :=
  reach_allocWith _ (reach_allocWith _ Heap.Reach.empty)

theorem heapTwoFields_acyclic : heapTwoFields.AcyclicBelow 2 1 := by
  refine ⟨_, rfl, fun f hf => ?_⟩
  have h0 : heapTwoFields.AcyclicBelow 1 0 := ⟨_, rfl, fun g hg => by cases hg⟩
  have hfx : f = ("x", ⟨some 0⟩) ∨ f = ("y", ⟨some 0⟩) := by simpa using hf
  rcases hfx with rfl | rfl
  · exact ⟨0, _, rfl, rfl, fun _ => h0⟩
  · exact ⟨0, _, rfl, rfl, fun _ => h0⟩

/-- C9 (as amended) at a function object with fields `x` and `y` that both
reference the same field-less function object: the clone is the new node 2,
with fields `x` and `y` referencing the two new nodes 3 and 4. -/
theorem clone_deep_copy_witness :
    heapTwoFields.Fresh ∧ heapTwoFields.AcyclicBelow 2 1 ∧
      (∃ h1, Func.clone 2 heapTwoFields 1 = .ok (h1, ⟨some 2⟩) ∧
        (h1.objAt 2).map (fun o => o.fields) = some [("x", ⟨some 3⟩), ("y", ⟨some 4⟩)]) ∧
      ∃ h1 p o o1, Func.clone 2 heapTwoFields 1 = .ok (h1, ⟨some p⟩) ∧
        heapTwoFields.objAt 1 = some o ∧ h1.objAt p = some o1 ∧
        o1.fields.map Prod.fst = (o.fields.filter heapTwoFields.fieldHasObject).map Prod.fst := by
  refine ⟨reach_fresh heapTwoFields_reach, heapTwoFields_acyclic, ⟨_, rfl, rfl⟩, ?_⟩
  obtain ⟨h1, p, o, o1, r1, -, r3, r4, -, -, -, r8, -⟩ :=
    clone_deep_copy heapTwoFields 2 1 (reach_fresh heapTwoFields_reach) heapTwoFields_acyclic
  exact ⟨h1, p, o, o1, r1, r3, r4, r8⟩

/-! ## The semantic analyzer: scope balance -/

theorem balanced_refl (st : CompilerState) : Balanced st st :=
  ⟨rfl, fun _ _ h => h⟩

theorem balanced_trans {a b c : CompilerState} (h1 : Balanced a b) (h2 : Balanced b c) :
    Balanced a c :=
  ⟨h2.1.trans h1.1, fun l hl he => h2.2 l (by rw [h1.1]; exact hl) (h1.2 l hl he)⟩

/-- A change of the state that leaves `level` alone and touches no level above
it is balanced. -/
theorem balanced_of_levels {st st1 : CompilerState} (hl : st1.level = st.level)
    (hs : ∀ l, st.level < l → st1.levels l = st.levels l) : Balanced st st1 :=
  ⟨hl, fun l hlt he => by unfold CompilerState.emptyAt at he ⊢; rw [hs l hlt]; exact he⟩

theorem keeps_pure {α : Type} (a : α) : Keeps (pure a : Analyzer α) := by
  intro st b st1 h; cases h; exact balanced_refl _

theorem keeps_throw {α : Type} (e : Fault) : Keeps (throw e : Analyzer α) := by
  intro st a st1 h; cases h

theorem keeps_get : Keeps (get : Analyzer CompilerState) := by
  intro st a st1 h; cases h; exact balanced_refl _

theorem bind_ok {α β : Type} {m : Analyzer α} {f : α → Analyzer β} {st st2 : CompilerState}
    {b : β} (h : (m >>= f) st = .ok (b, st2)) :
    ∃ a st1, m st = .ok (a, st1) ∧ f a st1 = .ok (b, st2) := by
  simp only [bind, StateT.bind] at h
  cases hms : m st with
  | error e => rw [hms] at h; cases h
  | ok r =>
    obtain ⟨a, st1⟩ := r
    rw [hms] at h
    exact ⟨a, st1, rfl, h⟩

theorem keeps_bind {α β : Type} {m : Analyzer α} {f : α → Analyzer β} (hm : Keeps m)
    (hf : ∀ a, Keeps (f a)) : Keeps (m >>= f) := by
  intro st b st2 h
  obtain ⟨a, st1, h1, h2⟩ := bind_ok h
  exact balanced_trans (hm st a st1 h1) (hf a st1 b st2 h2)

theorem falls_bind {α β : Type} {m : Analyzer α} {f : α → Analyzer β} (hm : Keeps m)
    (hf : ∀ a, Falls (f a)) : Falls (m >>= f) := by
  intro st b st2 h
  obtain ⟨a, st1, h1, h2⟩ := bind_ok h
  obtain ⟨k1, k2⟩ := hm st a st1 h1
  obtain ⟨f1, f2⟩ := hf a st1 b st2 h2
  refine ⟨by rw [f1, k1], fun l hl hor => ?_⟩
  refine f2 l (by rw [k1]; exact hl) ?_
  rcases hor with rfl | he
  · exact Or.inl k1.symm
  · by_cases heq : l = st.level
    · exact Or.inl (by rw [k1]; exact heq)
    · exact Or.inr (k2 l (by omega) he)

theorem keeps_modify (f : CompilerState → CompilerState)
    (hf : ∀ st, Balanced st (f st)) : Keeps (modify f : Analyzer Unit) := by
  intro st a st1 h; cases h; exact hf st

theorem keeps_report (sev : Severity) (msg : ErrorType) (loc : SourceLocation)
    (args : List String) : Keeps (report sev msg loc args) :=
  keeps_modify _ (fun _ => balanced_of_levels rfl (fun _ _ => rfl))

theorem keeps_ErrorMsg (msg : ErrorType) (loc : SourceLocation) (args : List String) :
    Keeps (ErrorMsg msg loc args) := keeps_report _ _ _ _

theorem keeps_WarningMessage (msg : ErrorType) (loc : SourceLocation) (args : List String) :
    Keeps (WarningMessage msg loc args) := keeps_report _ _ _ _

theorem keeps_InfoMsg (msg : ErrorType) (loc : SourceLocation) (args : List String) :
    Keeps (InfoMsg msg loc args) := keeps_report _ _ _ _

theorem keeps_pushLocal (name : String) (symbol : Symbol) : Keeps (pushLocal name symbol) :=
  keeps_modify _ (fun _ => balanced_of_levels rfl (fun _ hl =>
    Function.update_noteq (Int.ne_of_gt hl) _ _))

theorem keeps_IncrementUseCount (ptr : Option Nat) : Keeps (IncrementUseCount ptr) :=
  keeps_modify _ (fun _ => balanced_of_levels rfl (fun _ _ => rfl))

theorem keeps_registerModule (key : String) (unit : ModuleRef) :
    Keeps (registerModule key unit) :=
  keeps_modify _ (fun _ => balanced_of_levels rfl (fun _ _ => rfl))

theorem keeps_newPtr : Keeps newPtr := by
  intro st a st1 h; cases h
  exact balanced_of_levels rfl (fun _ _ => rfl)

theorem keeps_derefNode (p : Option AstNode) : Keeps (derefNode p) := by
  cases p with
  | none => exact keeps_throw _
  | some n => exact keeps_pure _

theorem keeps_writeSymbol (p : Option (Int × Nat)) (f : Symbol → Symbol) :
    Keeps (writeSymbol p f) := by
  intro st a st1 h
  unfold writeSymbol at h
  cases p with
  | none => cases h
  | some q =>
    simp only at h
    obtain ⟨s0, s1, h1, h2⟩ := bind_ok h
    cases h1
    cases he : (st.levels q.1).locals.get? q.2 with
    | none => rw [he] at h2; cases h2
    | some e =>
      rw [he] at h2
      cases h2
      refine ⟨rfl, fun l _ hemp => ?_⟩
      unfold CompilerState.emptyAt at hemp ⊢
      by_cases hl : l = q.1
      · subst hl
        simp only [Function.update_same]
        rw [hemp]; rfl
      · simp only [Function.update_noteq hl]; exact hemp

theorem keeps_IncreaseBlock {α : Type} (t : LevelType) {k : Analyzer α} (hk : Falls k) :
    Keeps (IncreaseBlock t >>= fun _ => k) := by
  intro st b st2 h
  obtain ⟨a, st1, h1, h2⟩ := bind_ok h
  cases h1
  obtain ⟨f1, f2⟩ := hk _ b st2 h2
  refine ⟨by rw [f1]; show st.level + 1 - 1 = st.level; omega, fun l hl he => ?_⟩
  refine f2 l (by show st.level + 1 ≤ l; omega) ?_
  by_cases hl1 : l = st.level + 1
  · exact Or.inl hl1
  · right
    unfold CompilerState.emptyAt at he ⊢
    show ((Function.update st.levels (st.level + 1) _) l).locals = []
    rw [Function.update_noteq hl1]; exact he

theorem keeps_warnUnused (ls : List (String × Symbol)) : Keeps (warnUnused ls) := by
  induction ls with
  | nil => exact keeps_pure _
  | cons x ls ih =>
    obtain ⟨name, symbol⟩ := x
    unfold warnUnused
    refine keeps_bind keeps_get (fun st => keeps_bind ?_ (fun _ => ih))
    split
    · exact keeps_pure _
    · split
      · exact keeps_WarningMessage _ _ _
      · exact keeps_pure _

theorem falls_DecreaseBlock {α : Type} {k : Analyzer α} (hk : Keeps k) :
    Falls (DecreaseBlock >>= fun _ => k) := by
  intro st b st3 h
  obtain ⟨a, st2, h1, h2⟩ := bind_ok h
  unfold DecreaseBlock at h1
  obtain ⟨s0, s1, g1, g2⟩ := bind_ok h1
  cases g1
  obtain ⟨u, s2, w1, w2⟩ := bind_ok g2
  obtain ⟨k1, k2⟩ := keeps_warnUnused _ _ _ _ w1
  cases w2
  obtain ⟨e1, e2⟩ := hk _ b st3 h2
  refine ⟨by rw [e1]; show s2.level - 1 = st.level - 1; rw [k1], fun l hl hor => ?_⟩
  refine e2 l (by show s2.level - 1 < l; rw [k1]; omega) ?_
  unfold CompilerState.emptyAt
  show ((Function.update s2.levels s2.level _) l).locals = []
  by_cases hl1 : l = s2.level
  · subst hl1; rw [Function.update_same]
  · rw [Function.update_noteq hl1]
    rcases hor with rfl | he
    · exact absurd k1.symm hl1
    · rcases lt_or_eq_of_le hl with hlt | heq
      · exact k2 l hlt he
      · exact absurd (by rw [k1]; exact heq.symm) hl1


theorem keeps_ite {α : Type} (c : Prop) [Decidable c] {a b : Analyzer α} (ha : Keeps a)
    (hb : Keeps b) : Keeps (if c then a else b) := by
  split
  · exact ha
  · exact hb

theorem keeps_literalSide (env : Collab) (value : AstNode) : Keeps (literalSide env value) := by
  unfold literalSide
  simp only []
  split
  · refine keeps_bind (keeps_derefNode _) (fun rs => ?_)
    split
    · exact keeps_pure _
    · exact keeps_pure _
  · exact keeps_derefNode _

theorem keeps_scanReturn (children : List (Option AstNode)) (idx : Nat) :
    Keeps (scanReturn children idx) := by
  induction idx with
  | zero => exact keeps_pure _
  | succ idx ih =>
    unfold scanReturn
    refine keeps_bind (keeps_derefNode _) (fun cur => ?_)
    split
    · refine keeps_bind (keeps_derefNode _) (fun prev => ?_)
      split
      · exact keeps_pure _
      · split
        · exact keeps_pure _
        · exact ih
    · exact keeps_pure _

theorem keeps_hasReturnDefinition (children : List (Option AstNode)) :
    Keeps (hasReturnDefinition children) := by
  unfold hasReturnDefinition
  simp only []
  split
  · split
    · exact keeps_pure _
    · exact keeps_scanReturn _ _
  · exact keeps_scanReturn _ _

theorem keeps_hasReturnExpression (children : List (Option AstNode)) :
    Keeps (hasReturnExpression children) := by
  unfold hasReturnExpression
  simp only []
  refine keeps_bind (keeps_derefNode _) (fun last => ?_)
  split
  · exact keeps_pure _
  · exact keeps_scanReturn _ _

theorem keeps_makeReturnNull (location : SourceLocation) (module : Option ModuleRef) :
    Keeps (makeReturnNull location module) := by
  unfold makeReturnNull
  exact keeps_bind keeps_newPtr (fun _ => keeps_bind keeps_newPtr (fun _ => keeps_pure _))

theorem keeps_ensureReturn (expr : Bool) (name : String) (module : Option ModuleRef)
    (body : AstHdr) (children : List (Option AstNode)) :
    Keeps (ensureReturn expr name module body children) := by
  unfold ensureReturn
  split
  · exact keeps_bind (keeps_InfoMsg _ _ _)
      (fun _ => keeps_bind (keeps_makeReturnNull _ _) (fun _ => keeps_pure _))
  · refine keeps_bind ?_ (fun has_return => ?_)
    · split
      · exact keeps_hasReturnExpression _
      · exact keeps_hasReturnDefinition _
    · split
      · exact keeps_bind (keeps_makeReturnNull _ _) (fun _ => keeps_pure _)
      · exact keeps_pure _

theorem keeps_declareParams (env : Collab) (module : Option ModuleRef) (node : Option NodeRef)
    (params : List String) : Keeps (declareParams env module node params) := by
  induction params with
  | nil => exact keeps_pure _
  | cons p ps ih =>
    unfold declareParams
    exact keeps_bind keeps_get (fun _ => keeps_bind (keeps_pushLocal _ _) (fun _ => ih))

theorem keeps_warnEmptyBody (body : Option AstNode) : Keeps (warnEmptyBody body) := by
  unfold warnEmptyBody
  split
  · exact keeps_InfoMsg _ _ _
  · exact keeps_pure _

theorem keeps_assignUpdate (env : Collab) (left right : Option AstNode) :
    Keeps (assignUpdate env left right) := by
  unfold assignUpdate
  refine keeps_bind (keeps_derefNode _) (fun l => ?_)
  split
  · split
    · exact keeps_bind (keeps_derefNode _) (fun _ => keeps_bind (keeps_literalSide _ _)
        (fun _ => keeps_bind (keeps_writeSymbol _ _) (fun _ => keeps_bind (keeps_writeSymbol _ _)
          (fun _ => keeps_pure _))))
    · exact keeps_pure _
  · exact keeps_pure _

theorem keeps_assignChecks (left right : Option AstNode) : Keeps (assignChecks left right) := by
  unfold assignChecks
  refine keeps_bind (keeps_derefNode _) (fun l => ?_)
  split
  · refine keeps_bind (keeps_ite _ (keeps_ErrorMsg _ _ _) (keeps_pure _)) (fun _ => ?_)
    refine keeps_bind (keeps_ite _ (keeps_ErrorMsg _ _ _) (keeps_pure _)) (fun _ => ?_)
    refine keeps_bind (keeps_derefNode _) (fun _ => ?_)
    exact keeps_ite _ (keeps_ErrorMsg _ _ _) (keeps_pure _)
  · exact keeps_pure _
  · exact keeps_pure _
  · exact keeps_ErrorMsg _ _ _

theorem keeps_binopChecks (env : Collab) (op : BinOp) (left right : Option AstNode) :
    Keeps (binopChecks env op left right) := by
  unfold binopChecks
  split
  · exact keeps_bind (keeps_assignUpdate _ _ _)
      (fun _ => keeps_bind (keeps_assignChecks _ _) (fun _ => keeps_pure _))
  all_goals first
    | exact keeps_bind (keeps_assignChecks _ _) (fun _ => keeps_pure _)
    | exact keeps_pure _

theorem keeps_declareEnumMembers (env : Collab) (members : List (String × Option AstNode)) :
    Keeps (declareEnumMembers env members) := by
  induction members with
  | nil => exact keeps_pure _
  | cons m ms ih =>
    obtain ⟨first, second⟩ := m
    unfold declareEnumMembers
    refine keeps_bind (keeps_derefNode _) (fun _ => keeps_bind keeps_get (fun _ => ?_))
    refine keeps_bind ?_ (fun _ => ih)
    exact keeps_ite _ (keeps_ErrorMsg _ _ _)
      (keeps_ite _ (keeps_ErrorMsg _ _ _) (keeps_pushLocal _ _))

theorem keeps_AcceptVariable (env : Collab) (h : AstHdr) (name : String) (info : VarInfo) :
    Keeps (AcceptVariable env h name info) := by
  unfold AcceptVariable
  refine keeps_bind keeps_get (fun st => ?_)
  simp only []
  split
  · refine keeps_bind ?_ (fun _ => keeps_pure _)
    split
    · exact keeps_pure _
    · refine keeps_bind ?_ (fun _ => ?_)
      · exact keeps_ite _ (keeps_ite _ (keeps_ErrorMsg _ _ _) (keeps_pure _)) (keeps_pure _)
      · exact keeps_ite _ (keeps_IncrementUseCount _) (keeps_pure _)
  · exact keeps_bind (keeps_ErrorMsg _ _ _) (fun _ => keeps_pure _)

theorem keeps_scope {α β : Type} (t : LevelType) {m : Analyzer α} {k : α → Analyzer β}
    (hm : Keeps m) (hk : ∀ a, Keeps (k a)) :
    Keeps (IncreaseBlock t >>= fun _ => m >>= fun a => DecreaseBlock >>= fun _ => k a) :=
  keeps_IncreaseBlock t (falls_bind hm (fun a => falls_DecreaseBlock (hk a)))

theorem keeps_wrap {α β : Type} {m : Analyzer α} (f : α → β) (hm : Keeps m) :
    Keeps (m >>= fun a => pure (f a)) :=
  keeps_bind hm (fun _ => keeps_pure _)

theorem keeps_AcceptImport (h : AstHdr) (relative_path import_str : String) (is_open : Bool)
    (unit : ModuleRef) (parse_errors : List Diagnostic) (unit_children : List (Option AstNode))
    {visitUnit : Analyzer (List (Option AstNode))} (hv : Keeps visitUnit) :
    Keeps (AcceptImport h relative_path import_str is_open unit parse_errors unit_children
      visitUnit) := by
  unfold AcceptImport
  refine keeps_bind keeps_get (fun _ => keeps_bind
    (keeps_ite _ (keeps_ErrorMsg _ _ _) (keeps_pure _)) (fun _ => keeps_bind keeps_get
      (fun _ => ?_)))
  split
  · exact keeps_pure _
  · split
    · exact keeps_bind (keeps_ErrorMsg _ _ _) (fun _ => keeps_pure _)
    · split
      · exact keeps_bind (keeps_ErrorMsg _ _ _) (fun _ => keeps_pure _)
      · exact keeps_bind (keeps_registerModule _ _) (fun _ => keeps_bind
          (keeps_modify _ (fun _ => balanced_of_levels rfl (fun _ _ => rfl)))
          (fun _ => keeps_bind hv (fun _ => keeps_pure _)))

theorem keeps_AcceptBinaryOp (env : Collab) (h : AstHdr) (op : BinOp)
    {visitLeft visitRight : Analyzer (Option AstNode)} (hl : Keeps visitLeft)
    (hr : Keeps visitRight) : Keeps (AcceptBinaryOp env h op visitLeft visitRight) := by
  unfold AcceptBinaryOp
  exact keeps_bind hl (fun _ => keeps_bind hr
    (fun _ => keeps_bind (keeps_binopChecks _ _ _ _) (fun _ => keeps_pure _)))

theorem keeps_AcceptMemberAccess (env : Collab) (h : AstHdr) (left_str : String)
    (left right : Option AstNode) {visitLeft : Analyzer (Option AstNode)}
    {visitRight : Option ModuleRef → Analyzer AstNode} (hl : Keeps visitLeft)
    (hr : ∀ m, Keeps (visitRight m)) :
    Keeps (AcceptMemberAccess env h left_str left right visitLeft visitRight) := by
  unfold AcceptMemberAccess
  refine keeps_bind keeps_get (fun _ => ?_)
  split
  · exact keeps_bind (hr _) (fun _ => keeps_pure _)
  · refine keeps_bind hl (fun _ => keeps_bind (keeps_derefNode _) (fun _ => ?_))
    split
    · exact keeps_bind (hr _) (fun _ => keeps_pure _)
    · exact keeps_bind (keeps_ite _ (keeps_ErrorMsg _ _ _) (keeps_pure _))
        (fun _ => keeps_pure _)

theorem keeps_AcceptModuleAccess (h : AstHdr) (module_name : String) (right : Option AstNode)
    {visitRight : Option ModuleRef → Analyzer AstNode} (hr : ∀ m, Keeps (visitRight m)) :
    Keeps (AcceptModuleAccess h module_name right visitRight) := by
  unfold AcceptModuleAccess
  refine keeps_bind keeps_get (fun _ => ?_)
  split
  · exact keeps_bind (hr _) (fun _ => keeps_pure _)
  · exact keeps_bind (keeps_ErrorMsg _ _ _) (fun _ => keeps_pure _)

theorem keeps_AcceptVariableDeclaration (env : Collab) (h : AstHdr) (name : String)
    (is_const : Bool) (assignment : Option AstNode) {visitAssignment : Analyzer (Option AstNode)}
    (hv : Keeps visitAssignment) :
    Keeps (AcceptVariableDeclaration env h name is_const assignment visitAssignment) := by
  unfold AcceptVariableDeclaration
  refine keeps_bind keeps_get (fun _ => ?_)
  simp only []
  split
  · exact keeps_bind (keeps_ErrorMsg _ _ _) (fun _ => keeps_pure _)
  · split
    · exact keeps_bind (keeps_ErrorMsg _ _ _) (fun _ => keeps_pure _)
    · exact keeps_bind (keeps_derefNode _) (fun _ => keeps_bind (keeps_literalSide _ _)
        (fun _ => keeps_bind (keeps_pushLocal _ _) (fun _ => keeps_bind hv
          (fun _ => keeps_pure _))))

theorem keeps_AcceptAlias (env : Collab) (h : AstHdr) (name : String)
    (alias_to : Option AstNode) {visitAliasTo : Analyzer (Option AstNode)}
    (hv : Keeps visitAliasTo) : Keeps (AcceptAlias env h name alias_to visitAliasTo) := by
  unfold AcceptAlias
  refine keeps_bind keeps_get (fun _ => ?_)
  simp only []
  split
  · exact keeps_bind (keeps_ErrorMsg _ _ _) (fun _ => keeps_pure _)
  · split
    · exact keeps_bind (keeps_ErrorMsg _ _ _) (fun _ => keeps_pure _)
    · refine keeps_bind hv (fun _ => keeps_bind ?_
        (fun _ => keeps_bind (keeps_pushLocal _ _) (fun _ => keeps_pure _)))
      split
      · exact keeps_pure _
      · exact keeps_pure _
      · exact keeps_bind (keeps_ErrorMsg _ _ _) (fun _ => keeps_pure _)

theorem keeps_AcceptFunctionDefinition (env : Collab) (h : AstHdr) (name : String)
    (arguments : List String) (block : Option AstNode)
    {visitBody : Analyzer (List (Option AstNode))} (hv : Keeps visitBody) :
    Keeps (AcceptFunctionDefinition env h name arguments block visitBody) := by
  unfold AcceptFunctionDefinition
  refine keeps_bind keeps_get (fun _ => ?_)
  simp only []
  split
  · exact keeps_bind (keeps_ErrorMsg _ _ _) (fun _ => keeps_pure _)
  · split
    · exact keeps_bind (keeps_ErrorMsg _ _ _) (fun _ => keeps_pure _)
    · refine keeps_bind (keeps_ite _ (keeps_pushLocal _ _) (keeps_pure _)) (fun _ => ?_)
      split
      · refine keeps_bind (keeps_ensureReturn _ _ _ _ _) (fun _ => ?_)
        refine keeps_IncreaseBlock _ (falls_bind (keeps_declareParams _ _ _ _) (fun _ =>
          falls_bind hv (fun _ => falls_DecreaseBlock ?_)))
        exact keeps_bind keeps_get (fun _ => keeps_bind
          (keeps_ite _ (keeps_pushLocal _ _) (keeps_pure _)) (fun _ => keeps_pure _))
      · exact keeps_pure _

theorem keeps_AcceptFunctionExpression (env : Collab) (h : AstHdr) (arguments : List String)
    (block : Option AstNode) {visitBody : Analyzer (List (Option AstNode))}
    (hv : Keeps visitBody) :
    Keeps (AcceptFunctionExpression env h arguments block visitBody) := by
  unfold AcceptFunctionExpression
  simp only []
  split
  · refine keeps_bind (keeps_ensureReturn _ _ _ _ _) (fun _ => ?_)
    exact keeps_IncreaseBlock _ (falls_bind (keeps_declareParams _ _ _ _) (fun _ =>
      falls_bind hv (fun _ => falls_DecreaseBlock (keeps_pure _))))
  · exact keeps_pure _

theorem keeps_AcceptFunctionCall (env : Collab) (h : AstHdr) (name : String)
    (arguments : List (Option AstNode)) (info : CallInfo)
    {visitArguments : Analyzer (List (Option AstNode))} (hv : Keeps visitArguments) :
    Keeps (AcceptFunctionCall env h name arguments info visitArguments) := by
  unfold AcceptFunctionCall
  refine keeps_bind keeps_get (fun _ => ?_)
  simp only []
  split
  · exact keeps_bind (keeps_IncrementUseCount _) (fun _ => keeps_bind hv
      (fun _ => keeps_pure _))
  · exact keeps_bind (keeps_ErrorMsg _ _ _) (fun _ => keeps_pure _)

theorem keeps_AcceptIfStmt (h : AstHdr) (else_statement : Option AstNode)
    {visitConditional visitBlock visitElse : Analyzer (Option AstNode)}
    (hc : Keeps visitConditional) (hb : Keeps visitBlock) (he : Keeps visitElse) :
    Keeps (AcceptIfStmt h else_statement visitConditional visitBlock visitElse) := by
  unfold AcceptIfStmt
  refine keeps_bind hc (fun _ => keeps_scope _ hb (fun _ => ?_))
  split
  · exact keeps_scope _ he (fun _ => keeps_pure _)
  · exact keeps_pure _

theorem keeps_AcceptForLoop (h : AstHdr) (block : Option AstNode)
    {visitInitializer visitConditional visitAfterthought visitBlock : Analyzer (Option AstNode)}
    (hi : Keeps visitInitializer) (hc : Keeps visitConditional) (ha : Keeps visitAfterthought)
    (hb : Keeps visitBlock) :
    Keeps (AcceptForLoop h block visitInitializer visitConditional visitAfterthought
      visitBlock) := by
  unfold AcceptForLoop
  exact keeps_bind (keeps_warnEmptyBody _) (fun _ => keeps_bind hi (fun _ => keeps_bind hc
    (fun _ => keeps_scope _ hb (fun _ => keeps_bind ha (fun _ => keeps_pure _)))))

theorem keeps_AcceptWhileLoop (h : AstHdr) (block : Option AstNode)
    {visitConditional visitBlock : Analyzer (Option AstNode)} (hc : Keeps visitConditional)
    (hb : Keeps visitBlock) : Keeps (AcceptWhileLoop h block visitConditional visitBlock) := by
  unfold AcceptWhileLoop
  exact keeps_bind hc (fun _ => keeps_bind (keeps_warnEmptyBody _)
    (fun _ => keeps_scope _ hb (fun _ => keeps_pure _)))

theorem keeps_AcceptTryCatch (h : AstHdr) (try_block catch_block : Option AstNode)
    {visitTry visitCatch visitException : Analyzer (Option AstNode)} (ht : Keeps visitTry)
    (hc : Keeps visitCatch) (he : Keeps visitException) :
    Keeps (AcceptTryCatch h try_block catch_block visitTry visitCatch visitException) := by
  unfold AcceptTryCatch
  refine keeps_bind (keeps_warnEmptyBody _) (fun _ => keeps_scope _ ht
    (fun _ => keeps_bind (keeps_warnEmptyBody _) (fun _ => ?_)))
  exact keeps_IncreaseBlock _ (falls_bind he (fun _ => falls_bind hc (fun _ =>
    falls_DecreaseBlock (keeps_pure _))))

theorem keeps_blockStep (a b : Bool) (child : Option AstNode) : Keeps (blockStep a b child) := by
  unfold blockStep
  split
  · exact keeps_pure _
  · split
    · exact keeps_pure _
    · split
      · exact keeps_bind (keeps_WarningMessage _ _ _) (fun _ => keeps_pure _)
      · exact keeps_pure _

mutual
theorem accept_keeps (env : Collab) : ∀ (n : AstNode) (ov : Option ModuleRef),
    Keeps (Accept env ov n)
  | .imports _ children, _ => keeps_wrap _ (acceptChildren_keeps env children)
  | .import_ _ _ _ _ _ _ unit_children, _ =>
    keeps_AcceptImport _ _ _ _ _ _ _ (acceptChildren_keeps env unit_children)
  | .statement _, _ => keeps_pure _
  | .block _ children, _ => keeps_wrap _ (acceptBlock_keeps env children false false)
  | .expression _ child, _ => keeps_wrap _ (acceptPtr_keeps env child)
  | .binop _ _ left right, _ =>
    keeps_AcceptBinaryOp _ _ _ (acceptPtr_keeps env left) (acceptPtr_keeps env right)
  | .unop _ child, _ => keeps_wrap _ (acceptPtr_keeps env child)
  | .array_access _ object index, _ =>
    keeps_bind (acceptPtr_keeps env object) (fun _ => keeps_wrap _ (acceptPtr_keeps env index))
  | .member_access _ _ left right, _ =>
    keeps_AcceptMemberAccess _ _ _ _ _ (acceptPtr_keeps env left)
      (fun m => acceptDeref_keeps env right m)
  | .module_access _ _ right, _ =>
    keeps_AcceptModuleAccess _ _ _ (fun m => acceptDeref_keeps env right m)
  | .var_declaration _ _ _ assignment, _ =>
    keeps_AcceptVariableDeclaration _ _ _ _ _ (acceptPtr_keeps env assignment)
  | .alias _ _ alias_to, _ => keeps_AcceptAlias _ _ _ _ (acceptPtr_keeps env alias_to)
  | .use_module _ _, _ => keeps_bind (keeps_ErrorMsg _ _ _) (fun _ => keeps_pure _)
  | .variable _ _ _, _ => keeps_AcceptVariable _ _ _ _
  | .integer _ _, _ => keeps_pure _
  | .float _, _ => keeps_pure _
  | .string _ _, _ => keeps_pure _
  | .true_ _, _ => keeps_pure _
  | .false_ _, _ => keeps_pure _
  | .null _, _ => keeps_pure _
  | .self _, _ => keeps_pure _
  | .new _, _ => keeps_pure _
  | .function_definition _ _ _ block, _ =>
    keeps_AcceptFunctionDefinition _ _ _ _ _ (acceptBody_keeps env block)
  | .function_expression _ _ block, _ =>
    keeps_AcceptFunctionExpression _ _ _ _ (acceptBody_keeps env block)
  | .function_call _ _ arguments _, _ =>
    keeps_AcceptFunctionCall _ _ _ _ _ (acceptArgsRev_keeps env arguments)
  | .class_declaration _, _ => keeps_pure _
  | .object_expression _ members, _ => keeps_wrap _ (acceptMembers_keeps env members)
  | .enum _ _ _, _ => keeps_bind (keeps_declareEnumMembers _ _) (fun _ => keeps_pure _)
  | .print _ arguments, _ => keeps_wrap _ (acceptChildren_keeps env arguments)
  | .return_ _ value, _ => keeps_wrap _ (acceptPtr_keeps env value)
  | .if_statement _ conditional block else_statement, _ =>
    keeps_AcceptIfStmt _ _ (acceptPtr_keeps env conditional) (acceptPtr_keeps env block)
      (acceptPtr_keeps env else_statement)
  | .for_loop _ initializer conditional afterthought block, _ =>
    keeps_AcceptForLoop _ _ (acceptPtr_keeps env initializer) (acceptPtr_keeps env conditional)
      (acceptPtr_keeps env afterthought) (acceptPtr_keeps env block)
  | .while_loop _ conditional block, _ =>
    keeps_AcceptWhileLoop _ _ (acceptPtr_keeps env conditional) (acceptPtr_keeps env block)
  | .try_catch _ try_block catch_block exception_object, _ =>
    keeps_AcceptTryCatch _ _ _ (acceptPtr_keeps env try_block) (acceptPtr_keeps env catch_block)
      (acceptPtr_keeps env exception_object)
  | .range _, _ => keeps_bind (keeps_ErrorMsg _ _ _) (fun _ => keeps_pure _)
theorem acceptPtr_keeps (env : Collab) : ∀ (p : Option AstNode), Keeps (AcceptPtr env p)
  | none => keeps_pure _
  | some n => keeps_wrap _ (accept_keeps env n none)
theorem acceptDeref_keeps (env : Collab) : ∀ (p : Option AstNode) (m : Option ModuleRef),
    Keeps (AcceptDeref env m p)
  | none, _ => keeps_throw _
  | some n, m => accept_keeps env n m
theorem acceptChildren_keeps (env : Collab) : ∀ (l : List (Option AstNode)),
    Keeps (AcceptChildren env l)
  | [] => keeps_pure _
  | child :: rest =>
    keeps_bind (acceptPtr_keeps env child) (fun _ => keeps_wrap _ (acceptChildren_keeps env rest))
theorem acceptArgsRev_keeps (env : Collab) : ∀ (l : List (Option AstNode)),
    Keeps (AcceptArgsRev env l)
  | [] => keeps_pure _
  | arg :: rest =>
    keeps_bind (acceptArgsRev_keeps env rest) (fun _ => keeps_wrap _ (acceptPtr_keeps env arg))
theorem acceptBlock_keeps (env : Collab) : ∀ (l : List (Option AstNode)) (a b : Bool),
    Keeps (AcceptBlock env a b l)
  | [], _, _ => keeps_pure _
  | child :: rest, a, b =>
    keeps_bind (acceptPtr_keeps env child) (fun c => keeps_bind (keeps_blockStep a b c)
      (fun flags => keeps_wrap _ (acceptBlock_keeps env rest flags.1 flags.2)))
theorem acceptMembers_keeps (env : Collab) : ∀ (l : List (String × Option AstNode)),
    Keeps (AcceptMembers env l)
  | [] => keeps_pure _
  | member :: rest =>
    keeps_bind (acceptPtr_keeps env member.2) (fun _ =>
      keeps_wrap _ (acceptMembers_keeps env rest))
theorem acceptBody_keeps (env : Collab) : ∀ (p : Option AstNode), Keeps (AcceptBody env p)
  | none => keeps_pure _
  | some n => by
    cases n with
    | block _ children => exact acceptBlock_keeps env children false false
    | _ => exact keeps_pure _
end

/-! ## The semantic analyzer: claims -/

theorem keeps_AcceptModule (env : Collab) (ast : AstModule) : Keeps (AcceptModule env ast) :=
  keeps_bind (acceptChildren_keeps env ast.children) (fun _ => keeps_pure _)

/-- C10: scope pushes and pops are balanced.  `Accept` is defined by recursion
on the AST, so every visit ends: it returns, or the source dereferences a null
or dangling pointer.  Whenever the visit of a node returns, from any analyzer
state and with any collaborators, `state.level` is what it was on entry, every
level above it that held no symbol on entry holds none, and so no level above
it holds a symbol when none did on entry.  The same holds of the visit of a
whole module; and when `Analyze` returns, that visit has returned at the level
`Analyze` was entered at (the global level when entered there) before the
reset, after which the level is the global level and no level holds a symbol. -/
theorem accept_scope_balance (env : Collab) (st : CompilerState) :
    (∀ (ov : Option ModuleRef) (n : AstNode) (r : AstNode × CompilerState),
      Accept env ov n st = .ok r →
        r.2.level = st.level ∧ (∀ l, st.level < l → st.emptyAt l → r.2.emptyAt l) ∧
        ((∀ l, st.level < l → st.emptyAt l) → ∀ l, r.2.level < l → r.2.emptyAt l)) ∧
    (∀ (ast : AstModule) (r : AstModule × CompilerState), AcceptModule env ast st = .ok r →
        r.2.level = st.level ∧ (∀ l, st.level < l → st.emptyAt l → r.2.emptyAt l)) ∧
    (∀ (ast : AstModule) (r : AstModule × CompilerState), Analyze env ast st = .ok r →
        (∃ mid, AcceptModule env ast st = .ok mid ∧ mid.2.level = st.level ∧
          (st.level = compiler_global_level → mid.2.level = compiler_global_level)) ∧
        r.2.level = compiler_global_level ∧ ∀ l, r.2.emptyAt l) := by
  refine ⟨fun ov n r hr => ?_, fun ast r hr => ?_, fun ast r hr => ?_⟩
  · obtain ⟨h1, h2⟩ := accept_keeps env n ov st r.1 r.2 hr
    exact ⟨h1, h2, fun hall l hl => h2 l (by rw [← h1]; exact hl)
      (hall l (by rw [← h1]; exact hl))⟩
  · exact keeps_AcceptModule env ast st r.1 r.2 hr
  · obtain ⟨ra, rs⟩ := r
    unfold Analyze at hr
    obtain ⟨ast1, s1, g1, g2⟩ := bind_ok hr
    have hb := keeps_AcceptModule env ast st ast1 s1 g1
    have hmid : ∃ mid, AcceptModule env ast st = .ok mid ∧ mid.2.level = st.level ∧
        (st.level = compiler_global_level → mid.2.level = compiler_global_level) :=
      ⟨(ast1, s1), g1, hb.1, fun hg => hb.1.trans hg⟩
    obtain ⟨s2, s3, g3, g4⟩ := bind_ok g2
    cases g3
    obtain ⟨u, s4, g5, g6⟩ := bind_ok g4
    obtain ⟨v, s5, g7, g8⟩ := bind_ok g6
    cases g7
    cases g8
    exact ⟨hmid, rfl, fun _ => rfl⟩

/-- C10 at the program `func f(a) { if (a) { let x = 1 } else { let y = 2 }
while (a) { } }` visited at the global level: the visit returns at level 0
with no symbol in any level above it. -/
theorem accept_scope_balance_witness :
    (∃ r, Accept plainEnv none nestedScopes globalState = .ok r ∧ r.2.level = 0 ∧
      (r.2.levels 0).locals.map Prod.fst = ["f"] ∧ r.2.emptyAt 1 ∧ r.2.emptyAt 2) ∧
    (∃ r, Analyze plainEnv nestedModule globalState = .ok r ∧
      r.2.level = compiler_global_level) := by
  have hrun : ∃ r, Accept plainEnv none nestedScopes globalState = .ok r ∧
      (r.2.levels 0).locals.map Prod.fst = ["f"] := ⟨_, rfl, rfl⟩
  have hrun2 : ∃ r, Analyze plainEnv nestedModule globalState = .ok r := ⟨_, rfl⟩
  obtain ⟨r, hr, hf⟩ := hrun
  obtain ⟨r2, hr2⟩ := hrun2
  obtain ⟨hacc, -, hana⟩ := accept_scope_balance plainEnv globalState
  obtain ⟨h1, h2, -⟩ := hacc none nestedScopes r hr
  exact ⟨⟨r, hr, h1, hf, h2 1 (by decide) rfl, h2 2 (by decide) rfl⟩,
    ⟨r2, hr2, (hana nestedModule r2 hr2).2.1⟩⟩

/-! ## The semantic analyzer: symbol lookup -/

theorem findLocal_none (name : String) (ls : List (String × Symbol)) :
    findLocal name ls = none ↔ name ∉ ls.map Prod.fst := by
  induction ls with
  | nil => simp [findLocal]
  | cons x ls ih =>
    obtain ⟨key, value⟩ := x
    unfold findLocal
    by_cases hk : key = name
    · simp [hk]
    · have hk1 : ¬ name = key := fun h => hk h.symm
      simp [hk, hk1, ih]

theorem findLocal_some (name : String) (ls : List (String × Symbol)) (i : Nat) (s : Symbol)
    (h : findLocal name ls = some (i, s)) :
    ls.get? i = some (name, s) ∧ ∀ j, j < i → ∀ e, ls.get? j = some e → e.1 ≠ name := by
  induction ls generalizing i with
  | nil => simp [findLocal] at h
  | cons x ls ih =>
    obtain ⟨key, value⟩ := x
    unfold findLocal at h
    by_cases hk : key = name
    · simp only [hk, if_true] at h
      cases h
      exact ⟨by simp [hk], fun j hj => absurd hj (Nat.not_lt_zero j)⟩
    · simp only [hk, if_false] at h
      cases hr : findLocal name ls with
      | none => rw [hr] at h; cases h
      | some r =>
        obtain ⟨i0, s0⟩ := r
        rw [hr] at h
        cases h
        obtain ⟨g1, g2⟩ := ih i0 hr
        refine ⟨by simpa using g1, fun j hj e he => ?_⟩
        cases j with
        | zero => simp at he; rw [← he]; exact hk
        | succ j => exact g2 j (Nat.lt_of_succ_lt_succ hj) e (by simpa using he)

theorem findVariableFrom_none (st : CompilerState) (name : String) (n : Nat) (start : Int) :
    findVariableFrom st name false n start = none ↔
      ∀ l, start - n < l → l ≤ start → name ∉ (st.levels l).names := by
  induction n generalizing start with
  | zero =>
    simp only [findVariableFrom, true_iff]
    intro l h1 h2
    simp at h1; omega
  | succ n ih =>
    unfold findVariableFrom
    cases hr : findLocal name (st.levels start).locals with
    | some r =>
      refine ⟨fun h => (by cases h), fun hall => ?_⟩
      have hno := hall start (by push_cast; omega) (le_refl _)
      rw [(findLocal_none name _).mpr hno] at hr
      cases hr
    | none =>
      simp only [Bool.false_eq_true, if_false]
      rw [ih]
      constructor
      · intro hall l h1 h2
        by_cases hl : l = start
        · subst hl; exact (findLocal_none name _).mp hr
        · exact hall l (by push_cast at h1; omega) (by omega)
      · intro hall l h1 h2
        exact hall l (by push_cast; omega) (by omega)

theorem findVariableFrom_some (st : CompilerState) (name : String) (n : Nat) (start l : Int)
    (i : Nat) (s : Symbol) (h : findVariableFrom st name false n start = some ((l, i), s)) :
    start - n < l ∧ l ≤ start ∧ (st.levels l).locals.get? i = some (name, s) ∧
      (∀ j, j < i → ∀ e, (st.levels l).locals.get? j = some e → e.1 ≠ name) ∧
      ∀ l1, l < l1 → l1 ≤ start → name ∉ (st.levels l1).names := by
  induction n generalizing start with
  | zero => simp [findVariableFrom] at h
  | succ n ih =>
    unfold findVariableFrom at h
    cases hr : findLocal name (st.levels start).locals with
    | some r =>
      obtain ⟨i0, s0⟩ := r
      rw [hr] at h
      obtain ⟨g1, g2⟩ := findLocal_some name _ i0 s0 hr
      cases h
      exact ⟨by push_cast; omega, le_refl _, g1, g2, fun l1 h1 h2 => by omega⟩
    | none =>
      rw [hr] at h
      simp only [Bool.false_eq_true, if_false] at h
      obtain ⟨g1, g2, g3, g4, g5⟩ := ih (start - 1) h
      refine ⟨by push_cast; omega, by omega, g3, g4, fun l1 h1 h2 => ?_⟩
      by_cases hl : l1 = start
      · subst hl; exact (findLocal_none name _).mp hr
      · exact g5 l1 h1 (by omega)

theorem findVariable_this (st : CompilerState) (name : String)
    (hl : compiler_global_level ≤ st.level) :
    FindVariable st name true =
      (findLocal name (st.levels st.level).locals).map (fun r => ((st.level, r.1), r.2)) := by
  unfold FindVariable
  obtain ⟨n, hn⟩ : ∃ n, (st.level - compiler_global_level + 1).toNat = n + 1 :=
    ⟨(st.level - compiler_global_level).toNat, by omega⟩
  rw [hn]
  unfold findVariableFrom
  cases findLocal name (st.levels st.level).locals <;> rfl

/-- C16: `FindVariable` on a scope stack (the current level is at or above the
global level).  `FindVariable(name, false)` reports not found exactly when no
level from the global level to the current level holds the name; when it
finds a symbol, that symbol is the first in insertion order carrying the name
in its level, and no level above that one, up to the current level, holds the
name.  `FindVariable(name, true)` reports not found exactly when the current
level does not hold the name, whatever the lower levels hold, and a symbol it
finds is the first carrying the name in the current level. -/
theorem findVariable_spec (st : CompilerState) (name : String)
    (hl : compiler_global_level ≤ st.level) :
    (FindVariable st name false = none ↔
      ∀ l, compiler_global_level ≤ l → l ≤ st.level → name ∉ (st.levels l).names) ∧
    (∀ l i s, FindVariable st name false = some ((l, i), s) →
      compiler_global_level ≤ l ∧ l ≤ st.level ∧
      (st.levels l).locals.get? i = some (name, s) ∧
      (∀ j, j < i → ∀ e, (st.levels l).locals.get? j = some e → e.1 ≠ name) ∧
      ∀ l1, l < l1 → l1 ≤ st.level → name ∉ (st.levels l1).names) ∧
    (FindVariable st name true = none ↔ name ∉ (st.levels st.level).names) ∧
    (∀ l i s, FindVariable st name true = some ((l, i), s) →
      l = st.level ∧ (st.levels l).locals.get? i = some (name, s) ∧
      ∀ j, j < i → ∀ e, (st.levels l).locals.get? j = some e → e.1 ≠ name) := by
  have hfuel : ((st.level - compiler_global_level + 1).toNat : Int) =
      st.level - compiler_global_level + 1 := Int.toNat_of_nonneg (by omega)
  refine ⟨?_, ?_, ?_, ?_⟩
  · unfold FindVariable
    rw [findVariableFrom_none, hfuel]
    constructor
    · intro h l h1 h2; exact h l (by omega) h2
    · intro h l h1 h2; exact h l (by omega) h2
  · intro l i s h
    unfold FindVariable at h
    obtain ⟨g1, g2, g3, g4, g5⟩ := findVariableFrom_some st name _ _ l i s h
    rw [hfuel] at g1
    exact ⟨by omega, g2, g3, g4, g5⟩
  · rw [findVariable_this st name hl]
    cases hr : findLocal name (st.levels st.level).locals with
    | none => exact ⟨fun _ => (findLocal_none name _).mp hr, fun _ => rfl⟩
    | some r =>
      refine ⟨fun h => (by cases h), fun h => ?_⟩
      rw [(findLocal_none name _).mpr h] at hr
      cases hr
  · intro l i s h
    rw [findVariable_this st name hl] at h
    cases hr : findLocal name (st.levels st.level).locals with
    | none => rw [hr] at h; cases h
    | some r =>
      obtain ⟨i0, s0⟩ := r
      rw [hr] at h
      obtain ⟨g1, g2⟩ := findLocal_some name _ i0 s0 hr
      cases h
      exact ⟨rfl, g1, g2⟩

/-- C16 on `scopeStackSample`: `x` resolves to the first `x` of the function
level, `y` to the global level, `w` is held by no level, and the probe of the
current level alone does not find `y`. -/
theorem findVariable_spec_witness :
    compiler_global_level ≤ scopeStackSample.level ∧
    (∃ s, FindVariable scopeStackSample "x" false = some ((1, 1), s) ∧ s.field_index = 1) ∧
    (∃ s, FindVariable scopeStackSample "y" false = some ((0, 1), s)) ∧
    (∀ l, compiler_global_level ≤ l → l ≤ scopeStackSample.level →
      "w" ∉ (scopeStackSample.levels l).names) ∧
    "y" ∉ (scopeStackSample.levels scopeStackSample.level).names := by
  have hl : compiler_global_level ≤ scopeStackSample.level := by decide
  obtain ⟨h1, -, h3, -⟩ := findVariable_spec scopeStackSample "w" hl
  obtain ⟨-, -, k3, -⟩ := findVariable_spec scopeStackSample "y" hl
  exact ⟨hl, ⟨_, rfl, rfl⟩, ⟨_, rfl⟩, h1.mp rfl, k3.mp rfl⟩

/-! ## The semantic analyzer: running the visitors -/

theorem run_bind {α β : Type} {m : Analyzer α} {f : α → Analyzer β} {st s1 : CompilerState}
    {a : α} (h : m st = .ok (a, s1)) : (m >>= f) st = f a s1 := by
  simp only [bind, StateT.bind, h]
  rfl

theorem run_pure {α : Type} (a : α) (st : CompilerState) :
    (pure a : Analyzer α) st = .ok (a, st) := rfl

theorem run_get (st : CompilerState) : (get : Analyzer CompilerState) st = .ok (st, st) := rfl

theorem run_modify (f : CompilerState → CompilerState) (st : CompilerState) :
    (modify f : Analyzer Unit) st = .ok ((), f st) := rfl

theorem run_report (sev : Severity) (msg : ErrorType) (loc : SourceLocation)
    (args : List String) (st : CompilerState) :
    report sev msg loc args st = .ok ((), { st with errors := st.errors ++ [⟨sev, msg, loc, args⟩] }) :=
  rfl

theorem run_ErrorMsg (msg : ErrorType) (loc : SourceLocation) (args : List String)
    (st : CompilerState) :
    ErrorMsg msg loc args st =
      .ok ((), { st with errors := st.errors ++ [⟨.error, msg, loc, args⟩] }) := rfl

theorem run_WarningMessage (msg : ErrorType) (loc : SourceLocation) (args : List String)
    (st : CompilerState) :
    WarningMessage msg loc args st =
      .ok ((), { st with errors := st.errors ++ [⟨.warning, msg, loc, args⟩] }) := rfl

theorem run_InfoMsg (msg : ErrorType) (loc : SourceLocation) (args : List String)
    (st : CompilerState) :
    InfoMsg msg loc args st =
      .ok ((), { st with errors := st.errors ++ [⟨.info, msg, loc, args⟩] }) := rfl

theorem run_pushLocal (name : String) (symbol : Symbol) (st : CompilerState) :
    pushLocal name symbol st = .ok ((),
      { st with
        levels := Function.update st.levels st.level
          ⟨(st.levels st.level).type, (st.levels st.level).locals ++ [(name, symbol)]⟩ }) :=
  rfl

theorem run_IncreaseBlock (type : LevelType) (st : CompilerState) :
    IncreaseBlock type st = .ok ((),
      { st with
        level := st.level + 1
        levels := Function.update st.levels (st.level + 1) ⟨type, []⟩ }) :=
  rfl

theorem withModule_location (h : AstHdr) (ov : Option ModuleRef) :
    (h.withModule ov).location = h.location := by
  cases ov <;> rfl

theorem withModule_ptr (h : AstHdr) (ov : Option ModuleRef) :
    (h.withModule ov).ptr = h.ptr := by
  cases ov <;> rfl

theorem withModule_attributes (h : AstHdr) (ov : Option ModuleRef) :
    (h.withModule ov).attributes = h.attributes := by
  cases ov <;> rfl

/-- A name the current level does not hold is not found by the probe of the
current level. -/
theorem findVariable_this_none (st : CompilerState) (name : String)
    (h : name ∉ (st.levels st.level).names) : FindVariable st name true = none := by
  unfold FindVariable
  cases (st.level - compiler_global_level + 1).toNat with
  | zero => rfl
  | succ n =>
    unfold findVariableFrom
    rw [(findLocal_none name _).mpr h]
    rfl

/-- A name the current level holds is found there, whatever the flag. -/
theorem findVariable_here (st : CompilerState) (name : String) (b : Bool)
    (hl : compiler_global_level ≤ st.level) (h : name ∈ (st.levels st.level).names) :
    ∃ i s, FindVariable st name b = some ((st.level, i), s) ∧
      (st.levels st.level).locals.get? i = some (name, s) ∧
      ∀ j, j < i → ∀ e, (st.levels st.level).locals.get? j = some e → e.1 ≠ name := by
  cases hr : findLocal name (st.levels st.level).locals with
  | none => exact absurd h ((findLocal_none name _).mp hr)
  | some r =>
    obtain ⟨i, s⟩ := r
    obtain ⟨g1, g2⟩ := findLocal_some name _ i s hr
    refine ⟨i, s, ?_, g1, g2⟩
    unfold FindVariable
    obtain ⟨n, hn⟩ : ∃ n, (st.level - compiler_global_level + 1).toNat = n + 1 :=
      ⟨(st.level - compiler_global_level).toNat, by omega⟩
    rw [hn]
    unfold findVariableFrom
    rw [hr]

/-- A lookup reads the level and the levels of the state and nothing else. -/
theorem findVariable_congr (st st1 : CompilerState) (h1 : st1.level = st.level)
    (h2 : st1.levels = st.levels) (identifier : String) (b : Bool) :
    FindVariable st1 identifier b = FindVariable st identifier b := by
  have key : ∀ n start, findVariableFrom st1 identifier b n start =
      findVariableFrom st identifier b n start := by
    intro n
    induction n with
    | zero => intro start; rfl
    | succ n ih =>
      intro start
      unfold findVariableFrom
      rw [h2, ih]
  unfold FindVariable
  rw [h1, key]

/-! ## The semantic analyzer: redeclaration -/

/-- C17: a variable declaration whose mangled name the current level already
holds.  The visit returns; it appends exactly one diagnostic, the
`redeclared_identifier` error at the location of the declaration with its name;
it leaves the level, every level (so it adds no symbol and changes none), the
use counts and the module registry as they were and the node unvisited; and
every lookup gives afterwards what it gave before, so the name still resolves
to the first symbol of the current level that carries it. -/
theorem redeclared_variable (env : Collab) (ov : Option ModuleRef) (st : CompilerState)
    (h : AstHdr) (name : String) (is_const : Bool) (assignment : Option AstNode)
    (hl : compiler_global_level ≤ st.level)
    (hdup : env.MakeVariableName st name (h.withModule ov).module ∈
      (st.levels st.level).names) :
    ∃ st1, Accept env ov (.var_declaration h name is_const assignment) st =
        .ok (.var_declaration (h.withModule ov) name is_const assignment, st1) ∧
      st1.errors = st.errors ++ [⟨.error, .Msg_redeclared_identifier, h.location, [name]⟩] ∧
      st1.level = st.level ∧ st1.levels = st.levels ∧ st1.use_counts = st.use_counts ∧
      st1.other_modules = st.other_modules ∧
      (∀ identifier b, FindVariable st1 identifier b = FindVariable st identifier b) ∧
      ∃ i s, FindVariable st1 (env.MakeVariableName st name (h.withModule ov).module) false =
          some ((st.level, i), s) ∧
        (st.levels st.level).locals.get? i =
          some (env.MakeVariableName st name (h.withModule ov).module, s) ∧
        ∀ j, j < i → ∀ e, (st.levels st.level).locals.get? j = some e →
          e.1 ≠ env.MakeVariableName st name (h.withModule ov).module := by
  obtain ⟨i, s, hf, hg, hfirst⟩ := findVariable_here st _ false hl hdup
  obtain ⟨i1, s1, hf1, -, -⟩ := findVariable_here st _ true hl hdup
  have hsame : ∀ identifier b, FindVariable { st with errors := st.errors ++
      [⟨.error, .Msg_redeclared_identifier, h.location, [name]⟩] } identifier b =
      FindVariable st identifier b := by
    intro identifier b
    apply findVariable_congr <;> rfl
  refine ⟨{ st with errors := st.errors ++
      [⟨.error, .Msg_redeclared_identifier, h.location, [name]⟩] }, ?_, rfl, rfl, rfl, rfl, rfl,
    hsame, i, s, (hsame _ _).trans hf, hg, hfirst⟩
  show AcceptVariableDeclaration env (h.withModule ov) name is_const assignment
    (AcceptPtr env assignment) st = _
  unfold AcceptVariableDeclaration
  rw [run_bind (run_get st)]
  simp only [hf1, Option.isSome_some, if_true]
  rw [← withModule_location h ov]
  rfl

/-- C17 on `let x = 5; let x = 6`: the second declaration, visited in the
state the first leaves, yields one `redeclared_identifier` error at line 3, and
`x` still resolves to the symbol of the first declaration (node 1). -/
theorem redeclared_variable_witness :
    ∃ st1, Accept plainEnv none (.var_declaration (hdrAt 3) "x" false
        (some (.integer (hdrAt 4) 6))) stateWithX =
        .ok (.var_declaration (hdrAt 3) "x" false (some (.integer (hdrAt 4) 6)), st1) ∧
      st1.errors = [⟨.error, .Msg_redeclared_identifier, ⟨3, 0, "main"⟩, ["x"]⟩] ∧
      (st1.levels 0).names = ["x"] ∧
      ∃ s, FindVariable st1 "x" false = some ((0, 0), s) ∧ s.node.map (fun n => n.ptr) = some 1 := by
  obtain ⟨st1, h1, h2, -, h4, -, -, h7, -⟩ :=
    redeclared_variable plainEnv none stateWithX (hdrAt 3) "x" false
      (some (.integer (hdrAt 4) 6)) (by decide) (by decide)
  refine ⟨st1, h1, h2, by rw [h4]; rfl, ?_⟩
  rw [h7]
  exact ⟨_, rfl, rfl⟩

/-! ## The semantic analyzer: empty function bodies -/

/-- The parameter loop returns; it changes the current level and nothing
else. -/
theorem run_declareParams (env : Collab) (module : Option ModuleRef) (node : Option NodeRef)
    (params : List String) (st : CompilerState) :
    ∃ st1, declareParams env module node params st = .ok ((), st1) ∧
      st1.errors = st.errors ∧ st1.level = st.level ∧ st1.use_counts = st.use_counts ∧
      st1.next_ptr = st.next_ptr ∧ st1.other_modules = st.other_modules ∧
      ∀ l, l ≠ st.level → st1.levels l = st.levels l := by
  induction params generalizing st with
  | nil => exact ⟨st, rfl, rfl, rfl, rfl, rfl, rfl, fun _ _ => rfl⟩
  | cons p ps ih =>
    unfold declareParams
    rw [run_bind (run_get st)]
    rw [run_bind (run_pushLocal _ _ st)]
    obtain ⟨st1, h1, h2, h3, h4, h5, h6, h7⟩ := ih _
    refine ⟨st1, h1, h2, h3, h4, h5, h6, fun l hl => ?_⟩
    rw [h7 l hl]
    exact Function.update_noteq hl _ _

/-- The loop over the locals of a level returns; it appends
`unused_identifier` warnings and changes nothing else. -/
theorem run_warnUnused (ls : List (String × Symbol)) (st : CompilerState) :
    ∃ ws, warnUnused ls st = .ok ((), { st with errors := st.errors ++ ws }) ∧
      ∀ w, w ∈ ws → w.msg = .Msg_unused_identifier ∧ w.severity = .warning := by
  induction ls generalizing st with
  | nil => exact ⟨[], by simp [warnUnused]; rfl, fun _ h => by cases h⟩
  | cons x ls ih =>
    obtain ⟨name, symbol⟩ := x
    unfold warnUnused
    rw [run_bind (run_get st)]
    cases hn : symbol.node with
    | none =>
      simp only []
      rw [run_bind (run_pure () st)]
      exact ih st
    | some node =>
      simp only []
      by_cases hu : st.use_counts (some node.ptr) = 0
      · simp only [hu, if_true]
        rw [run_bind (run_WarningMessage _ _ _ st)]
        obtain ⟨ws, h1, h2⟩ := ih { st with errors := st.errors ++
          [⟨.warning, .Msg_unused_identifier, node.location, [symbol.original_name]⟩] }
        refine ⟨⟨.warning, .Msg_unused_identifier, node.location, [symbol.original_name]⟩ :: ws,
          ?_, ?_⟩
        · rw [h1]; simp
        · intro w hw
          rcases List.mem_cons.mp hw with rfl | hw1
          · exact ⟨rfl, rfl⟩
          · exact h2 w hw1
      · simp only [hu, if_false]
        rw [run_bind (run_pure () st)]
        exact ih st

/-- The function `DecreaseBlock` returns: warnings for the unused locals of
the current level, then that level cleared and the level lowered. -/
theorem run_DecreaseBlock (st : CompilerState) :
    ∃ ws st1, DecreaseBlock st = .ok ((), st1) ∧ st1.errors = st.errors ++ ws ∧
      (∀ w, w ∈ ws → w.msg = .Msg_unused_identifier ∧ w.severity = .warning) ∧
      st1.level = st.level - 1 ∧
      st1.levels = Function.update st.levels st.level ({} : LevelInfo) ∧
      st1.use_counts = st.use_counts ∧ st1.next_ptr = st.next_ptr ∧
      st1.other_modules = st.other_modules := by
  obtain ⟨ws, h1, h2⟩ := run_warnUnused st.CurrentLevel.locals st
  refine ⟨ws,
    { st with
      errors := st.errors ++ ws
      levels := Function.update st.levels st.level ({} : LevelInfo)
      level := st.level - 1 }, ?_, rfl, h2, rfl, rfl, rfl, rfl, rfl⟩
  unfold DecreaseBlock
  rw [run_bind (run_get st), run_bind h1]
  rfl

/-- Every symbol the parameter loop adds to the current level has the node the
loop was given. -/
theorem declareParams_nodes (env : Collab) (module : Option ModuleRef) (node : Option NodeRef)
    (params : List String) (st st1 : CompilerState)
    (h : declareParams env module node params st = .ok ((), st1)) :
    ∀ e, e ∈ (st1.levels st.level).locals →
      e ∈ (st.levels st.level).locals ∨ e.2.node = node := by
  induction params generalizing st with
  | nil => cases h; exact fun e he => Or.inl he
  | cons p ps ih =>
    unfold declareParams at h
    rw [run_bind (run_get st), run_bind (run_pushLocal _ _ st)] at h
    intro e he
    rcases ih _ h e he with h1 | h1
    · simp only [Function.update_same, List.mem_append, List.mem_singleton] at h1
      rcases h1 with h2 | h2
      · exact Or.inl h2
      · right; rw [h2]
    · exact Or.inr h1

/-- No warning for locals without a node. -/
theorem warnUnused_none (ls : List (String × Symbol)) (st : CompilerState)
    (h : ∀ e, e ∈ ls → e.2.node = none) : warnUnused ls st = .ok ((), st) := by
  induction ls with
  | nil => rfl
  | cons x ls ih =>
    obtain ⟨name, symbol⟩ := x
    unfold warnUnused
    rw [run_bind (run_get st)]
    have hn : symbol.node = none := h (name, symbol) (List.mem_cons_self _ _)
    simp only [hn]
    rw [run_bind (run_pure () st)]
    exact ih (fun e he => h e (List.mem_cons_of_mem _ he))

theorem emptyBody_expression (env : Collab) (ov : Option ModuleRef) (st : CompilerState)
    (h bh : AstHdr) (arguments : List String) :
    ∃ st1 ws, Accept env ov (.function_expression h arguments (some (.block bh []))) st =
        .ok (.function_expression (h.withModule ov) arguments (some (.block bh
          [some (.return_ ⟨st.next_ptr + 1, bh.location, (h.withModule ov).module, []⟩
            (some (.null ⟨st.next_ptr, bh.location, (h.withModule ov).module, []⟩)))])), st1) ∧
      st1.errors = st.errors ++
        ⟨.info, .Msg_empty_function_body, bh.location, ["unnamed"]⟩ :: ws ∧
      (∀ w, w ∈ ws → w.msg = .Msg_unused_identifier ∧ w.severity = .warning) ∧
      st1.level = st.level := by
  have h1 : ensureReturn true "unnamed" (h.withModule ov).module bh [] st = .ok
      ([some (.return_ ⟨st.next_ptr + 1, bh.location, (h.withModule ov).module, []⟩
        (some (.null ⟨st.next_ptr, bh.location, (h.withModule ov).module, []⟩)))],
       { st with
         errors := st.errors ++ [⟨.info, .Msg_empty_function_body, bh.location, ["unnamed"]⟩]
         next_ptr := st.next_ptr + 1 + 1 }) := rfl
  obtain ⟨s3, h3, e3, l3, -, -, -, -⟩ := run_declareParams env (h.withModule ov).module
    (some ⟨(h.withModule ov).ptr, .Ast_type_function_expression, (h.withModule ov).location,
      (h.withModule ov).attributes⟩) arguments
    { st with
      errors := st.errors ++ [⟨.info, .Msg_empty_function_body, bh.location, ["unnamed"]⟩]
      next_ptr := st.next_ptr + 1 + 1
      level := st.level + 1
      levels := Function.update st.levels (st.level + 1) ⟨.Level_function, []⟩ }
  obtain ⟨ws, s4, h5, e5, hws, l5, -⟩ := run_DecreaseBlock s3
  refine ⟨s4, ws, ?_, ?_, hws, ?_⟩
  · show AcceptFunctionExpression env (h.withModule ov) arguments (some (.block bh []))
      (AcceptBody env (some (.block bh []))) st = _
    unfold AcceptFunctionExpression
    simp only []
    rw [run_bind h1, run_bind (run_IncreaseBlock _ _), run_bind h3]
    have h4 : AcceptBody env (some (.block bh [])) s3 = .ok ([], s3) := rfl
    rw [run_bind h4, run_bind h5]
    rfl
  · rw [e5, e3]; simp
  · rw [l5, l3]; show st.level + 1 - 1 = st.level; omega

/-- No warning from `DecreaseBlock` when no local of the current level has a
node. -/
theorem run_DecreaseBlock_quiet (st : CompilerState)
    (h : ∀ e, e ∈ (st.levels st.level).locals → e.2.node = none) :
    DecreaseBlock st = .ok ((),
      { st with
        levels := Function.update st.levels st.level ({} : LevelInfo)
        level := st.level - 1 }) := by
  have hw : warnUnused st.CurrentLevel.locals st = .ok ((), st) := warnUnused_none _ st h
  unfold DecreaseBlock
  rw [run_bind (run_get st), run_bind hw]
  rfl

theorem emptyBody_definition (env : Collab) (ov : Option ModuleRef) (st : CompilerState)
    (h bh : AstHdr) (name : String) (arguments : List String)
    (hnew : env.MakeVariableName st name (h.withModule ov).module ∉ (st.levels st.level).names)
    (hmod : env.FindModule st name (h.withModule ov).module = none) :
    ∃ st1, Accept env ov (.function_definition h name arguments (some (.block bh []))) st =
        .ok (.function_definition (h.withModule ov) name arguments (some (.block bh
          [some (.return_ ⟨st.next_ptr + 1, bh.location, (h.withModule ov).module, []⟩
            (some (.null ⟨st.next_ptr, bh.location, (h.withModule ov).module, []⟩)))])), st1) ∧
      st1.errors = st.errors ++ [⟨.info, .Msg_empty_function_body, bh.location, [name]⟩] ∧
      st1.level = st.level := by
  have hfind := findVariable_this_none st _ hnew
  -- the state after the symbol of a function that is not inline has been stored
  obtain ⟨s0, h0, e0, l0, n0⟩ : ∃ s0 : CompilerState,
      (if !(h.withModule ov).HasAttribute "inline" then
        pushLocal (env.MakeVariableName st name (h.withModule ov).module)
          { node := some ⟨(h.withModule ov).ptr, .Ast_type_function_definition,
              (h.withModule ov).location, (h.withModule ov).attributes⟩,
            original_name := name, owner_level := st.level, field_index := st.localsSize }
       else pure ()) st = .ok ((), s0) ∧ s0.errors = st.errors ∧ s0.level = st.level ∧
      s0.next_ptr = st.next_ptr := by
    split
    · exact ⟨_, run_pushLocal _ _ st, rfl, rfl, rfl⟩
    · exact ⟨_, rfl, rfl, rfl, rfl⟩
  have h1 : ensureReturn false name (h.withModule ov).module bh [] s0 = .ok
      ([some (.return_ ⟨s0.next_ptr + 1, bh.location, (h.withModule ov).module, []⟩
        (some (.null ⟨s0.next_ptr, bh.location, (h.withModule ov).module, []⟩)))],
       { s0 with
         errors := s0.errors ++ [⟨.info, .Msg_empty_function_body, bh.location, [name]⟩]
         next_ptr := s0.next_ptr + 1 + 1 }) := rfl
  obtain ⟨s3, h3, e3, l3, -, -, -, -⟩ := run_declareParams env (h.withModule ov).module
    none arguments
    { s0 with
      errors := s0.errors ++ [⟨.info, .Msg_empty_function_body, bh.location, [name]⟩]
      next_ptr := s0.next_ptr + 1 + 1
      level := s0.level + 1
      levels := Function.update s0.levels (s0.level + 1) ⟨.Level_function, []⟩ }
  have hq : ∀ e, e ∈ (s3.levels s3.level).locals → e.2.node = none := by
    intro e he
    rw [l3] at he
    rcases declareParams_nodes _ _ _ _ _ _ h3 e he with h4 | h4
    · simp only [Function.update_same] at h4
      cases h4
    · exact h4
  have h5 := run_DecreaseBlock_quiet s3 hq
  -- the symbol of an inline function is stored after the body
  obtain ⟨s5, h6, e6, l6⟩ : ∃ s5 : CompilerState,
      (if (h.withModule ov).HasAttribute "inline" then
        pushLocal (env.MakeVariableName st name (h.withModule ov).module)
          { node := some ⟨(h.withModule ov).ptr, .Ast_type_function_definition,
              (h.withModule ov).location, (h.withModule ov).attributes⟩,
            original_name := name, is_const := true, owner_level := s3.level - 1,
            field_index := (({ s3 with
              levels := Function.update s3.levels s3.level ({} : LevelInfo)
              level := s3.level - 1 } : CompilerState).localsSize) }
       else pure ())
        { s3 with
          levels := Function.update s3.levels s3.level ({} : LevelInfo)
          level := s3.level - 1 } = .ok ((), s5) ∧ s5.errors = s3.errors ∧
      s5.level = s3.level - 1 := by
    split
    · exact ⟨_, run_pushLocal _ _ _, rfl, rfl⟩
    · exact ⟨_, rfl, rfl, rfl⟩
  refine ⟨s5, ?_, ?_, ?_⟩
  · show AcceptFunctionDefinition env (h.withModule ov) name arguments (some (.block bh []))
      (AcceptBody env (some (.block bh []))) st = _
    unfold AcceptFunctionDefinition
    rw [run_bind (run_get st)]
    simp only [hfind, hmod, Option.isSome_none, Bool.false_eq_true, if_false]
    rw [run_bind h0, run_bind h1, run_bind (run_IncreaseBlock _ _), run_bind h3]
    have h4 : AcceptBody env (some (.block bh [])) s3 = .ok ([], s3) := rfl
    rw [run_bind h4, run_bind h5, run_bind (run_get _), run_bind h6, n0]
    rfl
  · rw [e6, e3]; show s0.errors ++ _ = _; rw [e0]
  · rw [l6, l3]; show s0.level + 1 - 1 = st.level; rw [l0]; omega

/-- C14: a function with an empty body.  The visit of a function expression
whose body is an empty block returns; the diagnostics it appends are one
`empty_function_body` info at the location of the body, followed only by
`unused_identifier` warnings; and the body it leaves holds exactly one
statement, a `return` of the null literal, both located at the location of the
body.  The same holds of a function definition whose mangled name the current
level does not hold and which is not the name of a module, and there the info
is the only diagnostic appended. -/
theorem empty_body_synthetic_return (env : Collab) (ov : Option ModuleRef)
    (st : CompilerState) (h bh : AstHdr) (arguments : List String) :
    (∃ st1 ws, Accept env ov (.function_expression h arguments (some (.block bh []))) st =
        .ok (.function_expression (h.withModule ov) arguments (some (.block bh
          [some (.return_ ⟨st.next_ptr + 1, bh.location, (h.withModule ov).module, []⟩
            (some (.null ⟨st.next_ptr, bh.location, (h.withModule ov).module, []⟩)))])), st1) ∧
      st1.errors = st.errors ++
        ⟨.info, .Msg_empty_function_body, bh.location, ["unnamed"]⟩ :: ws ∧
      (∀ w, w ∈ ws → w.msg = .Msg_unused_identifier ∧ w.severity = .warning) ∧
      st1.level = st.level) ∧
    (∀ name : String,
      env.MakeVariableName st name (h.withModule ov).module ∉ (st.levels st.level).names →
      env.FindModule st name (h.withModule ov).module = none →
      ∃ st1, Accept env ov (.function_definition h name arguments (some (.block bh []))) st =
        .ok (.function_definition (h.withModule ov) name arguments (some (.block bh
          [some (.return_ ⟨st.next_ptr + 1, bh.location, (h.withModule ov).module, []⟩
            (some (.null ⟨st.next_ptr, bh.location, (h.withModule ov).module, []⟩)))])), st1) ∧
      st1.errors = st.errors ++ [⟨.info, .Msg_empty_function_body, bh.location, [name]⟩] ∧
      st1.level = st.level) :=
  ⟨emptyBody_expression env ov st h bh arguments,
    fun name hnew hmod => emptyBody_definition env ov st h bh name arguments hnew hmod⟩

/-- C14 on `func g() { }` at the global level: one `empty_function_body` info
at line 2, the location of the body, and a body of one `return null` there. -/
theorem empty_body_synthetic_return_witness :
    ∃ st1, Accept plainEnv none (.function_definition (hdrAt 1) "g" []
        (some (.block (hdrAt 2) []))) globalState =
        .ok (.function_definition (hdrAt 1) "g" [] (some (.block (hdrAt 2)
          [some (.return_ ⟨1001, ⟨2, 0, "main"⟩, none, []⟩
            (some (.null ⟨1000, ⟨2, 0, "main"⟩, none, []⟩)))])), st1) ∧
      st1.errors = [⟨.info, .Msg_empty_function_body, ⟨2, 0, "main"⟩, ["g"]⟩] ∧
      st1.level = 0 :=
  (empty_body_synthetic_return plainEnv none globalState (hdrAt 1) (hdrAt 2) []).2 "g"
    (by decide) rfl

/-! ## The semantic analyzer: parameter names -/

/-- C11 at `func f(a, a) { return a }`, defined at the global level: whatever
the visit of the body is, the visitor runs it from `repeatedParameterBodyState`
and continues from what it returns; in that state the current level, level 1,
holds two symbols with the mangled name `a`.  The whole visit returns without
a diagnostic. -/
theorem parameters_repeat_name :
    (∃ k : List (Option AstNode) → Analyzer AstNode, ∀ visitBody,
      AcceptFunctionDefinition plainEnv (hdrAt 1) "f" ["a", "a"]
        (some (.block (hdrAt 2) [some (.return_ (hdrAt 3) (some (.variable (hdrAt 4) "a" {})))]))
        visitBody globalState = (visitBody >>= k) repeatedParameterBodyState) ∧
    repeatedParameterBodyState.level = 1 ∧
    (repeatedParameterBodyState.levels 1).names = ["a", "a"] ∧
    ¬ NamesUnique repeatedParameterBodyState ∧
    (∃ r, Accept plainEnv none repeatedParameter globalState = .ok r ∧ r.2.errors = []) := by
  refine ⟨⟨fun cs => DecreaseBlock >>= fun _ => get >>= fun _ =>
      (pure () : Analyzer Unit) >>= fun _ => pure (.function_definition (hdrAt 1) "f"
      ["a", "a"] (some (.block (hdrAt 2) (cs ++ [])))), fun visitBody => ?_⟩, rfl, rfl, ?_,
      ⟨_, rfl, rfl⟩⟩
  · rfl
  · intro h
    have := h 1
    revert this
    decide

/-! ## The semantic analyzer: unreachable code -/

/-- C19 at `{ return 1; return 2; }`: the second `return` follows the first in
the same block and is not a no-op, and the visit of the block returns with no
diagnostic at all.  At `{ return 1; return 2; let y = 3; }` the one
`unreachable_code` warning is at `let y = 3` (line 6), not at the first
statement after the first return (line 4).  At `{ return 1; let y = 2; }` the
warning is at `let y = 2` (line 4). -/
theorem return_after_return_not_reported :
    (∃ r, Accept plainEnv none blockReturnReturn globalState = .ok r ∧ r.2.errors = []) ∧
    (∃ r, Accept plainEnv none blockReturnReturnLet globalState = .ok r ∧
      r.2.errors = [⟨.warning, .Msg_unreachable_code, ⟨6, 0, "main"⟩, []⟩]) ∧
    (∃ r, Accept plainEnv none blockReturnLet globalState = .ok r ∧
      r.2.errors = [⟨.warning, .Msg_unreachable_code, ⟨4, 0, "main"⟩, []⟩]) :=
  ⟨⟨_, rfl, rfl⟩, ⟨_, rfl, rfl⟩, ⟨_, rfl, rfl⟩⟩

/-! ## The semantic analyzer: the final return of a function body -/

theorem yields_pure {α : Type} {p : α → Prop} {a : α} (h : p a) :
    Yields p (pure a : Analyzer α) := by
  intro st b st1 hb; cases hb; exact h

theorem yields_throw {α : Type} {p : α → Prop} (e : Fault) :
    Yields p (throw e : Analyzer α) := by
  intro st b st1 hb; cases hb

theorem yields_bind {α β : Type} {p : β → Prop} {m : Analyzer α} {f : α → Analyzer β}
    (hf : ∀ a, Yields p (f a)) : Yields p (m >>= f) := by
  intro st b st2 h
  obtain ⟨a, st1, -, h2⟩ := bind_ok h
  exact hf a st1 b st2 h2

theorem yields_bind_of {α β : Type} {q : α → Prop} {p : β → Prop} {m : Analyzer α}
    {f : α → Analyzer β} (hm : Yields q m) (hf : ∀ a, q a → Yields p (f a)) :
    Yields p (m >>= f) := by
  intro st b st2 h
  obtain ⟨a, st1, h1, h2⟩ := bind_ok h
  exact hf a (hm st a st1 h1) st1 b st2 h2

theorem yields_AcceptVariable (env : Collab) (h : AstHdr) (name : String) (info : VarInfo) :
    Yields (fun n => n.type = .Ast_type_variable) (AcceptVariable env h name info) := by
  unfold AcceptVariable
  repeat' first
    | exact yields_pure rfl
    | refine yields_bind (fun _ => ?_)
    | dsimp only
    | split

theorem yields_AcceptImport (h : AstHdr) (relative_path import_str : String) (is_open : Bool)
    (unit : ModuleRef) (parse_errors : List Diagnostic) (unit_children : List (Option AstNode))
    (visitUnit : Analyzer (List (Option AstNode))) :
    Yields (fun n => n.type = .Ast_type_import)
      (AcceptImport h relative_path import_str is_open unit parse_errors unit_children
        visitUnit) := by
  unfold AcceptImport
  repeat' first
    | exact yields_pure rfl
    | refine yields_bind (fun _ => ?_)
    | dsimp only
    | split

theorem yields_AcceptBinaryOp (env : Collab) (h : AstHdr) (op : BinOp)
    (visitLeft visitRight : Analyzer (Option AstNode)) :
    Yields (fun n => n.type = .Ast_type_binop)
      (AcceptBinaryOp env h op visitLeft visitRight) := by
  unfold AcceptBinaryOp
  repeat' first
    | exact yields_pure rfl
    | refine yields_bind (fun _ => ?_)

theorem yields_AcceptMemberAccess (env : Collab) (h : AstHdr) (left_str : String)
    (left right : Option AstNode) (visitLeft : Analyzer (Option AstNode))
    (visitRight : Option ModuleRef → Analyzer AstNode) :
    Yields (fun n => n.type = .Ast_type_member_access)
      (AcceptMemberAccess env h left_str left right visitLeft visitRight) := by
  unfold AcceptMemberAccess
  repeat' first
    | exact yields_pure rfl
    | refine yields_bind (fun _ => ?_)
    | dsimp only
    | split

theorem yields_AcceptModuleAccess (h : AstHdr) (module_name : String) (right : Option AstNode)
    (visitRight : Option ModuleRef → Analyzer AstNode) :
    Yields (fun n => n.type = .Ast_type_module_access)
      (AcceptModuleAccess h module_name right visitRight) := by
  unfold AcceptModuleAccess
  repeat' first
    | exact yields_pure rfl
    | refine yields_bind (fun _ => ?_)
    | dsimp only
    | split

theorem yields_AcceptVariableDeclaration (env : Collab) (h : AstHdr) (name : String)
    (is_const : Bool) (assignment : Option AstNode)
    (visitAssignment : Analyzer (Option AstNode)) :
    Yields (fun n => n.type = .Ast_type_var_declaration)
      (AcceptVariableDeclaration env h name is_const assignment visitAssignment) := by
  unfold AcceptVariableDeclaration
  repeat' first
    | exact yields_pure rfl
    | refine yields_bind (fun _ => ?_)
    | dsimp only
    | split

theorem yields_AcceptAlias (env : Collab) (h : AstHdr) (name : String)
    (alias_to : Option AstNode) (visitAliasTo : Analyzer (Option AstNode)) :
    Yields (fun n => n.type = .Ast_type_alias)
      (AcceptAlias env h name alias_to visitAliasTo) := by
  unfold AcceptAlias
  repeat' first
    | exact yields_pure rfl
    | refine yields_bind (fun _ => ?_)
    | dsimp only
    | split

theorem yields_AcceptFunctionDefinition (env : Collab) (h : AstHdr) (name : String)
    (arguments : List String) (block : Option AstNode)
    (visitBody : Analyzer (List (Option AstNode))) :
    Yields (fun n => n.type = .Ast_type_function_definition)
      (AcceptFunctionDefinition env h name arguments block visitBody) := by
  unfold AcceptFunctionDefinition
  repeat' first
    | exact yields_pure rfl
    | refine yields_bind (fun _ => ?_)
    | dsimp only
    | split

theorem yields_AcceptFunctionExpression (env : Collab) (h : AstHdr) (arguments : List String)
    (block : Option AstNode) (visitBody : Analyzer (List (Option AstNode))) :
    Yields (fun n => n.type = .Ast_type_function_expression)
      (AcceptFunctionExpression env h arguments block visitBody) := by
  unfold AcceptFunctionExpression
  repeat' first
    | exact yields_pure rfl
    | refine yields_bind (fun _ => ?_)
    | dsimp only
    | split

theorem yields_AcceptFunctionCall (env : Collab) (h : AstHdr) (name : String)
    (arguments : List (Option AstNode)) (info : CallInfo)
    (visitArguments : Analyzer (List (Option AstNode))) :
    Yields (fun n => n.type = .Ast_type_function_call)
      (AcceptFunctionCall env h name arguments info visitArguments) := by
  unfold AcceptFunctionCall
  repeat' first
    | exact yields_pure rfl
    | refine yields_bind (fun _ => ?_)
    | dsimp only
    | split

theorem yields_AcceptIfStmt (h : AstHdr) (else_statement : Option AstNode)
    (visitConditional visitBlock visitElse : Analyzer (Option AstNode)) :
    Yields (fun n => n.type = .Ast_type_if_statement)
      (AcceptIfStmt h else_statement visitConditional visitBlock visitElse) := by
  unfold AcceptIfStmt
  repeat' first
    | exact yields_pure rfl
    | refine yields_bind (fun _ => ?_)
    | dsimp only
    | split

theorem yields_AcceptForLoop (h : AstHdr) (block : Option AstNode)
    (visitInitializer visitConditional visitAfterthought visitBlock :
      Analyzer (Option AstNode)) :
    Yields (fun n => n.type = .Ast_type_for_loop)
      (AcceptForLoop h block visitInitializer visitConditional visitAfterthought
        visitBlock) := by
  unfold AcceptForLoop
  repeat' first
    | exact yields_pure rfl
    | refine yields_bind (fun _ => ?_)

theorem yields_AcceptWhileLoop (h : AstHdr) (block : Option AstNode)
    (visitConditional visitBlock : Analyzer (Option AstNode)) :
    Yields (fun n => n.type = .Ast_type_while_loop)
      (AcceptWhileLoop h block visitConditional visitBlock) := by
  unfold AcceptWhileLoop
  repeat' first
    | exact yields_pure rfl
    | refine yields_bind (fun _ => ?_)

theorem yields_AcceptTryCatch (h : AstHdr) (try_block catch_block : Option AstNode)
    (visitTry visitCatch visitException : Analyzer (Option AstNode)) :
    Yields (fun n => n.type = .Ast_type_try_catch)
      (AcceptTryCatch h try_block catch_block visitTry visitCatch visitException) := by
  unfold AcceptTryCatch
  repeat' first
    | exact yields_pure rfl
    | refine yields_bind (fun _ => ?_)

/-- A visit leaves the node the class it had. -/
theorem accept_type (env : Collab) (ov : Option ModuleRef) :
    ∀ n : AstNode, Yields (fun n1 => n1.type = n.type) (Accept env ov n)
  | .imports _ _ => yields_bind (fun _ => yields_pure rfl)
  | .import_ _ _ _ _ _ _ _ => yields_AcceptImport _ _ _ _ _ _ _ _
  | .statement _ => yields_pure rfl
  | .block _ _ => yields_bind (fun _ => yields_pure rfl)
  | .expression _ _ => yields_bind (fun _ => yields_pure rfl)
  | .binop _ _ _ _ => yields_AcceptBinaryOp _ _ _ _ _
  | .unop _ _ => yields_bind (fun _ => yields_pure rfl)
  | .array_access _ _ _ => yields_bind (fun _ => yields_bind (fun _ => yields_pure rfl))
  | .member_access _ _ _ right =>
    yields_AcceptMemberAccess env _ _ _ _ _ (fun m => AcceptDeref env m right)
  | .module_access _ _ right =>
    yields_AcceptModuleAccess _ _ _ (fun m => AcceptDeref env m right)
  | .var_declaration _ _ _ _ => yields_AcceptVariableDeclaration _ _ _ _ _ _
  | .alias _ _ _ => yields_AcceptAlias _ _ _ _ _
  | .use_module _ _ => yields_bind (fun _ => yields_pure rfl)
  | .variable _ _ _ => yields_AcceptVariable _ _ _ _
  | .integer _ _ => yields_pure rfl
  | .float _ => yields_pure rfl
  | .string _ _ => yields_pure rfl
  | .true_ _ => yields_pure rfl
  | .false_ _ => yields_pure rfl
  | .null _ => yields_pure rfl
  | .self _ => yields_pure rfl
  | .new _ => yields_pure rfl
  | .function_definition _ _ _ _ => yields_AcceptFunctionDefinition _ _ _ _ _ _
  | .function_expression _ _ _ => yields_AcceptFunctionExpression _ _ _ _ _
  | .function_call _ _ _ _ => yields_AcceptFunctionCall _ _ _ _ _ _
  | .class_declaration _ => yields_pure rfl
  | .object_expression _ _ => yields_bind (fun _ => yields_pure rfl)
  | .enum _ _ _ => yields_bind (fun _ => yields_pure rfl)
  | .print _ _ => yields_bind (fun _ => yields_pure rfl)
  | .return_ _ _ => yields_bind (fun _ => yields_pure rfl)
  | .if_statement _ _ _ _ => yields_AcceptIfStmt _ _ _ _ _
  | .for_loop _ _ _ _ _ => yields_AcceptForLoop _ _ _ _ _ _
  | .while_loop _ _ _ => yields_AcceptWhileLoop _ _ _ _
  | .try_catch _ _ _ _ => yields_AcceptTryCatch _ _ _ _ _ _
  | .range _ => yields_bind (fun _ => yields_pure rfl)

theorem acceptPtr_type (env : Collab) :
    ∀ p : Option AstNode, Yields (fun c => typeOf c = typeOf p) (AcceptPtr env p)
  | none => yields_pure rfl
  | some n => yields_bind_of (accept_type env none n)
      (fun _ h => yields_pure (congrArg some h))

theorem acceptBlock_types (env : Collab) :
    ∀ (l : List (Option AstNode)) (a b : Bool),
      Yields (fun cs => cs.map typeOf = l.map typeOf) (AcceptBlock env a b l)
  | [], _, _ => yields_pure rfl
  | child :: rest, a, b =>
    yields_bind_of (acceptPtr_type env child) (fun c hc => yields_bind (fun flags =>
      yields_bind_of (acceptBlock_types env rest flags.1 flags.2) (fun cs hcs =>
        yields_pure (by simp only [List.map_cons, hc, hcs]))))

theorem dropWhile_append_all {α : Type} (p : α → Bool) (l1 l2 : List α)
    (h : ∀ x, x ∈ l1 → p x = true) : (l1 ++ l2).dropWhile p = l2.dropWhile p := by
  induction l1 with
  | nil => rfl
  | cons x l1 ih =>
    have hx : p x = true := h x (List.mem_cons_self _ _)
    simp only [List.cons_append, List.dropWhile_cons, hx, if_true]
    exact ih (fun y hy => h y (List.mem_cons_of_mem _ hy))

theorem endsInReturn_of_parts (pre noops : List (Option AstNode)) (r : Option AstNode)
    (hr : isReturn r = true) (hn : ∀ x, x ∈ noops → isNoop x = true) :
    endsInReturn (pre ++ r :: noops) = true := by
  have hnr : isNoop r = false := by
    unfold isReturn at hr
    unfold isNoop
    cases ht : typeOf r with
    | none => rfl
    | some t =>
      rw [ht] at hr
      have : t = .Ast_type_return := by simpa using hr
      subst this
      rfl
  unfold endsInReturn
  have : (pre ++ r :: noops).reverse = noops.reverse ++ (r :: pre.reverse) := by simp
  rw [this, dropWhile_append_all _ _ _ (fun x hx => hn x (List.mem_reverse.mp hx))]
  simp only [List.dropWhile_cons, hnr]
  exact hr

theorem endsInReturn_types (l1 l2 : List (Option AstNode))
    (h : l1.map typeOf = l2.map typeOf) : endsInReturn l1 = endsInReturn l2 := by
  have key : ∀ (a b : List (Option AstNode)), a.map typeOf = b.map typeOf →
      (match a.dropWhile isNoop with | p :: _ => isReturn p | [] => false) =
      (match b.dropWhile isNoop with | p :: _ => isReturn p | [] => false) := by
    intro a
    induction a with
    | nil =>
      intro b hb
      cases b with
      | nil => rfl
      | cons y b => simp at hb
    | cons x a ih =>
      intro b hb
      cases b with
      | nil => simp at hb
      | cons y b =>
        simp only [List.map_cons, List.cons.injEq] at hb
        obtain ⟨hxy, hab⟩ := hb
        have hnoop : isNoop x = isNoop y := by unfold isNoop; rw [hxy]
        have hret : isReturn x = isReturn y := by unfold isReturn; rw [hxy]
        simp only [List.dropWhile_cons, hnoop]
        cases isNoop y with
        | true => simpa using ih b hab
        | false => simpa using hret
  unfold endsInReturn
  apply key
  rw [List.map_reverse, List.map_reverse, h]

theorem endsInReturn_last (body : List (Option AstNode)) (h : endsInReturn body = true) :
    lastIsReturn body = true ∨ ∃ p, body.getLast? = some p ∧ isNoop p = true := by
  rcases List.eq_nil_or_concat body with rfl | ⟨init, p, rfl⟩
  · simp [endsInReturn] at h
  · unfold endsInReturn at h
    simp only [List.concat_eq_append, List.reverse_append, List.reverse_cons, List.reverse_nil,
      List.nil_append, List.singleton_append, List.dropWhile_cons] at h
    cases hp : isNoop p with
    | true => exact Or.inr ⟨p, by simp, hp⟩
    | false =>
      left
      rw [hp] at h
      unfold lastIsReturn
      simpa using h

theorem derefNode_ok {p : Option AstNode} {n : AstNode} {st st1 : CompilerState}
    (h : derefNode p st = .ok (n, st1)) : p = some n ∧ st1 = st := by
  cases p with
  | none => cases h
  | some m => cases h; exact ⟨rfl, rfl⟩

theorem isNoop_of_type {n : AstNode} (h : n.type = .Ast_type_statement) :
    isNoop (some n) = true := by
  unfold isNoop typeOf; simp [h]

theorem isReturn_of_type {n : AstNode} (h : n.type = .Ast_type_return) :
    isReturn (some n) = true := by
  unfold isReturn typeOf; simp [h]

/-- When the backward scan from index `idx` answers yes, the children up to
`idx` are a return followed by no-op statements only. -/
theorem scanReturn_true (children : List (Option AstNode)) (idx : Nat) (st st1 : CompilerState)
    (h : scanReturn children idx st = .ok (true, st1)) :
    ∃ pre r noops, children.take (idx + 1) = pre ++ r :: noops ∧ isReturn r = true ∧
      ∀ x, x ∈ noops → isNoop x = true := by
  induction idx generalizing st with
  | zero => cases h
  | succ idx ih =>
    unfold scanReturn at h
    obtain ⟨cur, s1, h1, h2⟩ := bind_ok h
    obtain ⟨hcur, rfl⟩ := derefNode_ok h1
    have hc : children[idx + 1]? = some (some cur) := by
      cases hg : children[idx + 1]? with
      | none => simp [List.get?_eq_getElem?, hg] at hcur
      | some x => simp [List.get?_eq_getElem?, hg] at hcur; rw [hcur]
    by_cases hcs : cur.type = .Ast_type_statement
    · simp only [hcs, if_true] at h2
      obtain ⟨prev, s2, h3, h4⟩ := bind_ok h2
      obtain ⟨hprev, rfl⟩ := derefNode_ok h3
      have hp : children[idx]? = some (some prev) := by
        cases hg : children[idx]? with
        | none => simp [List.get?_eq_getElem?, hg] at hprev
        | some x => simp [List.get?_eq_getElem?, hg] at hprev; rw [hprev]
      have htake : children.take (idx + 1 + 1) = children.take (idx + 1) ++ [some cur] := by
        rw [List.take_succ, hc]; rfl
      by_cases hpr : prev.type = .Ast_type_return
      · refine ⟨children.take idx, some prev, [some cur], ?_, isReturn_of_type hpr, ?_⟩
        · rw [htake, List.take_succ, hp]; simp
        · intro x hx
          rw [List.mem_singleton.mp hx]
          exact isNoop_of_type hcs
      · simp only [hpr, if_false] at h4
        by_cases hps : prev.type = .Ast_type_statement
        · simp only [hps, ne_eq, not_true_eq_false, if_false] at h4
          obtain ⟨pre, r, noops, g1, g2, g3⟩ := ih _ h4
          refine ⟨pre, r, noops ++ [some cur], ?_, g2, ?_⟩
          · rw [htake, g1]; simp
          · intro x hx
            rcases List.mem_append.mp hx with hx1 | hx1
            · exact g3 x hx1
            · rw [List.mem_singleton.mp hx1]
              exact isNoop_of_type hcs
        · simp only [hps, ne_eq, not_false_eq_true, if_true] at h4
          cases h4
    · simp only [hcs, if_false] at h2
      cases h2

theorem take_length_pred (l : List (Option AstNode)) : l.take (l.length - 1 + 1) = l := by
  cases l with
  | nil => rfl
  | cons x l => simp

theorem hasReturnDefinition_true (children : List (Option AstNode)) (st st1 : CompilerState)
    (h : hasReturnDefinition children st = .ok (true, st1)) : endsInReturn children = true := by
  unfold hasReturnDefinition at h
  have hscan : ∀ s, scanReturn children (children.length - 1) s = .ok (true, st1) →
      endsInReturn children = true := by
    intro s hs
    obtain ⟨pre, r, noops, g1, g2, g3⟩ := scanReturn_true _ _ _ _ hs
    rw [take_length_pred] at g1
    rw [g1]
    exact endsInReturn_of_parts pre noops r g2 g3
  cases hlast : (children.get? (children.length - 1)).join with
  | none =>
    rw [hlast] at h
    exact hscan _ h
  | some last =>
    rw [hlast] at h
    by_cases hr : last.type = .Ast_type_return
    · rcases List.eq_nil_or_concat children with rfl | ⟨init, p, rfl⟩
      · simp at hlast
      · have hp : p = some last := by
          simp [List.get?_eq_getElem?] at hlast
          exact hlast
        subst hp
        have := endsInReturn_of_parts init [] (some last) (isReturn_of_type hr)
          (fun x hx => by cases hx)
        simpa using this
    · simp only [hr, if_false] at h
      exact hscan _ h

theorem hasReturnExpression_true (children : List (Option AstNode)) (st st1 : CompilerState)
    (h : hasReturnExpression children st = .ok (true, st1)) : endsInReturn children = true := by
  unfold hasReturnExpression at h
  obtain ⟨last, s1, h1, h2⟩ := bind_ok h
  obtain ⟨hlast, rfl⟩ := derefNode_ok h1
  by_cases hr : last.type = .Ast_type_return
  · rcases List.eq_nil_or_concat children with rfl | ⟨init, p, rfl⟩
    · simp at hlast
    · have hp : p = some last := by
        simp [List.get?_eq_getElem?] at hlast
        exact hlast
      subst hp
      have := endsInReturn_of_parts init [] (some last) (isReturn_of_type hr)
        (fun x hx => by cases hx)
      simpa using this
  · simp only [hr, if_false] at h2
    obtain ⟨pre, r, noops, g1, g2, g3⟩ := scanReturn_true _ _ _ _ h2
    rw [take_length_pred] at g1
    rw [g1]
    exact endsInReturn_of_parts pre noops r g2 g3

theorem yields_makeReturnNull (location : SourceLocation) (module : Option ModuleRef) :
    Yields (fun r => r.type = .Ast_type_return) (makeReturnNull location module) := by
  unfold makeReturnNull
  exact yields_bind (fun _ => yields_bind (fun _ => yields_pure rfl))

/-- The validation of a body either leaves it as it is, and then it ends in a
return followed by no-op statements only, or appends a return statement. -/
theorem ensureReturn_spec (expr : Bool) (name : String) (module : Option ModuleRef)
    (body : AstHdr) (children ext : List (Option AstNode)) (st st1 : CompilerState)
    (h : ensureReturn expr name module body children st = .ok (ext, st1)) :
    (ext = children ∧ endsInReturn children = true) ∨
      ∃ ret, ext = children ++ [some ret] ∧ ret.type = .Ast_type_return := by
  unfold ensureReturn at h
  by_cases he : children.isEmpty = true
  · simp only [he, if_true] at h
    obtain ⟨u, s1, -, h2⟩ := bind_ok h
    obtain ⟨ret, s2, h3, h4⟩ := bind_ok h2
    cases h4
    exact Or.inr ⟨ret, rfl, yields_makeReturnNull _ _ _ _ _ h3⟩
  · simp only [he, Bool.false_eq_true, if_false] at h
    obtain ⟨has_return, s1, h1, h2⟩ := bind_ok h
    cases has_return with
    | true =>
      simp only [Bool.not_true, Bool.false_eq_true, if_false] at h2
      cases h2
      left
      refine ⟨rfl, ?_⟩
      cases expr with
      | true => exact hasReturnExpression_true _ _ _ h1
      | false => exact hasReturnDefinition_true _ _ _ h1
    | false =>
      simp only [Bool.not_false, if_true] at h2
      obtain ⟨ret, s2, h3, h4⟩ := bind_ok h2
      cases h4
      exact Or.inr ⟨ret, rfl, yields_makeReturnNull _ _ _ _ _ h3⟩

/-- The body a visit leaves: the visited children followed by what the
validation appended.  It ends in a return followed by no-op statements only. -/
theorem body_endsInReturn (children ext cs : List (Option AstNode))
    (hext : (ext = children ∧ endsInReturn children = true) ∨
      ∃ ret, ext = children ++ [some ret] ∧ ret.type = .Ast_type_return)
    (hcs : cs.map typeOf = children.map typeOf) :
    endsInReturn (cs ++ ext.drop children.length) = true := by
  rcases hext with ⟨rfl, he⟩ | ⟨ret, rfl, hr⟩
  · rw [List.drop_length, List.append_nil, endsInReturn_types cs ext hcs]
    exact he
  · rw [List.drop_left]
    exact endsInReturn_of_parts cs [] (some ret) (isReturn_of_type hr) (fun x hx => by cases hx)

theorem expression_endsInReturn (env : Collab) (ov : Option ModuleRef) (st : CompilerState)
    (h bh : AstHdr) (arguments : List String) (children : List (Option AstNode))
    (r : AstNode × CompilerState)
    (hr : Accept env ov (.function_expression h arguments (some (.block bh children))) st =
      .ok r) :
    ∃ body, bodyOf r.1 = some body ∧ endsInReturn body = true := by
  obtain ⟨n1, st1⟩ := r
  have hr1 : AcceptFunctionExpression env (h.withModule ov) arguments
      (some (.block bh children)) (AcceptBlock env false false children) st = .ok (n1, st1) := hr
  unfold AcceptFunctionExpression at hr1
  simp only [] at hr1
  obtain ⟨ext, s1, g1, g2⟩ := bind_ok hr1
  obtain ⟨u2, s2, -, g3⟩ := bind_ok g2
  obtain ⟨u3, s3, -, g4⟩ := bind_ok g3
  obtain ⟨cs, s4, g5, g6⟩ := bind_ok g4
  obtain ⟨u5, s5, -, g7⟩ := bind_ok g6
  cases g7
  exact ⟨_, rfl, body_endsInReturn children ext cs (ensureReturn_spec _ _ _ _ _ _ _ _ g1)
    (acceptBlock_types env children false false _ _ _ g5)⟩

theorem definition_endsInReturn (env : Collab) (ov : Option ModuleRef) (st : CompilerState)
    (h bh : AstHdr) (name : String) (arguments : List String)
    (children : List (Option AstNode)) (r : AstNode × CompilerState)
    (hnew : env.MakeVariableName st name (h.withModule ov).module ∉ (st.levels st.level).names)
    (hmod : env.FindModule st name (h.withModule ov).module = none)
    (hr : Accept env ov (.function_definition h name arguments (some (.block bh children))) st =
      .ok r) :
    ∃ body, bodyOf r.1 = some body ∧ endsInReturn body = true := by
  obtain ⟨n1, st1⟩ := r
  have hr1 : AcceptFunctionDefinition env (h.withModule ov) name arguments
      (some (.block bh children)) (AcceptBlock env false false children) st = .ok (n1, st1) := hr
  unfold AcceptFunctionDefinition at hr1
  rw [run_bind (run_get st)] at hr1
  simp only [findVariable_this_none st _ hnew, hmod, Option.isSome_none, Bool.false_eq_true,
    if_false] at hr1
  obtain ⟨u0, s0, -, g0⟩ := bind_ok hr1
  obtain ⟨ext, s1, g1, g2⟩ := bind_ok g0
  obtain ⟨u2, s2, -, g3⟩ := bind_ok g2
  obtain ⟨u3, s3, -, g4⟩ := bind_ok g3
  obtain ⟨cs, s4, g5, g6⟩ := bind_ok g4
  obtain ⟨u5, s5, -, g7⟩ := bind_ok g6
  obtain ⟨u6, s6, -, g8⟩ := bind_ok g7
  obtain ⟨u7, s7, -, g9⟩ := bind_ok g8
  cases g9
  exact ⟨_, rfl, body_endsInReturn children ext cs (ensureReturn_spec _ _ _ _ _ _ _ _ g1)
    (acceptBlock_types env children false false _ _ _ g5)⟩

/-- A function definition whose mangled name the current level already holds
is reported and left as it is. -/
theorem acceptDefinition_redeclared (env : Collab) (ov : Option ModuleRef)
    (st : CompilerState) (h : AstHdr) (name : String) (arguments : List String)
    (block : Option AstNode) (hl : compiler_global_level ≤ st.level)
    (hdup : env.MakeVariableName st name (h.withModule ov).module ∈
      (st.levels st.level).names) :
    Accept env ov (.function_definition h name arguments block) st =
      .ok (.function_definition (h.withModule ov) name arguments block,
        { st with errors := st.errors ++
          [⟨.error, .Msg_redeclared_identifier, h.location, [name]⟩] }) := by
  obtain ⟨i1, s1, hf1, -, -⟩ := findVariable_here st _ true hl hdup
  show AcceptFunctionDefinition env (h.withModule ov) name arguments block
    (AcceptBody env block) st = _
  unfold AcceptFunctionDefinition
  rw [run_bind (run_get st)]
  simp only [hf1, Option.isSome_some, if_true]
  rw [← withModule_location h ov]
  rfl

/-- C13 as stated fails: after `Analyze` of `bodiesWithoutFinalReturn` the
last statement of none of its three function bodies is a return.  The first
body is left as it was, a return followed by a no-op; the second function is a
redeclaration and the third is an argument of a call whose callee is
undeclared, and the analyzer leaves both bodies as parsed. -/
theorem function_bodies_not_ending_in_return :
    ∃ r n1 n2 fe info b1 b2 b3,
      Analyze plainEnv bodiesWithoutFinalReturn globalState = .ok r ∧
      r.1.children = [some n1, some n2, some (.function_call (hdrAt 10) "g" [some fe] info)] ∧
      bodyOf n1 = some b1 ∧ lastIsReturn b1 = false ∧
      bodyOf n2 = some b2 ∧ lastIsReturn b2 = false ∧
      bodyOf fe = some b3 ∧ lastIsReturn b3 = false :=
  ⟨_, _, _, _, _, _, _, _, rfl, rfl, rfl, rfl, rfl, rfl, rfl, rfl⟩

/-- C13, amended: a function expression whose body is a block, and a function
definition whose body is a block and whose mangled name the current level does
not hold and which is not the name of a module.  Whenever the visit of it
returns, the body it leaves ends in a return statement followed by no-op
statements only; so its last statement is a return statement or a no-op
statement.  A function definition whose mangled name the current level
already holds is reported as redeclared and left as parsed, body included. -/
theorem function_body_ends_in_return (env : Collab) (ov : Option ModuleRef)
    (st : CompilerState) (h bh : AstHdr) (arguments : List String)
    (children : List (Option AstNode)) (r : AstNode × CompilerState) :
    (Accept env ov (.function_expression h arguments (some (.block bh children))) st = .ok r →
      ∃ body, bodyOf r.1 = some body ∧ endsInReturn body = true ∧
        (lastIsReturn body = true ∨ ∃ p, body.getLast? = some p ∧ isNoop p = true)) ∧
    (∀ name : String,
      env.MakeVariableName st name (h.withModule ov).module ∉ (st.levels st.level).names →
      env.FindModule st name (h.withModule ov).module = none →
      Accept env ov (.function_definition h name arguments (some (.block bh children))) st =
        .ok r →
      ∃ body, bodyOf r.1 = some body ∧ endsInReturn body = true ∧
        (lastIsReturn body = true ∨ ∃ p, body.getLast? = some p ∧ isNoop p = true)) ∧
    (∀ (name : String) (block : Option AstNode), compiler_global_level ≤ st.level →
      env.MakeVariableName st name (h.withModule ov).module ∈ (st.levels st.level).names →
      Accept env ov (.function_definition h name arguments block) st =
        .ok (.function_definition (h.withModule ov) name arguments block,
          { st with errors := st.errors ++
            [⟨.error, .Msg_redeclared_identifier, h.location, [name]⟩] })) := by
  refine ⟨?_, ?_, fun name block hl hdup =>
    acceptDefinition_redeclared env ov st h name arguments block hl hdup⟩
  · intro hr
    obtain ⟨body, h1, h2⟩ := expression_endsInReturn env ov st h bh arguments children r hr
    exact ⟨body, h1, h2, endsInReturn_last body h2⟩
  · intro name hnew hmod hr
    obtain ⟨body, h1, h2⟩ :=
      definition_endsInReturn env ov st h bh name arguments children r hnew hmod hr
    exact ⟨body, h1, h2, endsInReturn_last body h2⟩

/-- C13, amended, on `func f() { let x = 1 }` at the global level: the visit
returns and the body it leaves ends in a return. -/
theorem function_body_ends_in_return_witness :
    ∃ r, Accept plainEnv none functionWithoutReturn globalState = .ok r ∧
      ∃ body, bodyOf r.1 = some body ∧ endsInReturn body = true ∧
        (lastIsReturn body = true ∨ ∃ p, body.getLast? = some p ∧ isNoop p = true) :=
  ⟨_, rfl, (function_body_ends_in_return plainEnv none globalState (hdrAt 1) (hdrAt 2) []
    [some (.var_declaration (hdrAt 3) "x" false (some (.integer (hdrAt 4) 1)))] _).2.1 "f"
    (by decide) rfl rfl⟩

/-! ## The semantic analyzer: relations every step respects -/

section frame

variable {R : CompilerState → CompilerState → Prop}

theorem obeys_pure (F : Frame R) {α : Type} (a : α) : Obeys R (pure a : Analyzer α) := by
  intro st b st1 h; cases h; exact F.refl _

theorem obeys_throw {α : Type} (e : Fault) : Obeys R (throw e : Analyzer α) := by
  intro st b st1 h; cases h

theorem obeys_get (F : Frame R) : Obeys R (get : Analyzer CompilerState) := by
  intro st b st1 h; cases h; exact F.refl _

theorem obeysAt_bind (F : Frame R) {α β : Type} {m : Analyzer α} {f : α → Analyzer β}
    {st : CompilerState} (hm : ObeysAt R m st) (hf : ∀ a, Obeys R (f a)) :
    ObeysAt R (m >>= f) st := by
  intro b st2 h
  obtain ⟨a, st1, h1, h2⟩ := bind_ok h
  exact F.trans _ _ _ (hm a st1 h1) (hf a st1 b st2 h2)

theorem obeys_bind (F : Frame R) {α β : Type} {m : Analyzer α} {f : α → Analyzer β}
    (hm : Obeys R m) (hf : ∀ a, Obeys R (f a)) : Obeys R (m >>= f) :=
  fun st => obeysAt_bind F (hm st) hf

theorem obeysAt_get_bind {β : Type} {k : CompilerState → Analyzer β} {st : CompilerState}
    (h : ObeysAt R (k st) st) : ObeysAt R (get >>= k) st := by
  intro b st2 hb
  obtain ⟨a, st1, h1, h2⟩ := bind_ok hb
  cases h1
  exact h b st2 h2

theorem obeysAt_silent_bind {α β : Type} {m : Analyzer α} {f : α → Analyzer β}
    {st : CompilerState} (hs : Silent m) (hf : ∀ a, ObeysAt R (f a) st) :
    ObeysAt R (m >>= f) st := by
  intro b st2 hb
  obtain ⟨a, st1, h1, h2⟩ := bind_ok hb
  have := hs st a st1 h1
  subst this
  exact hf a b st2 h2

theorem obeys_modify (f : CompilerState → CompilerState) (hf : ∀ st, R st (f st)) :
    Obeys R (modify f : Analyzer Unit) := by
  intro st a st1 h; cases h; exact hf st

theorem obeys_report (F : Frame R) (sev : Severity) (msg : ErrorType) (loc : SourceLocation)
    (args : List String) : Obeys R (report sev msg loc args) :=
  obeys_modify _ (fun st => F.errors st _)

theorem obeys_ErrorMsg (F : Frame R) (msg : ErrorType) (loc : SourceLocation)
    (args : List String) : Obeys R (ErrorMsg msg loc args) := obeys_report F _ _ _ _

theorem obeys_WarningMessage (F : Frame R) (msg : ErrorType) (loc : SourceLocation)
    (args : List String) : Obeys R (WarningMessage msg loc args) := obeys_report F _ _ _ _

theorem obeys_InfoMsg (F : Frame R) (msg : ErrorType) (loc : SourceLocation)
    (args : List String) : Obeys R (InfoMsg msg loc args) := obeys_report F _ _ _ _

theorem obeys_IncrementUseCount (F : Frame R) (ptr : Option Nat) :
    Obeys R (IncrementUseCount ptr) :=
  obeys_modify _ (fun st => F.useCount st ptr)

theorem obeys_registerModule (F : Frame R) (key : String) (unit : ModuleRef) :
    Obeys R (registerModule key unit) :=
  obeys_modify _ (fun st => F.modules st _)

theorem obeys_newPtr (F : Frame R) : Obeys R newPtr := by
  intro st a st1 h; cases h
  exact F.nextPtr st

theorem obeys_derefNode (F : Frame R) (p : Option AstNode) : Obeys R (derefNode p) := by
  cases p with
  | none => exact obeys_throw _
  | some n => exact obeys_pure F _

theorem silent_derefNode (p : Option AstNode) : Silent (derefNode p) := by
  intro st a st1 h
  exact (derefNode_ok h).2

theorem obeys_IncreaseBlock (F : Frame R) (type : LevelType) : Obeys R (IncreaseBlock type) :=
  obeys_modify _ (fun st => F.increase st type)

theorem obeysAt_pushIndexed (F : Frame R) (st : CompilerState) (name : String)
    (symbol : Symbol) (h : symbol.field_index = st.localsSize) :
    ObeysAt R (pushLocal name symbol) st := by
  intro a st1 h1; cases h1
  exact F.pushIndexed st name symbol h

theorem obeys_pushAlias (F : Frame R) (name : String) (symbol : Symbol)
    (h1 : symbol.is_alias = true) (h2 : symbol.is_const = false) :
    Obeys R (pushLocal name symbol) := by
  intro st a st1 h; cases h
  exact F.pushAlias st name symbol h1 h2

theorem obeys_writeSymbol (F : Frame R) (p : Option (Int × Nat)) (f : Symbol → Symbol)
    (hf : ValueOnly f) : Obeys R (writeSymbol p f) := by
  intro st a st1 h
  unfold writeSymbol at h
  cases p with
  | none => cases h
  | some q =>
    simp only at h
    obtain ⟨s0, s1, h1, h2⟩ := bind_ok h
    cases h1
    cases he : (st.levels q.1).locals.get? q.2 with
    | none => rw [he] at h2; cases h2
    | some e =>
      rw [he] at h2
      cases h2
      exact F.write st q e f he hf

theorem obeys_warnUnused (F : Frame R) (ls : List (String × Symbol)) :
    Obeys R (warnUnused ls) := by
  intro st a st1 h
  obtain ⟨ws, h1, -⟩ := run_warnUnused ls st
  rw [h1] at h
  cases h
  exact F.errors st ws

theorem obeys_DecreaseBlock (F : Frame R) : Obeys R DecreaseBlock := by
  unfold DecreaseBlock
  exact obeys_bind F (obeys_get F) (fun st => obeys_bind F (obeys_warnUnused F _)
    (fun _ => obeys_modify _ (fun s => F.decrease s)))

set_option linter.unusedTactic false
set_option linter.unreachableTactic false

theorem silent_literalSide (env : Collab) (value : AstNode) : Silent (literalSide env value) := by
  intro st a st1 h
  unfold literalSide at h
  split at h
  · obtain ⟨rs, s1, h1, h2⟩ := bind_ok h
    have := (derefNode_ok h1).2
    subst this
    cases ho : env.Optimize rs with
    | none => rw [ho] at h2; cases h2; rfl
    | some opt => rw [ho] at h2; cases h2; rfl
  · exact (derefNode_ok h).2

theorem obeys_literalSide (F : Frame R) (env : Collab) (value : AstNode) :
    Obeys R (literalSide env value) := by
  intro st a st1 h
  rw [silent_literalSide env value st a st1 h]
  exact F.refl _

theorem obeys_scanReturn (F : Frame R) (children : List (Option AstNode)) (idx : Nat) :
    Obeys R (scanReturn children idx) := by
  induction idx with
  | zero => exact obeys_pure F _
  | succ idx ih =>
    unfold scanReturn
    repeat' first
      | exact obeys_pure F _
      | exact obeys_throw _
      | exact obeys_get F
      | exact obeys_ErrorMsg F _ _ _
      | exact obeys_WarningMessage F _ _ _
      | exact obeys_InfoMsg F _ _ _
      | exact obeys_IncrementUseCount F _
      | exact obeys_registerModule F _ _
      | exact obeys_newPtr F
      | exact obeys_derefNode F _
      | exact obeys_IncreaseBlock F _
      | exact obeys_DecreaseBlock F
      | assumption
      | refine obeys_bind F ?_ (fun _ => ?_)
      | dsimp only
      | split

theorem obeys_hasReturnDefinition (F : Frame R) (children : List (Option AstNode)) :
    Obeys R (hasReturnDefinition children) := by
  unfold hasReturnDefinition
  repeat' first
    | exact obeys_pure F _
    | exact obeys_throw _
    | exact obeys_get F
    | exact obeys_ErrorMsg F _ _ _
    | exact obeys_WarningMessage F _ _ _
    | exact obeys_InfoMsg F _ _ _
    | exact obeys_IncrementUseCount F _
    | exact obeys_registerModule F _ _
    | exact obeys_newPtr F
    | exact obeys_derefNode F _
    | exact obeys_IncreaseBlock F _
    | exact obeys_DecreaseBlock F
    | exact obeys_scanReturn F _ _
    | assumption
    | refine obeys_bind F ?_ (fun _ => ?_)
    | dsimp only
    | split

theorem obeys_hasReturnExpression (F : Frame R) (children : List (Option AstNode)) :
    Obeys R (hasReturnExpression children) := by
  unfold hasReturnExpression
  repeat' first
    | exact obeys_pure F _
    | exact obeys_throw _
    | exact obeys_get F
    | exact obeys_ErrorMsg F _ _ _
    | exact obeys_WarningMessage F _ _ _
    | exact obeys_InfoMsg F _ _ _
    | exact obeys_IncrementUseCount F _
    | exact obeys_registerModule F _ _
    | exact obeys_newPtr F
    | exact obeys_derefNode F _
    | exact obeys_IncreaseBlock F _
    | exact obeys_DecreaseBlock F
    | exact obeys_scanReturn F _ _
    | assumption
    | refine obeys_bind F ?_ (fun _ => ?_)
    | dsimp only
    | split

theorem obeys_makeReturnNull (F : Frame R) (location : SourceLocation)
    (module : Option ModuleRef) : Obeys R (makeReturnNull location module) := by
  unfold makeReturnNull
  repeat' first
    | exact obeys_pure F _
    | exact obeys_throw _
    | exact obeys_get F
    | exact obeys_ErrorMsg F _ _ _
    | exact obeys_WarningMessage F _ _ _
    | exact obeys_InfoMsg F _ _ _
    | exact obeys_IncrementUseCount F _
    | exact obeys_registerModule F _ _
    | exact obeys_newPtr F
    | exact obeys_derefNode F _
    | exact obeys_IncreaseBlock F _
    | exact obeys_DecreaseBlock F
    | assumption
    | refine obeys_bind F ?_ (fun _ => ?_)
    | dsimp only
    | split

theorem obeys_ensureReturn (F : Frame R) (expr : Bool) (name : String)
    (module : Option ModuleRef) (body : AstHdr) (children : List (Option AstNode)) :
    Obeys R (ensureReturn expr name module body children) := by
  unfold ensureReturn
  repeat' first
    | exact obeys_pure F _
    | exact obeys_throw _
    | exact obeys_get F
    | exact obeys_ErrorMsg F _ _ _
    | exact obeys_WarningMessage F _ _ _
    | exact obeys_InfoMsg F _ _ _
    | exact obeys_IncrementUseCount F _
    | exact obeys_registerModule F _ _
    | exact obeys_newPtr F
    | exact obeys_derefNode F _
    | exact obeys_IncreaseBlock F _
    | exact obeys_DecreaseBlock F
    | exact obeys_hasReturnDefinition F _
    | exact obeys_hasReturnExpression F _
    | exact obeys_makeReturnNull F _ _
    | assumption
    | refine obeys_bind F ?_ (fun _ => ?_)
    | dsimp only
    | split

theorem obeys_declareParams (F : Frame R) (env : Collab) (module : Option ModuleRef)
    (node : Option NodeRef) (params : List String) :
    Obeys R (declareParams env module node params) := by
  induction params with
  | nil => exact obeys_pure F _
  | cons p ps ih =>
    unfold declareParams
    intro st
    exact obeysAt_get_bind (obeysAt_bind F (obeysAt_pushIndexed F st _ _ rfl) (fun _ => ih))

theorem obeys_warnEmptyBody (F : Frame R) (body : Option AstNode) :
    Obeys R (warnEmptyBody body) := by
  unfold warnEmptyBody
  repeat' first
    | exact obeys_pure F _
    | exact obeys_throw _
    | exact obeys_get F
    | exact obeys_ErrorMsg F _ _ _
    | exact obeys_WarningMessage F _ _ _
    | exact obeys_InfoMsg F _ _ _
    | exact obeys_IncrementUseCount F _
    | exact obeys_registerModule F _ _
    | exact obeys_newPtr F
    | exact obeys_derefNode F _
    | exact obeys_IncreaseBlock F _
    | exact obeys_DecreaseBlock F
    | assumption
    | refine obeys_bind F ?_ (fun _ => ?_)
    | dsimp only
    | split

theorem obeys_bind_of (F : Frame R) {α β : Type} {q : α → Prop} {m : Analyzer α}
    {f : α → Analyzer β} (hm : Obeys R m) (hq : Yields q m)
    (hf : ∀ a, q a → Obeys R (f a)) : Obeys R (m >>= f) := by
  intro st b st2 h
  obtain ⟨a, st1, h1, h2⟩ := bind_ok h
  exact F.trans _ _ _ (hm st a st1 h1) (hf a (hq st a st1 h1) st1 b st2 h2)

theorem obeys_assignUpdate (F : Frame R) (env : Collab) (left right : Option AstNode) :
    Obeys R (assignUpdate env left right) := by
  unfold assignUpdate
  repeat' first
    | exact obeys_pure F _
    | exact obeys_throw _
    | exact obeys_get F
    | exact obeys_ErrorMsg F _ _ _
    | exact obeys_WarningMessage F _ _ _
    | exact obeys_InfoMsg F _ _ _
    | exact obeys_IncrementUseCount F _
    | exact obeys_registerModule F _ _
    | exact obeys_newPtr F
    | exact obeys_derefNode F _
    | exact obeys_IncreaseBlock F _
    | exact obeys_DecreaseBlock F
    | exact obeys_literalSide F _ _
    | exact obeys_writeSymbol F _ _ (fun _ => rfl)
    | assumption
    | refine obeys_bind F ?_ (fun _ => ?_)
    | dsimp only
    | split

theorem obeys_assignChecks (F : Frame R) (left right : Option AstNode) :
    Obeys R (assignChecks left right) := by
  unfold assignChecks
  repeat' first
    | exact obeys_pure F _
    | exact obeys_throw _
    | exact obeys_get F
    | exact obeys_ErrorMsg F _ _ _
    | exact obeys_WarningMessage F _ _ _
    | exact obeys_InfoMsg F _ _ _
    | exact obeys_IncrementUseCount F _
    | exact obeys_registerModule F _ _
    | exact obeys_newPtr F
    | exact obeys_derefNode F _
    | exact obeys_IncreaseBlock F _
    | exact obeys_DecreaseBlock F
    | assumption
    | refine obeys_bind F ?_ (fun _ => ?_)
    | dsimp only
    | split

theorem obeys_binopChecks (F : Frame R) (env : Collab) (op : BinOp)
    (left right : Option AstNode) : Obeys R (binopChecks env op left right) := by
  unfold binopChecks
  repeat' first
    | exact obeys_pure F _
    | exact obeys_throw _
    | exact obeys_get F
    | exact obeys_ErrorMsg F _ _ _
    | exact obeys_WarningMessage F _ _ _
    | exact obeys_InfoMsg F _ _ _
    | exact obeys_IncrementUseCount F _
    | exact obeys_registerModule F _ _
    | exact obeys_newPtr F
    | exact obeys_derefNode F _
    | exact obeys_IncreaseBlock F _
    | exact obeys_DecreaseBlock F
    | exact obeys_assignUpdate F _ _ _
    | exact obeys_assignChecks F _ _
    | assumption
    | refine obeys_bind F ?_ (fun _ => ?_)
    | dsimp only
    | split

theorem obeys_declareEnumMembers (F : Frame R) (env : Collab)
    (members : List (String × Option AstNode)) : Obeys R (declareEnumMembers env members) := by
  induction members with
  | nil => exact obeys_pure F _
  | cons m ms ih =>
    obtain ⟨first, second⟩ := m
    unfold declareEnumMembers
    refine obeys_bind F (obeys_derefNode F _) (fun member st => ?_)
    refine obeysAt_get_bind (obeysAt_bind F ?_ (fun _ => ih))
    dsimp only
    split
    · exact obeys_ErrorMsg F _ _ _ st
    · split
      · exact obeys_ErrorMsg F _ _ _ st
      · exact obeysAt_pushIndexed F st _ _ rfl

theorem obeys_AcceptVariable (F : Frame R) (env : Collab) (h : AstHdr) (name : String)
    (info : VarInfo) : Obeys R (AcceptVariable env h name info) := by
  unfold AcceptVariable
  repeat' first
    | exact obeys_pure F _
    | exact obeys_throw _
    | exact obeys_get F
    | exact obeys_ErrorMsg F _ _ _
    | exact obeys_WarningMessage F _ _ _
    | exact obeys_InfoMsg F _ _ _
    | exact obeys_IncrementUseCount F _
    | exact obeys_registerModule F _ _
    | exact obeys_newPtr F
    | exact obeys_derefNode F _
    | exact obeys_IncreaseBlock F _
    | exact obeys_DecreaseBlock F
    | assumption
    | refine obeys_bind F ?_ (fun _ => ?_)
    | dsimp only
    | split

theorem obeys_AcceptImport (F : Frame R) (h : AstHdr) (relative_path import_str : String)
    (is_open : Bool) (unit : ModuleRef) (parse_errors : List Diagnostic)
    (unit_children : List (Option AstNode)) {visitUnit : Analyzer (List (Option AstNode))}
    (hv : Obeys R visitUnit) :
    Obeys R (AcceptImport h relative_path import_str is_open unit parse_errors unit_children
      visitUnit) := by
  unfold AcceptImport
  repeat' first
    | exact obeys_pure F _
    | exact obeys_throw _
    | exact obeys_get F
    | exact obeys_ErrorMsg F _ _ _
    | exact obeys_WarningMessage F _ _ _
    | exact obeys_InfoMsg F _ _ _
    | exact obeys_IncrementUseCount F _
    | exact obeys_registerModule F _ _
    | exact obeys_newPtr F
    | exact obeys_derefNode F _
    | exact obeys_IncreaseBlock F _
    | exact obeys_DecreaseBlock F
    | exact obeys_modify _ (fun st => F.errors st _)
    | assumption
    | refine obeys_bind F ?_ (fun _ => ?_)
    | dsimp only
    | split

theorem obeys_AcceptBinaryOp (F : Frame R) (env : Collab) (h : AstHdr) (op : BinOp)
    {visitLeft visitRight : Analyzer (Option AstNode)} (hl : Obeys R visitLeft)
    (hr : Obeys R visitRight) : Obeys R (AcceptBinaryOp env h op visitLeft visitRight) := by
  unfold AcceptBinaryOp
  repeat' first
    | exact obeys_pure F _
    | exact obeys_throw _
    | exact obeys_get F
    | exact obeys_ErrorMsg F _ _ _
    | exact obeys_WarningMessage F _ _ _
    | exact obeys_InfoMsg F _ _ _
    | exact obeys_IncrementUseCount F _
    | exact obeys_registerModule F _ _
    | exact obeys_newPtr F
    | exact obeys_derefNode F _
    | exact obeys_IncreaseBlock F _
    | exact obeys_DecreaseBlock F
    | exact obeys_binopChecks F _ _ _ _
    | assumption
    | refine obeys_bind F ?_ (fun _ => ?_)
    | dsimp only
    | split

theorem obeys_AcceptMemberAccess (F : Frame R) (env : Collab) (h : AstHdr)
    (left_str : String) (left right : Option AstNode) {visitLeft : Analyzer (Option AstNode)}
    {visitRight : Option ModuleRef → Analyzer AstNode} (hl : Obeys R visitLeft)
    (hr : ∀ m, Obeys R (visitRight m)) :
    Obeys R (AcceptMemberAccess env h left_str left right visitLeft visitRight) := by
  unfold AcceptMemberAccess
  repeat' first
    | exact obeys_pure F _
    | exact obeys_throw _
    | exact obeys_get F
    | exact obeys_ErrorMsg F _ _ _
    | exact obeys_WarningMessage F _ _ _
    | exact obeys_InfoMsg F _ _ _
    | exact obeys_IncrementUseCount F _
    | exact obeys_registerModule F _ _
    | exact obeys_newPtr F
    | exact obeys_derefNode F _
    | exact obeys_IncreaseBlock F _
    | exact obeys_DecreaseBlock F
    | exact hr _
    | assumption
    | refine obeys_bind F ?_ (fun _ => ?_)
    | dsimp only
    | split

theorem obeys_AcceptModuleAccess (F : Frame R) (h : AstHdr) (module_name : String)
    (right : Option AstNode) {visitRight : Option ModuleRef → Analyzer AstNode}
    (hr : ∀ m, Obeys R (visitRight m)) :
    Obeys R (AcceptModuleAccess h module_name right visitRight) := by
  unfold AcceptModuleAccess
  repeat' first
    | exact obeys_pure F _
    | exact obeys_throw _
    | exact obeys_get F
    | exact obeys_ErrorMsg F _ _ _
    | exact obeys_WarningMessage F _ _ _
    | exact obeys_InfoMsg F _ _ _
    | exact obeys_IncrementUseCount F _
    | exact obeys_registerModule F _ _
    | exact obeys_newPtr F
    | exact obeys_derefNode F _
    | exact obeys_IncreaseBlock F _
    | exact obeys_DecreaseBlock F
    | exact hr _
    | assumption
    | refine obeys_bind F ?_ (fun _ => ?_)
    | dsimp only
    | split

theorem obeys_AcceptVariableDeclaration (F : Frame R) (env : Collab) (h : AstHdr)
    (name : String) (is_const : Bool) (assignment : Option AstNode)
    {visitAssignment : Analyzer (Option AstNode)} (hv : Obeys R visitAssignment) :
    Obeys R (AcceptVariableDeclaration env h name is_const assignment visitAssignment) := by
  unfold AcceptVariableDeclaration
  intro st
  refine obeysAt_get_bind ?_
  dsimp only
  split
  · exact obeys_bind F (obeys_ErrorMsg F _ _ _) (fun _ => obeys_pure F _) st
  · split
    · exact obeys_bind F (obeys_ErrorMsg F _ _ _) (fun _ => obeys_pure F _) st
    · refine obeysAt_silent_bind (silent_derefNode _) (fun value => ?_)
      refine obeysAt_silent_bind (silent_literalSide _ _) (fun right_side => ?_)
      refine obeysAt_bind F (obeysAt_pushIndexed F st _ _ rfl) (fun _ => ?_)
      exact obeys_bind F hv (fun _ => obeys_pure F _)

theorem obeys_AcceptAlias (F : Frame R) (env : Collab) (h : AstHdr) (name : String)
    (alias_to : Option AstNode) {visitAliasTo : Analyzer (Option AstNode)}
    (hv : Obeys R visitAliasTo) : Obeys R (AcceptAlias env h name alias_to visitAliasTo) := by
  unfold AcceptAlias
  refine obeys_bind F (obeys_get F) (fun st => ?_)
  dsimp only
  split
  · exact obeys_bind F (obeys_ErrorMsg F _ _ _) (fun _ => obeys_pure F _)
  · split
    · exact obeys_bind F (obeys_ErrorMsg F _ _ _) (fun _ => obeys_pure F _)
    · refine obeys_bind F hv (fun a => ?_)
      refine @obeys_bind_of R F _ _ (fun s : Symbol => s.is_alias = true ∧ s.is_const = false)
        _ _ ?_ ?_
        (fun s hs => obeys_bind F (obeys_pushAlias F _ s hs.1 hs.2) (fun _ => obeys_pure F _))
      · split
        · exact obeys_pure F _
        · exact obeys_pure F _
        · exact obeys_bind F (obeys_ErrorMsg F _ _ _) (fun _ => obeys_pure F _)
      · split
        · exact yields_pure ⟨rfl, rfl⟩
        · exact yields_pure ⟨rfl, rfl⟩
        · exact yields_bind (fun _ => yields_pure ⟨rfl, rfl⟩)

theorem obeys_AcceptFunctionDefinition (F : Frame R) (env : Collab) (h : AstHdr)
    (name : String) (arguments : List String) (block : Option AstNode)
    {visitBody : Analyzer (List (Option AstNode))} (hv : Obeys R visitBody) :
    Obeys R (AcceptFunctionDefinition env h name arguments block visitBody) := by
  unfold AcceptFunctionDefinition
  intro st
  refine obeysAt_get_bind ?_
  dsimp only
  split
  · exact obeys_bind F (obeys_ErrorMsg F _ _ _) (fun _ => obeys_pure F _) st
  · split
    · exact obeys_bind F (obeys_ErrorMsg F _ _ _) (fun _ => obeys_pure F _) st
    · refine obeysAt_bind F ?_ (fun _ => ?_)
      · split
        · exact obeysAt_pushIndexed F st _ _ rfl
        · exact obeys_pure F _ st
      · split
        · refine obeys_bind F (obeys_ensureReturn F _ _ _ _ _) (fun _ => ?_)
          refine obeys_bind F (obeys_IncreaseBlock F _) (fun _ => ?_)
          refine obeys_bind F (obeys_declareParams F _ _ _ _) (fun _ => ?_)
          refine obeys_bind F hv (fun _ => ?_)
          refine obeys_bind F (obeys_DecreaseBlock F) (fun _ s1 => ?_)
          refine obeysAt_get_bind (obeysAt_bind F ?_ (fun _ => obeys_pure F _))
          split
          · exact obeysAt_pushIndexed F s1 _ _ rfl
          · exact obeys_pure F _ s1
        · exact obeys_pure F _

theorem obeys_AcceptFunctionExpression (F : Frame R) (env : Collab) (h : AstHdr)
    (arguments : List String) (block : Option AstNode)
    {visitBody : Analyzer (List (Option AstNode))} (hv : Obeys R visitBody) :
    Obeys R (AcceptFunctionExpression env h arguments block visitBody) := by
  unfold AcceptFunctionExpression
  repeat' first
    | exact obeys_pure F _
    | exact obeys_throw _
    | exact obeys_get F
    | exact obeys_ErrorMsg F _ _ _
    | exact obeys_WarningMessage F _ _ _
    | exact obeys_InfoMsg F _ _ _
    | exact obeys_IncrementUseCount F _
    | exact obeys_registerModule F _ _
    | exact obeys_newPtr F
    | exact obeys_derefNode F _
    | exact obeys_IncreaseBlock F _
    | exact obeys_DecreaseBlock F
    | exact obeys_ensureReturn F _ _ _ _ _
    | exact obeys_declareParams F _ _ _ _
    | assumption
    | refine obeys_bind F ?_ (fun _ => ?_)
    | dsimp only
    | split

theorem obeys_AcceptFunctionCall (F : Frame R) (env : Collab) (h : AstHdr) (name : String)
    (arguments : List (Option AstNode)) (info : CallInfo)
    {visitArguments : Analyzer (List (Option AstNode))} (hv : Obeys R visitArguments) :
    Obeys R (AcceptFunctionCall env h name arguments info visitArguments) := by
  unfold AcceptFunctionCall
  repeat' first
    | exact obeys_pure F _
    | exact obeys_throw _
    | exact obeys_get F
    | exact obeys_ErrorMsg F _ _ _
    | exact obeys_WarningMessage F _ _ _
    | exact obeys_InfoMsg F _ _ _
    | exact obeys_IncrementUseCount F _
    | exact obeys_registerModule F _ _
    | exact obeys_newPtr F
    | exact obeys_derefNode F _
    | exact obeys_IncreaseBlock F _
    | exact obeys_DecreaseBlock F
    | assumption
    | refine obeys_bind F ?_ (fun _ => ?_)
    | dsimp only
    | split

theorem obeys_AcceptIfStmt (F : Frame R) (h : AstHdr) (else_statement : Option AstNode)
    {visitConditional visitBlock visitElse : Analyzer (Option AstNode)}
    (hc : Obeys R visitConditional) (hb : Obeys R visitBlock) (he : Obeys R visitElse) :
    Obeys R (AcceptIfStmt h else_statement visitConditional visitBlock visitElse) := by
  unfold AcceptIfStmt
  repeat' first
    | exact obeys_pure F _
    | exact obeys_throw _
    | exact obeys_get F
    | exact obeys_ErrorMsg F _ _ _
    | exact obeys_WarningMessage F _ _ _
    | exact obeys_InfoMsg F _ _ _
    | exact obeys_IncrementUseCount F _
    | exact obeys_registerModule F _ _
    | exact obeys_newPtr F
    | exact obeys_derefNode F _
    | exact obeys_IncreaseBlock F _
    | exact obeys_DecreaseBlock F
    | assumption
    | refine obeys_bind F ?_ (fun _ => ?_)
    | dsimp only
    | split

theorem obeys_AcceptForLoop (F : Frame R) (h : AstHdr) (block : Option AstNode)
    {visitInitializer visitConditional visitAfterthought visitBlock : Analyzer (Option AstNode)}
    (hi : Obeys R visitInitializer) (hc : Obeys R visitConditional)
    (ha : Obeys R visitAfterthought) (hb : Obeys R visitBlock) :
    Obeys R (AcceptForLoop h block visitInitializer visitConditional visitAfterthought
      visitBlock) := by
  unfold AcceptForLoop
  repeat' first
    | exact obeys_pure F _
    | exact obeys_throw _
    | exact obeys_get F
    | exact obeys_ErrorMsg F _ _ _
    | exact obeys_WarningMessage F _ _ _
    | exact obeys_InfoMsg F _ _ _
    | exact obeys_IncrementUseCount F _
    | exact obeys_registerModule F _ _
    | exact obeys_newPtr F
    | exact obeys_derefNode F _
    | exact obeys_IncreaseBlock F _
    | exact obeys_DecreaseBlock F
    | exact obeys_warnEmptyBody F _
    | assumption
    | refine obeys_bind F ?_ (fun _ => ?_)
    | dsimp only
    | split

theorem obeys_AcceptWhileLoop (F : Frame R) (h : AstHdr) (block : Option AstNode)
    {visitConditional visitBlock : Analyzer (Option AstNode)} (hc : Obeys R visitConditional)
    (hb : Obeys R visitBlock) :
    Obeys R (AcceptWhileLoop h block visitConditional visitBlock) := by
  unfold AcceptWhileLoop
  repeat' first
    | exact obeys_pure F _
    | exact obeys_throw _
    | exact obeys_get F
    | exact obeys_ErrorMsg F _ _ _
    | exact obeys_WarningMessage F _ _ _
    | exact obeys_InfoMsg F _ _ _
    | exact obeys_IncrementUseCount F _
    | exact obeys_registerModule F _ _
    | exact obeys_newPtr F
    | exact obeys_derefNode F _
    | exact obeys_IncreaseBlock F _
    | exact obeys_DecreaseBlock F
    | exact obeys_warnEmptyBody F _
    | assumption
    | refine obeys_bind F ?_ (fun _ => ?_)
    | dsimp only
    | split

theorem obeys_AcceptTryCatch (F : Frame R) (h : AstHdr) (try_block catch_block : Option AstNode)
    {visitTry visitCatch visitException : Analyzer (Option AstNode)} (ht : Obeys R visitTry)
    (hc : Obeys R visitCatch) (he : Obeys R visitException) :
    Obeys R (AcceptTryCatch h try_block catch_block visitTry visitCatch visitException) := by
  unfold AcceptTryCatch
  repeat' first
    | exact obeys_pure F _
    | exact obeys_throw _
    | exact obeys_get F
    | exact obeys_ErrorMsg F _ _ _
    | exact obeys_WarningMessage F _ _ _
    | exact obeys_InfoMsg F _ _ _
    | exact obeys_IncrementUseCount F _
    | exact obeys_registerModule F _ _
    | exact obeys_newPtr F
    | exact obeys_derefNode F _
    | exact obeys_IncreaseBlock F _
    | exact obeys_DecreaseBlock F
    | exact obeys_warnEmptyBody F _
    | assumption
    | refine obeys_bind F ?_ (fun _ => ?_)
    | dsimp only
    | split

theorem obeys_blockStep (F : Frame R) (a b : Bool) (child : Option AstNode) :
    Obeys R (blockStep a b child) := by
  unfold blockStep
  repeat' first
    | exact obeys_pure F _
    | exact obeys_throw _
    | exact obeys_get F
    | exact obeys_ErrorMsg F _ _ _
    | exact obeys_WarningMessage F _ _ _
    | exact obeys_InfoMsg F _ _ _
    | exact obeys_IncrementUseCount F _
    | exact obeys_registerModule F _ _
    | exact obeys_newPtr F
    | exact obeys_derefNode F _
    | exact obeys_IncreaseBlock F _
    | exact obeys_DecreaseBlock F
    | assumption
    | refine obeys_bind F ?_ (fun _ => ?_)
    | dsimp only
    | split

theorem obeys_wrap (F : Frame R) {α β : Type} {m : Analyzer α} (f : α → β) (hm : Obeys R m) :
    Obeys R (m >>= fun a => pure (f a)) :=
  obeys_bind F hm (fun _ => obeys_pure F _)

end frame

/-! ### Every visit respects a frame -/

mutual
theorem accept_obeys {R : CompilerState → CompilerState → Prop} (F : Frame R)
    (env : Collab) : ∀ (n : AstNode) (ov : Option ModuleRef),
    Obeys R (Accept env ov n)
  | .imports _ children, _ => obeys_wrap F _ (acceptChildren_obeys F env children)
  | .import_ _ _ _ _ _ _ unit_children, _ =>
    obeys_AcceptImport F _ _ _ _ _ _ _ (acceptChildren_obeys F env unit_children)
  | .statement _, _ => obeys_pure F _
  | .block _ children, _ => obeys_wrap F _ (acceptBlock_obeys F env children false false)
  | .expression _ child, _ => obeys_wrap F _ (acceptPtr_obeys F env child)
  | .binop _ _ left right, _ =>
    obeys_AcceptBinaryOp F _ _ _ (acceptPtr_obeys F env left) (acceptPtr_obeys F env right)
  | .unop _ child, _ => obeys_wrap F _ (acceptPtr_obeys F env child)
  | .array_access _ object index, _ =>
    obeys_bind F (acceptPtr_obeys F env object) (fun _ => obeys_wrap F _ (acceptPtr_obeys F env index))
  | .member_access _ _ left right, _ =>
    obeys_AcceptMemberAccess F _ _ _ _ _ (acceptPtr_obeys F env left)
      (fun m => acceptDeref_obeys F env right m)
  | .module_access _ _ right, _ =>
    obeys_AcceptModuleAccess F _ _ _ (fun m => acceptDeref_obeys F env right m)
  | .var_declaration _ _ _ assignment, _ =>
    obeys_AcceptVariableDeclaration F _ _ _ _ _ (acceptPtr_obeys F env assignment)
  | .alias _ _ alias_to, _ => obeys_AcceptAlias F _ _ _ _ (acceptPtr_obeys F env alias_to)
  | .use_module _ _, _ => obeys_bind F (obeys_ErrorMsg F _ _ _) (fun _ => obeys_pure F _)
  | .variable _ _ _, _ => obeys_AcceptVariable F _ _ _ _
  | .integer _ _, _ => obeys_pure F _
  | .float _, _ => obeys_pure F _
  | .string _ _, _ => obeys_pure F _
  | .true_ _, _ => obeys_pure F _
  | .false_ _, _ => obeys_pure F _
  | .null _, _ => obeys_pure F _
  | .self _, _ => obeys_pure F _
  | .new _, _ => obeys_pure F _
  | .function_definition _ _ _ block, _ =>
    obeys_AcceptFunctionDefinition F _ _ _ _ _ (acceptBody_obeys F env block)
  | .function_expression _ _ block, _ =>
    obeys_AcceptFunctionExpression F _ _ _ _ (acceptBody_obeys F env block)
  | .function_call _ _ arguments _, _ =>
    obeys_AcceptFunctionCall F _ _ _ _ _ (acceptArgsRev_obeys F env arguments)
  | .class_declaration _, _ => obeys_pure F _
  | .object_expression _ members, _ => obeys_wrap F _ (acceptMembers_obeys F env members)
  | .enum _ _ _, _ => obeys_bind F (obeys_declareEnumMembers F _ _) (fun _ => obeys_pure F _)
  | .print _ arguments, _ => obeys_wrap F _ (acceptChildren_obeys F env arguments)
  | .return_ _ value, _ => obeys_wrap F _ (acceptPtr_obeys F env value)
  | .if_statement _ conditional block else_statement, _ =>
    obeys_AcceptIfStmt F _ _ (acceptPtr_obeys F env conditional) (acceptPtr_obeys F env block)
      (acceptPtr_obeys F env else_statement)
  | .for_loop _ initializer conditional afterthought block, _ =>
    obeys_AcceptForLoop F _ _ (acceptPtr_obeys F env initializer) (acceptPtr_obeys F env conditional)
      (acceptPtr_obeys F env afterthought) (acceptPtr_obeys F env block)
  | .while_loop _ conditional block, _ =>
    obeys_AcceptWhileLoop F _ _ (acceptPtr_obeys F env conditional) (acceptPtr_obeys F env block)
  | .try_catch _ try_block catch_block exception_object, _ =>
    obeys_AcceptTryCatch F _ _ _ (acceptPtr_obeys F env try_block) (acceptPtr_obeys F env catch_block)
      (acceptPtr_obeys F env exception_object)
  | .range _, _ => obeys_bind F (obeys_ErrorMsg F _ _ _) (fun _ => obeys_pure F _)
theorem acceptPtr_obeys {R : CompilerState → CompilerState → Prop} (F : Frame R)
    (env : Collab) : ∀ (p : Option AstNode), Obeys R (AcceptPtr env p)
  | none => obeys_pure F _
  | some n => obeys_wrap F _ (accept_obeys F env n none)
theorem acceptDeref_obeys {R : CompilerState → CompilerState → Prop} (F : Frame R)
    (env : Collab) : ∀ (p : Option AstNode) (m : Option ModuleRef),
    Obeys R (AcceptDeref env m p)
  | none, _ => obeys_throw _
  | some n, m => accept_obeys F env n m
theorem acceptChildren_obeys {R : CompilerState → CompilerState → Prop} (F : Frame R)
    (env : Collab) : ∀ (l : List (Option AstNode)),
    Obeys R (AcceptChildren env l)
  | [] => obeys_pure F _
  | child :: rest =>
    obeys_bind F (acceptPtr_obeys F env child) (fun _ => obeys_wrap F _ (acceptChildren_obeys F env rest))
theorem acceptArgsRev_obeys {R : CompilerState → CompilerState → Prop} (F : Frame R)
    (env : Collab) : ∀ (l : List (Option AstNode)),
    Obeys R (AcceptArgsRev env l)
  | [] => obeys_pure F _
  | arg :: rest =>
    obeys_bind F (acceptArgsRev_obeys F env rest) (fun _ => obeys_wrap F _ (acceptPtr_obeys F env arg))
theorem acceptBlock_obeys {R : CompilerState → CompilerState → Prop} (F : Frame R)
    (env : Collab) : ∀ (l : List (Option AstNode)) (a b : Bool),
    Obeys R (AcceptBlock env a b l)
  | [], _, _ => obeys_pure F _
  | child :: rest, a, b =>
    obeys_bind F (acceptPtr_obeys F env child) (fun c => obeys_bind F (obeys_blockStep F a b c)
      (fun flags => obeys_wrap F _ (acceptBlock_obeys F env rest flags.1 flags.2)))
theorem acceptMembers_obeys {R : CompilerState → CompilerState → Prop} (F : Frame R)
    (env : Collab) : ∀ (l : List (String × Option AstNode)),
    Obeys R (AcceptMembers env l)
  | [] => obeys_pure F _
  | member :: rest =>
    obeys_bind F (acceptPtr_obeys F env member.2) (fun _ =>
      obeys_wrap F _ (acceptMembers_obeys F env rest))
theorem acceptBody_obeys {R : CompilerState → CompilerState → Prop} (F : Frame R)
    (env : Collab) : ∀ (p : Option AstNode), Obeys R (AcceptBody env p)
  | none => obeys_pure F _
  | some n => by
    cases n with
    | block _ children => exact acceptBlock_obeys F env children false false
    | _ => exact obeys_pure F _
end

theorem obeys_AcceptModule {R : CompilerState → CompilerState → Prop} (F : Frame R)
    (env : Collab) (ast : AstModule) : Obeys R (AcceptModule env ast) :=
  obeys_bind F (acceptChildren_obeys F env ast.children) (fun _ => obeys_pure F _)

theorem obeys_Analyze {R : CompilerState → CompilerState → Prop} (F : Frame R)
    (env : Collab) (ast : AstModule) : Obeys R (Analyze env ast) := by
  unfold Analyze
  exact obeys_bind F (obeys_AcceptModule F env ast) (fun _ => obeys_bind F (obeys_get F)
    (fun _ => obeys_bind F (obeys_warnUnused F _) (fun _ => obeys_bind F
      (obeys_modify _ (fun st => F.reset st)) (fun _ => obeys_pure F _))))

theorem obeys_addMethods {R : CompilerState → CompilerState → Prop} (F : Frame R)
    (env : Collab) (unit : ModuleRef) (methods : List (String × Nat)) :
    Obeys R (addMethods env unit methods) := by
  induction methods with
  | nil => exact obeys_pure F _
  | cons m ms ih =>
    obtain ⟨name, nargs⟩ := m
    unfold addMethods
    intro st
    refine obeysAt_get_bind ?_
    dsimp only
    split
    · exact obeys_bind F (obeys_ErrorMsg F _ _ _) (fun _ => obeys_pure F _) st
    · exact obeysAt_bind F (obeysAt_pushIndexed F st _ _ rfl) (fun _ => ih)

theorem obeys_AddModule {R : CompilerState → CompilerState → Prop} (F : Frame R)
    (env : Collab) (defn : ModuleDefine) : Obeys R (AddModule env defn) := by
  unfold AddModule
  refine obeys_bind F (obeys_newPtr F) (fun _ => obeys_bind F (obeys_get F) (fun _ => ?_))
  dsimp only
  split
  · exact obeys_ErrorMsg F _ _ _
  · refine obeys_bind F (obeys_addMethods F _ _ _) (fun completed => ?_)
    split
    · exact obeys_registerModule F _ _
    · exact obeys_pure F _

/-! ## The semantic analyzer: field indices -/

theorem fieldIndexOk_of_levels {st st1 : CompilerState} (h : st1.levels = st.levels) :
    FieldIndexOk st → FieldIndexOk st1 := by
  intro hp l i e he
  rw [h] at he
  exact hp l i e he

theorem fieldIndexOk_pushed (st : CompilerState) (name : String) (symbol : Symbol)
    (hs : symbol.ofAliasDeclaration = true ∨ symbol.field_index = st.localsSize) :
    FieldIndexOk st → FieldIndexOk (st.pushed name symbol) := by
  intro hp l i e he
  unfold CompilerState.pushed at he
  by_cases hl : l = st.level
  · subst hl
    simp only [Function.update_same] at he
    by_cases hi : i < (st.levels st.level).locals.length
    · rw [List.get?_eq_getElem?, List.getElem?_append_left hi] at he
      exact hp st.level i e (by rw [List.get?_eq_getElem?]; exact he)
    · rw [List.get?_eq_getElem?, List.getElem?_append_right (Nat.le_of_not_lt hi)] at he
      cases hk : i - (st.levels st.level).locals.length with
      | zero =>
        rw [hk] at he
        simp only [List.getElem?_cons_zero, Option.some.injEq] at he
        subst he
        rcases hs with hs | hs
        · exact Or.inl hs
        · right
          show symbol.field_index = (i : Int)
          rw [hs]
          unfold CompilerState.localsSize CompilerState.CurrentLevel
          have : i = (st.levels st.level).locals.length := by omega
          rw [this]
      | succ k =>
        rw [hk] at he
        simp at he
  · simp only [Function.update_noteq hl] at he
    exact hp l i e he

theorem fieldIndexOk_written (st : CompilerState) (q : Int × Nat) (e : String × Symbol)
    (f : Symbol → Symbol) (hq : (st.levels q.1).locals.get? q.2 = some e) (hf : ValueOnly f) :
    FieldIndexOk st → FieldIndexOk (st.written q e f) := by
  intro hp l i x hx
  unfold CompilerState.written at hx
  by_cases hl : l = q.1
  · subst hl
    simp only [Function.update_same] at hx
    by_cases hi : i = q.2
    · subst hi
      have hlt : q.2 < (st.levels q.1).locals.length := by
        rw [List.get?_eq_getElem?] at hq
        exact (List.getElem?_eq_some_iff.mp hq).1
      rw [List.get?_eq_getElem?, List.getElem?_set_self hlt] at hx
      simp only [Option.some.injEq] at hx
      subst hx
      have h0 := hp q.1 q.2 e hq
      have hfe := hf e.2
      have h1 : (f e.2).is_alias = e.2.is_alias := by rw [hfe]
      have h2 : (f e.2).is_const = e.2.is_const := by rw [hfe]
      have h3 : (f e.2).field_index = e.2.field_index := by rw [hfe]
      unfold Symbol.ofAliasDeclaration at h0 ⊢
      show ((f e.2).is_alias && !(f e.2).is_const) = true ∨ (f e.2).field_index = _
      rw [h1, h2, h3]
      exact h0
    · rw [List.get?_eq_getElem?, List.getElem?_set_ne (fun h => hi h.symm)] at hx
      exact hp q.1 i x (by rw [List.get?_eq_getElem?]; exact hx)
  · simp only [Function.update_noteq hl] at hx
    exact hp l i x hx

/-- Every step of the analyzer keeps `FieldIndexOk`. -/
theorem fieldIndexFrame : Frame (fun st st1 => FieldIndexOk st → FieldIndexOk st1) where
  refl := fun _ h => h
  trans := fun _ _ _ h1 h2 h => h2 (h1 h)
  errors := fun _ _ h => h
  useCount := fun _ _ h => h
  nextPtr := fun _ h => h
  modules := fun _ _ h => h
  pushIndexed := fun st name symbol hs => fieldIndexOk_pushed st name symbol (Or.inr hs)
  pushAlias := fun st name symbol h1 h2 => fieldIndexOk_pushed st name symbol
    (Or.inl (by unfold Symbol.ofAliasDeclaration; rw [h1, h2]; rfl))
  write := fun st q e f hq hf => fieldIndexOk_written st q e f hq hf
  increase := by
    intro st type hp l i e he
    by_cases hl : l = st.level + 1
    · subst hl
      simp only [Function.update_same] at he
      simp at he
    · simp only [Function.update_noteq hl] at he
      exact hp l i e he
  decrease := by
    intro st hp l i e he
    by_cases hl : l = st.level
    · subst hl
      simp only [Function.update_same] at he
      simp at he
    · simp only [Function.update_noteq hl] at he
      exact hp l i e he
  reset := by
    intro st _ l i e he
    simp at he

/-- The symbol an alias declaration stores, for a name that is new. -/
theorem acceptAlias_symbol (env : Collab) (ov : Option ModuleRef) (st : CompilerState)
    (h : AstHdr) (name : String) (alias_to : Option AstNode) (r : AstNode × CompilerState)
    (hnew : env.MakeVariableName st name (h.withModule ov).module ∉ (st.levels st.level).names)
    (hmod : env.FindModule st name (h.withModule ov).module = none)
    (hr : Accept env ov (.alias h name alias_to) st = .ok r) :
    ∃ a s2 symbol, AcceptPtr env alias_to st = .ok (a, s2) ∧
      r.2.levels = (s2.pushed (env.MakeVariableName st name (h.withModule ov).module)
        symbol).levels ∧
      symbol.ofAliasDeclaration = true ∧ symbol.node = refOf a ∧
      (symbol.owner_level, symbol.field_index) = aliasIndex a := by
  obtain ⟨n1, st1⟩ := r
  have hr1 : AcceptAlias env (h.withModule ov) name alias_to (AcceptPtr env alias_to) st =
      .ok (n1, st1) := hr
  unfold AcceptAlias at hr1
  rw [run_bind (run_get st)] at hr1
  simp only [findVariable_this_none st _ hnew, hmod, Option.isSome_none, Bool.false_eq_true,
    if_false] at hr1
  obtain ⟨a, s2, g1, g2⟩ := bind_ok hr1
  cases hw : a.bind aliasWalk with
  | none =>
    simp only [hw] at g2
    rw [run_bind (run_pure _ s2), run_bind (run_pushLocal _ _ s2)] at g2
    cases g2
    exact ⟨a, s2, _, g1, rfl, rfl, rfl, by unfold aliasIndex; rw [hw]⟩
  | some w =>
    cases w with
    | none =>
      simp only [hw] at g2
      obtain ⟨sym, s3, g3, g4⟩ := bind_ok g2
      rw [run_bind (run_ErrorMsg _ _ _ s2)] at g3
      cases g3
      rw [run_bind (run_pushLocal _ _ _)] at g4
      cases g4
      exact ⟨a, s2, _, g1, rfl, rfl, rfl, by unfold aliasIndex; rw [hw]⟩
    | some p =>
      obtain ⟨ol, fi⟩ := p
      simp only [hw] at g2
      rw [run_bind (run_pure _ s2), run_bind (run_pushLocal _ _ s2)] at g2
      cases g2
      exact ⟨a, s2, _, g1, rfl, rfl, rfl, by unfold aliasIndex; rw [hw]⟩

theorem fieldIndexOk_globalState : FieldIndexOk globalState := by
  intro l i e he
  unfold globalState at he
  by_cases hl : l = 0
  · simp [hl] at he
  · simp [hl] at he

/-- C12 as stated fails: once the children of `let x = 1; alias y = x` have
been visited from the start state, the global level holds `x` at position 0
and `y` at position 1, and the symbol of `y` has `field_index` 0, the index of
`x`. -/
theorem alias_field_index_not_position :
    ∃ r s, AcceptModule plainEnv aliasProgram globalState = .ok r ∧
      (r.2.levels 0).names = ["x", "y"] ∧
      (r.2.levels 0).locals.get? 1 = some ("y", s) ∧ s.field_index = 0 ∧
      ¬ FieldIndexAll r.2 := by
  refine ⟨_, _, rfl, rfl, rfl, rfl, fun h => ?_⟩
  have := h 0 1 _ rfl
  revert this
  decide

/-- C12, amended: from a state in which every symbol stored in a level, the
symbols of alias declarations apart, has `field_index` equal to its position
in the locals of its level, every visit of a node that returns, every visit
of a module, every `Analyze` and every `AddModule` returns in such a state.
Each visit of a node inside another is itself such a visit, so the property
holds wherever a visit starts or ends.  The symbol an alias declaration stores
for a new name, once its target has been visited, has the `owner_level` and
`field_index` of the variable the target ends in, or -1 and -1 when it ends
in none. -/
theorem field_index_is_position (env : Collab) (st : CompilerState) (hst : FieldIndexOk st) :
    (∀ ov n r, Accept env ov n st = .ok r → FieldIndexOk r.2) ∧
    (∀ ast r, AcceptModule env ast st = .ok r → FieldIndexOk r.2) ∧
    (∀ ast r, Analyze env ast st = .ok r → FieldIndexOk r.2) ∧
    (∀ defn r, AddModule env defn st = .ok r → FieldIndexOk r.2) ∧
    (∀ ov h name alias_to r,
      env.MakeVariableName st name (AstHdr.withModule h ov).module ∉
        (st.levels st.level).names →
      env.FindModule st name (AstHdr.withModule h ov).module = none →
      Accept env ov (.alias h name alias_to) st = .ok r →
      ∃ a s2 symbol, AcceptPtr env alias_to st = .ok (a, s2) ∧
        r.2.levels = (s2.pushed (env.MakeVariableName st name (AstHdr.withModule h ov).module)
          symbol).levels ∧
        symbol.ofAliasDeclaration = true ∧ symbol.node = refOf a ∧
        (symbol.owner_level, symbol.field_index) = aliasIndex a) :=
  ⟨fun ov n r hr => accept_obeys fieldIndexFrame env n ov st r.1 r.2 hr hst,
   fun ast r hr => obeys_AcceptModule fieldIndexFrame env ast st r.1 r.2 hr hst,
   fun ast r hr => obeys_Analyze fieldIndexFrame env ast st r.1 r.2 hr hst,
   fun defn r hr => obeys_AddModule fieldIndexFrame env defn st r.1 r.2 hr hst,
   fun ov h name alias_to r hnew hmod hr =>
     acceptAlias_symbol env ov st h name alias_to r hnew hmod hr⟩

/-- C12, amended, on `let x = 1; alias y = x` from the start state: the state
after the visit has every symbol but the alias at its position. -/
theorem field_index_is_position_witness :
    FieldIndexOk globalState ∧
    ∃ r, AcceptModule plainEnv aliasProgram globalState = .ok r ∧ FieldIndexOk r.2 ∧
      (r.2.levels 0).names = ["x", "y"] :=
  ⟨fieldIndexOk_globalState, _, rfl,
    (field_index_is_position plainEnv globalState fieldIndexOk_globalState).2.1 aliasProgram _
      rfl, rfl⟩

/-! ## The semantic analyzer: order of the arguments of a call -/

/-- Diagnostics are only ever appended. -/
theorem errorsFrame : Frame ErrorsExtend where
  refl := fun _ => ⟨[], (List.append_nil _).symm⟩
  trans := by
    rintro a b c ⟨d1, h1⟩ ⟨d2, h2⟩
    exact ⟨d1 ++ d2, by rw [h2, h1, List.append_assoc]⟩
  errors := fun _ ds => ⟨ds, rfl⟩
  useCount := fun _ _ => ⟨[], (List.append_nil _).symm⟩
  nextPtr := fun _ => ⟨[], (List.append_nil _).symm⟩
  modules := fun _ _ => ⟨[], (List.append_nil _).symm⟩
  pushIndexed := fun _ _ _ _ => ⟨[], (List.append_nil _).symm⟩
  pushAlias := fun _ _ _ _ _ => ⟨[], (List.append_nil _).symm⟩
  write := fun _ _ _ _ _ _ => ⟨[], (List.append_nil _).symm⟩
  increase := fun _ _ => ⟨[], (List.append_nil _).symm⟩
  decrease := fun _ => ⟨[], (List.append_nil _).symm⟩
  reset := fun _ => ⟨[], (List.append_nil _).symm⟩

/-- No step lowers a use count. -/
theorem useCountsFrame : Frame UseCountsGrow where
  refl := fun _ _ => le_refl _
  trans := fun _ _ _ h1 h2 p => le_trans (h1 p) (h2 p)
  errors := fun _ _ _ => le_refl _
  useCount := by
    intro st p q
    by_cases h : q = p
    · subst h; simp
    · show st.use_counts q ≤ Function.update st.use_counts p _ q
      rw [Function.update_noteq h]
  nextPtr := fun _ _ => le_refl _
  modules := fun _ _ _ => le_refl _
  pushIndexed := fun _ _ _ _ _ => le_refl _
  pushAlias := fun _ _ _ _ _ _ => le_refl _
  write := fun _ _ _ _ _ _ _ => le_refl _
  increase := fun _ _ _ => le_refl _
  decrease := fun _ _ => le_refl _
  reset := fun _ _ => le_refl _

theorem acceptArgsRev_cons (env : Collab) (arg : Option AstNode) (rest : List (Option AstNode)) :
    AcceptArgsRev env (arg :: rest) =
      AcceptArgsRev env rest >>= fun as => AcceptPtr env arg >>= fun a => pure (a :: as) := rfl

theorem acceptChildren_cons (env : Collab) (child : Option AstNode)
    (rest : List (Option AstNode)) :
    AcceptChildren env (child :: rest) =
      AcceptPtr env child >>= fun c => AcceptChildren env rest >>= fun cs => pure (c :: cs) :=
  rfl

theorem acceptChildren_nil (env : Collab) : AcceptChildren env [] = pure [] := rfl

theorem acceptArgsRev_nil (env : Collab) : AcceptArgsRev env [] = pure [] := rfl

/-- The forward loop over a list followed by another. -/
theorem acceptChildren_append (env : Collab) (l1 l2 : List (Option AstNode)) :
    AcceptChildren env (l1 ++ l2) =
      AcceptChildren env l1 >>= fun c1 => AcceptChildren env l2 >>= fun c2 =>
        pure (c1 ++ c2) := by
  induction l1 with
  | nil => simp [acceptChildren_nil]
  | cons x l1 ih =>
    rw [List.cons_append, acceptChildren_cons, ih, acceptChildren_cons]
    simp [bind_assoc]

/-- The loop over the arguments, last to first, is the forward loop over the
reversed list of arguments. -/
theorem acceptArgsRev_eq (env : Collab) (l : List (Option AstNode)) :
    AcceptArgsRev env l = AcceptChildren env l.reverse >>= fun cs => pure cs.reverse := by
  induction l with
  | nil => simp [acceptArgsRev_nil, acceptChildren_nil]
  | cons x l ih =>
    rw [acceptArgsRev_cons, ih, List.reverse_cons, acceptChildren_append, acceptChildren_cons,
      acceptChildren_nil]
    simp [bind_assoc]

/-- The loop over the arguments of a list followed by another visits the
second list first. -/
theorem acceptArgsRev_append (env : Collab) (l1 l2 : List (Option AstNode)) :
    AcceptArgsRev env (l1 ++ l2) =
      AcceptArgsRev env l2 >>= fun c2 => AcceptArgsRev env l1 >>= fun c1 =>
        pure (c1 ++ c2) := by
  induction l1 with
  | nil => simp [acceptArgsRev_nil]
  | cons x l1 ih =>
    rw [List.cons_append, acceptArgsRev_cons, ih, acceptArgsRev_cons]
    simp [bind_assoc]

theorem run_IncrementUseCount (ptr : Option Nat) (st : CompilerState) :
    IncrementUseCount ptr st = .ok ((), st.counted ptr) := rfl

/-- The visit of a call whose callee resolves: the use count of the callee's
node, then the loop over the arguments. -/
theorem acceptCall_resolved (env : Collab) (ov : Option ModuleRef) (st : CompilerState)
    (h : AstHdr) (name : String) (arguments : List (Option AstNode)) (info : CallInfo)
    (p : Int × Nat) (symbol : Symbol)
    (hres : FindVariable st (env.MakeVariableName st name (h.withModule ov).module) false =
      some (p, symbol)) :
    ∃ info1 : CallInfo, info1.definition = symbol.node ∧
      Accept env ov (.function_call h name arguments info) st =
        (AcceptArgsRev env arguments >>= fun as =>
          pure (.function_call (h.withModule ov) name as info1))
          (st.counted (symbol.node.map (fun n => n.ptr))) := by
  let info0 : CallInfo :=
    if symbol.is_alias then { info with is_alias := true, alias_to := symbol.node } else info
  refine ⟨{ info0 with definition := symbol.node }, rfl, ?_⟩
  show AcceptFunctionCall env (h.withModule ov) name arguments info
    (AcceptArgsRev env arguments) st = _
  unfold AcceptFunctionCall
  rw [run_bind (run_get st)]
  simp only [hres]
  rw [run_bind (run_IncrementUseCount _ st)]

/-- C20: a function call whose callee resolves, with arguments in source
order.  The visit of the call raises the use count of the callee's node and
then is the forward loop over the reversed list of arguments: each argument
is visited once, the last first.  So when the arguments are `pre` followed by
`post` and the visit returns, the arguments of `post` were visited first, from
the state with the raised count, then those of `pre` from the state `post`
left; diagnostics are only appended, so the diagnostics of `post` precede
those of `pre`. -/
theorem call_arguments_right_to_left (env : Collab) (ov : Option ModuleRef)
    (st : CompilerState) (h : AstHdr) (name : String) (arguments : List (Option AstNode))
    (info : CallInfo) (p : Int × Nat) (symbol : Symbol)
    (hres : FindVariable st (env.MakeVariableName st name (h.withModule ov).module) false =
      some (p, symbol)) :
    (∃ info1 : CallInfo, info1.definition = symbol.node ∧
      Accept env ov (.function_call h name arguments info) st =
        (AcceptChildren env arguments.reverse >>= fun cs =>
          pure (.function_call (h.withModule ov) name cs.reverse info1))
          (st.counted (symbol.node.map (fun n => n.ptr)))) ∧
    (∀ pre post r, arguments = pre ++ post →
      Accept env ov (.function_call h name arguments info) st = .ok r →
      ∃ ps s1 qs d1 d2,
        AcceptArgsRev env post (st.counted (symbol.node.map (fun n => n.ptr))) = .ok (ps, s1) ∧
        AcceptArgsRev env pre s1 = .ok (qs, r.2) ∧
        s1.errors = st.errors ++ d1 ∧ r.2.errors = st.errors ++ d1 ++ d2) := by
  obtain ⟨info1, hd, hrun⟩ := acceptCall_resolved env ov st h name arguments info p symbol hres
  constructor
  · refine ⟨info1, hd, ?_⟩
    rw [hrun, acceptArgsRev_eq]
    simp [bind_assoc]
  · intro pre post r hargs hr
    obtain ⟨r1, r2⟩ := r
    rw [hrun, hargs, acceptArgsRev_append] at hr
    obtain ⟨as, s2, g1, g2⟩ := bind_ok hr
    cases g2
    obtain ⟨ps, s1, g3, g4⟩ := bind_ok g1
    obtain ⟨qs, s3, g5, g6⟩ := bind_ok g4
    cases g6
    obtain ⟨d1, hd1⟩ := acceptArgsRev_obeys errorsFrame env post _ _ _ g3
    obtain ⟨d2, hd2⟩ := acceptArgsRev_obeys errorsFrame env pre _ _ _ g5
    exact ⟨ps, s1, qs, d1, d2, g3, g5, hd1, by rw [hd2, hd1]; rfl⟩

/-- C20 on the call `x(p, q)` in the state `let x = 5` leaves, `p` and `q`
undeclared: the diagnostic of `q` (line 4) precedes that of `p` (line 3). -/
theorem call_arguments_right_to_left_witness :
    ∃ r, Accept plainEnv none (.function_call (hdrAt 2) "x"
        [some (.variable (hdrAt 3) "p" {}), some (.variable (hdrAt 4) "q" {})] {})
        stateWithX = .ok r ∧
      r.2.errors = [⟨.error, .Msg_undeclared_identifier, ⟨4, 0, "main"⟩, ["q"]⟩,
                    ⟨.error, .Msg_undeclared_identifier, ⟨3, 0, "main"⟩, ["p"]⟩] ∧
      ∃ ps s1 qs d1 d2,
        AcceptArgsRev plainEnv [some (.variable (hdrAt 4) "q" {})]
          (stateWithX.counted (some 1)) = .ok (ps, s1) ∧
        AcceptArgsRev plainEnv [some (.variable (hdrAt 3) "p" {})] s1 = .ok (qs, r.2) ∧
        s1.errors = stateWithX.errors ++ d1 ∧ r.2.errors = stateWithX.errors ++ d1 ++ d2 :=
  ⟨_, rfl, rfl,
    (call_arguments_right_to_left plainEnv none stateWithX (hdrAt 2) "x"
      [some (.variable (hdrAt 3) "p" {}), some (.variable (hdrAt 4) "q" {})] {} (0, 0) _
      rfl).2 [some (.variable (hdrAt 3) "p" {})] [some (.variable (hdrAt 4) "q" {})] _ rfl rfl⟩

/-! ## The semantic analyzer: assignment to a const variable -/

/-- The checks of the assignment family on a left side that is a variable
marked const: the `const_identifier` error at the variable, then at most the
two errors for the attribute `inline`. -/
theorem assignChecks_const (vh : AstHdr) (name : String) (info1 : VarInfo) (r1 : AstNode)
    (st : CompilerState) (hc : info1.is_const = true) :
    ∃ extra, assignChecks (some (.variable vh name info1)) (some r1) st =
        .ok ((), { st with errors := st.errors ++
          ⟨.error, .Msg_const_identifier, vh.location, [name]⟩ :: extra }) ∧
      ∀ d, d ∈ extra → d.msg = .Msg_prohibited_action_attribute := by
  unfold assignChecks
  rw [run_bind (show derefNode (some (AstNode.variable vh name info1)) st = .ok (_, st) from rfl)]
  simp only [hc, if_true]
  rw [run_bind (run_ErrorMsg _ _ _ st)]
  by_cases h1 : vh.HasAttribute "inline" = true
  · simp only [h1, if_true]
    rw [run_bind (run_ErrorMsg _ _ _ _)]
    rw [run_bind (show derefNode (some r1) _ = .ok (r1, _) from rfl)]
    by_cases h2 : r1.hdr.HasAttribute "inline" = true
    · simp only [h2, if_true]
      refine ⟨[⟨.error, .Msg_prohibited_action_attribute, vh.location, ["inline"]⟩,
        ⟨.error, .Msg_prohibited_action_attribute, r1.hdr.location, ["inline"]⟩], ?_, ?_⟩
      · rw [run_ErrorMsg]; simp
      · intro d hd
        simp only [List.mem_cons, List.mem_singleton, List.not_mem_nil, or_false] at hd
        rcases hd with rfl | rfl <;> rfl
    · simp only [h2, Bool.false_eq_true, if_false]
      refine ⟨[⟨.error, .Msg_prohibited_action_attribute, vh.location, ["inline"]⟩], ?_, ?_⟩
      · rw [run_pure]; simp
      · intro d hd
        rw [List.mem_singleton.mp hd]
  · simp only [h1, Bool.false_eq_true, if_false]
    rw [run_bind (run_pure () _)]
    rw [run_bind (show derefNode (some r1) _ = .ok (r1, _) from rfl)]
    by_cases h2 : r1.hdr.HasAttribute "inline" = true
    · simp only [h2, if_true]
      refine ⟨[⟨.error, .Msg_prohibited_action_attribute, r1.hdr.location, ["inline"]⟩], ?_, ?_⟩
      · rw [run_ErrorMsg]; simp
      · intro d hd
        rw [List.mem_singleton.mp hd]
    · simp only [h2, Bool.false_eq_true, if_false]
      exact ⟨[], by rw [run_pure], fun d hd => by cases hd⟩

/-- The visit of a variable that resolves: the node it leaves carries the
`is_const` of the symbol, and no level changes. -/
theorem acceptVariable_resolved (env : Collab) (vh : AstHdr) (name : String) (info : VarInfo)
    (st : CompilerState) (ptr : Int × Nat) (symbol : Symbol)
    (hres : FindVariable st (env.MakeVariableName st name vh.module) false =
      some (ptr, symbol)) :
    ∃ info1 s1, AcceptVariable env vh name info st = .ok (.variable vh name info1, s1) ∧
      info1.is_const = symbol.is_const ∧ info1.symbol_ptr = some ptr ∧
      s1.levels = st.levels ∧ s1.level = st.level := by
  unfold AcceptVariable
  rw [run_bind (run_get st)]
  simp only [hres]
  cases hn : symbol.node with
  | none => exact ⟨_, _, rfl, rfl, rfl, rfl, rfl⟩
  | some node =>
    simp only []
    split_ifs <;> exact ⟨_, _, rfl, rfl, rfl, rfl, rfl⟩

theorem assignUpdate_const (env : Collab) (vh : AstHdr) (name : String) (info1 : VarInfo)
    (right : Option AstNode) (st : CompilerState) (hc : info1.is_const = true) :
    assignUpdate env (some (.variable vh name info1)) right st =
      .ok (some (.variable vh name info1), st) := by
  unfold assignUpdate
  rw [run_bind (show derefNode (some (AstNode.variable vh name info1)) st = .ok (_, st) from rfl)]
  simp only [hc, Bool.not_true, Bool.false_eq_true, if_false]
  rfl

theorem binopChecks_const (env : Collab) (op : BinOp) (vh : AstHdr) (name : String)
    (info1 : VarInfo) (r1 : AstNode) (st : CompilerState) (hop : op.isAssignment = true)
    (hc : info1.is_const = true) :
    ∃ extra, binopChecks env op (some (.variable vh name info1)) (some r1) st =
        .ok (some (.variable vh name info1), { st with errors := st.errors ++
          ⟨.error, .Msg_const_identifier, vh.location, [name]⟩ :: extra }) ∧
      ∀ d, d ∈ extra → d.msg = .Msg_prohibited_action_attribute := by
  obtain ⟨extra, h1, h2⟩ := assignChecks_const vh name info1 r1 st hc
  refine ⟨extra, ?_, h2⟩
  cases op with
  | BinOp_assign =>
    unfold binopChecks
    simp only []
    rw [run_bind (assignUpdate_const env vh name info1 (some r1) st hc), run_bind h1]
    rfl
  | BinOp_other x => cases hop
  | _ =>
    unfold binopChecks
    simp only []
    rw [run_bind h1]
    rfl

/-- C18: an assignment (`=`, `+=`, `-=`, `*=`, `/=`) whose left side is a
variable that resolves to a const symbol.  The visit of the variable returns
and changes no level.  When the visit of the right side then returns a
non-null node, the visit of the assignment returns; after the visits of its
two sides it appends exactly one `const_identifier` error, located at the
variable and naming it, followed at most by `prohibited_action_attribute`
errors; and it leaves every level as the visit of the right side left it, so
the symbol keeps its `current_value` and `is_literal`. -/
theorem assign_to_const_rejected (env : Collab) (ov : Option ModuleRef) (st : CompilerState)
    (h vh : AstHdr) (op : BinOp) (name : String) (info : VarInfo) (right : Option AstNode)
    (ptr : Int × Nat) (symbol : Symbol) (hop : op.isAssignment = true)
    (hres : FindVariable st (env.MakeVariableName st name vh.module) false =
      some (ptr, symbol))
    (hconst : symbol.is_const = true) :
    ∃ l s1, Accept env none (.variable vh name info) st = .ok (l, s1) ∧
      s1.levels = st.levels ∧ s1.level = st.level ∧
      ∀ r1 s2, AcceptPtr env right s1 = .ok (some r1, s2) →
        ∃ s3 extra,
          Accept env ov (.binop h op (some (.variable vh name info)) right) st =
            .ok (.binop (h.withModule ov) op (some l) (some r1), s3) ∧
          s3.errors = s2.errors ++
            ⟨.error, .Msg_const_identifier, vh.location, [name]⟩ :: extra ∧
          (∀ d, d ∈ extra → d.msg = .Msg_prohibited_action_attribute) ∧
          s3.levels = s2.levels ∧ s3.level = s2.level ∧ s3.use_counts = s2.use_counts ∧
          s3.symbolAt ptr = s2.symbolAt ptr := by
  obtain ⟨info1, s1, hv, hc1, -, hl, hlev⟩ :=
    acceptVariable_resolved env vh name info st ptr symbol hres
  refine ⟨.variable vh name info1, s1, hv, hl, hlev, fun r1 s2 hright => ?_⟩
  obtain ⟨extra, hb, hextra⟩ :=
    binopChecks_const env op vh name info1 r1 s2 hop (hc1.trans hconst)
  refine ⟨{ s2 with errors := s2.errors ++
    ⟨.error, .Msg_const_identifier, vh.location, [name]⟩ :: extra }, extra, ?_, rfl, hextra,
    rfl, rfl, rfl, rfl⟩
  show AcceptBinaryOp env (h.withModule ov) op
    (AcceptPtr env (some (.variable vh name info))) (AcceptPtr env right) st = _
  have hleft : AcceptPtr env (some (.variable vh name info)) st =
      .ok (some (.variable vh name info1), s1) := by
    show (AcceptVariable env vh name info >>= fun n1 => pure (some n1)) st = _
    rw [run_bind hv]
    rfl
  unfold AcceptBinaryOp
  rw [run_bind hleft, run_bind hright, run_bind hb]
  rfl

/-- C18 on `const k = 3; k = 4`: the assignment, visited in the state the
declaration leaves, yields one `const_identifier` error at the variable (line
4), and the symbol of `k` keeps the value of its declaration (node 2). -/
theorem assign_to_const_rejected_witness :
    ∃ r s, Accept plainEnv none (.binop (hdrAt 3) .BinOp_assign
        (some (.variable (hdrAt 4) "k" {})) (some (.integer (hdrAt 5) 4))) stateWithConstK =
        .ok r ∧
      r.2.errors = [⟨.error, .Msg_const_identifier, ⟨4, 0, "main"⟩, ["k"]⟩] ∧
      r.2.symbolAt (0, 0) = some s ∧ s.current_value = some 2 ∧ s.is_literal = true ∧
      r.2.symbolAt (0, 0) = stateWithConstK.symbolAt (0, 0) := by
  obtain ⟨l, s1, -, -, -, h4⟩ := assign_to_const_rejected plainEnv none stateWithConstK
    (hdrAt 3) (hdrAt 4) .BinOp_assign "k" {} (some (.integer (hdrAt 5) 4)) (0, 0) _ rfl rfl rfl
  obtain ⟨s3, extra, g1, -⟩ := h4 (.integer (hdrAt 5) 4) s1 rfl
  exact ⟨_, _, rfl, rfl, rfl, rfl, rfl, rfl⟩

/-- C15 as stated fails: `let x = 1; g(x)` holds one reference that names the
declaration of `x` (node 1), and after `Analyze`, with constant folding
disabled, the use count recorded for that declaration is 0: the callee `g`
does not resolve, and the arguments of the call are not visited. -/
theorem reference_in_unresolved_call_not_counted :
    ∃ r, Analyze plainEnv referenceInUnresolvedCall globalState = .ok r ∧
      plainEnv.optimize_constant_folding = false ∧
      refsInList "x" referenceInUnresolvedCall.children = 1 ∧
      r.2.use_counts (some 1) = 0 ∧
      r.2.errors = [⟨.error, .Msg_undeclared_identifier, ⟨3, 0, "main"⟩, ["g"]⟩,
                    ⟨.warning, .Msg_unused_identifier, ⟨1, 0, "main"⟩, ["x"]⟩] :=
  ⟨_, rfl, rfl, rfl, rfl, rfl⟩

/-! ## The semantic analyzer: use counts -/

theorem run_seq_pure {α : Type} {X Y : Analyzer Unit} {v : α} {st s0 s2 : CompilerState}
    (hX : X st = .ok ((), s0)) (hY : Y s0 = .ok ((), s2)) :
    ((X >>= fun _ => Y) >>= fun _ => (pure v : Analyzer α)) st = .ok (v, s2) := by
  have h1 : (X >>= fun _ => Y) st = .ok ((), s2) := by rw [run_bind hX]; exact hY
  rw [run_bind h1]
  rfl

theorem acceptVariable_counts (env : Collab) (h : AstHdr) (name : String) (info : VarInfo)
    (st : CompilerState) :
    ∃ l s1, AcceptVariable env h name info st = .ok (l, s1) ∧
      s1.use_counts = countsAfterReference env st
        (FindVariable st (env.MakeVariableName st name h.module) false) := by
  unfold AcceptVariable
  rw [run_bind (run_get st)]
  cases hf : FindVariable st (env.MakeVariableName st name h.module) false with
  | none => exact ⟨_, _, rfl, rfl⟩
  | some r =>
    obtain ⟨ptr, symbol⟩ := r
    cases hn : symbol.node with
    | none =>
      simp only [hf, hn, countsAfterReference]
      exact ⟨_, _, rfl, rfl⟩
    | some node =>
      simp only [hf, hn, countsAfterReference]
      obtain ⟨s0, hA, hA2⟩ : ∃ s0 : CompilerState,
          (if node.type = AstType.Ast_type_function_definition then
            (if node.attributes.contains "inline" = true then
              ErrorMsg .Msg_prohibited_action_attribute h.location ["inline"] else pure ())
           else pure ()) st = .ok ((), s0) ∧ s0.use_counts = st.use_counts := by
        split_ifs
        · exact ⟨_, run_ErrorMsg _ _ _ st, rfl⟩
        · exact ⟨_, rfl, rfl⟩
        · exact ⟨_, rfl, rfl⟩
      cases hsup : (env.optimize_constant_folding && symbol.is_const && symbol.is_literal &&
          symbol.current_value.isSome) with
      | true =>
        simp only [Bool.not_true, Bool.false_eq_true, if_false, if_true]
        exact ⟨_, _, run_seq_pure hA rfl, hA2⟩
      | false =>
        simp only [Bool.not_false, Bool.false_eq_true, if_false, if_true]
        refine ⟨_, _, run_seq_pure hA (run_IncrementUseCount _ s0), ?_⟩
        unfold CompilerState.counted
        simp only [hA2]

theorem acceptCall_unresolved (env : Collab) (ov : Option ModuleRef) (st : CompilerState)
    (h : AstHdr) (name : String) (arguments : List (Option AstNode)) (info : CallInfo)
    (hres : FindVariable st (env.MakeVariableName st name (h.withModule ov).module) false =
      none) :
    Accept env ov (.function_call h name arguments info) st =
      .ok (.function_call (h.withModule ov) name arguments info,
        { st with errors := st.errors ++
          [⟨.error, .Msg_undeclared_identifier, h.location, [name]⟩] }) := by
  show AcceptFunctionCall env (h.withModule ov) name arguments info
    (AcceptArgsRev env arguments) st = _
  unfold AcceptFunctionCall
  rw [run_bind (run_get st)]
  simp only [hres]
  rw [← withModule_location h ov]
  rfl

/-- How the use counts move at a reference and at a call.  The visit of a
variable reference returns, and it raises by one the count of the node of the
symbol the name resolves to -- unless the name does not resolve, the node is null, or constant
folding is enabled and the symbol is const, literal and has a current value,
in which cases it changes no count.  The visit of a function call whose callee
resolves raises by one the count of the node of the callee's symbol and then
visits the arguments; when the callee does not resolve it reports the error
and returns, with no count changed and the arguments not visited.  No visit of
a node lowers a count, and `Analyze` lowers none: it does not reset them. -/
theorem use_count_steps (env : Collab) (st : CompilerState) :
    (∀ ov h name info, ∃ l s1, Accept env ov (.variable h name info) st = .ok (l, s1) ∧
      s1.use_counts = countsAfterReference env st
        (FindVariable st (env.MakeVariableName st name (h.withModule ov).module) false)) ∧
    (∀ ov h name arguments info p symbol,
      FindVariable st (env.MakeVariableName st name (h.withModule ov).module) false =
        some (p, symbol) →
      ∃ info1 : CallInfo, info1.definition = symbol.node ∧
        Accept env ov (.function_call h name arguments info) st =
          (AcceptArgsRev env arguments >>= fun as =>
            pure (.function_call (h.withModule ov) name as info1))
            (st.counted (symbol.node.map (fun n => n.ptr)))) ∧
    (∀ ov h name arguments info,
      FindVariable st (env.MakeVariableName st name (h.withModule ov).module) false = none →
      Accept env ov (.function_call h name arguments info) st =
        .ok (.function_call (h.withModule ov) name arguments info,
          { st with errors := st.errors ++
            [⟨.error, .Msg_undeclared_identifier, h.location, [name]⟩] })) ∧
    (∀ ov n r, Accept env ov n st = .ok r → ∀ p, st.use_counts p ≤ r.2.use_counts p) ∧
    (∀ ast r, Analyze env ast st = .ok r → ∀ p, st.use_counts p ≤ r.2.use_counts p) :=
  ⟨fun ov h name info => acceptVariable_counts env (h.withModule ov) name info st,
   fun ov h name arguments info p symbol hres =>
     acceptCall_resolved env ov st h name arguments info p symbol hres,
   fun ov h name arguments info hres =>
     acceptCall_unresolved env ov st h name arguments info hres,
   fun ov n r hr => accept_obeys useCountsFrame env n ov st r.1 r.2 hr,
   fun ast r hr => obeys_Analyze useCountsFrame env ast st r.1 r.2 hr⟩

/-- The steps of the use counts in the state `let x = 5` leaves: the call
`g(x)` of an undeclared `g` returns with its argument unvisited and the count of the
declaration of `x` (node 1) still 0, and the reference `x` raises that count
to 1. -/
theorem use_count_steps_witness :
    (∃ s1, Accept plainEnv none (.function_call (hdrAt 3) "g"
        [some (.variable (hdrAt 4) "x" {})] {}) stateWithX =
        .ok (.function_call (hdrAt 3) "g" [some (.variable (hdrAt 4) "x" {})] {}, s1) ∧
      s1.use_counts (some 1) = 0) ∧
    (∃ l s1, Accept plainEnv none (.variable (hdrAt 4) "x" {}) stateWithX = .ok (l, s1) ∧
      s1.use_counts (some 1) = 1) := by
  obtain ⟨h1, -, h3, -, -⟩ := use_count_steps plainEnv stateWithX
  obtain ⟨l, s1, g1, g2⟩ := h1 none (hdrAt 4) "x" {}
  exact ⟨⟨_, h3 none (hdrAt 3) "g" [some (.variable (hdrAt 4) "x" {})] {} rfl, rfl⟩,
    ⟨l, s1, g1, by rw [g2]; rfl⟩⟩

/-! ## The semantic analyzer: `DecreaseBlock` -/

/-- The loop over the locals of a level appends the warnings owed for them and
changes nothing else. -/
theorem run_warnUnused_exact (ls : List (String × Symbol)) (st : CompilerState) :
    warnUnused ls st =
      .ok ((), { st with errors := st.errors ++ unusedWarnings st.use_counts ls }) := by
  induction ls generalizing st with
  | nil => simp [warnUnused, unusedWarnings]; rfl
  | cons x ls ih =>
    obtain ⟨name, symbol⟩ := x
    unfold warnUnused
    rw [run_bind (run_get st)]
    cases hn : symbol.node with
    | none =>
      simp only []
      rw [run_bind (run_pure () st), ih st]
      simp [unusedWarnings, hn]
    | some node =>
      simp only []
      by_cases hu : st.use_counts (some node.ptr) = 0
      · simp only [hu, if_true]
        rw [run_bind (run_WarningMessage _ _ _ st), ih]
        simp [unusedWarnings, hn, hu]
      · simp only [hu, if_false]
        rw [run_bind (run_pure () st), ih st]
        simp [unusedWarnings, hn, hu]

/-- The function `DecreaseBlock` returns: the warnings owed for the locals of
the current level appended, that level reset and the level lowered. -/
theorem run_DecreaseBlock_exact (st : CompilerState) :
    DecreaseBlock st = .ok ((),
      { st with
        errors := st.errors ++ unusedWarnings st.use_counts (st.levels st.level).locals
        levels := Function.update st.levels st.level ({} : LevelInfo)
        level := st.level - 1 }) := by
  unfold DecreaseBlock
  rw [run_bind (run_get st), run_bind (run_warnUnused_exact _ st)]
  rfl

/-- C26: `DecreaseBlock` returns from every state.  To the diagnostics it
appends exactly the warnings owed for the locals of the current level: one
`unused_identifier` warning, in insertion order, for each local whose node is
non-null and whose recorded use count is zero, and nothing for any other
local.  The current level is then the default `LevelInfo()`, which holds no
symbol, `state.level` is lower by exactly one, every other level is as it was,
and the use counts, the module registry and the counters are untouched. -/
theorem decreaseBlock_spec (st : CompilerState) :
    ∃ st1, DecreaseBlock st = .ok ((), st1) ∧
      st1.errors = st.errors ++ unusedWarnings st.use_counts (st.levels st.level).locals ∧
      (∀ w, w ∈ unusedWarnings st.use_counts (st.levels st.level).locals ↔
        ∃ e node, e ∈ (st.levels st.level).locals ∧ e.2.node = some node ∧
          st.use_counts (some node.ptr) = 0 ∧
          w = ⟨.warning, .Msg_unused_identifier, node.location, [e.2.original_name]⟩) ∧
      (unusedWarnings st.use_counts (st.levels st.level).locals).length =
        ((st.levels st.level).locals.filter (fun e =>
          match e.2.node with
          | some node => decide (st.use_counts (some node.ptr) = 0)
          | none => false)).length ∧
      st1.levels st.level = {} ∧ (st1.levels st.level).locals = [] ∧
      st1.level = st.level - 1 ∧
      (∀ l, l ≠ st.level → st1.levels l = st.levels l) ∧
      st1.use_counts = st.use_counts ∧ st1.other_modules = st.other_modules ∧
      st1.block_id_counter = st.block_id_counter ∧ st1.next_ptr = st.next_ptr := by
  refine ⟨{ st with
      errors := st.errors ++ unusedWarnings st.use_counts (st.levels st.level).locals
      levels := Function.update st.levels st.level ({} : LevelInfo)
      level := st.level - 1 }, ?_, rfl, ?_, ?_, ?_, ?_, rfl, ?_, rfl, rfl, rfl, rfl⟩
  · exact run_DecreaseBlock_exact st
  · intro w
    unfold unusedWarnings
    rw [List.mem_filterMap]
    constructor
    · rintro ⟨e, he, hw⟩
      cases hn : e.2.node with
      | none => rw [hn] at hw; cases hw
      | some node =>
        rw [hn] at hw
        by_cases hu : st.use_counts (some node.ptr) = 0
        · simp only [hu, if_true, Option.some.injEq] at hw
          exact ⟨e, node, he, hn, hu, hw.symm⟩
        · simp only [hu, if_false] at hw
          cases hw
    · rintro ⟨e, node, he, hn, hu, rfl⟩
      exact ⟨e, he, by simp only [hn, hu, if_true]⟩
  · unfold unusedWarnings
    induction (st.levels st.level).locals with
    | nil => rfl
    | cons e ls ih =>
      cases hn : e.2.node with
      | none => simp [List.filterMap_cons, List.filter_cons, hn] at ih ⊢; exact ih
      | some node =>
        by_cases hu : st.use_counts (some node.ptr) = 0
        · simp [List.filterMap_cons, List.filter_cons, hn, hu] at ih ⊢; exact ih
        · simp [List.filterMap_cons, List.filter_cons, hn, hu] at ih ⊢; exact ih
  · simp
  · simp
  · intro l hl
    exact Function.update_noteq hl _ _

/-! ## The semantic analyzer: the search of `Accept(AstReturnStmt*)` -/

/-- The search of `Accept(AstReturnStmt*)` from `start` with `start + 1`
iterations left, when no level from the global level to `start` is a function
level: it ends with `start` below the global level, having formed a pointer to
`levels[compiler_global_level - 1]`. -/
theorem returnSearch_no_function (st : CompilerState) :
    ∀ (n : Nat) (start : Int) (seen : List Int), start + 1 = (n : Int) →
      (∀ l, compiler_global_level ≤ l → l ≤ start → (st.levels l).type ≠ .Level_function) →
      (n = 0 → compiler_global_level - 1 ∈ seen) →
      (returnSearch st n start seen).2 = compiler_global_level - 1 ∧
        compiler_global_level - 1 ∈ (returnSearch st n start seen).1 := by
  intro n
  induction n with
  | zero =>
    intro start seen hs _ h0
    unfold returnSearch
    refine ⟨?_, h0 rfl⟩
    show start = compiler_global_level - 1
    unfold compiler_global_level
    simp at hs
    omega
  | succ n ih =>
    intro start seen hs hno _
    have hge : start ≥ compiler_global_level := by
      unfold compiler_global_level
      push_cast at hs
      omega
    unfold returnSearch
    rw [if_pos ⟨hge, hno start hge (le_refl _)⟩]
    apply ih
    · push_cast at hs
      omega
    · intro l h1 h2
      exact hno l h1 (by omega)
    · intro hn
      subst hn
      have : start - 1 = compiler_global_level - 1 := by
        unfold compiler_global_level
        simp at hs
        omega
      rw [this]
      simp

/-- Every index the search forms a pointer to, after those it started with,
is `start - 1` for a `start` it found at or above the global level. -/
theorem returnSearch_bounds (st : CompilerState) :
    ∀ (n : Nat) (start : Int) (seen : List Int) (top : Int), start ≤ top →
      (∀ i, i ∈ seen → compiler_global_level - 1 ≤ i ∧ i ≤ top) →
      ∀ i, i ∈ (returnSearch st n start seen).1 → compiler_global_level - 1 ≤ i ∧ i ≤ top := by
  intro n
  induction n with
  | zero => intro start seen top _ hs i hi; exact hs i hi
  | succ n ih =>
    intro start seen top ht hs i hi
    unfold returnSearch at hi
    by_cases hc : start ≥ compiler_global_level ∧ (st.levels start).type ≠ .Level_function
    · rw [if_pos hc] at hi
      refine ih (start - 1) _ top (by omega) ?_ i hi
      intro j hj
      rcases List.mem_append.mp hj with h1 | h1
      · exact hs j h1
      · rw [List.mem_singleton.mp h1]
        constructor <;> omega
    · rw [if_neg hc] at hi
      exact hs i hi

/-- When a level from the global level to `start` is a function level, the
search stops there: every index it forms a pointer to is at or above the
global level. -/
theorem returnSearch_within (st : CompilerState) :
    ∀ (n : Nat) (start : Int) (seen : List Int) (top : Int), start ≤ top →
      (∃ f, compiler_global_level ≤ f ∧ f ≤ start ∧ (st.levels f).type = .Level_function) →
      (∀ i, i ∈ seen → compiler_global_level ≤ i ∧ i ≤ top) →
      ∀ i, i ∈ (returnSearch st n start seen).1 → compiler_global_level ≤ i ∧ i ≤ top := by
  intro n
  induction n with
  | zero => intro start seen top _ _ hs i hi; exact hs i hi
  | succ n ih =>
    intro start seen top ht hf hs i hi
    unfold returnSearch at hi
    by_cases hc : start ≥ compiler_global_level ∧ (st.levels start).type ≠ .Level_function
    · rw [if_pos hc] at hi
      obtain ⟨f, f1, f2, f3⟩ := hf
      have hne : f ≠ start := by
        rintro rfl
        exact hc.2 f3
      refine ih (start - 1) _ top (by omega) ⟨f, f1, by omega, f3⟩ ?_ i hi
      intro j hj
      rcases List.mem_append.mp hj with h1 | h1
      · exact hs j h1
      · rw [List.mem_singleton.mp h1]
        constructor <;> omega
    · rw [if_neg hc] at hi
      exact hs i hi

/-- C29 fails.  For every scope stack in which no level from the global level
to the current level is a function level (a return outside any function), the
search of `Accept(AstReturnStmt*)` forms a pointer to
`levels[compiler_global_level - 1]`, one below the global level, and ends with
`start` equal to that index: `level = &state_ptr->levels[--start]` is
evaluated before `start >= compiler_global_level` is tested again.  No index
it uses is above the current level or more than one below the global level.
When some level from the global level to the current one is a function level
(a return inside a function), every index it uses lies between the global
level and the current level. -/
theorem return_search_leaves_levels (st : CompilerState)
    (hl : compiler_global_level ≤ st.level) :
    ((∀ l, compiler_global_level ≤ l → l ≤ st.level →
        (st.levels l).type ≠ .Level_function) →
      compiler_global_level - 1 ∈ (returnLevels st).1 ∧
      (returnLevels st).2 = compiler_global_level - 1 ∧
      ¬ (compiler_global_level ≤ compiler_global_level - 1)) ∧
    (∀ i, i ∈ (returnLevels st).1 → compiler_global_level - 1 ≤ i ∧ i ≤ st.level) ∧
    ((∃ f, compiler_global_level ≤ f ∧ f ≤ st.level ∧
        (st.levels f).type = .Level_function) →
      ∀ i, i ∈ (returnLevels st).1 → compiler_global_level ≤ i ∧ i ≤ st.level) := by
  refine ⟨fun hno => ?_, ?_, fun hf => ?_⟩
  · have h := returnSearch_no_function st (st.level - compiler_global_level + 1).toNat
      st.level [st.level] (by unfold compiler_global_level at hl ⊢; omega) hno
      (by unfold compiler_global_level at hl ⊢; intro h0; omega)
    exact ⟨h.2, h.1, by omega⟩
  · apply returnSearch_bounds st _ st.level [st.level] st.level (le_refl _)
    intro i hi
    rw [List.mem_singleton.mp hi]
    constructor <;> omega
  · apply returnSearch_within st _ st.level [st.level] st.level (le_refl _) hf
    intro i hi
    rw [List.mem_singleton.mp hi]
    exact ⟨hl, le_refl _⟩

/-- C29 fails on a return at the global level of a fresh analysis: the search
uses the indices 0 and -1 of `levels`.  Inside a function body entered from
the global level it uses the index 1 only. -/
theorem return_search_leaves_levels_witness :
    returnLevels globalState = ([0, -1], -1) ∧
      compiler_global_level - 1 ∈ (returnLevels globalState).1 ∧
      returnLevels functionLevelState = ([1], 1) ∧
      ∀ i, i ∈ (returnLevels functionLevelState).1 →
        compiler_global_level ≤ i ∧ i ≤ functionLevelState.level :=
  ⟨by decide, ((return_search_leaves_levels globalState (by decide)).1 (by
    intro l h1 h2
    have h0 : l = 0 := by
      have e1 : globalState.level = 0 := rfl
      unfold compiler_global_level at h1
      omega
    subst h0
    decide)).1, by decide,
   (return_search_leaves_levels functionLevelState (by decide)).2.2
     ⟨1, by decide, by decide, rfl⟩⟩

/-! ## The semantic analyzer: assignment to an undeclared variable -/

theorem run_bind_error {α β : Type} {m : Analyzer α} {f : α → Analyzer β} {st : CompilerState}
    {e : Fault} (h : m st = .error e) : (m >>= f) st = .error e := by
  simp only [bind, StateT.bind, h]
  rfl

/-- The visit of a variable that resolves to no symbol reports it and leaves
the node as it was. -/
theorem acceptVariable_unresolved (env : Collab) (vh : AstHdr) (name : String) (info : VarInfo)
    (st : CompilerState)
    (hf : FindVariable st (env.MakeVariableName st name vh.module) false = none) :
    AcceptVariable env vh name info st = .ok (.variable vh name info,
      { st with errors := st.errors ++
        [⟨.error, .Msg_undeclared_identifier, vh.location, [name]⟩] }) := by
  unfold AcceptVariable
  rw [run_bind (run_get st)]
  simp only [hf]
  rfl

/-- The case `BinOp_assign` on a left variable that is not const and whose
`symbol_ptr` is null does not return. -/
theorem assignUpdate_null (env : Collab) (vh : AstHdr) (name : String) (info : VarInfo)
    (right : Option AstNode) (st : CompilerState) (hp : info.symbol_ptr = none)
    (hc : info.is_const = false) :
    ∃ e, assignUpdate env (some (.variable vh name info)) right st = .error e := by
  unfold assignUpdate
  rw [run_bind (show derefNode (some (AstNode.variable vh name info)) st = .ok (_, st) from rfl)]
  simp only [hc, Bool.not_false, if_true]
  cases right with
  | none => exact ⟨.nullDeref, rfl⟩
  | some r =>
    rw [run_bind (show derefNode (some r) st = .ok (r, st) from rfl)]
    cases hls : literalSide env r st with
    | error e => exact ⟨e, run_bind_error hls⟩
    | ok v =>
      obtain ⟨rs, s1⟩ := v
      rw [run_bind hls, hp]
      exact ⟨.nullDeref, rfl⟩

/-- C27 fails.  An assignment `name = right` whose left side is a variable as
parsed (not const, `symbol_ptr` null) that resolves to no symbol: the visit of
the variable records `undeclared_identifier`, and the visit of the assignment
then does not return.  When the visit of the right side returns, the case
`BinOp_assign` reaches `casted->symbol_ptr->current_value = right.get()` with
`symbol_ptr` null. -/
theorem assign_to_undeclared_faults (env : Collab) (ov : Option ModuleRef)
    (st : CompilerState) (h vh : AstHdr) (name : String) (info : VarInfo)
    (right : Option AstNode) (hp : info.symbol_ptr = none) (hc : info.is_const = false)
    (hf : FindVariable st (env.MakeVariableName st name vh.module) false = none) :
    AcceptPtr env (some (.variable vh name info)) st = .ok (some (.variable vh name info),
      { st with errors := st.errors ++
        [⟨.error, .Msg_undeclared_identifier, vh.location, [name]⟩] }) ∧
    ∃ e, Accept env ov (.binop h .BinOp_assign (some (.variable vh name info)) right) st =
      .error e := by
  have hv : AcceptPtr env (some (.variable vh name info)) st =
      .ok (some (.variable vh name info),
        { st with errors := st.errors ++
          [⟨.error, .Msg_undeclared_identifier, vh.location, [name]⟩] }) := by
    show (AcceptVariable env vh name info >>= fun n1 => pure (some n1)) st = _
    rw [run_bind (acceptVariable_unresolved env vh name info st hf)]
    rfl
  refine ⟨hv, ?_⟩
  show ∃ e, AcceptBinaryOp env (h.withModule ov) .BinOp_assign
    (AcceptPtr env (some (.variable vh name info))) (AcceptPtr env right) st = .error e
  unfold AcceptBinaryOp
  rw [run_bind hv]
  cases hr : AcceptPtr env right { st with errors := st.errors ++
      [⟨.error, .Msg_undeclared_identifier, vh.location, [name]⟩] } with
  | error e => exact ⟨e, run_bind_error hr⟩
  | ok v =>
    obtain ⟨r1, s2⟩ := v
    rw [run_bind hr]
    obtain ⟨e, he⟩ := assignUpdate_null env vh name info r1 s2 hp hc
    refine ⟨e, run_bind_error ?_⟩
    unfold binopChecks
    exact run_bind_error he

/-- C27 fails on `y = 1` with `y` undeclared: the visit dereferences the null
`symbol_ptr`, and so does the visit of the block `{ y = 1; let z = 2 }`, whose
second statement is never analysed. -/
theorem assign_to_undeclared_faults_witness :
    (∃ e, Accept plainEnv none assignUndeclared globalState = .error e) ∧
      Accept plainEnv none assignUndeclared globalState = .error .nullDeref ∧
      Accept plainEnv none assignUndeclaredThenLet globalState = .error .nullDeref :=
  ⟨(assign_to_undeclared_faults plainEnv none globalState (hdrAt 1) (hdrAt 2) "y" {}
    (some (.integer (hdrAt 3) 1)) rfl rfl rfl).2, rfl, rfl⟩

/-! ## The semantic analyzer: imports -/

theorem run_registerModule_new (key : String) (unit : ModuleRef) (st : CompilerState)
    (hp : st.other_modules.any (fun e => e.1 == key) = false) :
    registerModule key unit st =
      .ok ((), { st with other_modules := st.other_modules ++ [(key, unit)] }) := by
  unfold registerModule
  rw [run_modify]
  simp only [hp, Bool.false_eq_true, if_false]

/-- The visitor `Accept(AstImport*)` after the test of the level, in a state
`st`: an import whose path is registered does nothing. -/
theorem acceptImport_registered (h : AstHdr) (relative_path import_str : String)
    (is_open : Bool) (unit : ModuleRef) (parse_errors : List Diagnostic)
    (unit_children : List (Option AstNode)) (visitUnit : Analyzer (List (Option AstNode)))
    (st : CompilerState) (hl : st.level = compiler_global_level)
    (hp : st.other_modules.any (fun e => e.1 == relative_path ++ import_str) = true) :
    AcceptImport h relative_path import_str is_open unit parse_errors unit_children visitUnit
      st = .ok (.import_ h relative_path import_str is_open unit parse_errors unit_children,
        st) := by
  unfold AcceptImport
  rw [run_bind (run_get st)]
  rw [if_neg (not_not.mpr hl), run_bind (run_pure () st), run_bind (run_get st)]
  simp only [hp, if_true]
  rfl

theorem acceptImport_not_found (h : AstHdr) (relative_path import_str : String)
    (unit : ModuleRef) (parse_errors : List Diagnostic)
    (unit_children : List (Option AstNode)) (visitUnit : Analyzer (List (Option AstNode)))
    (st : CompilerState) (hl : st.level = compiler_global_level)
    (hp : st.other_modules.any (fun e => e.1 == relative_path ++ import_str) = false) :
    AcceptImport h relative_path import_str false unit parse_errors unit_children visitUnit
      st = .ok (.import_ h relative_path import_str false unit parse_errors unit_children,
        { st with errors := st.errors ++ [⟨.error, .Msg_import_not_found, h.location,
          [import_str, relative_path ++ import_str]⟩] }) := by
  unfold AcceptImport
  rw [run_bind (run_get st)]
  rw [if_neg (not_not.mpr hl), run_bind (run_pure () st), run_bind (run_get st)]
  simp only [hp, Bool.false_eq_true, if_false, Bool.not_false, if_true]
  rfl

theorem acceptImport_name_taken (h : AstHdr) (relative_path import_str : String)
    (unit : ModuleRef) (parse_errors : List Diagnostic)
    (unit_children : List (Option AstNode)) (visitUnit : Analyzer (List (Option AstNode)))
    (st : CompilerState) (hl : st.level = compiler_global_level)
    (hp : st.other_modules.any (fun e => e.1 == relative_path ++ import_str) = false)
    (hn : st.other_modules.any (fun e => e.2.name == unit.name) = true) :
    AcceptImport h relative_path import_str true unit parse_errors unit_children visitUnit
      st = .ok (.import_ h relative_path import_str true unit parse_errors unit_children,
        { st with errors := st.errors ++ [⟨.error, .Msg_module_already_defined, h.location,
          [unit.name]⟩] }) := by
  unfold AcceptImport
  rw [run_bind (run_get st)]
  rw [if_neg (not_not.mpr hl), run_bind (run_pure () st), run_bind (run_get st)]
  simp only [hp, hn, Bool.false_eq_true, if_false, Bool.not_true, if_true]
  rfl

/-- An import of a new path whose file opens and whose module name is new:
what precedes the visit of the children.  `pre` is what the test of the level
reported. -/
theorem acceptImport_fresh (h : AstHdr) (relative_path import_str : String)
    (unit : ModuleRef) (parse_errors : List Diagnostic)
    (unit_children : List (Option AstNode)) (visitUnit : Analyzer (List (Option AstNode)))
    (st : CompilerState)
    (hp : st.other_modules.any (fun e => e.1 == relative_path ++ import_str) = false)
    (hn : st.other_modules.any (fun e => e.2.name == unit.name) = false) :
    AcceptImport h relative_path import_str true unit parse_errors unit_children visitUnit
      st = (visitUnit >>= fun cs =>
        pure (.import_ h relative_path import_str true unit parse_errors cs))
        { st with
          other_modules := st.other_modules ++ [(relative_path ++ import_str, unit)]
          errors := (st.errors ++ if st.level ≠ compiler_global_level then
            [⟨.error, .Msg_import_outside_global, h.location, []⟩] else []) ++
              parse_errors } := by
  unfold AcceptImport
  rw [run_bind (run_get st)]
  by_cases hl : st.level = compiler_global_level
  · rw [if_neg (not_not.mpr hl), if_neg (not_not.mpr hl), run_bind (run_pure () st),
      run_bind (run_get st)]
    simp only [hp, hn, Bool.false_eq_true, if_false, Bool.not_true]
    rw [run_bind (run_registerModule_new _ unit st hp), run_bind (run_modify _ _)]
    simp only [List.append_nil]
  · rw [if_pos hl, if_pos hl, run_bind (run_ErrorMsg _ _ _ st), run_bind (run_get _)]
    simp only [hp, hn, Bool.false_eq_true, if_false, Bool.not_true]
    rw [run_bind (run_registerModule_new _ unit { st with errors := st.errors ++
      [⟨.error, .Msg_import_outside_global, h.location, []⟩] } hp), run_bind (run_modify _ _)]

/-- C21 as stated fails: `lib/missing` is a new path and no registered module
has the name of the module it would give, yet the import, visited at the
global level, inserts nothing.  The file does not open; the visit reports
`import_not_found` and returns. -/
theorem import_of_missing_file :
    globalState.level = compiler_global_level ∧ globalState.other_modules = [] ∧
      globalState.other_modules.any (fun e => e.1 == "lib/missing") = false ∧
      Accept plainEnv none importMissing globalState = .ok (importMissing,
        { globalState with errors := [⟨.error, .Msg_import_not_found, ⟨40, 0, "main"⟩,
          ["missing", "lib/missing"]⟩] }) ∧
      ∀ r, Accept plainEnv none importMissing globalState = .ok r → r.2.other_modules = [] := by
  refine ⟨rfl, rfl, rfl, rfl, ?_⟩
  intro r hr
  have h1 : Accept plainEnv none importMissing globalState = .ok (importMissing,
      { globalState with errors := [⟨.error, .Msg_import_not_found, ⟨40, 0, "main"⟩,
        ["missing", "lib/missing"]⟩] }) := rfl
  rw [h1] at hr
  cases hr
  rfl

/-- C21, amended: an import visited at the global level, with `path` the
concatenation of its relative path and its import string.  If `path` is
registered, the visit returns with the state as it was: registry, symbol table
and diagnostics unchanged.  If `path` is new and the file does not open,
exactly one `import_not_found` error is appended and nothing else changes: no
module is inserted and nothing is analysed.  If `path` is new, the file opens
and a registered module has the declared name of the parsed module, exactly
one `module_already_defined` error naming it is appended and nothing else
changes.  Otherwise the parsed module is appended to the registry under
`path`, which the registry then holds exactly once, the parser's errors are
appended to the diagnostics, and the visit is the visit of the parsed module's
top-level children in that state. -/
theorem import_at_global_level (env : Collab) (ov : Option ModuleRef) (st : CompilerState)
    (h : AstHdr) (relative_path import_str : String) (is_open : Bool) (unit : ModuleRef)
    (parse_errors : List Diagnostic) (unit_children : List (Option AstNode))
    (hl : st.level = compiler_global_level) :
    (st.other_modules.any (fun e => e.1 == relative_path ++ import_str) = true →
      Accept env ov
          (.import_ h relative_path import_str is_open unit parse_errors unit_children) st =
        .ok (.import_ (h.withModule ov) relative_path import_str is_open unit parse_errors
          unit_children, st)) ∧
    (st.other_modules.any (fun e => e.1 == relative_path ++ import_str) = false →
      is_open = false →
      Accept env ov
          (.import_ h relative_path import_str is_open unit parse_errors unit_children) st =
        .ok (.import_ (h.withModule ov) relative_path import_str is_open unit parse_errors
          unit_children,
          { st with errors := st.errors ++ [⟨.error, .Msg_import_not_found, h.location,
            [import_str, relative_path ++ import_str]⟩] })) ∧
    (st.other_modules.any (fun e => e.1 == relative_path ++ import_str) = false →
      is_open = true → st.other_modules.any (fun e => e.2.name == unit.name) = true →
      Accept env ov
          (.import_ h relative_path import_str is_open unit parse_errors unit_children) st =
        .ok (.import_ (h.withModule ov) relative_path import_str is_open unit parse_errors
          unit_children,
          { st with errors := st.errors ++ [⟨.error, .Msg_module_already_defined, h.location,
            [unit.name]⟩] })) ∧
    (st.other_modules.any (fun e => e.1 == relative_path ++ import_str) = false →
      is_open = true → st.other_modules.any (fun e => e.2.name == unit.name) = false →
      Accept env ov
          (.import_ h relative_path import_str is_open unit parse_errors unit_children) st =
        (AcceptChildren env unit_children >>= fun cs =>
          pure (.import_ (h.withModule ov) relative_path import_str is_open unit parse_errors
            cs))
          { st with
            other_modules := st.other_modules ++ [(relative_path ++ import_str, unit)]
            errors := st.errors ++ parse_errors } ∧
      (st.other_modules ++ [(relative_path ++ import_str, unit)]).filter
        (fun e => e.1 == relative_path ++ import_str) =
          [(relative_path ++ import_str, unit)]) := by
  refine ⟨fun hp => ?_, fun hp ho => ?_, fun hp ho hn => ?_, fun hp ho hn => ⟨?_, ?_⟩⟩
  · exact acceptImport_registered _ _ _ _ _ _ _ _ st hl hp
  · subst ho
    rw [← withModule_location h ov]
    exact acceptImport_not_found _ _ _ _ _ _ _ st hl hp
  · subst ho
    rw [← withModule_location h ov]
    exact acceptImport_name_taken _ _ _ _ _ _ _ st hl hp hn
  · subst ho
    have := acceptImport_fresh (h.withModule ov) relative_path import_str unit parse_errors
      unit_children (AcceptChildren env unit_children) st hp hn
    rw [if_neg (not_not.mpr hl), List.append_nil] at this
    exact this
  · rw [List.filter_append]
    have h0 : st.other_modules.filter (fun e => e.1 == relative_path ++ import_str) = [] := by
      rw [List.filter_eq_nil_iff]
      intro e he hc
      have : st.other_modules.any (fun e => e.1 == relative_path ++ import_str) = true :=
        List.any_eq_true.mpr ⟨e, he, hc⟩
      rw [hp] at this
      cases this
    rw [h0]
    simp

/-- C21, amended, on four imports at the global level of a fresh analysis:
`lib/m` when it is registered, `lib/missing`, `other/m` when `lib/m` is
registered, and `lib/m` when nothing is. -/
theorem import_at_global_level_witness :
    Accept plainEnv none importM stateWithM = .ok (importM, stateWithM) ∧
    Accept plainEnv none importMissing globalState = .ok (importMissing,
      { globalState with errors := [⟨.error, .Msg_import_not_found, ⟨40, 0, "main"⟩,
        ["missing", "lib/missing"]⟩] }) ∧
    Accept plainEnv none importOtherM stateWithM = .ok (importOtherM,
      { stateWithM with errors := [⟨.error, .Msg_module_already_defined, ⟨30, 0, "main"⟩,
        ["m"]⟩] }) ∧
    (∃ r, Accept plainEnv none importM globalState = .ok r ∧
      r.2.other_modules = [("lib/m", ⟨500, "m"⟩)] ∧ (r.2.levels 0).names = ["w"]) :=
  ⟨(import_at_global_level plainEnv none stateWithM (hdrAt 20) "lib/" "m" true ⟨500, "m"⟩ []
      [some (.var_declaration (hdrAt 21) "w" false (some (.integer (hdrAt 22) 1)))] rfl).1
      (by decide),
   (import_at_global_level plainEnv none globalState (hdrAt 40) "lib/" "missing" false
      ⟨0, ""⟩ [] [] rfl).2.1 (by decide) rfl,
   (import_at_global_level plainEnv none stateWithM (hdrAt 30) "other/" "m" true ⟨501, "m"⟩ []
      [some (.var_declaration (hdrAt 31) "v" false (some (.integer (hdrAt 32) 1)))] rfl).2.2.1
      (by decide) rfl (by decide),
   ⟨_, ((import_at_global_level plainEnv none globalState (hdrAt 20) "lib/" "m" true
      ⟨500, "m"⟩ []
      [some (.var_declaration (hdrAt 21) "w" false (some (.integer (hdrAt 22) 1)))] rfl).2.2.2
      (by decide) rfl (by decide)).1.trans rfl, rfl, rfl⟩⟩

/-- C22 fails.  An import visited while the current level is not the global
level, of a new path whose file opens and whose module name no registered
module has: `import_outside_global` is reported, and the import is carried out
all the same.  The parsed module is appended to the registry under its path,
the parser's errors are appended, and the visit is the visit of the module's
top-level children, in the current level.  Nothing returns after the error is
reported. -/
theorem import_outside_global_proceeds (env : Collab) (ov : Option ModuleRef)
    (st : CompilerState) (h : AstHdr) (relative_path import_str : String) (unit : ModuleRef)
    (parse_errors : List Diagnostic) (unit_children : List (Option AstNode))
    (hl : st.level ≠ compiler_global_level)
    (hp : st.other_modules.any (fun e => e.1 == relative_path ++ import_str) = false)
    (hn : st.other_modules.any (fun e => e.2.name == unit.name) = false) :
    Accept env ov (.import_ h relative_path import_str true unit parse_errors unit_children)
        st =
      (AcceptChildren env unit_children >>= fun cs =>
        pure (.import_ (h.withModule ov) relative_path import_str true unit parse_errors cs))
        { st with
          other_modules := st.other_modules ++ [(relative_path ++ import_str, unit)]
          errors := (st.errors ++ [⟨.error, .Msg_import_outside_global, h.location, []⟩]) ++
            parse_errors } := by
  have := acceptImport_fresh (h.withModule ov) relative_path import_str unit parse_errors
    unit_children (AcceptChildren env unit_children) st hp hn
  rw [if_pos hl, withModule_location] at this
  exact this

/-- C22 fails on the import of `lib/m` inside a function body: the visit
returns with `import_outside_global` reported, the module registered under
`lib/m`, and the symbol `w` of the module's `let w = 1` declared in the
function level. -/
theorem import_outside_global_proceeds_witness :
    ∃ r, Accept plainEnv none importM functionLevelState = .ok r ∧
      r.2.errors = [⟨.error, .Msg_import_outside_global, ⟨20, 0, "main"⟩, []⟩] ∧
      functionLevelState.other_modules = [] ∧
      r.2.other_modules = [("lib/m", ⟨500, "m"⟩)] ∧
      (functionLevelState.levels 1).names = [] ∧ (r.2.levels 1).names = ["w"] :=
  ⟨_, (import_outside_global_proceeds plainEnv none functionLevelState (hdrAt 20) "lib/" "m"
    ⟨500, "m"⟩ []
    [some (.var_declaration (hdrAt 21) "w" false (some (.integer (hdrAt 22) 1)))]
    (by decide) (by decide) (by decide)).trans rfl, rfl, rfl, rfl, rfl, rfl⟩

/-! ## The semantic analyzer: the parameters of a function -/

/-- The parameter loop returns: the current level holds, after its locals,
one symbol for each parameter in order, each with the node the loop was given
and the parameter as its original name; nothing else changes. -/
theorem run_declareParams_exact (env : Collab) (module : Option ModuleRef)
    (node : Option NodeRef) (params : List String) (st : CompilerState) :
    ∃ (added : List (String × Symbol)) (st1 : CompilerState),
      declareParams env module node params st = .ok ((), st1) ∧
      (st1.levels st.level).locals = (st.levels st.level).locals ++ added ∧
      (st1.levels st.level).type = (st.levels st.level).type ∧
      added.map (fun e => e.2.original_name) = params ∧
      (∀ e, e ∈ added → e.2.node = node) ∧
      st1.errors = st.errors ∧ st1.level = st.level ∧ st1.use_counts = st.use_counts ∧
      st1.next_ptr = st.next_ptr ∧ st1.other_modules = st.other_modules ∧
      ∀ l, l ≠ st.level → st1.levels l = st.levels l := by
  induction params generalizing st with
  | nil =>
    exact ⟨[], st, rfl, (by simp), rfl, rfl, (fun e he => by cases he), rfl, rfl, rfl, rfl, rfl,
      fun _ _ => rfl⟩
  | cons p ps ih =>
    unfold declareParams
    rw [run_bind (run_get st), run_bind (run_pushLocal _ _ st)]
    obtain ⟨added, st1, h1, h2, h2t, h3, h4, h5, h6, h7, h8, h9, h10⟩ := ih
      (st.pushed (env.MakeVariableName st p module)
        { node := node, original_name := p, owner_level := st.level,
          field_index := st.localsSize })
    refine ⟨(env.MakeVariableName st p module,
      { node := node, original_name := p, owner_level := st.level,
        field_index := st.localsSize }) :: added, st1, h1, ?_, ?_, ?_, ?_, h5, h6, h7, h8, h9,
      ?_⟩
    · have := h2
      simp only [CompilerState.pushed, Function.update_same] at this
      rw [this]
      simp
    · have := h2t
      simp only [CompilerState.pushed, Function.update_same] at this
      exact this
    · simp only [List.map_cons, h3]
    · intro e he
      rcases List.mem_cons.mp he with rfl | he1
      · rfl
      · exact h4 e he1
    · intro l hl
      rw [h10 l hl]
      exact Function.update_noteq hl _ _

/-- C23 fails for function expressions.  A function expression with an empty
body and parameters `p :: ps`, visited when no use of the expression is
recorded: the visit returns having reported `unused_identifier` for the
parameter `p`, at the location of the expression.  The parameter loop of
`Accept(AstFunctionExpression*)` stores the expression itself as the node of
each parameter symbol (`symbol.node = node`), where that of
`Accept(AstFunctionDefinition*)` stores null. -/
theorem function_expression_parameter_warned (env : Collab) (ov : Option ModuleRef)
    (st : CompilerState) (h bh : AstHdr) (p : String) (ps : List String)
    (hu : st.use_counts (some h.ptr) = 0) :
    ∃ r, Accept env ov (.function_expression h (p :: ps) (some (.block bh []))) st = .ok r ∧
      (⟨.warning, .Msg_unused_identifier, h.location, [p]⟩ : Diagnostic) ∈ r.2.errors := by
  have h1 : ensureReturn true "unnamed" (h.withModule ov).module bh [] st = .ok
      ([some (.return_ ⟨st.next_ptr + 1, bh.location, (h.withModule ov).module, []⟩
        (some (.null ⟨st.next_ptr, bh.location, (h.withModule ov).module, []⟩)))],
       { st with
         errors := st.errors ++ [⟨.info, .Msg_empty_function_body, bh.location, ["unnamed"]⟩]
         next_ptr := st.next_ptr + 1 + 1 }) := rfl
  obtain ⟨added, s3, h3, hloc, -, hnames, hnodes, -, hlev, huse, -, -, -⟩ :=
    run_declareParams_exact env (h.withModule ov).module
    (some ⟨(h.withModule ov).ptr, .Ast_type_function_expression, (h.withModule ov).location,
      (h.withModule ov).attributes⟩) (p :: ps)
    { st with
      errors := st.errors ++ [⟨.info, .Msg_empty_function_body, bh.location, ["unnamed"]⟩]
      next_ptr := st.next_ptr + 1 + 1
      level := st.level + 1
      levels := Function.update st.levels (st.level + 1) ⟨.Level_function, []⟩ }
  obtain ⟨s4, h5, e5⟩ : ∃ s4, DecreaseBlock s3 = .ok ((), s4) ∧
      s4.errors = s3.errors ++ unusedWarnings s3.use_counts (s3.levels s3.level).locals :=
    ⟨_, run_DecreaseBlock_exact s3, rfl⟩
  refine ⟨(.function_expression (h.withModule ov) (p :: ps) (some (.block bh
    [some (.return_ ⟨st.next_ptr + 1, bh.location, (h.withModule ov).module, []⟩
      (some (.null ⟨st.next_ptr, bh.location, (h.withModule ov).module, []⟩)))])), s4), ?_, ?_⟩
  · show AcceptFunctionExpression env (h.withModule ov) (p :: ps) (some (.block bh []))
      (AcceptBody env (some (.block bh []))) st = _
    unfold AcceptFunctionExpression
    simp only []
    rw [run_bind h1, run_bind (run_IncreaseBlock _ _), run_bind h3]
    have h4 : AcceptBody env (some (.block bh [])) s3 = .ok ([], s3) := rfl
    rw [run_bind h4, run_bind h5]
    rfl
  · show _ ∈ s4.errors
    rw [e5]
    apply List.mem_append_right
    cases added with
    | nil => cases hnames
    | cons e rest =>
      simp only [List.map_cons, List.cons.injEq] at hnames
      have hn := hnodes e (List.mem_cons_self _ _)
      unfold unusedWarnings
      rw [List.mem_filterMap]
      refine ⟨e, ?_, ?_⟩
      · rw [hlev]
        simp only [] at hloc
        rw [hloc]
        exact List.mem_append_right _ (List.mem_cons_self _ _)
      · rw [hn, huse]
        simp only [withModule_ptr, withModule_location, hu, if_true, hnames.1]

/-- C23 fails on `func (a) { }`: the visit warns that the parameter `a` is
unused; the parameter symbol it declared holds the expression as its node.
On `func f(a) { }` the parameter symbol holds a null node and nothing is
reported for it. -/
theorem function_expression_parameter_warned_witness :
    (∃ r, Accept plainEnv none unusedParameterExpression globalState = .ok r ∧
      (⟨.warning, .Msg_unused_identifier, ⟨1, 0, "main"⟩, ["a"]⟩ : Diagnostic) ∈ r.2.errors) ∧
    (∃ r, Accept plainEnv none unusedParameterExpression globalState = .ok r ∧
      r.2.errors = [⟨.info, .Msg_empty_function_body, ⟨2, 0, "main"⟩, ["unnamed"]⟩,
        ⟨.warning, .Msg_unused_identifier, ⟨1, 0, "main"⟩, ["a"]⟩]) ∧
    (∃ s, (IncreaseBlock .Level_function >>= fun _ =>
        declareParams plainEnv none (some ⟨1, .Ast_type_function_expression, ⟨1, 0, "main"⟩, []⟩)
          ["a"]) globalState = .ok ((), s) ∧
      (s.levels 1).locals.map (fun e => (e.1, e.2.node.isSome)) = [("a", true)]) ∧
    (∃ r, Accept plainEnv none unusedParameterDefinition globalState = .ok r ∧
      r.2.errors = [⟨.info, .Msg_empty_function_body, ⟨2, 0, "main"⟩, ["f"]⟩]) :=
  ⟨function_expression_parameter_warned plainEnv none globalState (hdrAt 1) (hdrAt 2) "a" []
    rfl, ⟨_, rfl, rfl⟩, ⟨_, rfl, rfl⟩, ⟨_, rfl, rfl⟩⟩

/-! ## The semantic analyzer: the synthetic return -/

theorem endsInReturn_append_single (l : List (Option AstNode)) (c : Option AstNode) :
    endsInReturn (l ++ [c]) = if isNoop c = true then endsInReturn l else isReturn c := by
  unfold endsInReturn
  simp only [List.reverse_append, List.reverse_cons, List.reverse_nil, List.nil_append,
    List.singleton_append, List.dropWhile_cons]
  cases isNoop c <;> simp

theorem isReturn_of_not_type {n : AstNode} (h : n.type ≠ .Ast_type_return) :
    isReturn (some n) = false := by
  unfold isReturn typeOf
  simp [h]

theorem isNoop_of_not_type {n : AstNode} (h : n.type ≠ .Ast_type_statement) :
    isNoop (some n) = false := by
  unfold isNoop typeOf
  simp [h]

/-- When the backward scan from index `idx` answers no and the child at `idx`
is not a return, the children up to `idx` do not end in a return followed by
no-op statements only. -/
theorem scanReturn_false (children : List (Option AstNode)) (idx : Nat) (st st1 : CompilerState)
    (h : scanReturn children idx st = .ok (false, st1))
    (hlast : ∀ c, children.get? idx = some c → isReturn c = false) :
    endsInReturn (children.take (idx + 1)) = false := by
  induction idx generalizing st with
  | zero =>
    cases children with
    | nil => rfl
    | cons c rest =>
      have : (c :: rest).take 1 = [] ++ [c] := by simp
      rw [this, endsInReturn_append_single]
      split
      · rfl
      · exact hlast c rfl
  | succ idx ih =>
    unfold scanReturn at h
    obtain ⟨cur, s1, h1, h2⟩ := bind_ok h
    obtain ⟨hcur, rfl⟩ := derefNode_ok h1
    have hc : children[idx + 1]? = some (some cur) := by
      cases hg : children[idx + 1]? with
      | none => simp [List.get?_eq_getElem?, hg] at hcur
      | some x => simp [List.get?_eq_getElem?, hg] at hcur; rw [hcur]
    have htake : children.take (idx + 1 + 1) = children.take (idx + 1) ++ [some cur] := by
      rw [List.take_succ, hc]; rfl
    have hcr : isReturn (some cur) = false :=
      hlast (some cur) (by rw [List.get?_eq_getElem?]; exact hc)
    rw [htake, endsInReturn_append_single]
    by_cases hcs : cur.type = .Ast_type_statement
    · rw [if_pos (isNoop_of_type hcs)]
      simp only [hcs, if_true] at h2
      obtain ⟨prev, s2, h3, h4⟩ := bind_ok h2
      obtain ⟨hprev, rfl⟩ := derefNode_ok h3
      have hp : children[idx]? = some (some prev) := by
        cases hg : children[idx]? with
        | none => simp [List.get?_eq_getElem?, hg] at hprev
        | some x => simp [List.get?_eq_getElem?, hg] at hprev; rw [hprev]
      by_cases hpr : prev.type = .Ast_type_return
      · simp only [hpr, if_true] at h4
        cases h4
      · simp only [hpr, if_false] at h4
        by_cases hps : prev.type = .Ast_type_statement
        · simp only [hps, ne_eq, not_true_eq_false, if_false] at h4
          apply ih _ h4
          intro c hcc
          rw [List.get?_eq_getElem?, hp] at hcc
          cases hcc
          exact isReturn_of_not_type hpr
        · have htake2 : children.take (idx + 1) = children.take idx ++ [some prev] := by
            rw [List.take_succ, hp]; rfl
          rw [htake2, endsInReturn_append_single, if_neg (by rw [isNoop_of_not_type hps]; simp)]
          exact isReturn_of_not_type hpr
    · rw [if_neg (by rw [isNoop_of_not_type hcs]; simp)]
      exact hcr

theorem hasReturnDefinition_false (children : List (Option AstNode)) (st st1 : CompilerState)
    (h : hasReturnDefinition children st = .ok (false, st1)) :
    endsInReturn children = false := by
  unfold hasReturnDefinition at h
  rw [← take_length_pred children]
  cases hlast : (children.get? (children.length - 1)).join with
  | none =>
    rw [hlast] at h
    apply scanReturn_false _ _ _ _ h
    intro c hc
    rw [hc] at hlast
    simp at hlast
    rw [hlast]
    rfl
  | some last =>
    rw [hlast] at h
    by_cases hr : last.type = .Ast_type_return
    · simp only [hr, if_true] at h
      cases h
    · simp only [hr, if_false] at h
      apply scanReturn_false _ _ _ _ h
      intro c hc
      rw [hc] at hlast
      simp at hlast
      rw [hlast]
      exact isReturn_of_not_type hr

theorem hasReturnExpression_false (children : List (Option AstNode)) (st st1 : CompilerState)
    (h : hasReturnExpression children st = .ok (false, st1)) :
    endsInReturn children = false := by
  unfold hasReturnExpression at h
  obtain ⟨last, s1, h1, h2⟩ := bind_ok h
  obtain ⟨hlast, rfl⟩ := derefNode_ok h1
  rw [← take_length_pred children]
  by_cases hr : last.type = .Ast_type_return
  · simp only [hr, if_true] at h2
    cases h2
  · simp only [hr, if_false] at h2
    apply scanReturn_false _ _ _ _ h2
    intro c hc
    rw [hc] at hlast
    simp at hlast
    rw [hlast]
    exact isReturn_of_not_type hr

/-- The node `makeReturnNull` builds is a return of a null literal, both at
the location given. -/
theorem makeReturnNull_shape (location : SourceLocation) (module : Option ModuleRef)
    (ret : AstNode) (st st1 : CompilerState)
    (h : makeReturnNull location module st = .ok (ret, st1)) :
    isReturnNull location ret = true := by
  have h1 : makeReturnNull location module st = .ok
      (.return_ ⟨st.next_ptr + 1, location, module, []⟩
        (some (.null ⟨st.next_ptr, location, module, []⟩)),
       { st with next_ptr := st.next_ptr + 1 + 1 }) := rfl
  rw [h1] at h
  cases h
  simp [isReturnNull]

/-- The validation of a body appends exactly one return of null when the body
does not end in a return followed by no-op statements only (an empty body
included), and leaves the body as it is when it does. -/
theorem ensureReturn_exact (expr : Bool) (name : String) (module : Option ModuleRef)
    (body : AstHdr) (children ext : List (Option AstNode)) (st st1 : CompilerState)
    (h : ensureReturn expr name module body children st = .ok (ext, st1)) :
    (endsInReturn children = true ∧ ext = children) ∨
      (endsInReturn children = false ∧ ∃ ret, ext = children ++ [some ret] ∧
        isReturnNull (if children.isEmpty then body.location else lastLocation children body)
          ret = true) := by
  unfold ensureReturn at h
  by_cases he : children.isEmpty = true
  · simp only [he, if_true] at h ⊢
    obtain ⟨u, s1, -, h2⟩ := bind_ok h
    obtain ⟨ret, s2, h3, h4⟩ := bind_ok h2
    cases h4
    have : children = [] := List.isEmpty_iff.mp he
    subst this
    exact Or.inr ⟨rfl, ret, rfl, makeReturnNull_shape _ _ _ _ _ h3⟩
  · simp only [he, Bool.false_eq_true, if_false] at h ⊢
    obtain ⟨has_return, s1, h1, h2⟩ := bind_ok h
    cases has_return with
    | true =>
      simp only [Bool.not_true, Bool.false_eq_true, if_false] at h2
      cases h2
      left
      refine ⟨?_, rfl⟩
      cases expr with
      | true => exact hasReturnExpression_true _ _ _ h1
      | false => exact hasReturnDefinition_true _ _ _ h1
    | false =>
      simp only [Bool.not_false, if_true] at h2
      obtain ⟨ret, s2, h3, h4⟩ := bind_ok h2
      cases h4
      right
      refine ⟨?_, ret, rfl, makeReturnNull_shape _ _ _ _ _ h3⟩
      cases expr with
      | true => exact hasReturnExpression_false _ _ _ h1
      | false => exact hasReturnDefinition_false _ _ _ h1

/-- The body a visit leaves, from what the validation did and the visited
children `cs`. -/
theorem body_exact (children ext cs : List (Option AstNode)) (location : SourceLocation)
    (hext : (endsInReturn children = true ∧ ext = children) ∨
      (endsInReturn children = false ∧ ∃ ret, ext = children ++ [some ret] ∧
        isReturnNull location ret = true)) :
    (endsInReturn children = true ∧ cs ++ ext.drop children.length = cs) ∨
      (endsInReturn children = false ∧ ∃ ret,
        cs ++ ext.drop children.length = cs ++ [some ret] ∧
          isReturnNull location ret = true) := by
  rcases hext with ⟨he, rfl⟩ | ⟨he, ret, rfl, hr⟩
  · exact Or.inl ⟨he, by rw [List.drop_length, List.append_nil]⟩
  · exact Or.inr ⟨he, ret, by rw [List.drop_left], hr⟩

/-- C25: a function expression whose body is a block, and a function
definition whose body is a block and that is analysed (its mangled name is not
held by the current level and is not the name of a module).  Whenever the
visit returns, the body it leaves is the list `cs` of the visited children,
which has the classes of the parsed children in the same order, followed by
what the validation appended.  When the parsed body ends in a return followed
by no-op statements only, nothing is appended.  When it does not, an empty
body and a body of no-op statements included, exactly one statement is
appended: a return of a null literal, at the location of the body when the
body is empty and at that of its last child (of the body, when that child is
null) otherwise. -/
theorem synthetic_return_appended (env : Collab) (ov : Option ModuleRef)
    (st : CompilerState) (h bh : AstHdr) (arguments : List String)
    (children : List (Option AstNode)) (r : AstNode × CompilerState) :
    (Accept env ov (.function_expression h arguments (some (.block bh children))) st = .ok r →
      ∃ cs s s1, AcceptBlock env false false children s = .ok (cs, s1) ∧
        cs.map typeOf = children.map typeOf ∧
        ((endsInReturn children = true ∧ bodyOf r.1 = some cs) ∨
          (endsInReturn children = false ∧ ∃ ret, bodyOf r.1 = some (cs ++ [some ret]) ∧
            isReturnNull
              (if children.isEmpty then bh.location else lastLocation children bh)
              ret = true))) ∧
    (∀ name : String,
      env.MakeVariableName st name (h.withModule ov).module ∉ (st.levels st.level).names →
      env.FindModule st name (h.withModule ov).module = none →
      Accept env ov (.function_definition h name arguments (some (.block bh children))) st =
        .ok r →
      ∃ cs s s1, AcceptBlock env false false children s = .ok (cs, s1) ∧
        cs.map typeOf = children.map typeOf ∧
        ((endsInReturn children = true ∧ bodyOf r.1 = some cs) ∨
          (endsInReturn children = false ∧ ∃ ret, bodyOf r.1 = some (cs ++ [some ret]) ∧
            isReturnNull
              (if children.isEmpty then bh.location else lastLocation children bh)
              ret = true))) := by
  obtain ⟨n1, st1⟩ := r
  constructor
  · intro hr
    have hr1 : AcceptFunctionExpression env (h.withModule ov) arguments
        (some (.block bh children)) (AcceptBlock env false false children) st =
        .ok (n1, st1) := hr
    unfold AcceptFunctionExpression at hr1
    simp only [] at hr1
    obtain ⟨ext, s1, g1, g2⟩ := bind_ok hr1
    obtain ⟨u2, s2, -, g3⟩ := bind_ok g2
    obtain ⟨u3, s3, -, g4⟩ := bind_ok g3
    obtain ⟨cs, s4, g5, g6⟩ := bind_ok g4
    obtain ⟨u5, s5, -, g7⟩ := bind_ok g6
    cases g7
    refine ⟨cs, s3, s4, g5, acceptBlock_types env children false false _ _ _ g5, ?_⟩
    rcases body_exact children ext cs _ (ensureReturn_exact _ _ _ _ _ _ _ _ g1) with
      ⟨e1, e2⟩ | ⟨e1, ret, e2, e3⟩
    · exact Or.inl ⟨e1, by simp only [bodyOf, e2]⟩
    · exact Or.inr ⟨e1, ret, by simp only [bodyOf, e2], e3⟩
  · intro name hnew hmod hr
    have hr1 : AcceptFunctionDefinition env (h.withModule ov) name arguments
        (some (.block bh children)) (AcceptBlock env false false children) st =
        .ok (n1, st1) := hr
    unfold AcceptFunctionDefinition at hr1
    rw [run_bind (run_get st)] at hr1
    simp only [findVariable_this_none st _ hnew, hmod, Option.isSome_none, Bool.false_eq_true,
      if_false] at hr1
    obtain ⟨u0, s0, -, g0⟩ := bind_ok hr1
    obtain ⟨ext, s1, g1, g2⟩ := bind_ok g0
    obtain ⟨u2, s2, -, g3⟩ := bind_ok g2
    obtain ⟨u3, s3, -, g4⟩ := bind_ok g3
    obtain ⟨cs, s4, g5, g6⟩ := bind_ok g4
    obtain ⟨u5, s5, -, g7⟩ := bind_ok g6
    obtain ⟨u6, s6, -, g8⟩ := bind_ok g7
    obtain ⟨u7, s7, -, g9⟩ := bind_ok g8
    cases g9
    refine ⟨cs, s3, s4, g5, acceptBlock_types env children false false _ _ _ g5, ?_⟩
    rcases body_exact children ext cs _ (ensureReturn_exact _ _ _ _ _ _ _ _ g1) with
      ⟨e1, e2⟩ | ⟨e1, ret, e2, e3⟩
    · exact Or.inl ⟨e1, by simp only [bodyOf, e2]⟩
    · exact Or.inr ⟨e1, ret, by simp only [bodyOf, e2], e3⟩

/-- C25 on three functions at the global level of a fresh analysis:
`func () { ; }` gets a return of null after its no-op, `func f() { let x = 1 }`
gets one after its declaration, and `func g() { return 1; ; }` is left with
its two statements. -/
theorem synthetic_return_appended_witness :
    (∃ r cs ret, Accept plainEnv none expressionOfNoop globalState = .ok r ∧
      endsInReturn [some (.statement (hdrAt 3))] = false ∧
      bodyOf r.1 = some (cs ++ [some ret]) ∧ cs.length = 1 ∧
      isReturnNull ⟨3, 0, "main"⟩ ret = true) ∧
    (∃ r cs ret, Accept plainEnv none functionWithoutReturn globalState = .ok r ∧
      bodyOf r.1 = some (cs ++ [some ret]) ∧ cs.length = 1 ∧
      isReturnNull ⟨3, 0, "main"⟩ ret = true) ∧
    (∃ r cs, Accept plainEnv none functionReturnThenNoop globalState = .ok r ∧
      bodyOf r.1 = some cs ∧
      cs.map typeOf = [some .Ast_type_return, some .Ast_type_statement]) := by
  refine ⟨?_, ?_, ?_⟩
  · obtain ⟨cs, s, s1, -, h2, h3⟩ := (synthetic_return_appended plainEnv none globalState
      (hdrAt 1) (hdrAt 2) [] [some (.statement (hdrAt 3))] _).1 rfl
    rcases h3 with ⟨e1, -⟩ | ⟨e1, ret, e2, e3⟩
    · cases e1
    · exact ⟨_, cs, ret, rfl, e1, e2, by simpa using congrArg List.length h2, e3⟩
  · obtain ⟨cs, s, s1, -, h2, h3⟩ := (synthetic_return_appended plainEnv none globalState
      (hdrAt 1) (hdrAt 2) []
      [some (.var_declaration (hdrAt 3) "x" false (some (.integer (hdrAt 4) 1)))] _).2 "f"
      (by decide) rfl rfl
    rcases h3 with ⟨e1, -⟩ | ⟨e1, ret, e2, e3⟩
    · cases e1
    · exact ⟨_, cs, ret, rfl, e2, by simpa using congrArg List.length h2, e3⟩
  · obtain ⟨cs, s, s1, -, h2, h3⟩ := (synthetic_return_appended plainEnv none globalState
      (hdrAt 1) (hdrAt 2) []
      [some (.return_ (hdrAt 3) (some (.integer (hdrAt 4) 1))), some (.statement (hdrAt 5))]
      _).2 "g" (by decide) rfl rfl
    rcases h3 with ⟨e1, e2⟩ | ⟨e1, -⟩
    · exact ⟨_, cs, rfl, e2, h2⟩
    · cases e1

/-! ## The heap: what a sweep keeps, and when it faults -/

theorem land_four_natCast (n : ℕ) : Int.land (n : ℤ) 4 = ((n &&& 4 : ℕ) : ℤ) := rfl

theorem land_four_negSucc (n : ℕ) : Int.land (Int.negSucc n) 4 = ((Nat.ldiff 4 n : ℕ) : ℤ) := rfl

theorem nat_and_four (n : ℕ) : n &&& 4 = (n.testBit 2).toNat * 4 := by
  have := Nat.and_two_pow n 2
  simpa using this

theorem nat_ldiff_four (n : ℕ) : Nat.ldiff 4 n = (!n.testBit 2).toNat * 4 := by
  apply Nat.eq_of_testBit_eq
  intro i
  rw [Nat.testBit_ldiff]
  have h4 : Nat.testBit 4 i = decide (2 = i) := @Nat.testBit_two_pow 2 i
  rw [h4]
  by_cases hi : 2 = i
  · subst hi
    cases hb : n.testBit 2
    · simp [hb]
      decide
    · simp [hb]
  · cases hb : n.testBit 2 <;> simp [hi, hb, h4]

/-- The test `flags & FLAG_MARKED` reads bit 2 of the flags. -/
theorem isMarked_eq_testBit (o : Object) : o.isMarked = o.flags.testBit 2 := by
  unfold Object.isMarked FLAG_MARKED
  cases hf : o.flags with
  | ofNat n =>
    show (Int.land (n : ℤ) 4 != 0) = Nat.testBit n 2
    rw [land_four_natCast, nat_and_four]
    cases n.testBit 2 <;> simp
  | negSucc n =>
    show (Int.land (Int.negSucc n) 4 != 0) = !Nat.testBit n 2
    rw [land_four_negSucc, nat_ldiff_four]
    cases n.testBit 2 <;> simp

/-- The update `flags &= ~FLAG_MARKED` clears bit 2 of the flags and leaves
every other bit as it was. -/
theorem clearMarked_testBit (o : Object) (i : ℕ) :
    o.clearMarked.flags.testBit i = (o.flags.testBit i && !decide (i = 2)) := by
  unfold Object.clearMarked FLAG_MARKED
  show (Int.land o.flags (Int.lnot 4)).testBit i = _
  rw [Int.testBit_land, Int.testBit_lnot]
  have h4 : Int.testBit 4 i = Nat.testBit 4 i := rfl
  have h5 : Nat.testBit 4 i = decide (2 = i) := @Nat.testBit_two_pow 2 i
  rw [h4, h5]
  by_cases hi : i = 2
  · subst hi; simp
  · have : ¬ 2 = i := fun h => hi h.symm
    simp [hi, this]

/-- The label `deleteholder` returns for a node of a well-formed list that has
a predecessor. -/
theorem deleteholder_ok {h : Heap} {K R : List Addr} {x : Addr} {s : HeapObject}
    (hl : h.IsList (K ++ x :: R)) (hs : h.mem x = some s) (hR : R ≠ []) :
    ∃ r, h.deleteholder x s = .ok r := by
  obtain ⟨s0, hs0, haft, hbef, hK, hRc⟩ := isList_split hl
  rw [hs] at hs0; cases hs0
  cases R with
  | nil => exact absurd rfl hR
  | cons b R =>
    simp only [hd] at hbef
    obtain ⟨sb, hsb, -, -, -⟩ := hRc
    unfold Heap.deleteholder
    rw [hbef]
    cases hsa : s.after with
    | none =>
      simp only [hsb]
      exact ⟨_, rfl⟩
    | some a =>
      simp only [hsb]
      have haK : a ∈ K := by
        rw [haft] at hsa
        rcases lst_mem K none a hsa with h1 | h1
        · exact h1
        · cases h1
      obtain ⟨sa, hsa1⟩ := chain_live K _ _ hK a haK
      by_cases hab : a = b
      · subst hab
        simp only [Heap.write, Function.update_same]
        exact ⟨_, rfl⟩
      · simp only [Heap.write, Function.update_noteq hab, hsa1]
        exact ⟨_, rfl⟩

/-- The loop of `Heap::Sweep` from a cursor inside a well-formed list whose
oldest node is not one the sweep keeps: it reaches that node, goes to
`deleteholder` and writes through the null predecessor. -/
theorem sweepLoop_faults (R : List Addr) : ∀ (fuel : Nat) (h : Heap) (K : List Addr) (z : Addr),
    h.IsList (K ++ R) → lst R none = some z → h.keepAt z = false → R.length ≤ fuel →
    h.sweepLoop fuel (hd R none) = .error .nullDeref := by
  induction R with
  | nil => intro fuel h K z _ hz; cases hz
  | cons x R ih =>
    intro fuel h K z hl hz hk hf
    obtain ⟨s, hs, -, hbef, -, -⟩ := isList_split hl
    obtain ⟨hxK, hxR, -, -, -, -⟩ := nodup_mid hl.nodup
    obtain ⟨fuel, rfl⟩ : ∃ f, fuel = f + 1 := ⟨fuel - 1, by simp at hf; omega⟩
    have hf1 : R.length ≤ fuel := by simp at hf; omega
    show Heap.sweepLoop (fuel + 1) h (some x) = _
    unfold Heap.sweepLoop
    simp only [hs]
    cases R with
    | nil =>
      -- the oldest node: no predecessor
      have hzx : z = x := by simpa [lst] using hz.symm
      subst hzx
      simp only [hd] at hbef
      have hkeep : s.keep = false := by simpa [Heap.keepAt, hs] using hk
      cases hso : s.obj with
      | none =>
        simp only []
        unfold Heap.deleteholder
        rw [hbef]
        cases s.after <;> rfl
      | some o =>
        have hm : o.isMarked = false := by simpa [HeapObject.keep, hso] using hkeep
        simp only [hm, Bool.not_false, if_true]
        unfold Heap.deleteholder
        simp only [hbef]
        cases s.after <;> rfl
    | cons y R =>
      have hz1 : lst (y :: R) none = some z := by
        have e1 : lst (x :: y :: R) none = lst (y :: R) (some x) := rfl
        obtain ⟨a2, h1, -, h3⟩ := lst_some_of_ne_nil (y :: R) (some x) (by simp)
        rw [e1, h1] at hz
        rw [h3, hz]
      have hzR : z ∈ y :: R := by
        rcases lst_mem (y :: R) none z hz1 with h1 | h1
        · exact h1
        · cases h1
      have hzx : z ≠ x := by rintro rfl; exact hxR hzR
      -- what follows a pass through `deleteholder` from a heap that differs
      -- from `h` only in the object of `x`
      have del : ∀ (h0 : Heap) (s0 : HeapObject), h0.IsList (K ++ x :: y :: R) →
          h0.mem x = some s0 → (∀ a, a ≠ x → h0.mem a = h.mem a) →
          (match h0.deleteholder x s0 with
            | .error e => .error e
            | .ok (h2, next) => Heap.sweepLoop fuel h2 next) = Except.error Fault.nullDeref := by
        intro h0 s0 hl0 hs0 hsame
        obtain ⟨r, hr⟩ := deleteholder_ok hl0 hs0 (by simp)
        obtain ⟨h2, next⟩ := r
        obtain ⟨-, hnext, hl2, -, -, -, hpay, -⟩ := deleteholder_spec hl0 hs0 hr
        rw [hr]
        simp only []
        rw [hnext]
        apply ih fuel h2 K z hl2 hz1 _ hf1
        rw [keepAt_of_payload (hpay z hzx)]
        unfold Heap.keepAt at hk ⊢
        rw [hsame z hzx]
        exact hk
      cases hso : s.obj with
      | none =>
        simp only []
        exact del h s hl hs (fun _ _ => rfl)
      | some o =>
        simp only []
        by_cases hm : o.isMarked = true
        · simp only [hm, Bool.not_true, Bool.false_eq_true, if_false]
          have hl1 : (h.write x { s with obj := some o.clearMarked }).IsList
              ((K ++ [x]) ++ y :: R) := by
            rw [List.append_assoc]
            exact isList_write hl hs rfl rfl
          have e := ih fuel _ (K ++ [x]) z hl1 hz1
            (by rw [keepAt_of_payload (payload_write_ne _ hzx)]; exact hk) hf1
          rw [← hbef] at e
          exact e
        · have hm1 : o.isMarked = false := by simpa using hm
          simp only [hm1, Bool.not_false, if_true]
          exact del (h.write x { s with obj := none }) { s with obj := none }
            (isList_write hl hs rfl rfl) (by simp [Heap.write])
            (fun a ha => by simp [Heap.write, Function.update_noteq ha])

theorem lst_eq_getLast? (L : List Addr) :
    ∀ d : Option Addr, lst L d = match L.getLast? with | some a => some a | none => d := by
  induction L with
  | nil => intro d; rfl
  | cons x L ih =>
    intro d
    show lst L (some x) = _
    rw [ih]
    cases L with
    | nil => rfl
    | cons y L =>
      rw [List.getLast?_cons_cons]
      obtain ⟨a, ha⟩ : ∃ a, (y :: L).getLast? = some a :=
        ⟨_, List.getLast?_eq_getLast _ (by simp)⟩
      rw [ha]

theorem clearMarked_not_marked (o : Object) : o.clearMarked.isMarked = false := by
  rw [isMarked_eq_testBit, clearMarked_testBit]
  simp

/-- C24: a well-formed heap with slot list `L` (newest first) and
`num_objects` equal to its length, on which `Sweep` completes.  The slot list
afterwards is `L` filtered to the nodes whose object was non-null and had
`FLAG_MARKED` set on entry, so in their original relative order, and it is
well formed.  Each such node holds the same id and the same object except for
its flags, which are the flags on entry with bit 2, `FLAG_MARKED`, cleared and
every other bit as it was.  Every other node of `L`, whether its object was
unmarked or null, is deleted and is not in the list. -/
theorem sweep_keeps_marked (h h1 : Heap) (L : List Addr) (fuel : Nat) (hi : h.Inv L)
    (hrun : h.Sweep fuel = .ok h1) :
    h.slots = L ∧ h1.slots = L.filter h.keepAt ∧ h1.IsList (L.filter h.keepAt) ∧
    (∀ a, h.keepAt a = true ↔
      ∃ s o, h.mem a = some s ∧ s.obj = some o ∧ o.flags.testBit 2 = true) ∧
    (∀ a ∈ L, h.keepAt a = true → ∃ s o, h.mem a = some s ∧ s.obj = some o ∧
      h1.payload a = some (s.id, some o.clearMarked)) ∧
    (∀ o : Object, o.clearMarked.isMarked = false ∧ o.clearMarked.flags.testBit 2 = false ∧
      (∀ i, i ≠ 2 → o.clearMarked.flags.testBit i = o.flags.testBit i) ∧
      o.clearMarked = { o with flags := o.clearMarked.flags }) ∧
    (∀ a ∈ L, h.keepAt a = false → h1.mem a = none ∧ a ∉ h1.slots) := by
  have hi1 := inv_sweep hi hrun
  have hs1 := inv_slots hi1
  have hrun1 : h.sweepLoop fuel (hd L none) = .ok h1 := by
    rw [hd_eq_head?, ← hi.isList.head_eq]; exact hrun
  obtain ⟨-, -, -, -, -, i6, i7⟩ :=
    sweepLoop_spec L fuel h h1 [] (by simpa using hi.isList) (by rw [hi.count]) hrun1
  refine ⟨inv_slots hi, hs1, hi1.isList, fun a => ?_, i7, fun o => ?_, fun a ha hk => ?_⟩
  · unfold Heap.keepAt
    cases hm : h.mem a with
    | none => simp
    | some s =>
      unfold HeapObject.keep
      cases ho : s.obj with
      | none => simp [ho]
      | some o => simp [ho, isMarked_eq_testBit]
  · refine ⟨clearMarked_not_marked o, ?_, fun i hne => ?_, rfl⟩
    · rw [clearMarked_testBit]; simp
    · rw [clearMarked_testBit]; simp [hne]
  · refine ⟨i6 a ha hk, ?_⟩
    rw [hs1]
    intro hmem
    have := (List.mem_filter.1 hmem).2
    rw [hk] at this
    cases this

theorem inv_allocWith {h : Heap} {L : List Addr} (o : Object) (hi : h.Inv L) :
    (h.allocWith o).Inv (h.brk :: L) :=
  inv_store _ _ (inv_alloc hi)

theorem heapMiddleGarbage_inv : heapMiddleGarbage.Inv [2, 1, 0] :=
  inv_allocWith markedObj (inv_allocWith plainObj (inv_allocWith markedObj inv_empty))

/-- C24 on three nodes holding a marked, an unmarked and a marked object: the
`Sweep` completes, the list afterwards is the newest and the oldest node, and
the middle node is deleted. -/
theorem sweep_keeps_marked_witness :
    ∃ h1, heapMiddleGarbage.Sweep 3 = .ok h1 ∧ heapMiddleGarbage.slots = [2, 1, 0] ∧
      h1.slots = [2, 0] ∧ h1.mem 1 = none ∧
      h1.payload 0 = some (0, some markedObj.clearMarked) ∧
      h1.slots = [2, 1, 0].filter heapMiddleGarbage.keepAt :=
  ⟨_, rfl, rfl, rfl, rfl, rfl,
    (sweep_keeps_marked heapMiddleGarbage _ [2, 1, 0] 3 heapMiddleGarbage_inv rfl).2.1⟩

/-- C28 fails.  A well-formed heap whose slot list `L` ends in a node `z`, the
oldest, that `Sweep` has to unlink: its object is null or not marked.  With
enough iterations to reach it, `Sweep` does not complete: at `z` it goes to
`deleteholder`, where both branches write `before->after` with `before` null.
That is so when `z` has a successor and when it is the only node of the
list. -/
theorem sweep_faults_when_oldest_unlinked (h : Heap) (L : List Addr) (z : Addr) (fuel : Nat)
    (hl : h.IsList L) (hz : L.getLast? = some z) (hk : h.keepAt z = false)
    (hf : L.length ≤ fuel) : h.Sweep fuel = .error .nullDeref := by
  have hz1 : lst L none = some z := by rw [lst_eq_getLast?, hz]
  have := sweepLoop_faults L fuel h [] z (by simpa using hl) hz1 hk hf
  rw [hd_eq_head?, ← hl.head_eq] at this
  exact this

/-- C28 fails on the heap after one `AllocNull`, whose only node holds no
object, and on the heap of an unmarked object followed by a marked one, whose
oldest node has a successor and no predecessor. -/
theorem sweep_faults_when_oldest_unlinked_witness :
    heapOne.IsList [0] ∧ heapOne.Sweep 1 = .error .nullDeref ∧
      heapUnmarkedOldest.IsList [1, 0] ∧ heapUnmarkedOldest.Sweep 2 = .error .nullDeref :=
  ⟨⟨by decide, rfl, ⟨_, rfl, rfl, rfl, trivial⟩⟩,
   sweep_faults_when_oldest_unlinked heapOne [0] 0 1
     ⟨by decide, rfl, ⟨_, rfl, rfl, rfl, trivial⟩⟩ rfl rfl (by decide),
   ⟨by decide, rfl, ⟨_, rfl, rfl, rfl, ⟨_, rfl, rfl, rfl, trivial⟩⟩⟩,
   sweep_faults_when_oldest_unlinked heapUnmarkedOldest [1, 0] 0 2
     ⟨by decide, rfl, ⟨_, rfl, rfl, rfl, ⟨_, rfl, rfl, rfl, trivial⟩⟩⟩ rfl rfl (by decide)⟩

/-! ## The semantic analyzer: relations respected scope by scope -/

section scopes

variable {B D : CompilerState → CompilerState → Prop}

set_option linter.unusedTactic false
set_option linter.unreachableTactic false

theorem sc_pure (S : Scoped B D) {α : Type} (a : α) : Obeys B (pure a : Analyzer α) := by
  intro st b st1 h; cases h; exact S.refl _

theorem sc_throw {R : CompilerState → CompilerState → Prop} {α : Type} (e : Fault) :
    Obeys R (throw e : Analyzer α) := by
  intro st b st1 h; cases h

theorem sc_get (S : Scoped B D) : Obeys B (get : Analyzer CompilerState) := by
  intro st b st1 h; cases h; exact S.refl _

theorem sc_bind (S : Scoped B D) {α β : Type} {m : Analyzer α} {f : α → Analyzer β}
    (hm : Obeys B m) (hf : ∀ a, Obeys B (f a)) : Obeys B (m >>= f) := by
  intro st b st2 h
  obtain ⟨a, st1, h1, h2⟩ := bind_ok h
  exact S.trans _ _ _ (hm st a st1 h1) (hf a st1 b st2 h2)

/-- Inside a pushed scope: a computation at that level, then one that pops
the scope. -/
theorem sc_dbind (S : Scoped B D) {α β : Type} {m : Analyzer α} {f : α → Analyzer β}
    (hm : Obeys B m) (hf : ∀ a, Obeys D (f a)) : Obeys D (m >>= f) := by
  intro st b st2 h
  obtain ⟨a, st1, h1, h2⟩ := bind_ok h
  exact S.into _ _ _ (hm st a st1 h1) (hf a st1 b st2 h2)

theorem sc_modify (f : CompilerState → CompilerState) (hf : ∀ st, B st (f st)) :
    Obeys B (modify f : Analyzer Unit) := by
  intro st a st1 h; cases h; exact hf st

theorem sc_report (S : Scoped B D) (sev : Severity) (msg : ErrorType) (loc : SourceLocation)
    (args : List String) : Obeys B (report sev msg loc args) :=
  sc_modify _ (fun st => S.errors st _)

theorem sc_ErrorMsg (S : Scoped B D) (msg : ErrorType) (loc : SourceLocation)
    (args : List String) : Obeys B (ErrorMsg msg loc args) := sc_report S _ _ _ _

theorem sc_WarningMessage (S : Scoped B D) (msg : ErrorType) (loc : SourceLocation)
    (args : List String) : Obeys B (WarningMessage msg loc args) := sc_report S _ _ _ _

theorem sc_InfoMsg (S : Scoped B D) (msg : ErrorType) (loc : SourceLocation)
    (args : List String) : Obeys B (InfoMsg msg loc args) := sc_report S _ _ _ _

theorem sc_IncrementUseCount (S : Scoped B D) (ptr : Option Nat) :
    Obeys B (IncrementUseCount ptr) :=
  sc_modify _ (fun st => S.useCount st ptr)

theorem sc_registerModule (S : Scoped B D) (key : String) (unit : ModuleRef) :
    Obeys B (registerModule key unit) :=
  sc_modify _ (fun st => S.modules st _)

theorem sc_newPtr (S : Scoped B D) : Obeys B newPtr := by
  intro st a st1 h; cases h
  exact S.nextPtr st

theorem sc_derefNode (S : Scoped B D) (p : Option AstNode) : Obeys B (derefNode p) := by
  cases p with
  | none => exact sc_throw _
  | some n => exact sc_pure S _

theorem sc_pushLocal (S : Scoped B D) (name : String) (symbol : Symbol) :
    Obeys B (pushLocal name symbol) := by
  intro st a st1 h; cases h
  exact S.push st name symbol

theorem sc_writeSymbol (S : Scoped B D) (p : Option (Int × Nat)) (f : Symbol → Symbol)
    (hf : ValueOnly f) : Obeys B (writeSymbol p f) := by
  intro st a st1 h
  unfold writeSymbol at h
  cases p with
  | none => cases h
  | some q =>
    simp only at h
    obtain ⟨s0, s1, h1, h2⟩ := bind_ok h
    cases h1
    cases he : (st.levels q.1).locals.get? q.2 with
    | none => rw [he] at h2; cases h2
    | some e =>
      rw [he] at h2
      cases h2
      exact S.write st q e f he hf

theorem sc_warnUnused (S : Scoped B D) (ls : List (String × Symbol)) :
    Obeys B (warnUnused ls) := by
  intro st a st1 h
  rw [run_warnUnused_exact ls st] at h
  cases h
  exact S.errors st _

/-- A scope is pushed; what follows pops it. -/
theorem sc_enter (S : Scoped B D) {α : Type} (t : LevelType) {k : Analyzer α}
    (hk : Obeys D k) : Obeys B (IncreaseBlock t >>= fun _ => k) := by
  intro st b st2 h
  rw [run_bind (run_IncreaseBlock t st)] at h
  exact S.enter st t st2 (hk _ b st2 h)

/-- The scope is popped; what follows stays at the level below. -/
theorem sc_leave (S : Scoped B D) {α : Type} {k : Analyzer α} (hk : Obeys B k) :
    Obeys D (DecreaseBlock >>= fun _ => k) := by
  intro st b st3 h
  rw [run_bind (run_DecreaseBlock_exact st)] at h
  refine S.into _ _ _ (S.errors st (unusedWarnings st.use_counts (st.levels st.level).locals))
    (S.out _ _ _ (S.leave _) (hk _ b st3 h))

theorem sc_literalSide (S : Scoped B D) (env : Collab) (value : AstNode) :
    Obeys B (literalSide env value) := by
  intro st a st1 h
  rw [silent_literalSide env value st a st1 h]
  exact S.refl _

theorem sc_scanReturn (S : Scoped B D) (children : List (Option AstNode)) (idx : Nat) :
    Obeys B (scanReturn children idx) := by
  induction idx with
  | zero => exact sc_pure S _
  | succ idx ih =>
    unfold scanReturn
    repeat' first
      | exact sc_pure S _
      | exact sc_throw _
      | exact sc_get S
      | exact sc_ErrorMsg S _ _ _
      | exact sc_WarningMessage S _ _ _
      | exact sc_InfoMsg S _ _ _
      | exact sc_IncrementUseCount S _
      | exact sc_registerModule S _ _
      | exact sc_newPtr S
      | exact sc_derefNode S _
      | exact sc_pushLocal S _ _
      | exact sc_writeSymbol S _ _ (fun _ => rfl)
      | assumption
      | refine sc_enter S _ ?_
      | refine sc_leave S ?_
      | refine sc_bind S ?_ (fun _ => ?_)
      | refine sc_dbind S ?_ (fun _ => ?_)
      | dsimp only
      | split

theorem sc_hasReturnDefinition (S : Scoped B D) (children : List (Option AstNode)) :
    Obeys B (hasReturnDefinition children) := by
  unfold hasReturnDefinition
  repeat' first
    | exact sc_pure S _
    | exact sc_throw _
    | exact sc_get S
    | exact sc_ErrorMsg S _ _ _
    | exact sc_WarningMessage S _ _ _
    | exact sc_InfoMsg S _ _ _
    | exact sc_IncrementUseCount S _
    | exact sc_registerModule S _ _
    | exact sc_newPtr S
    | exact sc_derefNode S _
    | exact sc_pushLocal S _ _
    | exact sc_writeSymbol S _ _ (fun _ => rfl)
    | exact sc_scanReturn S _ _
    | assumption
    | refine sc_enter S _ ?_
    | refine sc_leave S ?_
    | refine sc_bind S ?_ (fun _ => ?_)
    | refine sc_dbind S ?_ (fun _ => ?_)
    | dsimp only
    | split

theorem sc_hasReturnExpression (S : Scoped B D) (children : List (Option AstNode)) :
    Obeys B (hasReturnExpression children) := by
  unfold hasReturnExpression
  repeat' first
    | exact sc_pure S _
    | exact sc_throw _
    | exact sc_get S
    | exact sc_ErrorMsg S _ _ _
    | exact sc_WarningMessage S _ _ _
    | exact sc_InfoMsg S _ _ _
    | exact sc_IncrementUseCount S _
    | exact sc_registerModule S _ _
    | exact sc_newPtr S
    | exact sc_derefNode S _
    | exact sc_pushLocal S _ _
    | exact sc_writeSymbol S _ _ (fun _ => rfl)
    | exact sc_scanReturn S _ _
    | assumption
    | refine sc_enter S _ ?_
    | refine sc_leave S ?_
    | refine sc_bind S ?_ (fun _ => ?_)
    | refine sc_dbind S ?_ (fun _ => ?_)
    | dsimp only
    | split

theorem sc_makeReturnNull (S : Scoped B D) (location : SourceLocation)
    (module : Option ModuleRef) : Obeys B (makeReturnNull location module) := by
  unfold makeReturnNull
  repeat' first
    | exact sc_pure S _
    | exact sc_throw _
    | exact sc_get S
    | exact sc_ErrorMsg S _ _ _
    | exact sc_WarningMessage S _ _ _
    | exact sc_InfoMsg S _ _ _
    | exact sc_IncrementUseCount S _
    | exact sc_registerModule S _ _
    | exact sc_newPtr S
    | exact sc_derefNode S _
    | exact sc_pushLocal S _ _
    | exact sc_writeSymbol S _ _ (fun _ => rfl)
    | assumption
    | refine sc_enter S _ ?_
    | refine sc_leave S ?_
    | refine sc_bind S ?_ (fun _ => ?_)
    | refine sc_dbind S ?_ (fun _ => ?_)
    | dsimp only
    | split

theorem sc_ensureReturn (S : Scoped B D) (expr : Bool) (name : String)
    (module : Option ModuleRef) (body : AstHdr) (children : List (Option AstNode)) :
    Obeys B (ensureReturn expr name module body children) := by
  unfold ensureReturn
  repeat' first
    | exact sc_pure S _
    | exact sc_throw _
    | exact sc_get S
    | exact sc_ErrorMsg S _ _ _
    | exact sc_WarningMessage S _ _ _
    | exact sc_InfoMsg S _ _ _
    | exact sc_IncrementUseCount S _
    | exact sc_registerModule S _ _
    | exact sc_newPtr S
    | exact sc_derefNode S _
    | exact sc_pushLocal S _ _
    | exact sc_writeSymbol S _ _ (fun _ => rfl)
    | exact sc_hasReturnDefinition S _
    | exact sc_hasReturnExpression S _
    | exact sc_makeReturnNull S _ _
    | assumption
    | refine sc_enter S _ ?_
    | refine sc_leave S ?_
    | refine sc_bind S ?_ (fun _ => ?_)
    | refine sc_dbind S ?_ (fun _ => ?_)
    | dsimp only
    | split

theorem sc_declareParams (S : Scoped B D) (env : Collab) (module : Option ModuleRef)
    (node : Option NodeRef) (params : List String) :
    Obeys B (declareParams env module node params) := by
  induction params with
  | nil => exact sc_pure S _
  | cons p ps ih =>
    unfold declareParams
    repeat' first
      | exact sc_pure S _
      | exact sc_throw _
      | exact sc_get S
      | exact sc_ErrorMsg S _ _ _
      | exact sc_WarningMessage S _ _ _
      | exact sc_InfoMsg S _ _ _
      | exact sc_IncrementUseCount S _
      | exact sc_registerModule S _ _
      | exact sc_newPtr S
      | exact sc_derefNode S _
      | exact sc_pushLocal S _ _
      | exact sc_writeSymbol S _ _ (fun _ => rfl)
      | assumption
      | refine sc_enter S _ ?_
      | refine sc_leave S ?_
      | refine sc_bind S ?_ (fun _ => ?_)
      | refine sc_dbind S ?_ (fun _ => ?_)
      | dsimp only
      | split

theorem sc_warnEmptyBody (S : Scoped B D) (body : Option AstNode) :
    Obeys B (warnEmptyBody body) := by
  unfold warnEmptyBody
  repeat' first
    | exact sc_pure S _
    | exact sc_throw _
    | exact sc_get S
    | exact sc_ErrorMsg S _ _ _
    | exact sc_WarningMessage S _ _ _
    | exact sc_InfoMsg S _ _ _
    | exact sc_IncrementUseCount S _
    | exact sc_registerModule S _ _
    | exact sc_newPtr S
    | exact sc_derefNode S _
    | exact sc_pushLocal S _ _
    | exact sc_writeSymbol S _ _ (fun _ => rfl)
    | assumption
    | refine sc_enter S _ ?_
    | refine sc_leave S ?_
    | refine sc_bind S ?_ (fun _ => ?_)
    | refine sc_dbind S ?_ (fun _ => ?_)
    | dsimp only
    | split

theorem sc_assignUpdate (S : Scoped B D) (env : Collab) (left right : Option AstNode) :
    Obeys B (assignUpdate env left right) := by
  unfold assignUpdate
  repeat' first
    | exact sc_pure S _
    | exact sc_throw _
    | exact sc_get S
    | exact sc_ErrorMsg S _ _ _
    | exact sc_WarningMessage S _ _ _
    | exact sc_InfoMsg S _ _ _
    | exact sc_IncrementUseCount S _
    | exact sc_registerModule S _ _
    | exact sc_newPtr S
    | exact sc_derefNode S _
    | exact sc_pushLocal S _ _
    | exact sc_writeSymbol S _ _ (fun _ => rfl)
    | exact sc_literalSide S _ _
    | assumption
    | refine sc_enter S _ ?_
    | refine sc_leave S ?_
    | refine sc_bind S ?_ (fun _ => ?_)
    | refine sc_dbind S ?_ (fun _ => ?_)
    | dsimp only
    | split

theorem sc_assignChecks (S : Scoped B D) (left right : Option AstNode) :
    Obeys B (assignChecks left right) := by
  unfold assignChecks
  repeat' first
    | exact sc_pure S _
    | exact sc_throw _
    | exact sc_get S
    | exact sc_ErrorMsg S _ _ _
    | exact sc_WarningMessage S _ _ _
    | exact sc_InfoMsg S _ _ _
    | exact sc_IncrementUseCount S _
    | exact sc_registerModule S _ _
    | exact sc_newPtr S
    | exact sc_derefNode S _
    | exact sc_pushLocal S _ _
    | exact sc_writeSymbol S _ _ (fun _ => rfl)
    | assumption
    | refine sc_enter S _ ?_
    | refine sc_leave S ?_
    | refine sc_bind S ?_ (fun _ => ?_)
    | refine sc_dbind S ?_ (fun _ => ?_)
    | dsimp only
    | split

theorem sc_binopChecks (S : Scoped B D) (env : Collab) (op : BinOp)
    (left right : Option AstNode) : Obeys B (binopChecks env op left right) := by
  unfold binopChecks
  repeat' first
    | exact sc_pure S _
    | exact sc_throw _
    | exact sc_get S
    | exact sc_ErrorMsg S _ _ _
    | exact sc_WarningMessage S _ _ _
    | exact sc_InfoMsg S _ _ _
    | exact sc_IncrementUseCount S _
    | exact sc_registerModule S _ _
    | exact sc_newPtr S
    | exact sc_derefNode S _
    | exact sc_pushLocal S _ _
    | exact sc_writeSymbol S _ _ (fun _ => rfl)
    | exact sc_assignUpdate S _ _ _
    | exact sc_assignChecks S _ _
    | assumption
    | refine sc_enter S _ ?_
    | refine sc_leave S ?_
    | refine sc_bind S ?_ (fun _ => ?_)
    | refine sc_dbind S ?_ (fun _ => ?_)
    | dsimp only
    | split

theorem sc_declareEnumMembers (S : Scoped B D) (env : Collab)
    (members : List (String × Option AstNode)) : Obeys B (declareEnumMembers env members) := by
  induction members with
  | nil => exact sc_pure S _
  | cons m ms ih =>
    obtain ⟨first, second⟩ := m
    unfold declareEnumMembers
    repeat' first
      | exact sc_pure S _
      | exact sc_throw _
      | exact sc_get S
      | exact sc_ErrorMsg S _ _ _
      | exact sc_WarningMessage S _ _ _
      | exact sc_InfoMsg S _ _ _
      | exact sc_IncrementUseCount S _
      | exact sc_registerModule S _ _
      | exact sc_newPtr S
      | exact sc_derefNode S _
      | exact sc_pushLocal S _ _
      | exact sc_writeSymbol S _ _ (fun _ => rfl)
      | assumption
      | refine sc_enter S _ ?_
      | refine sc_leave S ?_
      | refine sc_bind S ?_ (fun _ => ?_)
      | refine sc_dbind S ?_ (fun _ => ?_)
      | dsimp only
      | split

theorem sc_AcceptVariable (S : Scoped B D) (env : Collab) (h : AstHdr) (name : String)
    (info : VarInfo) : Obeys B (AcceptVariable env h name info) := by
  unfold AcceptVariable
  repeat' first
    | exact sc_pure S _
    | exact sc_throw _
    | exact sc_get S
    | exact sc_ErrorMsg S _ _ _
    | exact sc_WarningMessage S _ _ _
    | exact sc_InfoMsg S _ _ _
    | exact sc_IncrementUseCount S _
    | exact sc_registerModule S _ _
    | exact sc_newPtr S
    | exact sc_derefNode S _
    | exact sc_pushLocal S _ _
    | exact sc_writeSymbol S _ _ (fun _ => rfl)
    | assumption
    | refine sc_enter S _ ?_
    | refine sc_leave S ?_
    | refine sc_bind S ?_ (fun _ => ?_)
    | refine sc_dbind S ?_ (fun _ => ?_)
    | dsimp only
    | split

theorem sc_AcceptImport (S : Scoped B D) (h : AstHdr) (relative_path import_str : String)
    (is_open : Bool) (unit : ModuleRef) (parse_errors : List Diagnostic)
    (unit_children : List (Option AstNode)) {visitUnit : Analyzer (List (Option AstNode))}
    (hv : Obeys B visitUnit) :
    Obeys B (AcceptImport h relative_path import_str is_open unit parse_errors unit_children
      visitUnit) := by
  unfold AcceptImport
  repeat' first
    | exact sc_pure S _
    | exact sc_throw _
    | exact sc_get S
    | exact sc_ErrorMsg S _ _ _
    | exact sc_WarningMessage S _ _ _
    | exact sc_InfoMsg S _ _ _
    | exact sc_IncrementUseCount S _
    | exact sc_registerModule S _ _
    | exact sc_newPtr S
    | exact sc_derefNode S _
    | exact sc_pushLocal S _ _
    | exact sc_writeSymbol S _ _ (fun _ => rfl)
    | exact sc_modify _ (fun st => S.errors st _)
    | assumption
    | refine sc_enter S _ ?_
    | refine sc_leave S ?_
    | refine sc_bind S ?_ (fun _ => ?_)
    | refine sc_dbind S ?_ (fun _ => ?_)
    | dsimp only
    | split

theorem sc_AcceptBinaryOp (S : Scoped B D) (env : Collab) (h : AstHdr) (op : BinOp)
    {visitLeft visitRight : Analyzer (Option AstNode)} (hl : Obeys B visitLeft)
    (hr : Obeys B visitRight) : Obeys B (AcceptBinaryOp env h op visitLeft visitRight) := by
  unfold AcceptBinaryOp
  repeat' first
    | exact sc_pure S _
    | exact sc_throw _
    | exact sc_get S
    | exact sc_ErrorMsg S _ _ _
    | exact sc_WarningMessage S _ _ _
    | exact sc_InfoMsg S _ _ _
    | exact sc_IncrementUseCount S _
    | exact sc_registerModule S _ _
    | exact sc_newPtr S
    | exact sc_derefNode S _
    | exact sc_pushLocal S _ _
    | exact sc_writeSymbol S _ _ (fun _ => rfl)
    | exact sc_binopChecks S _ _ _ _
    | assumption
    | refine sc_enter S _ ?_
    | refine sc_leave S ?_
    | refine sc_bind S ?_ (fun _ => ?_)
    | refine sc_dbind S ?_ (fun _ => ?_)
    | dsimp only
    | split

theorem sc_AcceptMemberAccess (S : Scoped B D) (env : Collab) (h : AstHdr)
    (left_str : String) (left right : Option AstNode) {visitLeft : Analyzer (Option AstNode)}
    {visitRight : Option ModuleRef → Analyzer AstNode} (hl : Obeys B visitLeft)
    (hr : ∀ m, Obeys B (visitRight m)) :
    Obeys B (AcceptMemberAccess env h left_str left right visitLeft visitRight) := by
  unfold AcceptMemberAccess
  repeat' first
    | exact sc_pure S _
    | exact sc_throw _
    | exact sc_get S
    | exact sc_ErrorMsg S _ _ _
    | exact sc_WarningMessage S _ _ _
    | exact sc_InfoMsg S _ _ _
    | exact sc_IncrementUseCount S _
    | exact sc_registerModule S _ _
    | exact sc_newPtr S
    | exact sc_derefNode S _
    | exact sc_pushLocal S _ _
    | exact sc_writeSymbol S _ _ (fun _ => rfl)
    | exact hr _
    | assumption
    | refine sc_enter S _ ?_
    | refine sc_leave S ?_
    | refine sc_bind S ?_ (fun _ => ?_)
    | refine sc_dbind S ?_ (fun _ => ?_)
    | dsimp only
    | split

theorem sc_AcceptModuleAccess (S : Scoped B D) (h : AstHdr) (module_name : String)
    (right : Option AstNode) {visitRight : Option ModuleRef → Analyzer AstNode}
    (hr : ∀ m, Obeys B (visitRight m)) :
    Obeys B (AcceptModuleAccess h module_name right visitRight) := by
  unfold AcceptModuleAccess
  repeat' first
    | exact sc_pure S _
    | exact sc_throw _
    | exact sc_get S
    | exact sc_ErrorMsg S _ _ _
    | exact sc_WarningMessage S _ _ _
    | exact sc_InfoMsg S _ _ _
    | exact sc_IncrementUseCount S _
    | exact sc_registerModule S _ _
    | exact sc_newPtr S
    | exact sc_derefNode S _
    | exact sc_pushLocal S _ _
    | exact sc_writeSymbol S _ _ (fun _ => rfl)
    | exact hr _
    | assumption
    | refine sc_enter S _ ?_
    | refine sc_leave S ?_
    | refine sc_bind S ?_ (fun _ => ?_)
    | refine sc_dbind S ?_ (fun _ => ?_)
    | dsimp only
    | split

theorem sc_AcceptVariableDeclaration (S : Scoped B D) (env : Collab) (h : AstHdr)
    (name : String) (is_const : Bool) (assignment : Option AstNode)
    {visitAssignment : Analyzer (Option AstNode)} (hv : Obeys B visitAssignment) :
    Obeys B (AcceptVariableDeclaration env h name is_const assignment visitAssignment) := by
  unfold AcceptVariableDeclaration
  repeat' first
    | exact sc_pure S _
    | exact sc_throw _
    | exact sc_get S
    | exact sc_ErrorMsg S _ _ _
    | exact sc_WarningMessage S _ _ _
    | exact sc_InfoMsg S _ _ _
    | exact sc_IncrementUseCount S _
    | exact sc_registerModule S _ _
    | exact sc_newPtr S
    | exact sc_derefNode S _
    | exact sc_pushLocal S _ _
    | exact sc_writeSymbol S _ _ (fun _ => rfl)
    | exact sc_literalSide S _ _
    | assumption
    | refine sc_enter S _ ?_
    | refine sc_leave S ?_
    | refine sc_bind S ?_ (fun _ => ?_)
    | refine sc_dbind S ?_ (fun _ => ?_)
    | dsimp only
    | split

theorem sc_AcceptAlias (S : Scoped B D) (env : Collab) (h : AstHdr) (name : String)
    (alias_to : Option AstNode) {visitAliasTo : Analyzer (Option AstNode)}
    (hv : Obeys B visitAliasTo) : Obeys B (AcceptAlias env h name alias_to visitAliasTo) := by
  unfold AcceptAlias
  repeat' first
    | exact sc_pure S _
    | exact sc_throw _
    | exact sc_get S
    | exact sc_ErrorMsg S _ _ _
    | exact sc_WarningMessage S _ _ _
    | exact sc_InfoMsg S _ _ _
    | exact sc_IncrementUseCount S _
    | exact sc_registerModule S _ _
    | exact sc_newPtr S
    | exact sc_derefNode S _
    | exact sc_pushLocal S _ _
    | exact sc_writeSymbol S _ _ (fun _ => rfl)
    | assumption
    | refine sc_enter S _ ?_
    | refine sc_leave S ?_
    | refine sc_bind S ?_ (fun _ => ?_)
    | refine sc_dbind S ?_ (fun _ => ?_)
    | dsimp only
    | split

theorem sc_AcceptFunctionDefinition (S : Scoped B D) (env : Collab) (h : AstHdr)
    (name : String) (arguments : List String) (block : Option AstNode)
    {visitBody : Analyzer (List (Option AstNode))} (hv : Obeys B visitBody) :
    Obeys B (AcceptFunctionDefinition env h name arguments block visitBody) := by
  unfold AcceptFunctionDefinition
  repeat' first
    | exact sc_pure S _
    | exact sc_throw _
    | exact sc_get S
    | exact sc_ErrorMsg S _ _ _
    | exact sc_WarningMessage S _ _ _
    | exact sc_InfoMsg S _ _ _
    | exact sc_IncrementUseCount S _
    | exact sc_registerModule S _ _
    | exact sc_newPtr S
    | exact sc_derefNode S _
    | exact sc_pushLocal S _ _
    | exact sc_writeSymbol S _ _ (fun _ => rfl)
    | exact sc_ensureReturn S _ _ _ _ _
    | exact sc_declareParams S _ _ _ _
    | assumption
    | refine sc_enter S _ ?_
    | refine sc_leave S ?_
    | refine sc_bind S ?_ (fun _ => ?_)
    | refine sc_dbind S ?_ (fun _ => ?_)
    | dsimp only
    | split

theorem sc_AcceptFunctionExpression (S : Scoped B D) (env : Collab) (h : AstHdr)
    (arguments : List String) (block : Option AstNode)
    {visitBody : Analyzer (List (Option AstNode))} (hv : Obeys B visitBody) :
    Obeys B (AcceptFunctionExpression env h arguments block visitBody) := by
  unfold AcceptFunctionExpression
  repeat' first
    | exact sc_pure S _
    | exact sc_throw _
    | exact sc_get S
    | exact sc_ErrorMsg S _ _ _
    | exact sc_WarningMessage S _ _ _
    | exact sc_InfoMsg S _ _ _
    | exact sc_IncrementUseCount S _
    | exact sc_registerModule S _ _
    | exact sc_newPtr S
    | exact sc_derefNode S _
    | exact sc_pushLocal S _ _
    | exact sc_writeSymbol S _ _ (fun _ => rfl)
    | exact sc_ensureReturn S _ _ _ _ _
    | exact sc_declareParams S _ _ _ _
    | assumption
    | refine sc_enter S _ ?_
    | refine sc_leave S ?_
    | refine sc_bind S ?_ (fun _ => ?_)
    | refine sc_dbind S ?_ (fun _ => ?_)
    | dsimp only
    | split

theorem sc_AcceptFunctionCall (S : Scoped B D) (env : Collab) (h : AstHdr) (name : String)
    (arguments : List (Option AstNode)) (info : CallInfo)
    {visitArguments : Analyzer (List (Option AstNode))} (hv : Obeys B visitArguments) :
    Obeys B (AcceptFunctionCall env h name arguments info visitArguments) := by
  unfold AcceptFunctionCall
  repeat' first
    | exact sc_pure S _
    | exact sc_throw _
    | exact sc_get S
    | exact sc_ErrorMsg S _ _ _
    | exact sc_WarningMessage S _ _ _
    | exact sc_InfoMsg S _ _ _
    | exact sc_IncrementUseCount S _
    | exact sc_registerModule S _ _
    | exact sc_newPtr S
    | exact sc_derefNode S _
    | exact sc_pushLocal S _ _
    | exact sc_writeSymbol S _ _ (fun _ => rfl)
    | assumption
    | refine sc_enter S _ ?_
    | refine sc_leave S ?_
    | refine sc_bind S ?_ (fun _ => ?_)
    | refine sc_dbind S ?_ (fun _ => ?_)
    | dsimp only
    | split

theorem sc_AcceptIfStmt (S : Scoped B D) (h : AstHdr) (else_statement : Option AstNode)
    {visitConditional visitBlock visitElse : Analyzer (Option AstNode)}
    (hc : Obeys B visitConditional) (hb : Obeys B visitBlock) (he : Obeys B visitElse) :
    Obeys B (AcceptIfStmt h else_statement visitConditional visitBlock visitElse) := by
  unfold AcceptIfStmt
  repeat' first
    | exact sc_pure S _
    | exact sc_throw _
    | exact sc_get S
    | exact sc_ErrorMsg S _ _ _
    | exact sc_WarningMessage S _ _ _
    | exact sc_InfoMsg S _ _ _
    | exact sc_IncrementUseCount S _
    | exact sc_registerModule S _ _
    | exact sc_newPtr S
    | exact sc_derefNode S _
    | exact sc_pushLocal S _ _
    | exact sc_writeSymbol S _ _ (fun _ => rfl)
    | assumption
    | refine sc_enter S _ ?_
    | refine sc_leave S ?_
    | refine sc_bind S ?_ (fun _ => ?_)
    | refine sc_dbind S ?_ (fun _ => ?_)
    | dsimp only
    | split

theorem sc_AcceptForLoop (S : Scoped B D) (h : AstHdr) (block : Option AstNode)
    {visitInitializer visitConditional visitAfterthought visitBlock : Analyzer (Option AstNode)}
    (hi : Obeys B visitInitializer) (hc : Obeys B visitConditional)
    (ha : Obeys B visitAfterthought) (hb : Obeys B visitBlock) :
    Obeys B (AcceptForLoop h block visitInitializer visitConditional visitAfterthought
      visitBlock) := by
  unfold AcceptForLoop
  repeat' first
    | exact sc_pure S _
    | exact sc_throw _
    | exact sc_get S
    | exact sc_ErrorMsg S _ _ _
    | exact sc_WarningMessage S _ _ _
    | exact sc_InfoMsg S _ _ _
    | exact sc_IncrementUseCount S _
    | exact sc_registerModule S _ _
    | exact sc_newPtr S
    | exact sc_derefNode S _
    | exact sc_pushLocal S _ _
    | exact sc_writeSymbol S _ _ (fun _ => rfl)
    | exact sc_warnEmptyBody S _
    | assumption
    | refine sc_enter S _ ?_
    | refine sc_leave S ?_
    | refine sc_bind S ?_ (fun _ => ?_)
    | refine sc_dbind S ?_ (fun _ => ?_)
    | dsimp only
    | split

theorem sc_AcceptWhileLoop (S : Scoped B D) (h : AstHdr) (block : Option AstNode)
    {visitConditional visitBlock : Analyzer (Option AstNode)} (hc : Obeys B visitConditional)
    (hb : Obeys B visitBlock) :
    Obeys B (AcceptWhileLoop h block visitConditional visitBlock) := by
  unfold AcceptWhileLoop
  repeat' first
    | exact sc_pure S _
    | exact sc_throw _
    | exact sc_get S
    | exact sc_ErrorMsg S _ _ _
    | exact sc_WarningMessage S _ _ _
    | exact sc_InfoMsg S _ _ _
    | exact sc_IncrementUseCount S _
    | exact sc_registerModule S _ _
    | exact sc_newPtr S
    | exact sc_derefNode S _
    | exact sc_pushLocal S _ _
    | exact sc_writeSymbol S _ _ (fun _ => rfl)
    | exact sc_warnEmptyBody S _
    | assumption
    | refine sc_enter S _ ?_
    | refine sc_leave S ?_
    | refine sc_bind S ?_ (fun _ => ?_)
    | refine sc_dbind S ?_ (fun _ => ?_)
    | dsimp only
    | split

theorem sc_AcceptTryCatch (S : Scoped B D) (h : AstHdr) (try_block catch_block : Option AstNode)
    {visitTry visitCatch visitException : Analyzer (Option AstNode)} (ht : Obeys B visitTry)
    (hc : Obeys B visitCatch) (he : Obeys B visitException) :
    Obeys B (AcceptTryCatch h try_block catch_block visitTry visitCatch visitException) := by
  unfold AcceptTryCatch
  repeat' first
    | exact sc_pure S _
    | exact sc_throw _
    | exact sc_get S
    | exact sc_ErrorMsg S _ _ _
    | exact sc_WarningMessage S _ _ _
    | exact sc_InfoMsg S _ _ _
    | exact sc_IncrementUseCount S _
    | exact sc_registerModule S _ _
    | exact sc_newPtr S
    | exact sc_derefNode S _
    | exact sc_pushLocal S _ _
    | exact sc_writeSymbol S _ _ (fun _ => rfl)
    | exact sc_warnEmptyBody S _
    | assumption
    | refine sc_enter S _ ?_
    | refine sc_leave S ?_
    | refine sc_bind S ?_ (fun _ => ?_)
    | refine sc_dbind S ?_ (fun _ => ?_)
    | dsimp only
    | split

theorem sc_blockStep (S : Scoped B D) (a b : Bool) (child : Option AstNode) :
    Obeys B (blockStep a b child) := by
  unfold blockStep
  repeat' first
    | exact sc_pure S _
    | exact sc_throw _
    | exact sc_get S
    | exact sc_ErrorMsg S _ _ _
    | exact sc_WarningMessage S _ _ _
    | exact sc_InfoMsg S _ _ _
    | exact sc_IncrementUseCount S _
    | exact sc_registerModule S _ _
    | exact sc_newPtr S
    | exact sc_derefNode S _
    | exact sc_pushLocal S _ _
    | exact sc_writeSymbol S _ _ (fun _ => rfl)
    | assumption
    | refine sc_enter S _ ?_
    | refine sc_leave S ?_
    | refine sc_bind S ?_ (fun _ => ?_)
    | refine sc_dbind S ?_ (fun _ => ?_)
    | dsimp only
    | split

theorem sc_wrap (S : Scoped B D) {α β : Type} {m : Analyzer α} (f : α → β) (hm : Obeys B m) :
    Obeys B (m >>= fun a => pure (f a)) :=
  sc_bind S hm (fun _ => sc_pure S _)

end scopes

/-! ### Every visit respects a pair of scoped relations -/

mutual
theorem accept_scoped {B D : CompilerState → CompilerState → Prop} (S : Scoped B D)
    (env : Collab) : ∀ (n : AstNode) (ov : Option ModuleRef),
    Obeys B (Accept env ov n)
  | .imports _ children, _ => sc_wrap S _ (acceptChildren_scoped S env children)
  | .import_ _ _ _ _ _ _ unit_children, _ =>
    sc_AcceptImport S _ _ _ _ _ _ _ (acceptChildren_scoped S env unit_children)
  | .statement _, _ => sc_pure S _
  | .block _ children, _ => sc_wrap S _ (acceptBlock_scoped S env children false false)
  | .expression _ child, _ => sc_wrap S _ (acceptPtr_scoped S env child)
  | .binop _ _ left right, _ =>
    sc_AcceptBinaryOp S _ _ _ (acceptPtr_scoped S env left) (acceptPtr_scoped S env right)
  | .unop _ child, _ => sc_wrap S _ (acceptPtr_scoped S env child)
  | .array_access _ object index, _ =>
    sc_bind S (acceptPtr_scoped S env object) (fun _ => sc_wrap S _ (acceptPtr_scoped S env index))
  | .member_access _ _ left right, _ =>
    sc_AcceptMemberAccess S _ _ _ _ _ (acceptPtr_scoped S env left)
      (fun m => acceptDeref_scoped S env right m)
  | .module_access _ _ right, _ =>
    sc_AcceptModuleAccess S _ _ _ (fun m => acceptDeref_scoped S env right m)
  | .var_declaration _ _ _ assignment, _ =>
    sc_AcceptVariableDeclaration S _ _ _ _ _ (acceptPtr_scoped S env assignment)
  | .alias _ _ alias_to, _ => sc_AcceptAlias S _ _ _ _ (acceptPtr_scoped S env alias_to)
  | .use_module _ _, _ => sc_bind S (sc_ErrorMsg S _ _ _) (fun _ => sc_pure S _)
  | .variable _ _ _, _ => sc_AcceptVariable S _ _ _ _
  | .integer _ _, _ => sc_pure S _
  | .float _, _ => sc_pure S _
  | .string _ _, _ => sc_pure S _
  | .true_ _, _ => sc_pure S _
  | .false_ _, _ => sc_pure S _
  | .null _, _ => sc_pure S _
  | .self _, _ => sc_pure S _
  | .new _, _ => sc_pure S _
  | .function_definition _ _ _ block, _ =>
    sc_AcceptFunctionDefinition S _ _ _ _ _ (acceptBody_scoped S env block)
  | .function_expression _ _ block, _ =>
    sc_AcceptFunctionExpression S _ _ _ _ (acceptBody_scoped S env block)
  | .function_call _ _ arguments _, _ =>
    sc_AcceptFunctionCall S _ _ _ _ _ (acceptArgsRev_scoped S env arguments)
  | .class_declaration _, _ => sc_pure S _
  | .object_expression _ members, _ => sc_wrap S _ (acceptMembers_scoped S env members)
  | .enum _ _ _, _ => sc_bind S (sc_declareEnumMembers S _ _) (fun _ => sc_pure S _)
  | .print _ arguments, _ => sc_wrap S _ (acceptChildren_scoped S env arguments)
  | .return_ _ value, _ => sc_wrap S _ (acceptPtr_scoped S env value)
  | .if_statement _ conditional block else_statement, _ =>
    sc_AcceptIfStmt S _ _ (acceptPtr_scoped S env conditional) (acceptPtr_scoped S env block)
      (acceptPtr_scoped S env else_statement)
  | .for_loop _ initializer conditional afterthought block, _ =>
    sc_AcceptForLoop S _ _ (acceptPtr_scoped S env initializer) (acceptPtr_scoped S env conditional)
      (acceptPtr_scoped S env afterthought) (acceptPtr_scoped S env block)
  | .while_loop _ conditional block, _ =>
    sc_AcceptWhileLoop S _ _ (acceptPtr_scoped S env conditional) (acceptPtr_scoped S env block)
  | .try_catch _ try_block catch_block exception_object, _ =>
    sc_AcceptTryCatch S _ _ _ (acceptPtr_scoped S env try_block) (acceptPtr_scoped S env catch_block)
      (acceptPtr_scoped S env exception_object)
  | .range _, _ => sc_bind S (sc_ErrorMsg S _ _ _) (fun _ => sc_pure S _)
theorem acceptPtr_scoped {B D : CompilerState → CompilerState → Prop} (S : Scoped B D)
    (env : Collab) : ∀ (p : Option AstNode), Obeys B (AcceptPtr env p)
  | none => sc_pure S _
  | some n => sc_wrap S _ (accept_scoped S env n none)
theorem acceptDeref_scoped {B D : CompilerState → CompilerState → Prop} (S : Scoped B D)
    (env : Collab) : ∀ (p : Option AstNode) (m : Option ModuleRef),
    Obeys B (AcceptDeref env m p)
  | none, _ => sc_throw _
  | some n, m => accept_scoped S env n m
theorem acceptChildren_scoped {B D : CompilerState → CompilerState → Prop} (S : Scoped B D)
    (env : Collab) : ∀ (l : List (Option AstNode)),
    Obeys B (AcceptChildren env l)
  | [] => sc_pure S _
  | child :: rest =>
    sc_bind S (acceptPtr_scoped S env child) (fun _ => sc_wrap S _ (acceptChildren_scoped S env rest))
theorem acceptArgsRev_scoped {B D : CompilerState → CompilerState → Prop} (S : Scoped B D)
    (env : Collab) : ∀ (l : List (Option AstNode)),
    Obeys B (AcceptArgsRev env l)
  | [] => sc_pure S _
  | arg :: rest =>
    sc_bind S (acceptArgsRev_scoped S env rest) (fun _ => sc_wrap S _ (acceptPtr_scoped S env arg))
theorem acceptBlock_scoped {B D : CompilerState → CompilerState → Prop} (S : Scoped B D)
    (env : Collab) : ∀ (l : List (Option AstNode)) (a b : Bool),
    Obeys B (AcceptBlock env a b l)
  | [], _, _ => sc_pure S _
  | child :: rest, a, b =>
    sc_bind S (acceptPtr_scoped S env child) (fun c => sc_bind S (sc_blockStep S a b c)
      (fun flags => sc_wrap S _ (acceptBlock_scoped S env rest flags.1 flags.2)))
theorem acceptMembers_scoped {B D : CompilerState → CompilerState → Prop} (S : Scoped B D)
    (env : Collab) : ∀ (l : List (String × Option AstNode)),
    Obeys B (AcceptMembers env l)
  | [] => sc_pure S _
  | member :: rest =>
    sc_bind S (acceptPtr_scoped S env member.2) (fun _ =>
      sc_wrap S _ (acceptMembers_scoped S env rest))
theorem acceptBody_scoped {B D : CompilerState → CompilerState → Prop} (S : Scoped B D)
    (env : Collab) : ∀ (p : Option AstNode), Obeys B (AcceptBody env p)
  | none => sc_pure S _
  | some n => by
    cases n with
    | block _ children => exact acceptBlock_scoped S env children false false
    | _ => exact sc_pure S _
end

/-! ## The semantic analyzer: the names a scope leaves behind -/

theorem stable_of_levels {st st1 : CompilerState} (hl : st1.level = st.level)
    (hs : st1.levels = st.levels) : Stable st st1 :=
  ⟨hl, fun l _ => by rw [hs], [], by rw [hs]; simp⟩

theorem names_set (ls : List (String × Symbol)) (i : Nat) (e : String × Symbol) (s : Symbol)
    (he : ls.get? i = some e) : (ls.set i (e.1, s)).map Prod.fst = ls.map Prod.fst := by
  induction ls generalizing i with
  | nil => simp at he
  | cons x ls ih =>
    cases i with
    | zero =>
      simp only [List.get?_cons_zero, Option.some.injEq] at he
      subst he
      rfl
    | succ i =>
      simp only [List.get?_cons_succ] at he
      simp only [List.set_cons_succ, List.map_cons, ih i he]

theorem stableScoped : Scoped Stable Descends where
  refl := fun st => ⟨rfl, fun _ _ => rfl, [], by simp⟩
  trans := by
    rintro a b c ⟨h1, h2, e1, h3⟩ ⟨g1, g2, e2, g3⟩
    refine ⟨g1.trans h1, fun l hl => ?_, e1 ++ e2, ?_⟩
    · rw [g2 l (by rw [h1]; exact hl), h2 l hl]
    · rw [← h1, g3, h1, h3, List.append_assoc]
  into := by
    rintro a b c ⟨h1, h2, e1, h3⟩ ⟨g1, g2, e2, g3⟩
    refine ⟨by rw [g1, h1], fun l hl => ?_, e2, ?_⟩
    · rw [g2 l (by rw [h1]; exact hl), h2 l (by omega)]
    · rw [← h1, g3, h1, h2 _ (by omega)]
  out := by
    rintro a b c ⟨h1, h2, e1, h3⟩ ⟨g1, g2, e2, g3⟩
    refine ⟨g1.trans h1, fun l hl => ?_, e1 ++ e2, ?_⟩
    · rw [g2 l (by rw [h1]; exact hl), h2 l hl]
    · rw [← h1, g3, h1, h3, List.append_assoc]
  errors := fun _ _ => stable_of_levels rfl rfl
  useCount := fun _ _ => stable_of_levels rfl rfl
  nextPtr := fun _ => stable_of_levels rfl rfl
  modules := fun _ _ => stable_of_levels rfl rfl
  push := by
    intro st name symbol
    refine ⟨rfl, fun l hl => ?_, [name], ?_⟩
    · show ((Function.update st.levels st.level _) l).names = _
      rw [Function.update_noteq (by omega)]
    · show ((Function.update st.levels st.level _) st.level).names = _
      rw [Function.update_same]
      simp [LevelInfo.names]
  write := by
    intro st q e f he _
    have key : ∀ l, ((st.written q e f).levels l).names = (st.levels l).names := by
      intro l
      show ((Function.update st.levels q.1 _) l).names = _
      by_cases hl : l = q.1
      · subst hl
        rw [Function.update_same]
        exact names_set _ _ _ _ he
      · rw [Function.update_noteq hl]
    exact ⟨rfl, fun l _ => key l, [], by rw [key]; simp⟩
  enter := by
    rintro st type s2 ⟨g1, g2, e, g3⟩
    refine ⟨by rw [g1]; show st.level + 1 - 1 = st.level; omega, fun l hl => ?_, e, ?_⟩
    · rw [g2 l (by show l < st.level + 1 - 1; omega)]
      show ((Function.update st.levels (st.level + 1) _) l).names = _
      rw [Function.update_noteq (by omega)]
    · have e1 : st.level + 1 - 1 = st.level := by omega
      have g4 : (s2.levels (st.level + 1 - 1)).names =
          ((Function.update st.levels (st.level + 1) (LevelInfo.mk type []))
            (st.level + 1 - 1)).names ++ e := g3
      rw [e1, Function.update_noteq (by omega)] at g4
      exact g4
  leave := by
    intro st
    refine ⟨rfl, fun l hl => ?_, [], ?_⟩
    · show ((Function.update st.levels st.level _) l).names = _
      rw [Function.update_noteq (by omega)]
    · show ((Function.update st.levels st.level _) (st.level - 1)).names = _
      rw [Function.update_noteq (by omega)]
      simp

/-- What the visitors run inside a scope keeps the names of the levels below
it. -/
theorem scopeBody_stable (env : Collab) {α : Type} {m : Analyzer α} (hm : ScopeBody env m) :
    Obeys Stable m := by
  cases hm with
  | block p => exact acceptPtr_scoped stableScoped env p
  | catchBlock e c =>
    exact sc_bind stableScoped (acceptPtr_scoped stableScoped env e) (fun _ =>
      sc_wrap stableScoped _ (acceptPtr_scoped stableScoped env c))
  | function module node arguments block =>
    exact sc_bind stableScoped (sc_declareParams stableScoped env module node arguments)
      (fun _ => acceptBody_scoped stableScoped env block)

/-- A scope that is pushed, filled and popped leaves every level up to the
one it was pushed from with the names it had, and the popped level empty. -/
theorem inScope_names {α : Type} (type : LevelType) {m : Analyzer α} (hm : Obeys Stable m)
    (st : CompilerState) (r : α × CompilerState) (hr : inScope type m st = .ok r) :
    r.2.level = st.level ∧
      (∀ l, l ≤ st.level → (r.2.levels l).names = (st.levels l).names) ∧
      (r.2.levels (st.level + 1)).locals = [] := by
  obtain ⟨a, s3⟩ := r
  unfold inScope at hr
  rw [run_bind (run_IncreaseBlock type st)] at hr
  obtain ⟨a1, s2, h1, h2⟩ := bind_ok hr
  rw [run_bind (run_DecreaseBlock_exact s2)] at h2
  cases h2
  obtain ⟨g1, g2, -⟩ := hm _ _ _ h1
  have g1' : s2.level = st.level + 1 := g1
  refine ⟨by show s2.level - 1 = st.level; omega, fun l hl => ?_, ?_⟩
  · show ((Function.update s2.levels s2.level _) l).names = _
    rw [Function.update_noteq (by omega), g2 l (by show l < st.level + 1; omega)]
    show ((Function.update st.levels (st.level + 1) _) l).names = _
    rw [Function.update_noteq (by omega)]
  · show ((Function.update s2.levels s2.level _) (st.level + 1)).locals = []
    rw [← g1', Function.update_same]

theorem findLocal_names (name : String) (ls1 ls2 : List (String × Symbol))
    (h : ls1.map Prod.fst = ls2.map Prod.fst) :
    (findLocal name ls1).map Prod.fst = (findLocal name ls2).map Prod.fst := by
  induction ls1 generalizing ls2 with
  | nil =>
    cases ls2 with
    | nil => rfl
    | cons y ls2 => simp at h
  | cons x ls1 ih =>
    cases ls2 with
    | nil => simp at h
    | cons y ls2 =>
      obtain ⟨k1, v1⟩ := x
      obtain ⟨k2, v2⟩ := y
      simp only [List.map_cons, List.cons.injEq] at h
      obtain ⟨hk, ht⟩ := h
      have hk' : k1 = k2 := hk
      subst hk'
      unfold findLocal
      by_cases hn : k1 = name
      · simp only [hn, if_true, Option.map_some']
      · simp only [hn, if_false, Option.map_map]
        have := ih ls2 ht
        cases h1 : findLocal name ls1 <;> cases h2 : findLocal name ls2 <;>
          simp [h1, h2] at this ⊢
        exact this

/-- A lookup finds a symbol at a position that depends only on the names the
levels up to the current one hold. -/
theorem findVariable_names (st st1 : CompilerState) (hl : st1.level = st.level)
    (hn : ∀ l, l ≤ st.level → (st1.levels l).names = (st.levels l).names)
    (name : String) (b : Bool) :
    (FindVariable st1 name b).map Prod.fst = (FindVariable st name b).map Prod.fst := by
  have key : ∀ n start, start ≤ st.level →
      (findVariableFrom st1 name b n start).map Prod.fst =
        (findVariableFrom st name b n start).map Prod.fst := by
    intro n
    induction n with
    | zero => intro start _; rfl
    | succ n ih =>
      intro start hs
      unfold findVariableFrom
      have h1 := findLocal_names name _ _ (hn start hs)
      cases g1 : findLocal name (st1.levels start).locals <;>
        cases g2 : findLocal name (st.levels start).locals <;>
        simp only [g1, g2, Option.map_none', Option.map_some', reduceCtorEq,
          Option.some.injEq] at h1
      · simp only []
        cases b with
        | true => rfl
        | false => exact ih (start - 1) (by omega)
      · simp only [Option.map_some', h1]
  unfold FindVariable
  rw [hl]
  exact key _ _ (le_refl _)

/-! ## The semantic analyzer: the scopes the visitors open -/

theorem acceptIf_scopes (env : Collab) (ov : Option ModuleRef) (h : AstHdr)
    (conditional block else_statement : Option AstNode) :
    Accept env ov (.if_statement h conditional block else_statement) =
      (AcceptPtr env conditional >>= fun c =>
        inScope .Level_condition (AcceptPtr env block) >>= fun b =>
        if else_statement.isSome then
          inScope .Level_condition (AcceptPtr env else_statement) >>= fun e =>
          pure (.if_statement (h.withModule ov) c b e)
        else pure (.if_statement (h.withModule ov) c b else_statement)) := by
  show AcceptIfStmt (h.withModule ov) else_statement (AcceptPtr env conditional)
    (AcceptPtr env block) (AcceptPtr env else_statement) = _
  unfold AcceptIfStmt inScope
  simp only [bind_assoc, pure_bind]

theorem acceptWhile_scopes (env : Collab) (ov : Option ModuleRef) (h : AstHdr)
    (conditional block : Option AstNode) :
    Accept env ov (.while_loop h conditional block) =
      (AcceptPtr env conditional >>= fun c =>
        warnEmptyBody block >>= fun _ =>
        inScope .Level_loop (AcceptPtr env block) >>= fun b =>
        pure (.while_loop (h.withModule ov) c b)) := by
  show AcceptWhileLoop (h.withModule ov) block (AcceptPtr env conditional)
    (AcceptPtr env block) = _
  unfold AcceptWhileLoop inScope
  simp only [bind_assoc, pure_bind]

theorem acceptFor_scopes (env : Collab) (ov : Option ModuleRef) (h : AstHdr)
    (initializer conditional afterthought block : Option AstNode) :
    Accept env ov (.for_loop h initializer conditional afterthought block) =
      (warnEmptyBody block >>= fun _ =>
        AcceptPtr env initializer >>= fun i =>
        AcceptPtr env conditional >>= fun c =>
        inScope .Level_loop (AcceptPtr env block) >>= fun b =>
        AcceptPtr env afterthought >>= fun a =>
        pure (.for_loop (h.withModule ov) i c a b)) := by
  show AcceptForLoop (h.withModule ov) block (AcceptPtr env initializer)
    (AcceptPtr env conditional) (AcceptPtr env afterthought) (AcceptPtr env block) = _
  unfold AcceptForLoop inScope
  simp only [bind_assoc, pure_bind]

theorem acceptTryCatch_scopes (env : Collab) (ov : Option ModuleRef) (h : AstHdr)
    (try_block catch_block exception_object : Option AstNode) :
    Accept env ov (.try_catch h try_block catch_block exception_object) =
      (warnEmptyBody try_block >>= fun _ =>
        inScope .Level_default (AcceptPtr env try_block) >>= fun t =>
        warnEmptyBody catch_block >>= fun _ =>
        inScope .Level_default (AcceptPtr env exception_object >>= fun e =>
          AcceptPtr env catch_block >>= fun c => pure (e, c)) >>= fun ec =>
        pure (.try_catch (h.withModule ov) t ec.2 ec.1)) := by
  show AcceptTryCatch (h.withModule ov) try_block catch_block (AcceptPtr env try_block)
    (AcceptPtr env catch_block) (AcceptPtr env exception_object) = _
  unfold AcceptTryCatch inScope
  simp only [bind_assoc, pure_bind]

theorem acceptExpression_scopes (env : Collab) (ov : Option ModuleRef) (h bh : AstHdr)
    (arguments : List String) (children : List (Option AstNode)) :
    Accept env ov (.function_expression h arguments (some (.block bh children))) =
      (ensureReturn true "unnamed" (h.withModule ov).module bh children >>= fun extended =>
        inScope .Level_function
          (declareParams env (h.withModule ov).module
            (some ⟨(h.withModule ov).ptr, .Ast_type_function_expression,
              (h.withModule ov).location, (h.withModule ov).attributes⟩) arguments >>= fun _ =>
            AcceptBody env (some (.block bh children))) >>= fun cs =>
        pure (.function_expression (h.withModule ov) arguments
          (some (.block bh (cs ++ extended.drop children.length))))) := by
  show AcceptFunctionExpression env (h.withModule ov) arguments (some (.block bh children))
    (AcceptBody env (some (.block bh children))) = _
  unfold AcceptFunctionExpression inScope
  simp only [bind_assoc, pure_bind]

theorem acceptDefinition_scopes (env : Collab) (ov : Option ModuleRef) (st : CompilerState)
    (h bh : AstHdr) (name : String) (arguments : List String)
    (children : List (Option AstNode))
    (hnew : env.MakeVariableName st name (h.withModule ov).module ∉ (st.levels st.level).names)
    (hmod : env.FindModule st name (h.withModule ov).module = none) :
    Accept env ov (.function_definition h name arguments (some (.block bh children))) st =
      ((if !(h.withModule ov).HasAttribute "inline" then
          pushLocal (env.MakeVariableName st name (h.withModule ov).module)
            { node := some ⟨(h.withModule ov).ptr, .Ast_type_function_definition,
                (h.withModule ov).location, (h.withModule ov).attributes⟩
              original_name := name, owner_level := st.level, field_index := st.localsSize }
        else pure ()) >>= fun _ =>
        ensureReturn false name (h.withModule ov).module bh children >>= fun extended =>
        inScope .Level_function
          (declareParams env (h.withModule ov).module none arguments >>= fun _ =>
            AcceptBody env (some (.block bh children))) >>= fun cs =>
        get >>= fun st1 =>
        (if (h.withModule ov).HasAttribute "inline" then
          pushLocal (env.MakeVariableName st name (h.withModule ov).module)
            { node := some ⟨(h.withModule ov).ptr, .Ast_type_function_definition,
                (h.withModule ov).location, (h.withModule ov).attributes⟩
              original_name := name, is_const := true, owner_level := st1.level
              field_index := st1.localsSize }
        else pure ()) >>= fun _ =>
        pure (.function_definition (h.withModule ov) name arguments
          (some (.block bh (cs ++ extended.drop children.length))))) st := by
  show AcceptFunctionDefinition env (h.withModule ov) name arguments
    (some (.block bh children)) (AcceptBody env (some (.block bh children))) st = _
  unfold AcceptFunctionDefinition inScope
  rw [run_bind (run_get st)]
  simp only [findVariable_this_none st _ hnew, hmod, Option.isSome_none, Bool.false_eq_true,
    if_false, bind_assoc, pure_bind]

/-- C30: the six constructs that open a scope do so by the pattern
`IncreaseBlock(type); body; DecreaseBlock()`: the if statement around each of
its branches, the while and for loops around their body, the try/catch around
the try block and around the exception object and catch block, the function
expression and the function definition around the parameter loop and the
body.  Whenever such a scope returns, the level is the one it was opened from,
every level up to that one holds exactly the names it held when the scope was
opened, in the same order, and the popped level holds no symbol.  So
`FindVariable`, for every name and either flag, finds a symbol afterwards
exactly when it found one before the scope was opened, and at the same level
and position: no symbol declared inside the scope is resolved any more. -/
theorem scope_exit_forgets (env : Collab) :
    (∀ {α : Type} (type : LevelType) (m : Analyzer α), ScopeBody env m →
      ∀ (st : CompilerState) (r : α × CompilerState), inScope type m st = .ok r →
        r.2.level = st.level ∧
        (∀ l, l ≤ st.level → (r.2.levels l).names = (st.levels l).names) ∧
        (r.2.levels (st.level + 1)).locals = [] ∧
        ∀ (name : String) (b : Bool),
          (FindVariable r.2 name b).map Prod.fst = (FindVariable st name b).map Prod.fst) ∧
    (∀ (ov : Option ModuleRef) (h : AstHdr) (conditional block else_statement : Option AstNode),
      ScopeBody env (AcceptPtr env block) ∧ ScopeBody env (AcceptPtr env else_statement) ∧
      Accept env ov (.if_statement h conditional block else_statement) =
        (AcceptPtr env conditional >>= fun c =>
          inScope .Level_condition (AcceptPtr env block) >>= fun b =>
          if else_statement.isSome then
            inScope .Level_condition (AcceptPtr env else_statement) >>= fun e =>
            pure (.if_statement (h.withModule ov) c b e)
          else pure (.if_statement (h.withModule ov) c b else_statement))) ∧
    (∀ (ov : Option ModuleRef) (h : AstHdr) (conditional block : Option AstNode),
      Accept env ov (.while_loop h conditional block) =
        (AcceptPtr env conditional >>= fun c =>
          warnEmptyBody block >>= fun _ =>
          inScope .Level_loop (AcceptPtr env block) >>= fun b =>
          pure (.while_loop (h.withModule ov) c b))) ∧
    (∀ (ov : Option ModuleRef) (h : AstHdr)
        (initializer conditional afterthought block : Option AstNode),
      Accept env ov (.for_loop h initializer conditional afterthought block) =
        (warnEmptyBody block >>= fun _ =>
          AcceptPtr env initializer >>= fun i =>
          AcceptPtr env conditional >>= fun c =>
          inScope .Level_loop (AcceptPtr env block) >>= fun b =>
          AcceptPtr env afterthought >>= fun a =>
          pure (.for_loop (h.withModule ov) i c a b))) ∧
    (∀ (ov : Option ModuleRef) (h : AstHdr)
        (try_block catch_block exception_object : Option AstNode),
      ScopeBody env (AcceptPtr env exception_object >>= fun e =>
        AcceptPtr env catch_block >>= fun c => pure (e, c)) ∧
      Accept env ov (.try_catch h try_block catch_block exception_object) =
        (warnEmptyBody try_block >>= fun _ =>
          inScope .Level_default (AcceptPtr env try_block) >>= fun t =>
          warnEmptyBody catch_block >>= fun _ =>
          inScope .Level_default (AcceptPtr env exception_object >>= fun e =>
            AcceptPtr env catch_block >>= fun c => pure (e, c)) >>= fun ec =>
          pure (.try_catch (h.withModule ov) t ec.2 ec.1))) ∧
    (∀ (ov : Option ModuleRef) (h bh : AstHdr) (arguments : List String)
        (children : List (Option AstNode)),
      ScopeBody env (declareParams env (h.withModule ov).module
        (some ⟨(h.withModule ov).ptr, .Ast_type_function_expression,
          (h.withModule ov).location, (h.withModule ov).attributes⟩) arguments >>= fun _ =>
        AcceptBody env (some (.block bh children))) ∧
      Accept env ov (.function_expression h arguments (some (.block bh children))) =
        (ensureReturn true "unnamed" (h.withModule ov).module bh children >>= fun extended =>
          inScope .Level_function
            (declareParams env (h.withModule ov).module
              (some ⟨(h.withModule ov).ptr, .Ast_type_function_expression,
                (h.withModule ov).location, (h.withModule ov).attributes⟩) arguments >>=
              fun _ => AcceptBody env (some (.block bh children))) >>= fun cs =>
          pure (.function_expression (h.withModule ov) arguments
            (some (.block bh (cs ++ extended.drop children.length)))))) ∧
    (∀ (ov : Option ModuleRef) (st : CompilerState) (h bh : AstHdr) (name : String)
        (arguments : List String) (children : List (Option AstNode)),
      env.MakeVariableName st name (h.withModule ov).module ∉ (st.levels st.level).names →
      env.FindModule st name (h.withModule ov).module = none →
      Accept env ov (.function_definition h name arguments (some (.block bh children))) st =
        ((if !(h.withModule ov).HasAttribute "inline" then
            pushLocal (env.MakeVariableName st name (h.withModule ov).module)
              { node := some ⟨(h.withModule ov).ptr, .Ast_type_function_definition,
                  (h.withModule ov).location, (h.withModule ov).attributes⟩
                original_name := name, owner_level := st.level, field_index := st.localsSize }
          else pure ()) >>= fun _ =>
          ensureReturn false name (h.withModule ov).module bh children >>= fun extended =>
          inScope .Level_function
            (declareParams env (h.withModule ov).module none arguments >>= fun _ =>
              AcceptBody env (some (.block bh children))) >>= fun cs =>
          get >>= fun st1 =>
          (if (h.withModule ov).HasAttribute "inline" then
            pushLocal (env.MakeVariableName st name (h.withModule ov).module)
              { node := some ⟨(h.withModule ov).ptr, .Ast_type_function_definition,
                  (h.withModule ov).location, (h.withModule ov).attributes⟩
                original_name := name, is_const := true, owner_level := st1.level
                field_index := st1.localsSize }
          else pure ()) >>= fun _ =>
          pure (.function_definition (h.withModule ov) name arguments
            (some (.block bh (cs ++ extended.drop children.length))))) st) := by
  refine ⟨?_, fun ov h c b e => ⟨ScopeBody.block b, ScopeBody.block e,
      acceptIf_scopes env ov h c b e⟩,
    acceptWhile_scopes env, acceptFor_scopes env,
    fun ov h t c e => ⟨ScopeBody.catchBlock e c, acceptTryCatch_scopes env ov h t c e⟩,
    fun ov h bh args children => ⟨ScopeBody.function _ _ _ _,
      acceptExpression_scopes env ov h bh args children⟩,
    acceptDefinition_scopes env⟩
  intro α type m hm st r hr
  obtain ⟨h1, h2, h3⟩ := inScope_names type (scopeBody_stable env hm) st r hr
  exact ⟨h1, h2, h3, fun name b => findVariable_names st r.2 h1 h2 name b⟩

/-- C30 on `if (c) { let x = 1 } else { x }` followed by `x`: once the scope
of the then-branch has returned, `x` resolves to no symbol; the references to
`x` in the else-branch and after the if statement are reported as
undeclared. -/
theorem scope_exit_forgets_witness :
    (∃ r, inScope .Level_condition (AcceptPtr plainEnv (some (.block (hdrAt 5)
        [some (.var_declaration (hdrAt 6) "x" false (some (.integer (hdrAt 7) 1)))])))
        globalState = .ok r ∧ FindVariable r.2 "x" false = none) ∧
    (∃ r, AcceptModule plainEnv ifThenElseProgram globalState = .ok r ∧
      r.2.errors = [⟨.warning, .Msg_unused_identifier, ⟨6, 0, "main"⟩, ["x"]⟩,
        ⟨.error, .Msg_undeclared_identifier, ⟨9, 0, "main"⟩, ["x"]⟩,
        ⟨.error, .Msg_undeclared_identifier, ⟨10, 0, "main"⟩, ["x"]⟩]) := by
  refine ⟨⟨_, rfl, ?_⟩, ⟨_, rfl, rfl⟩⟩
  have h := ((scope_exit_forgets plainEnv).1 .Level_condition _
    (ScopeBody.block (some (.block (hdrAt 5)
      [some (.var_declaration (hdrAt 6) "x" false (some (.integer (hdrAt 7) 1)))])))
    globalState _ rfl).2.2.2 "x" false
  exact Option.map_eq_none'.mp (h.trans rfl)

/-! ## Use counts: the scopes of a state of the analyzer -/

set_option linter.unusedTactic false
set_option linter.unreachableTactic false

theorem scopes_levels (st : CompilerState) (l : Int) :
    st.scopes.levels l = (st.levels l).locals.map (fun e => e.2.binding e.1) := rfl

theorem findBinding_map (name : String) (ls : List (String × Symbol)) :
    findBinding name (ls.map (fun e => e.2.binding e.1)) =
      (findLocal name ls).map (fun r => r.2.binding name) := by
  induction ls with
  | nil => rfl
  | cons x ls ih =>
    obtain ⟨key, value⟩ := x
    show (if key = name then some (value.binding key) else
        findBinding name (ls.map (fun e => e.2.binding e.1))) = _
    unfold findLocal
    by_cases hk : key = name
    · subst hk
      simp only [if_true, Option.map_some']
    · simp only [hk, if_false, ih, Option.map_map]
      rfl

theorem scopes_findFrom (st : CompilerState) (name : String) (b : Bool) (n : Nat)
    (start : Int) :
    st.scopes.findFrom name b n start =
      (findVariableFrom st name b n start).map (fun r => r.2.binding name) := by
  induction n generalizing start with
  | zero => rfl
  | succ n ih =>
    unfold Scopes.findFrom findVariableFrom
    rw [scopes_levels, findBinding_map]
    cases findLocal name (st.levels start).locals with
    | some r => rfl
    | none =>
      cases b with
      | true => rfl
      | false => exact ih (start - 1)

/-- The lookup of the rules finds the binding of the symbol `FindVariable`
finds. -/
theorem scopes_find (st : CompilerState) (name : String) (b : Bool) :
    st.scopes.find name b = (FindVariable st name b).map (fun r => r.2.binding name) :=
  scopes_findFrom st name b _ _

theorem scopes_find_isSome (st : CompilerState) (name : String) (b : Bool) :
    (FindVariable st name b).isSome = (st.scopes.find name b).isSome := by
  rw [scopes_find]
  cases FindVariable st name b <;> rfl

theorem scopes_ext {a b : Scopes} (h1 : a.level = b.level)
    (h2 : ∀ l, a.levels l = b.levels l) (h3 : a.modules = b.modules) : a = b := by
  obtain ⟨al, av, am⟩ := a
  obtain ⟨bl, bv, bm⟩ := b
  simp only at h1 h2 h3
  subst h1
  subst h3
  have : av = bv := funext h2
  subst this
  rfl

theorem scopes_pushed (st : CompilerState) (name : String) (symbol : Symbol) :
    (st.pushed name symbol).scopes = st.scopes.declare (symbol.binding name) := by
  refine scopes_ext rfl (fun l => ?_) rfl
  show ((Function.update st.levels st.level _) l).locals.map _ =
    Function.update st.scopes.levels st.level _ l
  by_cases hl : l = st.level
  · subst hl
    rw [Function.update_same, Function.update_same, scopes_levels]
    simp only [List.map_append, List.map_cons, List.map_nil]
    rfl
  · rw [Function.update_noteq hl, Function.update_noteq hl]
    rfl

theorem scopes_entered (st : CompilerState) (type : LevelType) :
    CompilerState.scopes
      { st with
        level := st.level + 1
        levels := Function.update st.levels (st.level + 1) ⟨type, []⟩ } = st.scopes.enter := by
  refine scopes_ext rfl (fun l => ?_) rfl
  show ((Function.update st.levels (st.level + 1) _) l).locals.map _ =
    Function.update st.scopes.levels (st.level + 1) _ l
  by_cases hl : l = st.level + 1
  · subst hl
    rw [Function.update_same, Function.update_same]
    rfl
  · rw [Function.update_noteq hl, Function.update_noteq hl]
    rfl

theorem scopes_left (st : CompilerState) (ds : List Diagnostic) :
    CompilerState.scopes
      { st with
        errors := st.errors ++ ds
        levels := Function.update st.levels st.level ({} : LevelInfo)
        level := st.level - 1 } = st.scopes.leave := by
  refine scopes_ext rfl (fun l => ?_) rfl
  show ((Function.update st.levels st.level _) l).locals.map _ =
    Function.update st.scopes.levels st.level _ l
  by_cases hl : l = st.level
  · subst hl
    rw [Function.update_same, Function.update_same]
    rfl
  · rw [Function.update_noteq hl, Function.update_noteq hl]
    rfl

theorem valueOnly_const {f : Symbol → Symbol} (hf : ValueOnly f) (s : Symbol) :
    (f s).is_const = s.is_const := by
  have h := hf s
  exact (congrArg Symbol.is_const h).trans rfl

theorem valueOnly_node {f : Symbol → Symbol} (hf : ValueOnly f) (s : Symbol) :
    (f s).node = s.node := by
  have h := hf s
  exact (congrArg Symbol.node h).trans rfl

theorem map_set_same {α β : Type} (g : α → β) (ls : List α) (i : Nat) (e e1 : α)
    (he : ls.get? i = some e) (hg : g e1 = g e) : (ls.set i e1).map g = ls.map g := by
  induction ls generalizing i with
  | nil => rfl
  | cons x ls ih =>
    cases i with
    | zero =>
      simp only [List.get?_cons_zero, Option.some.injEq] at he
      subst he
      simp only [List.set_cons_zero, List.map_cons, hg]
    | succ i =>
      simp only [List.get?_cons_succ] at he
      simp only [List.set_cons_succ, List.map_cons, ih i he]

/-- A write of the value of a symbol that is not const changes no binding. -/
theorem scopes_written (st : CompilerState) (q : Int × Nat) (e : String × Symbol)
    (f : Symbol → Symbol) (hq : (st.levels q.1).locals.get? q.2 = some e)
    (hf : ValueOnly f) (hc : e.2.is_const = false) :
    (st.written q e f).scopes = st.scopes := by
  refine scopes_ext rfl (fun l => ?_) rfl
  show ((Function.update st.levels q.1 _) l).locals.map _ = (st.levels l).locals.map _
  by_cases hl : l = q.1
  · subst hl
    rw [Function.update_same]
    show ((st.levels q.1).locals.set q.2 (e.1, f e.2)).map _ = _
    refine map_set_same _ _ _ e _ hq ?_
    show (f e.2).binding e.1 = e.2.binding e.1
    unfold Symbol.binding
    rw [valueOnly_const hf, valueOnly_node hf, hc]
    simp
  · rw [Function.update_noteq hl]

/-- The count of `d` after `IncrementUseCount(ptr)`. -/
theorem counted_at (st : CompilerState) (ptr d : Option Nat) :
    (st.counted ptr).use_counts d = st.use_counts d + hit d ptr := by
  unfold CompilerState.counted hit
  by_cases h : ptr = d
  · subst h
    simp
  · have h1 : d ≠ ptr := fun e => h e.symm
    simp only [Function.update_noteq h1, h, if_false, Nat.add_zero]

/-! ## Use counts: steps that change neither scopes nor counts -/

theorem quiet_pure {α : Type} (a : α) : Quiet (pure a : Analyzer α) := by
  intro st b st1 h; cases h; exact ⟨rfl, rfl⟩

theorem quiet_throw {α : Type} (e : Fault) : Quiet (throw e : Analyzer α) := by
  intro st b st1 h; cases h

theorem quiet_bind {α β : Type} {m : Analyzer α} {f : α → Analyzer β} (hm : Quiet m)
    (hf : ∀ a, Quiet (f a)) : Quiet (m >>= f) := by
  intro st b st2 h
  obtain ⟨a, st1, h1, h2⟩ := bind_ok h
  obtain ⟨g1, g2⟩ := hm st a st1 h1
  obtain ⟨k1, k2⟩ := hf a st1 b st2 h2
  exact ⟨k1.trans g1, k2.trans g2⟩

theorem quiet_modify (f : CompilerState → CompilerState)
    (hf : ∀ st, (f st).scopes = st.scopes ∧ (f st).use_counts = st.use_counts) :
    Quiet (modify f : Analyzer Unit) := by
  intro st a st1 h; cases h; exact hf st

theorem quiet_report (sev : Severity) (msg : ErrorType) (loc : SourceLocation)
    (args : List String) : Quiet (report sev msg loc args) :=
  quiet_modify _ (fun _ => ⟨rfl, rfl⟩)

theorem quiet_ErrorMsg (msg : ErrorType) (loc : SourceLocation) (args : List String) :
    Quiet (ErrorMsg msg loc args) := quiet_report _ _ _ _

theorem quiet_WarningMessage (msg : ErrorType) (loc : SourceLocation) (args : List String) :
    Quiet (WarningMessage msg loc args) := quiet_report _ _ _ _

theorem quiet_InfoMsg (msg : ErrorType) (loc : SourceLocation) (args : List String) :
    Quiet (InfoMsg msg loc args) := quiet_report _ _ _ _

theorem quiet_newPtr : Quiet newPtr := by
  intro st a st1 h; cases h; exact ⟨rfl, rfl⟩

theorem quiet_derefNode (p : Option AstNode) : Quiet (derefNode p) := by
  cases p with
  | none => exact quiet_throw _
  | some n => exact quiet_pure _

theorem quiet_of_silent {α : Type} {m : Analyzer α} (h : Silent m) : Quiet m := by
  intro st a st1 hr
  rw [h st a st1 hr]
  exact ⟨rfl, rfl⟩

theorem quiet_literalSide (env : Collab) (value : AstNode) : Quiet (literalSide env value) :=
  quiet_of_silent (silent_literalSide env value)

theorem quiet_warnUnused (ls : List (String × Symbol)) : Quiet (warnUnused ls) := by
  intro st a st1 h
  rw [run_warnUnused_exact ls st] at h
  cases h
  exact ⟨rfl, rfl⟩

theorem quiet_scanReturn (children : List (Option AstNode)) (idx : Nat) :
    Quiet (scanReturn children idx) := by
  induction idx with
  | zero => exact quiet_pure _
  | succ idx ih =>
    unfold scanReturn
    repeat' first
      | exact quiet_pure _
      | exact quiet_throw _
      | exact quiet_ErrorMsg _ _ _
      | exact quiet_WarningMessage _ _ _
      | exact quiet_InfoMsg _ _ _
      | exact quiet_newPtr
      | exact quiet_derefNode _
      | assumption
      | refine quiet_bind ?_ (fun _ => ?_)
      | dsimp only
      | split

theorem quiet_hasReturnDefinition (children : List (Option AstNode)) :
    Quiet (hasReturnDefinition children) := by
  unfold hasReturnDefinition
  repeat' first
    | exact quiet_pure _
    | exact quiet_throw _
    | exact quiet_ErrorMsg _ _ _
    | exact quiet_WarningMessage _ _ _
    | exact quiet_InfoMsg _ _ _
    | exact quiet_newPtr
    | exact quiet_derefNode _
    | exact quiet_scanReturn _ _
    | assumption
    | refine quiet_bind ?_ (fun _ => ?_)
    | dsimp only
    | split

theorem quiet_hasReturnExpression (children : List (Option AstNode)) :
    Quiet (hasReturnExpression children) := by
  unfold hasReturnExpression
  repeat' first
    | exact quiet_pure _
    | exact quiet_throw _
    | exact quiet_ErrorMsg _ _ _
    | exact quiet_WarningMessage _ _ _
    | exact quiet_InfoMsg _ _ _
    | exact quiet_newPtr
    | exact quiet_derefNode _
    | exact quiet_scanReturn _ _
    | assumption
    | refine quiet_bind ?_ (fun _ => ?_)
    | dsimp only
    | split

theorem quiet_makeReturnNull (location : SourceLocation) (module : Option ModuleRef) :
    Quiet (makeReturnNull location module) := by
  unfold makeReturnNull
  repeat' first
    | exact quiet_pure _
    | exact quiet_throw _
    | exact quiet_ErrorMsg _ _ _
    | exact quiet_WarningMessage _ _ _
    | exact quiet_InfoMsg _ _ _
    | exact quiet_newPtr
    | exact quiet_derefNode _
    | assumption
    | refine quiet_bind ?_ (fun _ => ?_)
    | dsimp only
    | split

theorem quiet_ensureReturn (expr : Bool) (name : String) (module : Option ModuleRef)
    (body : AstHdr) (children : List (Option AstNode)) :
    Quiet (ensureReturn expr name module body children) := by
  unfold ensureReturn
  repeat' first
    | exact quiet_pure _
    | exact quiet_throw _
    | exact quiet_ErrorMsg _ _ _
    | exact quiet_WarningMessage _ _ _
    | exact quiet_InfoMsg _ _ _
    | exact quiet_newPtr
    | exact quiet_derefNode _
    | exact quiet_hasReturnDefinition _
    | exact quiet_hasReturnExpression _
    | exact quiet_makeReturnNull _ _
    | assumption
    | refine quiet_bind ?_ (fun _ => ?_)
    | dsimp only
    | split

theorem quiet_warnEmptyBody (body : Option AstNode) : Quiet (warnEmptyBody body) := by
  unfold warnEmptyBody
  repeat' first
    | exact quiet_pure _
    | exact quiet_throw _
    | exact quiet_ErrorMsg _ _ _
    | exact quiet_WarningMessage _ _ _
    | exact quiet_InfoMsg _ _ _
    | exact quiet_newPtr
    | exact quiet_derefNode _
    | assumption
    | refine quiet_bind ?_ (fun _ => ?_)
    | dsimp only
    | split

theorem quiet_blockStep (a b : Bool) (child : Option AstNode) :
    Quiet (blockStep a b child) := by
  unfold blockStep
  repeat' first
    | exact quiet_pure _
    | exact quiet_throw _
    | exact quiet_ErrorMsg _ _ _
    | exact quiet_WarningMessage _ _ _
    | exact quiet_InfoMsg _ _ _
    | exact quiet_newPtr
    | exact quiet_derefNode _
    | assumption
    | refine quiet_bind ?_ (fun _ => ?_)
    | dsimp only
    | split

theorem quiet_assignChecks (left right : Option AstNode) : Quiet (assignChecks left right) := by
  unfold assignChecks
  repeat' first
    | exact quiet_pure _
    | exact quiet_throw _
    | exact quiet_ErrorMsg _ _ _
    | exact quiet_WarningMessage _ _ _
    | exact quiet_InfoMsg _ _ _
    | exact quiet_newPtr
    | exact quiet_derefNode _
    | assumption
    | refine quiet_bind ?_ (fun _ => ?_)
    | dsimp only
    | split

/-! ## Use counts: composing the steps of a visit -/

section tracks

variable {d : Option Nat}

theorem at_throw {α : Type} (e : Fault) (st : CompilerState) (r : Scopes × Nat) :
    TracksAt d (throw e : Analyzer α) st r := by
  intro a st1 h; cases h

theorem at_pure {α : Type} (a : α) (st : CompilerState) :
    TracksAt d (pure a : Analyzer α) st (st.scopes, 0) := by
  intro b st1 h; cases h; exact ⟨rfl, rfl⟩

theorem at_quiet {α : Type} {m : Analyzer α} (hm : Quiet m) (st : CompilerState) :
    TracksAt d m st (st.scopes, 0) := by
  intro a st1 h
  obtain ⟨g1, g2⟩ := hm st a st1 h
  exact ⟨g1, by rw [g2]; rfl⟩

/-- A step that runs to a known state without touching the count of `d`. -/
theorem at_step {α β : Type} {X : Analyzer α} {f : α → Analyzer β} {st s1 : CompilerState}
    {x : α} {r : Scopes × Nat} (hX : X st = .ok (x, s1))
    (hc : s1.use_counts d = st.use_counts d) (h : TracksAt d (f x) s1 r) :
    TracksAt d (X >>= f) st r := by
  intro b st2 hr
  rw [run_bind hX] at hr
  obtain ⟨g1, g2⟩ := h b st2 hr
  exact ⟨g1, by rw [g2, hc]⟩

/-- A quiet step, then the rest. -/
theorem at_quiet_bind {α β : Type} {X : Analyzer α} {f : α → Analyzer β} {st : CompilerState}
    {r : Scopes × Nat} (hX : Quiet X)
    (h : ∀ x s1, X st = .ok (x, s1) → s1.scopes = st.scopes → TracksAt d (f x) s1 r) :
    TracksAt d (X >>= f) st r := by
  intro b st2 hr
  obtain ⟨x, s1, h1, h2⟩ := bind_ok hr
  obtain ⟨g1, g2⟩ := hX st x s1 h1
  obtain ⟨k1, k2⟩ := h x s1 h1 g1 b st2 h2
  exact ⟨k1, by rw [k2, g2]⟩

/-- The count step `IncrementUseCount(ptr)`, then the rest. -/
theorem at_count {β : Type} {f : Unit → Analyzer β} {st : CompilerState} (ptr : Option Nat)
    {r : Scopes × Nat} (h : TracksAt d (f ()) (st.counted ptr) r) :
    TracksAt d (IncrementUseCount ptr >>= f) st (r.1, hit d ptr + r.2) := by
  intro b st2 hr
  rw [run_bind (run_IncrementUseCount ptr st)] at hr
  obtain ⟨g1, g2⟩ := h b st2 hr
  exact ⟨g1, by rw [g2, counted_at, Nat.add_assoc]⟩

/-- A visit that follows a walk, then the rest. -/
theorem at_visit {α β : Type} {v : Analyzer α} {f : α → Analyzer β} {w : Walk}
    {st : CompilerState} {r : Scopes × Nat} (hv : Tracks d v w)
    (h : ∀ a s1, v st = .ok (a, s1) → s1.scopes = (w st.scopes).1 → TracksAt d (f a) s1 r) :
    TracksAt d (v >>= f) st (r.1, (w st.scopes).2 + r.2) := by
  intro b st2 hr
  obtain ⟨a, s1, h1, h2⟩ := bind_ok hr
  obtain ⟨g1, g2⟩ := hv st a s1 h1
  obtain ⟨k1, k2⟩ := h a s1 h1 g1 b st2 h2
  exact ⟨k1, by rw [k2, g2, Nat.add_assoc]⟩

theorem at_of_tracks {α : Type} {m : Analyzer α} {w : Walk} (h : Tracks d m w)
    {st : CompilerState} {sc : Scopes} (e : st.scopes = sc) : TracksAt d m st (w sc) := by
  subst e
  exact h st

theorem tracks_of_quiet {α : Type} {m : Analyzer α} (h : Quiet m) : Tracks d m Walk.skip :=
  fun st => at_quiet h st

theorem tracks_get {β : Type} {f : CompilerState → Analyzer β} {w : Walk}
    (h : ∀ st, TracksAt d (f st) st (w st.scopes)) : Tracks d (get >>= f) w := by
  intro st b st2 hr
  rw [run_bind (run_get st)] at hr
  exact h st b st2 hr

theorem tracks_bind {α β : Type} {m : Analyzer α} {f : α → Analyzer β} {w1 w2 : Walk}
    (hm : Tracks d m w1) (hf : ∀ a, Tracks d (f a) w2) :
    Tracks d (m >>= f) (w1.andThen w2) := by
  intro st
  exact at_visit hm (fun a s1 _ hs => at_of_tracks (hf a) hs)

theorem quiet_then {α β : Type} {m : Analyzer α} {f : α → Analyzer β} {w : Walk}
    (hm : Quiet m) (hf : ∀ a, Tracks d (f a) w) : Tracks d (m >>= f) w := by
  intro st
  exact at_quiet_bind hm (fun a s1 _ hs => at_of_tracks (hf a) hs)

theorem tracks_then_quiet {α β : Type} {m : Analyzer α} {f : α → Analyzer β} {w : Walk}
    (hm : Tracks d m w) (hf : ∀ a, Quiet (f a)) : Tracks d (m >>= f) w := by
  intro st b st2 hr
  obtain ⟨a, s1, h1, h2⟩ := bind_ok hr
  obtain ⟨g1, g2⟩ := hm st a s1 h1
  obtain ⟨k1, k2⟩ := hf a s1 b st2 h2
  exact ⟨k1.trans g1, by rw [k2, g2]⟩

theorem tracks_wrap {α β : Type} {m : Analyzer α} {w : Walk} (g : α → β)
    (hm : Tracks d m w) : Tracks d (m >>= fun a => pure (g a)) w :=
  tracks_then_quiet hm (fun _ => quiet_pure _)

/-- A visit inside a scope that is pushed before it and popped after it, then
the rest. -/
theorem tracks_inScope {α β : Type} (t : LevelType) {v : Analyzer α} {f : α → Analyzer β}
    {w w2 : Walk} (hv : Tracks d v w) (hf : ∀ a, Tracks d (f a) w2) :
    Tracks d (IncreaseBlock t >>= fun _ => v >>= fun a => DecreaseBlock >>= fun _ => f a)
      (w.inScope.andThen w2) := by
  intro st b st4 hr
  rw [run_bind (run_IncreaseBlock t st)] at hr
  obtain ⟨a, s2, h1, h2⟩ := bind_ok hr
  rw [run_bind (run_DecreaseBlock_exact s2)] at h2
  obtain ⟨g1, g2⟩ := hv _ a s2 h1
  rw [scopes_entered] at g1 g2
  obtain ⟨k1, k2⟩ := hf a _ b st4 h2
  rw [scopes_left, g1] at k1 k2
  refine ⟨k1, ?_⟩
  rw [k2]
  show s2.use_counts d + _ = st.use_counts d + ((w st.scopes.enter).2 + _)
  rw [g2, Nat.add_assoc]
  rfl

/-- A visit inside a scope of its own, followed by quiet steps. -/
theorem tracks_inScope_last {α β : Type} (t : LevelType) {v : Analyzer α}
    {f : α → Analyzer β} {w : Walk} (hv : Tracks d v w) (hf : ∀ a, Quiet (f a)) :
    Tracks d (IncreaseBlock t >>= fun _ => v >>= fun a => DecreaseBlock >>= fun _ => f a)
      w.inScope :=
  tracks_inScope t hv (fun a => tracks_of_quiet (hf a))

end tracks

/-! ## Use counts: what a visit leaves of a node -/

set_option linter.unusedTactic false
set_option linter.unreachableTactic false

theorem ptr_AcceptVariable (env : Collab) (h : AstHdr) (name : String) (info : VarInfo)
    (p : Nat) (hp : h.ptr = p) :
    Yields (fun n => n.hdr.ptr = p)
      (AcceptVariable env h name info) := by
  subst hp
  unfold AcceptVariable
  repeat' first
    | exact yields_pure rfl
    | refine yields_bind (fun _ => ?_)
    | dsimp only
    | split

theorem ptr_AcceptImport (h : AstHdr) (relative_path import_str : String) (is_open : Bool)
    (unit : ModuleRef) (parse_errors : List Diagnostic) (unit_children : List (Option AstNode))
    (visitUnit : Analyzer (List (Option AstNode)))
    (p : Nat) (hp : h.ptr = p) :
    Yields (fun n => n.hdr.ptr = p)
      (AcceptImport h relative_path import_str is_open unit parse_errors unit_children
        visitUnit) := by
  subst hp
  unfold AcceptImport
  repeat' first
    | exact yields_pure rfl
    | refine yields_bind (fun _ => ?_)
    | dsimp only
    | split

theorem ptr_AcceptBinaryOp (env : Collab) (h : AstHdr) (op : BinOp)
    (visitLeft visitRight : Analyzer (Option AstNode))
    (p : Nat) (hp : h.ptr = p) :
    Yields (fun n => n.hdr.ptr = p)
      (AcceptBinaryOp env h op visitLeft visitRight) := by
  subst hp
  unfold AcceptBinaryOp
  repeat' first
    | exact yields_pure rfl
    | refine yields_bind (fun _ => ?_)
    | dsimp only
    | split

theorem ptr_AcceptMemberAccess (env : Collab) (h : AstHdr) (left_str : String)
    (left right : Option AstNode) (visitLeft : Analyzer (Option AstNode))
    (visitRight : Option ModuleRef → Analyzer AstNode)
    (p : Nat) (hp : h.ptr = p) :
    Yields (fun n => n.hdr.ptr = p)
      (AcceptMemberAccess env h left_str left right visitLeft visitRight) := by
  subst hp
  unfold AcceptMemberAccess
  repeat' first
    | exact yields_pure rfl
    | refine yields_bind (fun _ => ?_)
    | dsimp only
    | split

theorem ptr_AcceptModuleAccess (h : AstHdr) (module_name : String) (right : Option AstNode)
    (visitRight : Option ModuleRef → Analyzer AstNode)
    (p : Nat) (hp : h.ptr = p) :
    Yields (fun n => n.hdr.ptr = p)
      (AcceptModuleAccess h module_name right visitRight) := by
  subst hp
  unfold AcceptModuleAccess
  repeat' first
    | exact yields_pure rfl
    | refine yields_bind (fun _ => ?_)
    | dsimp only
    | split

theorem ptr_AcceptVariableDeclaration (env : Collab) (h : AstHdr) (name : String)
    (is_const : Bool) (assignment : Option AstNode)
    (visitAssignment : Analyzer (Option AstNode))
    (p : Nat) (hp : h.ptr = p) :
    Yields (fun n => n.hdr.ptr = p)
      (AcceptVariableDeclaration env h name is_const assignment visitAssignment) := by
  subst hp
  unfold AcceptVariableDeclaration
  repeat' first
    | exact yields_pure rfl
    | refine yields_bind (fun _ => ?_)
    | dsimp only
    | split

theorem ptr_AcceptAlias (env : Collab) (h : AstHdr) (name : String)
    (alias_to : Option AstNode) (visitAliasTo : Analyzer (Option AstNode))
    (p : Nat) (hp : h.ptr = p) :
    Yields (fun n => n.hdr.ptr = p)
      (AcceptAlias env h name alias_to visitAliasTo) := by
  subst hp
  unfold AcceptAlias
  repeat' first
    | exact yields_pure rfl
    | refine yields_bind (fun _ => ?_)
    | dsimp only
    | split

theorem ptr_AcceptFunctionDefinition (env : Collab) (h : AstHdr) (name : String)
    (arguments : List String) (block : Option AstNode)
    (visitBody : Analyzer (List (Option AstNode)))
    (p : Nat) (hp : h.ptr = p) :
    Yields (fun n => n.hdr.ptr = p)
      (AcceptFunctionDefinition env h name arguments block visitBody) := by
  subst hp
  unfold AcceptFunctionDefinition
  repeat' first
    | exact yields_pure rfl
    | refine yields_bind (fun _ => ?_)
    | dsimp only
    | split

theorem ptr_AcceptFunctionExpression (env : Collab) (h : AstHdr) (arguments : List String)
    (block : Option AstNode) (visitBody : Analyzer (List (Option AstNode)))
    (p : Nat) (hp : h.ptr = p) :
    Yields (fun n => n.hdr.ptr = p)
      (AcceptFunctionExpression env h arguments block visitBody) := by
  subst hp
  unfold AcceptFunctionExpression
  repeat' first
    | exact yields_pure rfl
    | refine yields_bind (fun _ => ?_)
    | dsimp only
    | split

theorem ptr_AcceptFunctionCall (env : Collab) (h : AstHdr) (name : String)
    (arguments : List (Option AstNode)) (info : CallInfo)
    (visitArguments : Analyzer (List (Option AstNode)))
    (p : Nat) (hp : h.ptr = p) :
    Yields (fun n => n.hdr.ptr = p)
      (AcceptFunctionCall env h name arguments info visitArguments) := by
  subst hp
  unfold AcceptFunctionCall
  repeat' first
    | exact yields_pure rfl
    | refine yields_bind (fun _ => ?_)
    | dsimp only
    | split

theorem ptr_AcceptIfStmt (h : AstHdr) (else_statement : Option AstNode)
    (visitConditional visitBlock visitElse : Analyzer (Option AstNode))
    (p : Nat) (hp : h.ptr = p) :
    Yields (fun n => n.hdr.ptr = p)
      (AcceptIfStmt h else_statement visitConditional visitBlock visitElse) := by
  subst hp
  unfold AcceptIfStmt
  repeat' first
    | exact yields_pure rfl
    | refine yields_bind (fun _ => ?_)
    | dsimp only
    | split

theorem ptr_AcceptForLoop (h : AstHdr) (block : Option AstNode)
    (visitInitializer visitConditional visitAfterthought visitBlock :
      Analyzer (Option AstNode))
    (p : Nat) (hp : h.ptr = p) :
    Yields (fun n => n.hdr.ptr = p)
      (AcceptForLoop h block visitInitializer visitConditional visitAfterthought visitBlock) := by
  subst hp
  unfold AcceptForLoop
  repeat' first
    | exact yields_pure rfl
    | refine yields_bind (fun _ => ?_)
    | dsimp only
    | split

theorem ptr_AcceptWhileLoop (h : AstHdr) (block : Option AstNode)
    (visitConditional visitBlock : Analyzer (Option AstNode))
    (p : Nat) (hp : h.ptr = p) :
    Yields (fun n => n.hdr.ptr = p)
      (AcceptWhileLoop h block visitConditional visitBlock) := by
  subst hp
  unfold AcceptWhileLoop
  repeat' first
    | exact yields_pure rfl
    | refine yields_bind (fun _ => ?_)
    | dsimp only
    | split

theorem ptr_AcceptTryCatch (h : AstHdr) (try_block catch_block : Option AstNode)
    (visitTry visitCatch visitException : Analyzer (Option AstNode))
    (p : Nat) (hp : h.ptr = p) :
    Yields (fun n => n.hdr.ptr = p)
      (AcceptTryCatch h try_block catch_block visitTry visitCatch visitException) := by
  subst hp
  unfold AcceptTryCatch
  repeat' first
    | exact yields_pure rfl
    | refine yields_bind (fun _ => ?_)
    | dsimp only
    | split

/-- A visit leaves the node at its address. -/
theorem accept_ptr (env : Collab) (ov : Option ModuleRef) :
    ∀ n : AstNode, Yields (fun n1 => n1.hdr.ptr = n.hdr.ptr) (Accept env ov n)
  | .imports _ _ => yields_bind (fun _ => yields_pure (withModule_ptr _ _))
  | .import_ _ _ _ _ _ _ _ => ptr_AcceptImport _ _ _ _ _ _ _ _ _ (withModule_ptr _ _)
  | .statement _ => yields_pure (withModule_ptr _ _)
  | .block _ _ => yields_bind (fun _ => yields_pure (withModule_ptr _ _))
  | .expression _ _ => yields_bind (fun _ => yields_pure (withModule_ptr _ _))
  | .binop _ _ _ _ => ptr_AcceptBinaryOp _ _ _ _ _ _ (withModule_ptr _ _)
  | .unop _ _ => yields_bind (fun _ => yields_pure (withModule_ptr _ _))
  | .array_access _ _ _ =>
    yields_bind (fun _ => yields_bind (fun _ => yields_pure (withModule_ptr _ _)))
  | .member_access _ _ _ right =>
    ptr_AcceptMemberAccess env _ _ _ _ _ (fun m => AcceptDeref env m right) _
      (withModule_ptr _ _)
  | .module_access _ _ right =>
    ptr_AcceptModuleAccess _ _ _ (fun m => AcceptDeref env m right) _ (withModule_ptr _ _)
  | .var_declaration _ _ _ _ =>
    ptr_AcceptVariableDeclaration _ _ _ _ _ _ _ (withModule_ptr _ _)
  | .alias _ _ _ => ptr_AcceptAlias _ _ _ _ _ _ (withModule_ptr _ _)
  | .use_module _ _ => yields_bind (fun _ => yields_pure (withModule_ptr _ _))
  | .variable _ _ _ => ptr_AcceptVariable _ _ _ _ _ (withModule_ptr _ _)
  | .integer _ _ => yields_pure (withModule_ptr _ _)
  | .float _ => yields_pure (withModule_ptr _ _)
  | .string _ _ => yields_pure (withModule_ptr _ _)
  | .true_ _ => yields_pure (withModule_ptr _ _)
  | .false_ _ => yields_pure (withModule_ptr _ _)
  | .null _ => yields_pure (withModule_ptr _ _)
  | .self _ => yields_pure (withModule_ptr _ _)
  | .new _ => yields_pure (withModule_ptr _ _)
  | .function_definition _ _ _ _ =>
    ptr_AcceptFunctionDefinition _ _ _ _ _ _ _ (withModule_ptr _ _)
  | .function_expression _ _ _ => ptr_AcceptFunctionExpression _ _ _ _ _ _ (withModule_ptr _ _)
  | .function_call _ _ _ _ => ptr_AcceptFunctionCall _ _ _ _ _ _ _ (withModule_ptr _ _)
  | .class_declaration _ => yields_pure (withModule_ptr _ _)
  | .object_expression _ _ => yields_bind (fun _ => yields_pure (withModule_ptr _ _))
  | .enum _ _ _ => yields_bind (fun _ => yields_pure (withModule_ptr _ _))
  | .print _ _ => yields_bind (fun _ => yields_pure (withModule_ptr _ _))
  | .return_ _ _ => yields_bind (fun _ => yields_pure (withModule_ptr _ _))
  | .if_statement _ _ _ _ => ptr_AcceptIfStmt _ _ _ _ _ _ (withModule_ptr _ _)
  | .for_loop _ _ _ _ _ => ptr_AcceptForLoop _ _ _ _ _ _ _ (withModule_ptr _ _)
  | .while_loop _ _ _ => ptr_AcceptWhileLoop _ _ _ _ _ (withModule_ptr _ _)
  | .try_catch _ _ _ _ => ptr_AcceptTryCatch _ _ _ _ _ _ _ (withModule_ptr _ _)
  | .range _ => yields_bind (fun _ => yields_pure (withModule_ptr _ _))

/-- The visit of a possibly null child leaves it at its address. -/
theorem acceptPtr_ptr (env : Collab) :
    ∀ p : Option AstNode,
      Yields (fun c => c.map (fun n => n.hdr.ptr) = p.map (fun n => n.hdr.ptr))
        (AcceptPtr env p)
  | none => yields_pure rfl
  | some n => yields_bind_of (accept_ptr env none n)
      (fun _ h => yields_pure (congrArg some h))

/-! ## Use counts: symbols stay const or not const -/

theorem constKept_of_levels {st st1 : CompilerState} (hl : st1.level = st.level)
    (hs : st1.levels = st.levels) : ConstKept st st1 :=
  ⟨hl, fun l _ i e he => ⟨e, by rw [hs]; exact he, rfl⟩⟩

theorem constScoped : Scoped ConstKept ConstKeptBelow where
  refl := fun st => constKept_of_levels rfl rfl
  trans := by
    rintro a b c ⟨h1, h2⟩ ⟨g1, g2⟩
    refine ⟨g1.trans h1, fun l hl i e he => ?_⟩
    obtain ⟨e1, k1, k2⟩ := h2 l hl i e he
    obtain ⟨e2, k3, k4⟩ := g2 l (by rw [h1]; exact hl) i e1 k1
    exact ⟨e2, k3, k4.trans k2⟩
  into := by
    rintro a b c ⟨h1, h2⟩ ⟨g1, g2⟩
    refine ⟨by rw [g1, h1], fun l hl i e he => ?_⟩
    obtain ⟨e1, k1, k2⟩ := h2 l (by omega) i e he
    obtain ⟨e2, k3, k4⟩ := g2 l (by rw [h1]; exact hl) i e1 k1
    exact ⟨e2, k3, k4.trans k2⟩
  out := by
    rintro a b c ⟨h1, h2⟩ ⟨g1, g2⟩
    refine ⟨g1.trans h1, fun l hl i e he => ?_⟩
    obtain ⟨e1, k1, k2⟩ := h2 l hl i e he
    obtain ⟨e2, k3, k4⟩ := g2 l (by rw [h1]; exact hl) i e1 k1
    exact ⟨e2, k3, k4.trans k2⟩
  errors := fun _ _ => constKept_of_levels rfl rfl
  useCount := fun _ _ => constKept_of_levels rfl rfl
  nextPtr := fun _ => constKept_of_levels rfl rfl
  modules := fun _ _ => constKept_of_levels rfl rfl
  push := by
    intro st name symbol
    refine ⟨rfl, fun l hl i e he => ⟨e, ?_, rfl⟩⟩
    show ((Function.update st.levels st.level _) l).locals.get? i = some e
    by_cases h : l = st.level
    · subst h
      rw [Function.update_same]
      show ((st.levels st.level).locals ++ [(name, symbol)]).get? i = some e
      have hi : i < (st.levels st.level).locals.length := by
        by_contra hn
        rw [List.get?_eq_none.mpr (by omega)] at he
        cases he
      rw [List.get?_eq_getElem?, List.getElem?_append_left hi, ← List.get?_eq_getElem?]
      exact he
    · rw [Function.update_noteq h]
      exact he
  write := by
    intro st q e0 f hq hf
    refine ⟨rfl, fun l hl i e he => ?_⟩
    show ∃ e1, ((Function.update st.levels q.1 _) l).locals.get? i = some e1 ∧ _
    by_cases h : l = q.1
    · subst h
      rw [Function.update_same]
      show ∃ e1, ((st.levels q.1).locals.set q.2 (e0.1, f e0.2)).get? i = some e1 ∧ _
      by_cases hi : q.2 = i
      · subst hi
        rw [he] at hq
        cases hq
        refine ⟨(e0.1, f e0.2), ?_, valueOnly_const hf _⟩
        have hlt : q.2 < (st.levels q.1).locals.length := by
          by_contra hn
          rw [List.get?_eq_none.mpr (by omega)] at he
          cases he
        rw [List.get?_eq_getElem?, List.getElem?_set]
        simp [hlt]
      · refine ⟨e, ?_, rfl⟩
        rw [List.get?_eq_getElem?, List.getElem?_set_ne hi,
          ← List.get?_eq_getElem?]
        exact he
    · rw [Function.update_noteq h]
      exact ⟨e, he, rfl⟩
  enter := by
    rintro st type s2 ⟨g1, g2⟩
    refine ⟨by rw [g1]; show st.level + 1 - 1 = st.level; omega, fun l hl i e he => ?_⟩
    refine g2 l (by show l ≤ st.level + 1 - 1; omega) i e ?_
    show ((Function.update st.levels (st.level + 1) _) l).locals.get? i = some e
    rw [Function.update_noteq (by omega)]
    exact he
  leave := by
    intro st
    refine ⟨rfl, fun l hl i e he => ⟨e, ?_, rfl⟩⟩
    show ((Function.update st.levels st.level _) l).locals.get? i = some e
    rw [Function.update_noteq (by omega)]
    exact he

/-! ## Use counts: the left operand of an assignment -/

/-- What the visit of a variable reference leaves in the node: the node as it
was when the name does not resolve, and a pointer to the symbol found with its
`is_const` when it does. -/
theorem acceptVariable_info (env : Collab) (h : AstHdr) (name : String) (info : VarInfo)
    (st st1 : CompilerState) (n : AstNode) (hr : AcceptVariable env h name info st = .ok (n, st1)) :
    (FindVariable st (env.MakeVariableName st name h.module) false = none ∧
      n = .variable h name info) ∨
    ∃ ptr symbol info1,
      FindVariable st (env.MakeVariableName st name h.module) false = some (ptr, symbol) ∧
      n = .variable h name info1 ∧ info1.symbol_ptr = some ptr ∧
      info1.is_const = symbol.is_const := by
  unfold AcceptVariable at hr
  rw [run_bind (run_get st)] at hr
  cases hf : FindVariable st (env.MakeVariableName st name h.module) false with
  | none =>
    simp only [hf] at hr
    obtain ⟨a, s1, -, h2⟩ := bind_ok hr
    cases h2
    exact Or.inl ⟨rfl, rfl⟩
  | some r =>
    obtain ⟨ptr, symbol⟩ := r
    simp only [hf] at hr
    obtain ⟨a, s1, -, h2⟩ := bind_ok hr
    cases h2
    exact Or.inr ⟨ptr, symbol, _, rfl, rfl, rfl, rfl⟩

/-- The visit of the left operand of an assignment, in a tree as the parser
built it, leaves a variable that is not const with no symbol pointer or with a
pointer to a symbol that is not const. -/
theorem acceptPtr_leftResolved (env : Collab) (left : Option AstNode)
    (hp : unanalysedPtr left = true) (st st1 : CompilerState) (l : Option AstNode)
    (hr : AcceptPtr env left st = .ok (l, st1)) : LeftResolved l st1 := by
  intro vh name info hl hc
  have ht := acceptPtr_type env left st l st1 hr
  subst hl
  cases left with
  | none => cases ht
  | some n =>
    cases n
    all_goals first
      | (simp [typeOf, AstNode.type] at ht; done)
      | skip
    next h0 name0 info0 =>
      have hr1 : (AcceptVariable env (h0.withModule none) name0 info0 >>= fun n1 =>
          pure (some n1)) st = .ok (some (.variable vh name info), st1) := hr
      obtain ⟨n1, s1, h1, h2⟩ := bind_ok hr1
      cases h2
      have hk := sc_AcceptVariable constScoped env (h0.withModule none) name0 info0 st _ _ h1
      rcases acceptVariable_info env _ _ _ _ _ _ h1 with ⟨-, hn⟩ | ⟨ptr, symbol, info1, hf, hn, g1, g2⟩
      · cases hn
        left
        have : info.symbol_ptr.isNone = true := hp
        cases hs : info.symbol_ptr with
        | none => rfl
        | some q => rw [hs] at this; cases this
      · cases hn
        right
        obtain ⟨ql, qi⟩ := ptr
        unfold FindVariable at hf
        obtain ⟨-, k2, k3, -, -⟩ := findVariableFrom_some st _ _ _ ql qi symbol hf
        obtain ⟨e1, m1, m2⟩ := hk.2 ql k2 qi _ k3
        refine ⟨(ql, qi), e1, g1, by rw [hk.1]; exact k2, m1, ?_⟩
        rw [m2, ← g2]
        exact hc

/-! ## Use counts: each visitor follows its rule -/

set_option linter.unusedTactic false
set_option linter.unreachableTactic false

section visitors

variable {env : Collab} {R : Rules} {d : Option Nat}

theorem at_congr {α : Type} {m : Analyzer α} {st : CompilerState} {r r1 : Scopes × Nat}
    (h : TracksAt d m st r) (e1 : r.1 = r1.1) (e2 : r.2 = r1.2) : TracksAt d m st r1 := by
  have : r = r1 := Prod.ext e1 e2
  subst this
  exact h

theorem at_count_last {β : Type} (ptr : Option Nat) (b : β) (st : CompilerState) :
    TracksAt d (IncrementUseCount ptr >>= fun _ => (pure b : Analyzer β)) st
      (st.scopes, hit d ptr) :=
  at_congr (at_count ptr (at_pure b _)) rfl rfl

theorem tracks_AcceptVariable (hR : Follows env R) (h : AstHdr) (name : String)
    (info : VarInfo) : Tracks d (AcceptVariable env h name info) (walkVariable R d h name) := by
  unfold AcceptVariable
  refine tracks_get (fun st => ?_)
  unfold walkVariable
  try simp only []
  rw [hR.mangle, scopes_find]
  cases hf : FindVariable st (R.mangle st.scopes name h.module) false with
  | none => exact at_quiet (quiet_bind (quiet_ErrorMsg _ _ _) (fun _ => quiet_pure _)) st
  | some r =>
    obtain ⟨ptr, symbol⟩ := r
    simp only [Option.map_some']
    have hcond : (env.optimize_constant_folding && symbol.is_const && symbol.is_literal &&
        symbol.current_value.isSome) =
        (R.folding && (Symbol.binding (R.mangle st.scopes name h.module) symbol).inlined) := by
      rw [hR.folding]
      simp only [Symbol.binding, Bool.and_assoc]
    have hnode : (Symbol.binding (R.mangle st.scopes name h.module) symbol).node =
        symbol.node.map (fun n => n.ptr) := rfl
    rw [hcond, hnode]
    cases hn : symbol.node with
    | none =>
      simp only [Option.map_none']
      exact at_quiet (quiet_bind (quiet_pure _) (fun _ => quiet_pure _)) st
    | some node =>
      simp only [Option.map_some', bind_assoc]
      refine at_quiet_bind ?_ (fun _ s1 _ hs => ?_)
      · skip
        repeat' first
          | exact quiet_pure _
          | exact quiet_throw _
          | exact quiet_ErrorMsg _ _ _
          | exact quiet_WarningMessage _ _ _
          | exact quiet_InfoMsg _ _ _
          | exact quiet_newPtr
          | exact quiet_derefNode _
          | assumption
          | refine quiet_bind ?_ (fun _ => ?_)
          | dsimp only
          | split
      · cases hb : (R.folding && (Symbol.binding (R.mangle st.scopes name h.module) symbol).inlined)
        · simp only [Bool.not_false, if_true, Bool.false_eq_true, if_false]
          exact at_congr (at_count_last _ _ s1) hs rfl
        · simp only [Bool.not_true, Bool.false_eq_true, if_false, if_true]
          exact at_congr (at_quiet (quiet_bind (quiet_pure _) (fun _ => quiet_pure _)) s1) hs rfl

theorem scopes_modules (st : CompilerState) : st.scopes.modules = st.other_modules := rfl

theorem at_get {β : Type} {f : CompilerState → Analyzer β} {st : CompilerState}
    {r : Scopes × Nat} (h : TracksAt d (f st) st r) : TracksAt d (get >>= f) st r := by
  intro b st2 hr
  rw [run_bind (run_get st)] at hr
  exact h b st2 hr

theorem tracks_throw_bind {α β : Type} (e : Fault) (f : α → Analyzer β) (w : Walk) :
    Tracks d ((throw e : Analyzer α) >>= f) w := by
  intro st b st2 hr
  obtain ⟨a, s1, h1, -⟩ := bind_ok hr
  cases h1

theorem tracks_AcceptFunctionCall (hR : Follows env R) (h : AstHdr) (name : String)
    (arguments : List (Option AstNode)) (info : CallInfo)
    {visitArguments : Analyzer (List (Option AstNode))} {walkArguments : Walk}
    (hv : Tracks d visitArguments walkArguments) :
    Tracks d (AcceptFunctionCall env h name arguments info visitArguments)
      (walkFunctionCall R d h name walkArguments) := by
  unfold AcceptFunctionCall
  refine tracks_get (fun st => ?_)
  unfold walkFunctionCall
  try simp only []
  rw [hR.mangle, scopes_find]
  cases hf : FindVariable st (R.mangle st.scopes name h.module) false with
  | none => exact at_quiet (quiet_bind (quiet_ErrorMsg _ _ _) (fun _ => quiet_pure _)) st
  | some r =>
    obtain ⟨ptr, symbol⟩ := r
    simp only [Option.map_some']
    exact at_congr (at_count _ (at_of_tracks (tracks_wrap _ hv) rfl)) rfl rfl

theorem tracks_AcceptImport (h : AstHdr) (relative_path import_str : String) (is_open : Bool)
    (unit : ModuleRef) (parse_errors : List Diagnostic) (unit_children : List (Option AstNode))
    {visitUnit : Analyzer (List (Option AstNode))} {walkUnit : Walk}
    (hv : Tracks d visitUnit walkUnit) :
    Tracks d
      (AcceptImport h relative_path import_str is_open unit parse_errors unit_children visitUnit)
      (walkImport (relative_path ++ import_str) is_open unit walkUnit) := by
  unfold AcceptImport
  refine tracks_get (fun st0 => ?_)
  refine at_quiet_bind ?_ (fun _ s1 _ hs => ?_)
  · skip
    repeat' first
      | exact quiet_pure _
      | exact quiet_throw _
      | exact quiet_ErrorMsg _ _ _
      | exact quiet_WarningMessage _ _ _
      | exact quiet_InfoMsg _ _ _
      | exact quiet_newPtr
      | exact quiet_derefNode _
      | assumption
      | refine quiet_bind ?_ (fun _ => ?_)
      | dsimp only
      | split
  · rw [← hs]
    refine at_get ?_
    unfold walkImport
    simp only [scopes_modules]
    by_cases h1 : (s1.other_modules.any (fun e => e.1 == relative_path ++ import_str)) = true
    · simp only [h1, if_true]
      exact at_quiet (quiet_pure _) s1
    · simp only [h1, if_false]
      cases is_open with
      | false =>
        simp only [Bool.not_false, if_true]
        exact at_quiet (quiet_bind (quiet_ErrorMsg _ _ _) (fun _ => quiet_pure _)) s1
      | true =>
        simp only [Bool.not_true, Bool.false_eq_true, if_false]
        by_cases h2 : (s1.other_modules.any (fun e => e.2.name == unit.name)) = true
        · simp only [h2, if_true]
          exact at_quiet (quiet_bind (quiet_ErrorMsg _ _ _) (fun _ => quiet_pure _)) s1
        · simp only [h2, if_false]
          refine at_step (run_modify _ s1) rfl ?_
          refine at_step (run_modify _ _) rfl ?_
          exact at_of_tracks (tracks_wrap _ hv) rfl

theorem tracks_AcceptMemberAccess (hR : Follows env R) (h : AstHdr) (left_str : String)
    (left right : Option AstNode) {visitLeft : Analyzer (Option AstNode)}
    {visitRight : Option ModuleRef → Analyzer AstNode} {walkLeft : Walk}
    {walkRight : Option ModuleRef → Walk} (hl : Tracks d visitLeft walkLeft)
    (hr : ∀ m, Tracks d (visitRight m) (walkRight m)) :
    Tracks d (AcceptMemberAccess env h left_str left right visitLeft visitRight)
      (walkMemberAccess R h left_str right walkLeft walkRight) := by
  unfold AcceptMemberAccess
  refine tracks_get (fun st => ?_)
  unfold walkMemberAccess
  rw [hR.findModule]
  cases hm : R.findModule st.scopes left_str h.module with
  | some found_module =>
    try simp only []
    exact at_of_tracks (tracks_wrap _ (hr _)) rfl
  | none =>
    try simp only []
    refine at_of_tracks (tracks_bind hl (fun l => ?_)) rfl
    cases right with
    | none => exact tracks_throw_bind _ _ _
    | some r =>
      simp only [derefNode, pure_bind, typeOf, Option.map_some', Option.some.injEq]
      by_cases ht : r.type = .Ast_type_member_access
      · simp only [ht, if_true]
        exact tracks_wrap _ (hr _)
      · simp only [ht, if_false]
        refine tracks_of_quiet ?_
        repeat' first
          | exact quiet_pure _
          | exact quiet_throw _
          | exact quiet_ErrorMsg _ _ _
          | exact quiet_WarningMessage _ _ _
          | exact quiet_InfoMsg _ _ _
          | exact quiet_newPtr
          | exact quiet_derefNode _
          | assumption
          | refine quiet_bind ?_ (fun _ => ?_)
          | dsimp only
          | split

theorem tracks_AcceptModuleAccess (h : AstHdr) (module_name : String) (right : Option AstNode)
    {visitRight : Option ModuleRef → Analyzer AstNode} {walkRight : Option ModuleRef → Walk}
    (hr : ∀ m, Tracks d (visitRight m) (walkRight m)) :
    Tracks d (AcceptModuleAccess h module_name right visitRight)
      (walkModuleAccess module_name walkRight) := by
  unfold AcceptModuleAccess
  refine tracks_get (fun st => ?_)
  unfold walkModuleAccess
  simp only [scopes_modules]
  cases hm : st.other_modules.find? (fun e => e.2.name == module_name) with
  | some e =>
    try simp only []
    exact at_of_tracks (tracks_wrap _ (hr _)) rfl
  | none =>
    try simp only []
    exact at_quiet (quiet_bind (quiet_ErrorMsg _ _ _) (fun _ => quiet_pure _)) st

theorem at_pure_of {α : Type} (a : α) {st : CompilerState} {r : Scopes × Nat}
    (hs : st.scopes = r.1) (hn : r.2 = 0) : TracksAt d (pure a : Analyzer α) st r :=
  at_congr (at_pure a st) hs hn.symm

theorem at_throw_bind {α β : Type} (e : Fault) (f : α → Analyzer β) (st : CompilerState)
    (r : Scopes × Nat) : TracksAt d ((throw e : Analyzer α) >>= f) st r := by
  intro b st2 hr
  obtain ⟨a, s1, h1, -⟩ := bind_ok hr
  cases h1

/-- A visit that follows a walk, then the rest, which accounts for `n` of the
references. -/
theorem at_visit_eq {α β : Type} {v : Analyzer α} {f : α → Analyzer β} {w : Walk}
    {st : CompilerState} {r : Scopes × Nat} (hv : Tracks d v w) (n : Nat)
    (hn : r.2 = (w st.scopes).2 + n)
    (h : ∀ a s1, v st = .ok (a, s1) → s1.scopes = (w st.scopes).1 →
      TracksAt d (f a) s1 (r.1, n)) :
    TracksAt d (v >>= f) st r :=
  at_congr (at_visit hv h) rfl hn.symm

theorem literalSide_unwrapped (env : Collab) (value : AstNode) :
    literalSide env value =
      if env.optimize_constant_folding then
        derefNode (unwrapped value) >>= fun rs =>
          match env.Optimize rs with
          | some opt => pure opt
          | none => pure rs
      else derefNode (unwrapped value) := by
  cases value <;> rfl

/-- The classification of a right-hand side by the analyzer is that of the
rules. -/
theorem literalSide_literal (hR : Follows env R) (value : AstNode) (st st1 : CompilerState)
    (rs : AstNode) (h : literalSide env value st = .ok (rs, st1)) :
    isLiteralType rs.type = R.literal value := by
  rw [literalSide_unwrapped, hR.folding] at h
  unfold Rules.literal
  cases hu : unwrapped value with
  | none =>
    rw [hu] at h
    cases hfo : R.folding with
    | false =>
      simp only [hfo, derefNode, Bool.false_eq_true, if_false] at h
      cases h
    | true =>
      simp only [hfo, if_true] at h
      obtain ⟨a, s1, h1, -⟩ := bind_ok h
      cases h1
  | some n =>
    rw [hu] at h
    cases hfo : R.folding with
    | false =>
      simp only [hfo, derefNode, Bool.false_eq_true, if_false] at h ⊢
      cases h
      rfl
    | true =>
      simp only [hfo, derefNode, if_true, pure_bind] at h ⊢
      rw [hR.fold] at h
      cases hopt : R.fold n with
      | none =>
        rw [hopt] at h
        cases h
        rfl
      | some opt =>
        rw [hopt] at h
        cases h
        rfl

theorem at_literalSide (hR : Follows env R) (value : AstNode) {β : Type}
    {f : AstNode → Analyzer β} {st : CompilerState} {r : Scopes × Nat}
    (h : ∀ rs, isLiteralType rs.type = R.literal value → TracksAt d (f rs) st r) :
    TracksAt d (literalSide env value >>= f) st r := by
  intro b st2 hr
  obtain ⟨rs, s1, h1, h2⟩ := bind_ok hr
  have hs := silent_literalSide env value st rs s1 h1
  subst hs
  exact h rs (literalSide_literal hR value _ _ rs h1) b st2 h2

theorem tracks_AcceptVariableDeclaration (hR : Follows env R) (h : AstHdr) (name : String)
    (is_const : Bool) (assignment : Option AstNode)
    {visitAssignment : Analyzer (Option AstNode)} {walkAssignment : Walk}
    (hv : Tracks d visitAssignment walkAssignment) :
    Tracks d (AcceptVariableDeclaration env h name is_const assignment visitAssignment)
      (walkVariableDeclaration R h name is_const assignment walkAssignment) := by
  unfold AcceptVariableDeclaration
  refine tracks_get (fun st => ?_)
  try simp only []
  unfold walkVariableDeclaration
  rw [hR.mangle, hR.findModule, scopes_find_isSome]
  by_cases h1 : (st.scopes.find (R.mangle st.scopes name h.module) true).isSome = true
  · simp only [h1, if_true]
    exact at_quiet (quiet_bind (quiet_ErrorMsg _ _ _) (fun _ => quiet_pure _)) st
  · simp only [h1, if_false]
    by_cases h2 : (R.findModule st.scopes name h.module).isSome = true
    · simp only [h2, if_true]
      exact at_quiet (quiet_bind (quiet_ErrorMsg _ _ _) (fun _ => quiet_pure _)) st
    · simp only [h2, if_false]
      cases assignment with
      | none => exact at_throw_bind _ _ _ _
      | some value =>
        simp only [derefNode, pure_bind]
        refine at_literalSide hR value (fun rs hrs => ?_)
        refine at_step (run_pushLocal _ _ st) rfl ?_
        refine at_of_tracks (tracks_wrap _ hv) ?_
        refine (scopes_pushed st _ _).trans ?_
        unfold Symbol.binding
        simp only [hrs, Option.map_some', Option.isSome_some, Bool.and_true]

theorem tracks_AcceptAlias (hR : Follows env R) (h : AstHdr) (name : String)
    (alias_to : Option AstNode) {visitAliasTo : Analyzer (Option AstNode)}
    {walkAliasTo : Walk} (hv : Tracks d visitAliasTo walkAliasTo)
    (hy : Yields (fun c => c.map (fun n => n.hdr.ptr) = alias_to.map (fun n => n.hdr.ptr))
      visitAliasTo) :
    Tracks d (AcceptAlias env h name alias_to visitAliasTo)
      (walkAlias R h name alias_to walkAliasTo) := by
  unfold AcceptAlias
  refine tracks_get (fun st => ?_)
  try simp only []
  unfold walkAlias
  rw [hR.mangle, hR.findModule, scopes_find_isSome]
  by_cases h1 : (st.scopes.find (R.mangle st.scopes name h.module) true).isSome = true
  · simp only [h1, if_true]
    exact at_quiet (quiet_bind (quiet_ErrorMsg _ _ _) (fun _ => quiet_pure _)) st
  · simp only [h1, if_false]
    by_cases h2 : (R.findModule st.scopes name h.module).isSome = true
    · simp only [h2, if_true]
      exact at_quiet (quiet_bind (quiet_ErrorMsg _ _ _) (fun _ => quiet_pure _)) st
    · simp only [h2, if_false]
      refine at_visit_eq hv 0 rfl (fun a s1 hrun hs => ?_)
      have hp := hy st a s1 hrun
      have hnode : (refOf a).map (fun n => n.ptr) = alias_to.map (fun n => n.hdr.ptr) := by
        rw [← hp]
        cases a <;> rfl
      have hdecl : ∀ ol fi,
          (s1.pushed (R.mangle st.scopes name h.module)
            { node := refOf a, original_name := name, is_alias := true, owner_level := ol,
              field_index := fi }).scopes =
          (walkAliasTo st.scopes).1.declare
            { name := R.mangle st.scopes name h.module
              node := alias_to.map (fun n => n.hdr.ptr)
              inlined := false } := by
        intro ol fi
        rw [scopes_pushed, hs]
        unfold Symbol.binding
        simp only [hnode, Bool.false_and]
      cases hw : a.bind aliasWalk with
      | none =>
        simp only [pure_bind]
        refine at_step (run_pushLocal _ _ s1) rfl ?_
        exact at_pure_of _ (hdecl _ _) rfl
      | some x =>
        cases x with
        | none =>
          try simp only []
          refine at_step (run_bind (run_ErrorMsg _ _ _ s1)) rfl ?_
          refine at_step (run_pushLocal _ _ _) rfl ?_
          exact at_pure_of _ (hdecl _ _) rfl
        | some p =>
          obtain ⟨ol, fi⟩ := p
          simp only [pure_bind]
          refine at_step (run_pushLocal _ _ s1) rfl ?_
          exact at_pure_of _ (hdecl _ _) rfl

theorem tracks_declareParams (hR : Follows env R) (module : Option ModuleRef)
    (node : Option NodeRef) (params : List String) :
    Tracks d (declareParams env module node params)
      (walkParams R module (node.map (fun n => n.ptr)) params) := by
  induction params with
  | nil => exact tracks_of_quiet (quiet_pure _)
  | cons param rest ih =>
    unfold declareParams
    refine tracks_get (fun st => ?_)
    try simp only []
    rw [hR.mangle]
    refine at_step (run_pushLocal _ _ st) rfl ?_
    refine at_of_tracks ih ?_
    refine (scopes_pushed st _ _).trans ?_
    unfold Symbol.binding
    simp only [Bool.false_and]

theorem tracks_declareEnumMembers (hR : Follows env R)
    (members : List (String × Option AstNode)) :
    Tracks d (declareEnumMembers env members) (walkEnumMembers R members) := by
  induction members with
  | nil => exact tracks_of_quiet (quiet_pure _)
  | cons m rest ih =>
    obtain ⟨first, second⟩ := m
    unfold declareEnumMembers
    cases second with
    | none => exact tracks_throw_bind _ _ _
    | some member =>
      simp only [derefNode, pure_bind]
      refine tracks_get (fun st => ?_)
      try simp only []
      unfold walkEnumMembers
      try simp only []
      rw [hR.mangle, hR.findModule, scopes_find_isSome]
      by_cases h1 : (st.scopes.find (R.mangle st.scopes first member.hdr.module) true).isSome = true
      · simp only [h1, if_true]
        refine at_step (run_ErrorMsg _ _ _ st) rfl ?_
        exact at_of_tracks ih rfl
      · simp only [h1, if_false]
        by_cases h2 : (R.findModule st.scopes first member.hdr.module).isSome = true
        · simp only [h2, if_true]
          refine at_step (run_ErrorMsg _ _ _ st) rfl ?_
          exact at_of_tracks ih rfl
        · simp only [h2, if_false]
          refine at_step (run_pushLocal _ _ st) rfl ?_
          refine at_of_tracks ih ?_
          refine (scopes_pushed st _ _).trans ?_
          unfold Symbol.binding
          simp only [Bool.and_false, Bool.false_and, Option.map_some']
          rfl

/-- Two visits inside one scope that is pushed before them and popped after
them, then the rest. -/
theorem tracks_inScope2 {α γ β : Type} (t : LevelType) {v1 : Analyzer γ} {v2 : Analyzer α}
    {f : γ → α → Analyzer β} {w1 w2 w3 : Walk} (h1 : Tracks d v1 w1) (h2 : Tracks d v2 w2)
    (hf : ∀ x a, Tracks d (f x a) w3) :
    Tracks d (IncreaseBlock t >>= fun _ => v1 >>= fun x => v2 >>= fun a =>
        DecreaseBlock >>= fun _ => f x a)
      ((w1.andThen w2).inScope.andThen w3) := by
  have hv : Tracks d (v1 >>= fun x => v2 >>= fun a => pure (x, a)) (w1.andThen w2) :=
    tracks_bind h1 (fun x => tracks_wrap _ h2)
  have key := @tracks_inScope d _ _ t _ (fun p : γ × α => f p.1 p.2) _ _ hv
    (fun p => hf p.1 p.2)
  have e : (IncreaseBlock t >>= fun _ => v1 >>= fun x => v2 >>= fun a =>
        DecreaseBlock >>= fun _ => f x a) =
      (IncreaseBlock t >>= fun _ => (v1 >>= fun x => v2 >>= fun a => pure (x, a)) >>=
        fun p => DecreaseBlock >>= fun _ => f p.1 p.2) := by
    simp only [bind_assoc, pure_bind]
  rw [e]
  exact key

theorem tracks_AcceptFunctionExpression (hR : Follows env R) (h : AstHdr)
    (arguments : List String) (block : Option AstNode)
    {visitBody : Analyzer (List (Option AstNode))} {walkBody : Walk}
    (hv : Tracks d visitBody walkBody) :
    Tracks d (AcceptFunctionExpression env h arguments block visitBody)
      (walkFunctionExpression R h arguments block walkBody) := by
  unfold AcceptFunctionExpression walkFunctionExpression
  try simp only []
  cases block with
  | none => exact tracks_of_quiet (quiet_pure _)
  | some n =>
    cases n
    all_goals first
      | exact tracks_of_quiet (quiet_pure _)
      | skip
    next bh children =>
      simp only [typeOf, Option.map_some', AstNode.type, if_true]
      refine quiet_then (quiet_ensureReturn _ _ _ _ _) (fun extended => ?_)
      exact tracks_inScope2 _ (tracks_declareParams hR _ _ _) hv
        (fun _ _ => tracks_of_quiet (quiet_pure _))

theorem quiet_get : Quiet (get : Analyzer CompilerState) := by
  intro st a st1 h; cases h; exact ⟨rfl, rfl⟩

theorem tracks_AcceptFunctionDefinition (hR : Follows env R) (h : AstHdr) (name : String)
    (arguments : List String) (block : Option AstNode)
    {visitBody : Analyzer (List (Option AstNode))} {walkBody : Walk}
    (hv : Tracks d visitBody walkBody) :
    Tracks d (AcceptFunctionDefinition env h name arguments block visitBody)
      (walkFunctionDefinition R h name arguments block walkBody) := by
  unfold AcceptFunctionDefinition
  refine tracks_get (fun st => ?_)
  try simp only []
  unfold walkFunctionDefinition
  try simp only []
  rw [hR.mangle, hR.findModule, scopes_find_isSome]
  by_cases h1 : (st.scopes.find (R.mangle st.scopes name h.module) true).isSome = true
  · simp only [h1, if_true]
    exact at_quiet (quiet_bind (quiet_ErrorMsg _ _ _) (fun _ => quiet_pure _)) st
  · simp only [h1, if_false]
    by_cases h2 : (R.findModule st.scopes name h.module).isSome = true
    · simp only [h2, if_true]
      exact at_quiet (quiet_bind (quiet_ErrorMsg _ _ _) (fun _ => quiet_pure _)) st
    · simp only [h2, if_false]
      have hown : ∀ (s : CompilerState) c ol fi,
          (s.pushed (R.mangle st.scopes name h.module)
            { node := some ⟨h.ptr, .Ast_type_function_definition, h.location, h.attributes⟩
              original_name := name, is_const := c, owner_level := ol,
              field_index := fi }).scopes =
          s.scopes.declare
            { name := R.mangle st.scopes name h.module, node := some h.ptr, inlined := false } := by
        intro s c ol fi
        rw [scopes_pushed]
        unfold Symbol.binding
        simp only [Bool.and_false, Bool.false_and, Option.map_some']
      cases hi : h.HasAttribute "inline" with
      | false =>
        simp only [Bool.not_false, if_true, Bool.false_eq_true, if_false]
        refine at_step (run_pushLocal _ _ st) rfl ?_
        have hs := hown st false st.level st.localsSize
        cases block with
        | none => exact at_pure_of _ hs rfl
        | some n =>
          cases n
          all_goals first
            | exact at_pure_of _ hs rfl
            | skip
          next bh children =>
            simp only [typeOf, Option.map_some', AstNode.type, if_true]
            refine at_congr (at_of_tracks (quiet_then (quiet_ensureReturn _ _ _ _ _) (fun _ =>
              tracks_inScope2 _ (tracks_declareParams hR _ _ _) hv
                (fun _ _ => (tracks_of_quiet ?_ : Tracks d _ Walk.skip)))) hs) rfl rfl
            repeat' first
              | exact quiet_pure _
              | exact quiet_throw _
              | exact quiet_ErrorMsg _ _ _
              | exact quiet_WarningMessage _ _ _
              | exact quiet_InfoMsg _ _ _
              | exact quiet_newPtr
              | exact quiet_derefNode _
              | exact quiet_get
              | assumption
              | refine quiet_bind ?_ (fun _ => ?_)
              | dsimp only
              | split
      | true =>
        simp only [Bool.not_true, Bool.false_eq_true, if_false, if_true, pure_bind]
        cases block with
        | none => exact at_pure_of _ rfl rfl
        | some n =>
          cases n
          all_goals first
            | exact at_pure_of _ rfl rfl
            | skip
          next bh children =>
            simp only [typeOf, Option.map_some', AstNode.type, if_true]
            refine at_congr (at_of_tracks (quiet_then (quiet_ensureReturn _ _ _ _ _) (fun _ =>
              tracks_inScope2 _ (tracks_declareParams hR _ _ _) hv
                (fun _ _ => (?_ : Tracks d _ (fun sc => (sc.declare
                    { name := R.mangle st.scopes name h.module, node := some h.ptr,
                      inlined := false }, 0)))))) rfl) rfl rfl
            exact tracks_get (fun s => at_step (run_pushLocal _ _ s) rfl
              (at_pure_of _ (hown s true s.level s.localsSize) rfl))

theorem tracks_AcceptIfStmt (h : AstHdr) (else_statement : Option AstNode)
    {visitConditional visitBlock visitElse : Analyzer (Option AstNode)}
    {walkConditional walkBlock walkElse : Walk}
    (hc : Tracks d visitConditional walkConditional) (hb : Tracks d visitBlock walkBlock)
    (he : Tracks d visitElse walkElse) :
    Tracks d (AcceptIfStmt h else_statement visitConditional visitBlock visitElse)
      (walkIfStmt else_statement walkConditional walkBlock walkElse) := by
  unfold AcceptIfStmt walkIfStmt
  refine tracks_bind hc (fun c => tracks_inScope _ hb (fun b => ?_))
  cases hsome : else_statement.isSome with
  | false =>
    simp only [Bool.false_eq_true, if_false]
    exact tracks_of_quiet (quiet_pure _)
  | true =>
    simp only [if_true]
    exact tracks_inScope_last _ he (fun _ => quiet_pure _)

theorem tracks_AcceptForLoop (h : AstHdr) (block : Option AstNode)
    {visitInitializer visitConditional visitAfterthought visitBlock :
      Analyzer (Option AstNode)}
    {walkInitializer walkConditional walkAfterthought walkBlock : Walk}
    (hi : Tracks d visitInitializer walkInitializer)
    (hc : Tracks d visitConditional walkConditional)
    (ha : Tracks d visitAfterthought walkAfterthought) (hb : Tracks d visitBlock walkBlock) :
    Tracks d
      (AcceptForLoop h block visitInitializer visitConditional visitAfterthought visitBlock)
      (walkForLoop walkInitializer walkConditional walkAfterthought walkBlock) := by
  unfold AcceptForLoop walkForLoop
  exact quiet_then (quiet_warnEmptyBody _) (fun _ => tracks_bind hi (fun _ =>
    tracks_bind hc (fun _ => tracks_inScope _ hb (fun _ => tracks_wrap _ ha))))

theorem tracks_AcceptWhileLoop (h : AstHdr) (block : Option AstNode)
    {visitConditional visitBlock : Analyzer (Option AstNode)} {walkConditional walkBlock : Walk}
    (hc : Tracks d visitConditional walkConditional) (hb : Tracks d visitBlock walkBlock) :
    Tracks d (AcceptWhileLoop h block visitConditional visitBlock)
      (walkWhileLoop walkConditional walkBlock) := by
  unfold AcceptWhileLoop walkWhileLoop
  exact tracks_bind hc (fun _ => quiet_then (quiet_warnEmptyBody _) (fun _ =>
    tracks_inScope_last _ hb (fun _ => quiet_pure _)))

theorem tracks_AcceptTryCatch (h : AstHdr) (try_block catch_block : Option AstNode)
    {visitTry visitCatch visitException : Analyzer (Option AstNode)}
    {walkTry walkCatch walkException : Walk} (ht : Tracks d visitTry walkTry)
    (hc : Tracks d visitCatch walkCatch) (he : Tracks d visitException walkException) :
    Tracks d (AcceptTryCatch h try_block catch_block visitTry visitCatch visitException)
      (walkTryCatch walkTry walkCatch walkException) := by
  unfold AcceptTryCatch walkTryCatch
  refine quiet_then (quiet_warnEmptyBody _) (fun _ => tracks_inScope _ ht (fun _ =>
    quiet_then (quiet_warnEmptyBody _) (fun _ => ?_)))
  exact tracks_inScope2 _ he hc (fun _ _ => tracks_of_quiet (quiet_pure _))

theorem run_writeSymbol (q : Int × Nat) (e : String × Symbol) (f : Symbol → Symbol)
    (st : CompilerState) (hq : (st.levels q.1).locals.get? q.2 = some e) :
    writeSymbol (some q) f st = .ok ((), st.written q e f) := by
  unfold writeSymbol
  simp only []
  rw [run_bind (run_get st)]
  simp only [hq]
  rfl

theorem written_get (st : CompilerState) (q : Int × Nat) (e : String × Symbol)
    (f : Symbol → Symbol) (hq : (st.levels q.1).locals.get? q.2 = some e) :
    ((st.written q e f).levels q.1).locals.get? q.2 = some (e.1, f e.2) := by
  show ((Function.update st.levels q.1 _) q.1).locals.get? q.2 = _
  rw [Function.update_same]
  show ((st.levels q.1).locals.set q.2 (e.1, f e.2)).get? q.2 = _
  have hlt : q.2 < (st.levels q.1).locals.length := by
    by_contra hn
    rw [List.get?_eq_none.mpr (by omega)] at hq
    cases hq
  rw [List.get?_eq_getElem?, List.getElem?_set]
  simp [hlt]

theorem at_then_quiet {α β : Type} {m : Analyzer α} {f : α → Analyzer β} {st : CompilerState}
    {r : Scopes × Nat} (hm : TracksAt d m st r) (hf : ∀ a, Quiet (f a)) :
    TracksAt d (m >>= f) st r := by
  intro b st2 hr
  obtain ⟨a, s1, h1, h2⟩ := bind_ok hr
  obtain ⟨g1, g2⟩ := hm a s1 h1
  obtain ⟨k1, k2⟩ := hf a s1 b st2 h2
  exact ⟨k1.trans g1, by rw [k2, g2]⟩

theorem at_silent_bind {α β : Type} {X : Analyzer α} {f : α → Analyzer β} {st : CompilerState}
    {r : Scopes × Nat} (hX : Silent X) (h : ∀ x, TracksAt d (f x) st r) :
    TracksAt d (X >>= f) st r := by
  intro b st2 hr
  obtain ⟨x, s1, h1, h2⟩ := bind_ok hr
  have hs := hX st x s1 h1
  subst hs
  exact h x b st2 h2

/-- What the visit of the left operand established still holds after the
visit of the right operand. -/
theorem leftResolved_kept {l : Option AstNode} {s1 s2 : CompilerState}
    (h : LeftResolved l s1) (hk : ConstKept s1 s2) : LeftResolved l s2 := by
  intro vh name info hl hc
  rcases h vh name info hl hc with hn | ⟨q, e, hq, hle, hget, hec⟩
  · exact Or.inl hn
  · obtain ⟨e1, m1, m2⟩ := hk.2 q.1 hle q.2 e hget
    exact Or.inr ⟨q, e1, hq, by rw [hk.1]; exact hle, m1, by rw [m2]; exact hec⟩

/-- The update of the symbol by an assignment changes no binding: the symbol
written is not const. -/
theorem at_assignUpdate (env : Collab) (left right : Option AstNode) (st : CompilerState)
    (hres : LeftResolved left st) :
    TracksAt d (assignUpdate env left right) st (st.scopes, 0) := by
  unfold assignUpdate
  cases left with
  | none => exact at_throw_bind _ _ _ _
  | some n =>
    simp only [derefNode, pure_bind]
    cases n
    all_goals first
      | exact at_quiet (quiet_pure _) st
      | skip
    next vh name info =>
      simp only []
      cases hc : info.is_const with
      | true =>
        simp only [Bool.not_true, Bool.false_eq_true, if_false]
        exact at_quiet (quiet_pure _) st
      | false =>
        simp only [Bool.not_false, if_true]
        cases right with
        | none => exact at_throw_bind _ _ _ _
        | some r =>
          simp only [pure_bind]
          refine at_silent_bind (silent_literalSide env r) (fun right_side => ?_)
          rcases hres vh name info rfl hc with hn | ⟨q, e, hq, -, hget, hec⟩
          · rw [hn]
            exact at_throw_bind _ _ _ _
          · rw [hq]
            refine at_step (run_writeSymbol q e _ st hget) rfl ?_
            refine at_step (run_writeSymbol q _ _ _ (written_get st q e _ hget)) rfl ?_
            refine at_pure_of _ ?_ rfl
            rw [scopes_written _ q _ _ (written_get st q e _ hget) (fun _ => rfl) hec,
              scopes_written st q e _ hget (fun _ => rfl) hec]

theorem at_binopChecks (env : Collab) (op : BinOp) (left right : Option AstNode)
    (st : CompilerState) (hres : LeftResolved left st) :
    TracksAt d (binopChecks env op left right) st (st.scopes, 0) := by
  unfold binopChecks
  cases op
  case BinOp_assign =>
    simp only []
    exact at_then_quiet (at_assignUpdate env left right st hres) (fun _ =>
      quiet_bind (quiet_assignChecks _ _) (fun _ => quiet_pure _))
  all_goals exact at_quiet (by
    first
      | exact quiet_pure _
      | exact quiet_bind (quiet_assignChecks _ _) (fun _ => quiet_pure _)) st

theorem tracks_AcceptBinaryOp (env : Collab) (h : AstHdr) (op : BinOp)
    {visitLeft visitRight : Analyzer (Option AstNode)} {walkLeft walkRight : Walk}
    (hl : Tracks d visitLeft walkLeft) (hr : Tracks d visitRight walkRight)
    (hres : ∀ st l st1, visitLeft st = .ok (l, st1) → LeftResolved l st1)
    (hk : Obeys ConstKept visitRight) :
    Tracks d (AcceptBinaryOp env h op visitLeft visitRight) (walkLeft.andThen walkRight) := by
  unfold AcceptBinaryOp
  intro st
  refine at_visit_eq hl _ rfl (fun l s1 hrun1 hs1 => ?_)
  refine at_visit_eq hr 0 (by rw [← hs1]; rfl) (fun r s2 hrun2 hs2 => ?_)
  have hres2 := leftResolved_kept (hres st l s1 hrun1) (hk s1 r s2 hrun2)
  refine at_congr (at_then_quiet (at_binopChecks env op l r s2 hres2) (fun _ => quiet_pure _))
    ?_ rfl
  rw [hs2, hs1]
  rfl

end visitors

/-! ## Use counts: every visit follows the walk -/

theorem and_left_true {a b : Bool} (h : (a && b) = true) : a = true := by
  cases a
  · cases h
  · rfl

theorem and_right_true {a b : Bool} (h : (a && b) = true) : b = true := by
  cases a
  · cases h
  · exact h

theorem tracks_throw {d : Option Nat} {α : Type} (e : Fault) (w : Walk) :
    Tracks d (throw e : Analyzer α) w := by
  intro st a st1 h; cases h

mutual
theorem accept_tracks {env : Collab} {R : Rules} (hR : Follows env R) (d : Option Nat) :
    ∀ (n : AstNode) (ov : Option ModuleRef), unanalysed n = true →
      Tracks d (Accept env ov n) (walkNode R d ov n)
  | .imports _ children, _, hp => tracks_wrap _ (acceptChildren_tracks hR d children hp)
  | .import_ _ _ _ _ _ _ unit_children, _, hp =>
    tracks_AcceptImport _ _ _ _ _ _ _ (acceptChildren_tracks hR d unit_children hp)
  | .statement _, _, _ => tracks_of_quiet (quiet_pure _)
  | .block _ children, _, hp => tracks_wrap _ (acceptBlock_tracks hR d children false false hp)
  | .expression _ child, _, hp => tracks_wrap _ (acceptPtr_tracks hR d child hp)
  | .binop _ _ left right, _, hp =>
    tracks_AcceptBinaryOp env _ _ (acceptPtr_tracks hR d left (and_left_true hp))
      (acceptPtr_tracks hR d right (and_right_true hp))
      (fun st l st1 h => acceptPtr_leftResolved env left (and_left_true hp) st st1 l h)
      (acceptPtr_scoped constScoped env right)
  | .unop _ child, _, hp => tracks_wrap _ (acceptPtr_tracks hR d child hp)
  | .array_access _ object index, _, hp =>
    tracks_bind (acceptPtr_tracks hR d object (and_left_true hp)) (fun _ =>
      tracks_wrap _ (acceptPtr_tracks hR d index (and_right_true hp)))
  | .member_access _ _ left right, _, hp =>
    tracks_AcceptMemberAccess hR _ _ _ _ (acceptPtr_tracks hR d left (and_left_true hp))
      (fun m => acceptDeref_tracks hR d right m (and_right_true hp))
  | .module_access _ _ right, _, hp =>
    tracks_AcceptModuleAccess _ _ _ (fun m => acceptDeref_tracks hR d right m hp)
  | .var_declaration _ _ _ assignment, _, hp =>
    tracks_AcceptVariableDeclaration hR _ _ _ _ (acceptPtr_tracks hR d assignment hp)
  | .alias _ _ alias_to, _, hp =>
    tracks_AcceptAlias hR _ _ _ (acceptPtr_tracks hR d alias_to hp) (acceptPtr_ptr env alias_to)
  | .use_module _ _, _, _ =>
    tracks_of_quiet (quiet_bind (quiet_ErrorMsg _ _ _) (fun _ => quiet_pure _))
  | .variable _ _ _, _, _ => tracks_AcceptVariable hR _ _ _
  | .integer _ _, _, _ => tracks_of_quiet (quiet_pure _)
  | .float _, _, _ => tracks_of_quiet (quiet_pure _)
  | .string _ _, _, _ => tracks_of_quiet (quiet_pure _)
  | .true_ _, _, _ => tracks_of_quiet (quiet_pure _)
  | .false_ _, _, _ => tracks_of_quiet (quiet_pure _)
  | .null _, _, _ => tracks_of_quiet (quiet_pure _)
  | .self _, _, _ => tracks_of_quiet (quiet_pure _)
  | .new _, _, _ => tracks_of_quiet (quiet_pure _)
  | .function_definition _ _ _ block, _, hp =>
    tracks_AcceptFunctionDefinition hR _ _ _ _ (acceptBody_tracks hR d block hp)
  | .function_expression _ _ block, _, hp =>
    tracks_AcceptFunctionExpression hR _ _ _ (acceptBody_tracks hR d block hp)
  | .function_call _ _ arguments _, _, hp =>
    tracks_AcceptFunctionCall hR _ _ _ _ (acceptArgsRev_tracks hR d arguments hp)
  | .class_declaration _, _, _ => tracks_of_quiet (quiet_pure _)
  | .object_expression _ members, _, hp =>
    tracks_wrap _ (acceptMembers_tracks hR d members hp)
  | .enum _ _ _, _, _ =>
    tracks_then_quiet (tracks_declareEnumMembers hR _) (fun _ => quiet_pure _)
  | .print _ arguments, _, hp => tracks_wrap _ (acceptChildren_tracks hR d arguments hp)
  | .return_ _ value, _, hp => tracks_wrap _ (acceptPtr_tracks hR d value hp)
  | .if_statement _ conditional block else_statement, _, hp =>
    tracks_AcceptIfStmt _ _ (acceptPtr_tracks hR d conditional (and_left_true hp))
      (acceptPtr_tracks hR d block (and_left_true (and_right_true hp)))
      (acceptPtr_tracks hR d else_statement (and_right_true (and_right_true hp)))
  | .for_loop _ initializer conditional afterthought block, _, hp =>
    tracks_AcceptForLoop _ _ (acceptPtr_tracks hR d initializer (and_left_true hp))
      (acceptPtr_tracks hR d conditional (and_left_true (and_right_true hp)))
      (acceptPtr_tracks hR d afterthought
        (and_left_true (and_right_true (and_right_true hp))))
      (acceptPtr_tracks hR d block (and_right_true (and_right_true (and_right_true hp))))
  | .while_loop _ conditional block, _, hp =>
    tracks_AcceptWhileLoop _ _ (acceptPtr_tracks hR d conditional (and_left_true hp))
      (acceptPtr_tracks hR d block (and_right_true hp))
  | .try_catch _ try_block catch_block exception_object, _, hp =>
    tracks_AcceptTryCatch _ _ _ (acceptPtr_tracks hR d try_block (and_left_true hp))
      (acceptPtr_tracks hR d catch_block (and_left_true (and_right_true hp)))
      (acceptPtr_tracks hR d exception_object (and_right_true (and_right_true hp)))
  | .range _, _, _ =>
    tracks_of_quiet (quiet_bind (quiet_ErrorMsg _ _ _) (fun _ => quiet_pure _))
theorem acceptPtr_tracks {env : Collab} {R : Rules} (hR : Follows env R) (d : Option Nat) :
    ∀ (p : Option AstNode), unanalysedPtr p = true →
      Tracks d (AcceptPtr env p) (walkPtr R d p)
  | none, _ => tracks_of_quiet (quiet_pure _)
  | some n, hp => tracks_wrap _ (accept_tracks hR d n none hp)
theorem acceptDeref_tracks {env : Collab} {R : Rules} (hR : Follows env R) (d : Option Nat) :
    ∀ (p : Option AstNode) (m : Option ModuleRef), unanalysedPtr p = true →
      Tracks d (AcceptDeref env m p) (walkDeref R d m p)
  | none, _, _ => tracks_throw _ _
  | some n, m, hp => accept_tracks hR d n m hp
theorem acceptChildren_tracks {env : Collab} {R : Rules} (hR : Follows env R)
    (d : Option Nat) :
    ∀ (l : List (Option AstNode)), unanalysedList l = true →
      Tracks d (AcceptChildren env l) (walkChildren R d l)
  | [], _ => tracks_of_quiet (quiet_pure _)
  | child :: rest, hp =>
    tracks_bind (acceptPtr_tracks hR d child (and_left_true hp)) (fun _ =>
      tracks_wrap _ (acceptChildren_tracks hR d rest (and_right_true hp)))
theorem acceptArgsRev_tracks {env : Collab} {R : Rules} (hR : Follows env R)
    (d : Option Nat) :
    ∀ (l : List (Option AstNode)), unanalysedList l = true →
      Tracks d (AcceptArgsRev env l) (walkArgsRev R d l)
  | [], _ => tracks_of_quiet (quiet_pure _)
  | arg :: rest, hp =>
    tracks_bind (acceptArgsRev_tracks hR d rest (and_right_true hp)) (fun _ =>
      tracks_wrap _ (acceptPtr_tracks hR d arg (and_left_true hp)))
theorem acceptBlock_tracks {env : Collab} {R : Rules} (hR : Follows env R) (d : Option Nat) :
    ∀ (l : List (Option AstNode)) (a b : Bool), unanalysedList l = true →
      Tracks d (AcceptBlock env a b l) (walkChildren R d l)
  | [], _, _, _ => tracks_of_quiet (quiet_pure _)
  | child :: rest, a, b, hp =>
    tracks_bind (acceptPtr_tracks hR d child (and_left_true hp)) (fun c =>
      quiet_then (quiet_blockStep a b c) (fun flags =>
        tracks_wrap _ (acceptBlock_tracks hR d rest flags.1 flags.2 (and_right_true hp))))
theorem acceptMembers_tracks {env : Collab} {R : Rules} (hR : Follows env R)
    (d : Option Nat) :
    ∀ (l : List (String × Option AstNode)), unanalysedMembers l = true →
      Tracks d (AcceptMembers env l) (walkMembers R d l)
  | [], _ => tracks_of_quiet (quiet_pure _)
  | member :: rest, hp =>
    tracks_bind (acceptPtr_tracks hR d member.2 (and_left_true hp)) (fun _ =>
      tracks_wrap _ (acceptMembers_tracks hR d rest (and_right_true hp)))
theorem acceptBody_tracks {env : Collab} {R : Rules} (hR : Follows env R) (d : Option Nat) :
    ∀ (p : Option AstNode), unanalysedPtr p = true →
      Tracks d (AcceptBody env p) (walkBody R d p)
  | none, _ => tracks_of_quiet (quiet_pure _)
  | some n, hp => by
    cases n with
    | block _ children => exact acceptBlock_tracks hR d children false false hp
    | _ => exact tracks_of_quiet (quiet_pure _)
end

/-- C15: the use counts `Analyze` records are the references the program holds.
For collaborators that read of the state only the scope stack and the module
registry, and a program as the parser built it, when `Analyze` returns the use
count recorded for every node `d` (the null node included) has grown by exactly
`references R d`: the number of variable references and function calls in the
program that the analysis reaches and that resolve, under the scoping rules,
to a symbol whose node is `d`.  With constant folding disabled every such
reference is counted; with constant folding enabled the count leaves out
exactly the variable references to symbols that are const, literal and have a
known current value (`walkVariable`).  No other visit changes a count.  The
analysis does not reach the arguments of a call whose callee does not resolve
(`walkFunctionCall`), the right-hand side, target or body of a declaration
that is rejected as redeclared or as naming a module, the values of enum
members, the left side of a member access through a module name, the right
side of a member access that is a plain member name or of an access to a
module that is not registered, and the unit of an import that is not carried
out; `referenceInUnresolvedCall`, `referenceInRedeclaration` and
`referenceInEnumMember` are programs with such references.  The node of a
symbol is the node of its declaration, except that an alias has the node of
its target, a parameter of a function expression has the function expression,
and a parameter of a function definition has none: a call that resolves to a
symbol without node is counted under the null node, a variable reference to
one is counted nowhere. -/
theorem use_counts_are_references (env : Collab) (R : Rules) (hR : Follows env R)
    (ast : AstModule) (hp : unanalysedList ast.children = true) (st : CompilerState)
    (r : AstModule × CompilerState) (hr : Analyze env ast st = .ok r) (d : Option Nat) :
    r.2.use_counts d = st.use_counts d + references R d ast.children st.scopes := by
  obtain ⟨ast1, st3⟩ := r
  unfold Analyze AcceptModule at hr
  obtain ⟨a, s1, h1, h2⟩ := bind_ok hr
  obtain ⟨cs, s0, h0, h01⟩ := bind_ok h1
  cases h01
  rw [run_bind (run_get s1), run_bind (run_warnUnused_exact _ s1), run_bind (run_modify _ _)]
    at h2
  cases h2
  exact (acceptChildren_tracks hR d ast.children hp st cs s1 h0).2

/-- References the analysis does not reach, or counts on another node.  The
reference in the right-hand side of a declaration that is rejected as a
redeclaration (`let x = 1; let x = x`) and the reference in the value of an
enum member (`let x = 1; enum E { A = x }`) carry the name of the declaration
of `x` (node 1) and leave its recorded count at 0.  In
`let x = 1; alias y = x; y` the reference `y` is counted on the node of the
alias target (node 4), the node the symbol of `y` has, and the alias
declaration itself (node 3) keeps the count 0. -/
theorem unreached_references_not_counted :
    (∃ r, Analyze plainEnv referenceInRedeclaration globalState = .ok r ∧
      refsInList "x" referenceInRedeclaration.children = 1 ∧
      r.2.use_counts (some 1) = 0) ∧
    (∃ r, Analyze plainEnv referenceInEnumMember globalState = .ok r ∧
      refsInList "x" referenceInEnumMember.children = 1 ∧
      r.2.use_counts (some 1) = 0) ∧
    (∃ r, Analyze plainEnv aliasThenUse globalState = .ok r ∧
      refsInList "y" aliasThenUse.children = 1 ∧
      r.2.use_counts (some 3) = 0 ∧ r.2.use_counts (some 4) = 1) :=
  ⟨⟨_, rfl, rfl, rfl⟩, ⟨_, rfl, rfl, rfl⟩, ⟨_, rfl, rfl, rfl, rfl⟩⟩

/-- C15 on three programs.  In `let x = 1; x`, analysed with constant folding
disabled, the declaration of `x` at node 1 has one reference.  In
`let x = 1; func f(a) { return x + a }; f(x); if (x) { let x = 2; x }; g(x)`,
also with constant folding disabled, the declaration of `x` at node 1 has
three references (in the body of `f`, in the argument of `f(x)` and in the
condition; the `x` inside the block names the inner declaration, and the
argument of the undeclared `g` is not reached), and `f` at node 3 has one.  In
`const k = 3; let x = 1; k; x; x = k`, analysed with constant folding enabled,
the two references to `k` are left out and `x` has two. -/
theorem use_counts_are_references_witness :
    (∃ r, Analyze plainEnv letThenUse globalState = .ok r ∧
      r.2.use_counts (some 1) =
        0 + references plainRules (some 1) letThenUse.children globalState.scopes ∧
      references plainRules (some 1) letThenUse.children globalState.scopes = 1) ∧
    (∃ r, Analyze plainEnv referencesProgram globalState = .ok r ∧
      r.2.use_counts (some 1) =
        0 + references plainRules (some 1) referencesProgram.children globalState.scopes ∧
      references plainRules (some 1) referencesProgram.children globalState.scopes = 3 ∧
      r.2.use_counts (some 3) =
        0 + references plainRules (some 3) referencesProgram.children globalState.scopes ∧
      references plainRules (some 3) referencesProgram.children globalState.scopes = 1) ∧
    (∃ r, Analyze foldingEnv constantProgram globalState = .ok r ∧
      r.2.use_counts (some 1) =
        0 + references foldingRules (some 1) constantProgram.children globalState.scopes ∧
      references foldingRules (some 1) constantProgram.children globalState.scopes = 0 ∧
      r.2.use_counts (some 3) =
        0 + references foldingRules (some 3) constantProgram.children globalState.scopes ∧
      references foldingRules (some 3) constantProgram.children globalState.scopes = 2) :=
  ⟨⟨_, rfl,
    use_counts_are_references plainEnv plainRules
      ⟨fun _ _ _ => rfl, fun _ _ _ => rfl, rfl, fun _ => rfl⟩ letThenUse rfl
      globalState _ rfl (some 1), rfl⟩,
   ⟨_, rfl,
    use_counts_are_references plainEnv plainRules
      ⟨fun _ _ _ => rfl, fun _ _ _ => rfl, rfl, fun _ => rfl⟩ referencesProgram rfl
      globalState _ rfl (some 1), rfl,
    use_counts_are_references plainEnv plainRules
      ⟨fun _ _ _ => rfl, fun _ _ _ => rfl, rfl, fun _ => rfl⟩ referencesProgram rfl
      globalState _ rfl (some 3), rfl⟩,
   ⟨_, rfl,
    use_counts_are_references foldingEnv foldingRules
      ⟨fun _ _ _ => rfl, fun _ _ _ => rfl, rfl, fun _ => rfl⟩ constantProgram rfl
      globalState _ rfl (some 1), rfl,
    use_counts_are_references foldingEnv foldingRules
      ⟨fun _ _ _ => rfl, fun _ _ _ => rfl, rfl, fun _ => rfl⟩ constantProgram rfl
      globalState _ rfl (some 3), rfl⟩⟩

end avm
